import Mathlib

/-!
# Gazebo world update loop: clock, pause/step control and factory messages

A shallow embedding of `src/src/physics/World.cc` (and of the pause control of
`src/server/Simulator.cc`).

* `common::Time` is not part of the sources at hand.  The code only adds,
  subtracts and compares times, so the time type is a parameter `T` carrying a
  linearly ordered additive commutative group structure (exact integers of
  nanoseconds and exact rationals of seconds are instances).
* Calls that leave the translated code (signals, publishers, `Update()` and
  `Init()` of entities, the physics engine, the mutex) are recorded, in call
  order, in the `trace` field of the state.  They are taken to return and not
  to call back into the members of the world that the translated functions use.
* One thread runs the loop; calls made by other threads (`OnStep`, `SetPaused`,
  `OnControl`, `OnFactoryMsg`) are applied between two iterations.
* A dereferenced null pointer and a thrown exception are results of type
  `Fault`.
* Readings of the wall clock are inputs of the functions that take them.
-/

namespace Gazebo

/-- Abnormal ends of a translated function. -/
inductive Fault where
  /-- A null (or never assigned) pointer was dereferenced. -/
  | nullDeref
  /-- An exception raised with `gzthrow`, with its message. -/
  | thrown (msg : String)
  /-- A failed `GZ_ASSERT`, with its message (the program is aborted). -/
  | assertFailed (msg : String)
  /-- An element past the end of a `std::vector` was read with `operator[]`. -/
  | outOfBounds
  /-- A loop of the model used up the iterations it was given. -/
  | outOfFuel
  deriving Repr, DecidableEq

/-- Calls that leave the translated code, in the order they are made. -/
inductive Effect (T : Type) where
  /-- Call of `physicsEngine->InitForThread()`. -/
  | InitForThread
  /-- Call of `event::Events::worldUpdateStartSignal()`. -/
  | worldUpdateStartSignal
  /-- Call of `rootElement->GetChild(i)->Update()`. -/
  | entityUpdate (i : Nat)
  /-- Call of `physicsEngine->UpdatePhysics()`. -/
  | UpdatePhysics
  /-- Call of `event::Events::worldUpdateEndSignal()`. -/
  | worldUpdateEndSignal
  /-- The pause notification `pauseSignal(p)`. -/
  | pauseSignal (p : Bool)
  /-- Call of `statPub->Publish(worldStatsMsg)` with the three times of the message. -/
  | statPublish (simTime realTime pauseTime : T)
  /-- Call of `event::Events::addEntitySignal(name)`. -/
  | addEntitySignal (name : String)
  /-- Call of `newEntityPub->Publish(msg)` where `msg` carries `name`. -/
  | newEntityPublish (name : String)
  /-- Call of `model->Init()` on the model with the given complete scoped name. -/
  | modelInit (name : String)
  /-- Call of `sdf::initString`, with the value it returned. -/
  | sdfInitString (ok : Bool)
  /-- Call of `sdf::readString` or `sdf::readFile`, with the value it returned. -/
  | sdfRead (ok : Bool)
  /-- Call of `model->Load(_sdf)` on the model `World::LoadModel` has just
  constructed with `new Model(_parent)`. -/
  | modelLoad
  /-- The lock `boost::mutex::scoped_lock lock(*updateMutex)` is taken. -/
  | lockUpdateMutex
  /-- The scoped lock on `updateMutex` goes out of scope. -/
  | unlockUpdateMutex
  /-- Call of `msgs::SceneFromSDF` on the scene element, copied to `sceneMsg`. -/
  | sceneFromSDF
  /-- Creation of the transport node and `node->Init(GetName())`. -/
  | nodeInit
  /-- Call of `node->Subscribe(topic, ...)`. -/
  | subscribe (topic : String)
  /-- Call of `node->Advertise<...>(topic)`. -/
  | advertise (topic : String)
  /-- Call of `PhysicsFactory::NewPhysicsEngine(type, ...)`. -/
  | newPhysicsEngine (type : String)
  /-- Call of `physicsEngine->Load(...)`. -/
  | engineLoad
  /-- Call of `msgs::LightFromSDF` on a light element, added to `sceneMsg`. -/
  | lightFromSDF
  deriving Repr, DecidableEq

/-- Is the effect the start signal of `World::Update`?  Each call of
`World::Update` emits it exactly once, as its first statement. -/
def Effect.isUpdateStart {T : Type} : Effect T → Bool
  | .worldUpdateStartSignal => true
  | _ => false

/-- Is the effect a pause notification? -/
def Effect.isPauseSignal {T : Type} : Effect T → Bool
  | .pauseSignal _ => true
  | _ => false

/-- Is the effect an add-entity signal? -/
def Effect.isAddEntitySignal {T : Type} : Effect T → Bool
  | .addEntitySignal _ => true
  | _ => false

/-- Is the effect a published new_entity message? -/
def Effect.isNewEntityPublish {T : Type} : Effect T → Bool
  | .newEntityPublish _ => true
  | _ => false

/-- Is the effect an `Init()` call on a model? -/
def Effect.isModelInit {T : Type} : Effect T → Bool
  | .modelInit _ => true
  | _ => false

/-- Number of `World::Update` calls recorded in a trace. -/
def updateCalls {T : Type} (tr : List (Effect T)) : Nat :=
  tr.countP Effect.isUpdateStart

/-- Number of add-entity signals recorded in a trace. -/
def addEntitySignals {T : Type} (tr : List (Effect T)) : Nat :=
  tr.countP Effect.isAddEntitySignal

/-- Number of new_entity messages recorded in a trace. -/
def newEntityPublishes {T : Type} (tr : List (Effect T)) : Nat :=
  tr.countP Effect.isNewEntityPublish

/-- Number of `Init()` calls on models recorded in a trace. -/
def modelInits {T : Type} (tr : List (Effect T)) : Nat :=
  tr.countP Effect.isModelInit

/-- Number of pause notifications recorded in a trace. -/
def pauseSignals {T : Type} (tr : List (Effect T)) : Nat :=
  tr.countP Effect.isPauseSignal

/-- A model under the root: its own name and the complete scoped name of its
parent. -/
structure Model where
  name : String
  scope : String
  deriving Repr, DecidableEq

/-- Modelled from the spec: `Model::GetCompleteScopedName` is not under src/;
the "fully-scoped name" joins the scope of the parent and the name with `::`,
the way `World::GetByName` composes the name it looks up. -/
def Model.GetCompleteScopedName (m : Model) : String :=
  m.scope ++ "::" ++ m.name

/-- The root element (`Base`) of a world: its name and its children. -/
structure Base where
  name : String
  children : List Model
  deriving Repr, DecidableEq

/-- The method `Base::GetChildCount`. -/
def Base.GetChildCount (b : Base) : Nat :=
  b.children.length

/-- The physics engine as the world sees it: the step time it reports. -/
structure PhysicsEngine (T : Type) where
  stepTime : T
  deriving Repr, DecidableEq

/-- The method `PhysicsEngine::GetStepTime`. -/
def PhysicsEngine.GetStepTime {T : Type} (e : PhysicsEngine T) : T :=
  e.stepTime

/-- The values the member-function pointer `modelUpdateFunc` can take (the
threaded variant is commented out in the source). -/
inductive ModelUpdateFunc where
  | ModelUpdateSingleLoop
  deriving Repr, DecidableEq

/-- The members of `World` that the translated functions read or write. -/
structure World (T : Type) where
  stepInc : Bool
  pause : Bool
  stop : Bool
  simTime : T
  pauseTime : T
  startTime : T
  pauseStartTime : T
  realTimeOffset : T
  prevStatTime : T
  statPeriod : T
  rootElement : Option Base
  physicsEngine : Option (PhysicsEngine T)
  modelUpdateFunc : Option ModelUpdateFunc
  trace : List (Effect T)
  deriving Repr, DecidableEq

/-- The state `World::Load` leaves when it returns: the root element exists, a
physics engine was created and `modelUpdateFunc` is set. -/
def World.Loaded {T : Type} (w : World T) : Prop :=
  w.rootElement.isSome = true ∧ w.physicsEngine.isSome = true ∧
    w.modelUpdateFunc = some .ModelUpdateSingleLoop

/-- Record one outgoing call at the end of the trace. -/
def World.emit {T : Type} (w : World T) (e : Effect T) : World T :=
  { w with trace := w.trace ++ [e] }

/-- The method `World::IsPaused`. -/
def World.IsPaused {T : Type} (w : World T) : Bool :=
  w.pause

/-- The method `World::GetSimTime`. -/
def World.GetSimTime {T : Type} (w : World T) : T :=
  w.simTime

/-- The method `World::GetPauseTime`. -/
def World.GetPauseTime {T : Type} (w : World T) : T :=
  w.pauseTime

/-- The method `World::GetRealTime`; `wall` is the reading of `Time::GetWallTime()`, used
only when the world is not paused. -/
def World.GetRealTime {T : Type} [LinearOrderedAddCommGroup T] (w : World T) (wall : T) : T :=
  if w.pause then (w.pauseStartTime - w.startTime) - w.realTimeOffset
  else (wall - w.startTime) - w.realTimeOffset

/-- The method `World::OnStep`. -/
def World.OnStep {T : Type} (w : World T) : World T :=
  { w with stepInc := true }

/-- The method `World::SetPaused`; `wall` is the reading of `Time::GetWallTime()`. -/
def World.SetPaused {T : Type} [LinearOrderedAddCommGroup T] (wall : T) (p : Bool)
    (w : World T) : World T :=
  if w.pause = p then w
  else
    let w1 : World T :=
      if p then { w with pauseStartTime := wall }
      else { w with realTimeOffset := w.realTimeOffset + (wall - w.pauseStartTime) }
    { w1.emit (.pauseSignal p) with pause := p }

/-- The loop of `World::ModelUpdateSingleLoop` from index `i` on:
`for (; i < rootElement->GetChildCount(); i++) rootElement->GetChild(i)->Update()`.
The first argument bounds the number of iterations; `World.ModelUpdateSingleLoop`
starts it with the child count, which is enough for the loop to reach its exit
test. -/
def World.updateChildrenFrom {T : Type} (root : Base) : Nat → Nat → World T → World T
  | 0, _, w => w
  | fuel + 1, i, w =>
    if i < root.GetChildCount then
      World.updateChildrenFrom root fuel (i + 1) (w.emit (.entityUpdate i))
    else w

/-- The method `World::ModelUpdateSingleLoop`: `for (i = 0; i < GetChildCount(); i++)
GetChild(i)->Update()`. -/
def World.ModelUpdateSingleLoop {T : Type} (w : World T) : Except Fault (World T) :=
  match w.rootElement with
  | none => .error .nullDeref
  | some root => .ok (World.updateChildrenFrom root root.GetChildCount 0 w)

/-- The method `World::Update`. -/
def World.Update {T : Type} (w : World T) : Except Fault (World T) :=
  let w1 := w.emit .worldUpdateStartSignal
  match w1.modelUpdateFunc with
  | none => .error .nullDeref
  | some .ModelUpdateSingleLoop =>
    match w1.ModelUpdateSingleLoop with
    | .error f => .error f
    | .ok w2 =>
      let w3 := match w2.physicsEngine with
        | some _ => w2.emit .UpdatePhysics
        | none => w2
      .ok (w3.emit .worldUpdateEndSignal)

/-- The wall-clock readings one iteration of the loop of `World::RunLoop` can
take: for the statistics test, for `GetRealTime()` and for `prevStatTime`. -/
structure IterClock (T : Type) where
  statCheck : T
  realTime : T
  statStamp : T
  deriving Repr, DecidableEq

/-- The statistics block at the head of the loop body of `World::RunLoop`. -/
def World.publishStats {T : Type} [LinearOrderedAddCommGroup T] (c : IterClock T)
    (w : World T) : World T :=
  if c.statCheck - w.prevStatTime > w.statPeriod then
    { w.emit (.statPublish w.GetSimTime (w.GetRealTime c.realTime) w.GetPauseTime) with
      prevStatTime := c.statStamp }
  else w

/-- The clock block of the loop body of `World::RunLoop`: accumulate pause time,
or take the update mutex, advance `simTime` and call `Update`. -/
def World.advance {T : Type} [LinearOrderedAddCommGroup T] (step : T)
    (w : World T) : Except Fault (World T) :=
  if w.IsPaused && !w.stepInc then
    .ok { w with pauseTime := w.pauseTime + step }
  else
    let w1 := w.emit .lockUpdateMutex
    let w2 : World T := { w1 with simTime := w1.simTime + step }
    match w2.Update with
    | .error f => .error f
    | .ok w3 => .ok (w3.emit .unlockUpdateMutex)

/-- The last block of the loop body of `World::RunLoop`: a step request is
cleared when the world is paused. -/
def World.clearStep {T : Type} (w : World T) : World T :=
  if w.IsPaused && w.stepInc then { w with stepInc := false } else w

/-- One iteration of the `while (!this->stop)` loop of `World::RunLoop`, for the
step time `step` read before the loop. -/
def World.RunLoopBody {T : Type} [LinearOrderedAddCommGroup T] (step : T) (c : IterClock T)
    (w : World T) : Except Fault (World T) :=
  match (w.publishStats c).advance step with
  | .error f => .error f
  | .ok w1 => .ok w1.clearStep

/-- The `while (!this->stop)` loop of `World::RunLoop`, for as many iterations
as clock readings are supplied, with no call from another thread in between. -/
def World.RunLoopIters {T : Type} [LinearOrderedAddCommGroup T] (step : T) :
    List (IterClock T) → World T → Except Fault (World T)
  | [], w => .ok w
  | c :: cs, w =>
    if w.stop then .ok w
    else
      match w.RunLoopBody step c with
      | .error f => .error f
      | .ok w1 => World.RunLoopIters step cs w1

/-- The method `World::RunLoop`: the statements before the loop, then the loop. -/
def World.RunLoop {T : Type} [LinearOrderedAddCommGroup T] (wallStart : T)
    (cs : List (IterClock T)) (w : World T) : Except Fault (World T) :=
  match w.physicsEngine with
  | none => .error .nullDeref
  | some engine =>
    let w1 := w.emit .InitForThread
    let step := engine.GetStepTime
    let w2 : World T := { w1 with startTime := wallStart }
    World.RunLoopIters step cs w2

/-- The method `World::Stop`, seen from the state of the world: the flag is set (the join
of the thread is not part of the state). -/
def World.Stop {T : Type} (w : World T) : World T :=
  { w with stop := true }

/-! ### Control and factory messages -/

/-- The message `msgs::WorldControl`: two optional booleans (`has_pause()` /
`pause()` and `has_step()` / `step()`). -/
structure WorldControl where
  pause : Option Bool
  step : Option Bool
  deriving Repr, DecidableEq

/-- The method `World::OnControl`; `wall` is the reading of the wall clock
`SetPaused` takes. -/
def World.OnControl {T : Type} [LinearOrderedAddCommGroup T] (wall : T) (data : WorldControl)
    (w : World T) : World T :=
  let w1 := match data.pause with
    | some p => w.SetPaused wall p
    | none => w
  match data.step with
  | some _ => w1.OnStep
  | none => w1

/-- The message `msgs::Factory`: an optional inline description (`has_xml()` /
`xml()`) and a file name. -/
structure Factory where
  xml : Option String
  filename : String
  deriving Repr, DecidableEq

/-- An `sdf::SDF` object: the root element of type `E`. -/
structure SDF (E : Type) where
  root : E
  deriving Repr, DecidableEq

/-- The collaborators of factory handling that are declared in
src/src/sdf/parser/parser.hh or used by `World::LoadModel` but whose code is
not under src/: the fresh `sdf::SDF`, the three parser functions (each returns
its `bool` and the `SDF` it leaves), and `Model::Load`. -/
structure SdfEnv (E : Type) where
  /-- The object made by `new sdf::SDF`. -/
  newSDF : SDF E
  /-- The function `sdf::initString(_xmlString, _sdf)`. -/
  initString : String → SDF E → Bool × SDF E
  /-- The function `sdf::readString(_xmlString, _sdf)`. -/
  readString : String → SDF E → Bool × SDF E
  /-- The function `sdf::readFile(_filename, _sdf)`. -/
  readFile : String → SDF E → Bool × SDF E
  /-- Modelled from the spec: `Model::Load` is not under src/; from the
  description it either raises a load error or gives the model its name, and
  the model is constructed under the parent it was given. -/
  modelLoad : E → Except Fault String

/-- The first statements of `World::OnFactoryMsg`: a fresh `SDF`, `initString`
with the (empty) format string, then `readString` of the inline description when
the message has one, else `readFile` of the file name.  The result is the value
returned by `initString`, the value returned by the read, and the `SDF`. -/
def World.readFactorySDF {E : Type} (env : SdfEnv E) (msg : Factory) : Bool × Bool × SDF E :=
  let factorySDF := env.newSDF
  let sdfFormatString := ""
  let r0 := env.initString sdfFormatString factorySDF
  let r1 := match msg.xml with
    | some xml => env.readString xml r0.2
    | none => env.readFile msg.filename r0.2
  (r0.1, r1.1, r1.2)

/-- The method `World::LoadModel`, called with `_parent = this->rootElement` as
both of its callers do.  A null root ends in a null dereference (before
`World::Load` there is no `newEntityPub` to publish with). -/
def World.LoadModel {T E : Type} (env : SdfEnv E) (sdf : E) (w : World T) :
    Except Fault (Model × World T) :=
  match w.rootElement with
  | none => .error .nullDeref
  | some parent =>
    let w1 := w.emit .modelLoad
    match env.modelLoad sdf with
    | .error f => .error f
    | .ok name =>
      let model : Model := { name := name, scope := parent.name }
      let w2 : World T :=
        { w1 with rootElement := some { parent with children := parent.children ++ [model] } }
      let w3 := w2.emit (.addEntitySignal model.GetCompleteScopedName)
      let w4 := w3.emit (.newEntityPublish model.GetCompleteScopedName)
      .ok (model, w4)

/-- The method `World::OnFactoryMsg`.  The values returned by the parser
functions are recorded in the trace and not used otherwise, as in the source. -/
def World.OnFactoryMsg {T E : Type} (env : SdfEnv E) (msg : Factory) (w : World T) :
    Except Fault (World T) :=
  let r := World.readFactorySDF env msg
  let w0 := (w.emit (.sdfInitString r.1)).emit (.sdfRead r.2.1)
  let factorySDF := r.2.2
  let w1 := w0.emit .lockUpdateMutex
  match w1.LoadModel env factorySDF.root with
  | .error f => .error f
  | .ok (model, w2) =>
    let w3 := w2.emit (.modelInit model.GetCompleteScopedName)
    .ok (w3.emit .unlockUpdateMutex)

/-- A toy description language for examples: an element is the model name it
holds, if any; a text parses when it is not empty, and is then the model name;
a model loaded from an element without a name gets the empty name. -/
def toyEnv : SdfEnv (Option String) :=
  { newSDF := { root := none },
    initString := fun _ sdf => (true, sdf),
    readString := fun xml sdf => if xml = "" then (false, sdf) else (true, { root := some xml }),
    readFile := fun file sdf => if file = "" then (false, sdf) else (true, { root := some file }),
    modelLoad := fun e => .ok (e.getD "") }

/-! ### `Simulator` (src/server/Simulator.cc) -/

/-- Calls that leave the translated code of `Simulator`, in call order. -/
inductive SimEffect where
  /-- The scoped lock on the mutex returned by `GetMRMutex()` is taken. -/
  | lockMRMutex
  /-- The scoped lock on the mutex returned by `GetMRMutex()` goes out of scope. -/
  | unlockMRMutex
  /-- The pause notification `pauseSignal(p)`. -/
  | pauseSignal (p : Bool)
  /-- The step notification `stepSignal(step)`. -/
  | stepSignal (step : Bool)
  /-- The scoped lock on the mutex returned by `GetMDMutex()` is taken. -/
  | lockMDMutex
  /-- The scoped lock on the mutex returned by `GetMDMutex()` goes out of scope. -/
  | unlockMDMutex
  /-- Call of `world->Update()` on `World::Instance()`. -/
  | worldUpdate
  /-- Call of `world->UpdateSimulationIface()`. -/
  | updateSimulationIface
  deriving Repr, DecidableEq

/-- Is the effect a pause notification of the simulator? -/
def SimEffect.isPauseSignal : SimEffect → Bool
  | .pauseSignal _ => true
  | _ => false

/-- Number of pause notifications recorded in a trace of the simulator. -/
def simPauseSignals (tr : List SimEffect) : Nat :=
  tr.countP SimEffect.isPauseSignal

/-- The members of `Simulator` that pause and step control read or write. -/
structure Simulator (T : Type) where
  pause : Bool
  stepInc : Bool
  simTime : T
  pauseTime : T
  startTime : T
  trace : List SimEffect
  userQuit : Bool := false
  physicsQuit : Bool := false
  timeout : T
  deriving Repr, DecidableEq

/-- The method `Simulator::IsPaused`. -/
def Simulator.IsPaused {T : Type} (s : Simulator T) : Bool :=
  s.pause

/-- The method `Simulator::SetPaused`: under the scoped lock, return when the
flag already has the value, else fire `pauseSignal` and store the flag. -/
def Simulator.SetPaused {T : Type} (p : Bool) (s : Simulator T) : Simulator T :=
  let s1 : Simulator T := { s with trace := s.trace ++ [.lockMRMutex] }
  if s1.pause = p then { s1 with trace := s1.trace ++ [.unlockMRMutex] }
  else
    let s2 : Simulator T := { s1 with trace := s1.trace ++ [.pauseSignal p] }
    let s3 : Simulator T := { s2 with pause := p }
    { s3 with trace := s3.trace ++ [.unlockMRMutex] }

/-- A running simulator. -/
def sampleSimulator : Simulator ℤ :=
  { pause := false, stepInc := false, simTime := 0, pauseTime := 0, startTime := 0,
    trace := [], userQuit := false, physicsQuit := false, timeout := -1 }

/-- A loaded world with two models and an engine stepping by one millisecond;
times are integers of nanoseconds. -/
def sampleWorld : World ℤ :=
  { stepInc := false, pause := false, stop := false,
    simTime := 0, pauseTime := 0, startTime := 0, pauseStartTime := 0,
    realTimeOffset := 0, prevStatTime := 0, statPeriod := 200000000,
    rootElement := some { name := "root",
                          children := [{ name := "ground", scope := "root" },
                                       { name := "box", scope := "root" }] },
    physicsEngine := some { stepTime := 1000000 },
    modelUpdateFunc := some .ModelUpdateSingleLoop,
    trace := [] }

/-- The sample world after `SetPaused(true)` at wall time 5 ms. -/
def pausedWorld : World ℤ :=
  sampleWorld.SetPaused 5000000 true

/-! ### Loading a world -/

/-- What `World::Load` and `World::LoadEntities` read from the world
description: the type attribute of the physics element, the model elements
and the number of light elements, in document order. -/
structure WorldSDF (E : Type) where
  physicsType : String
  models : List E
  lights : Nat

/-- The loop over the light elements in `World::LoadEntities`. -/
def World.loadLights {T : Type} : Nat → World T → World T
  | 0, w => w
  | n + 1, w => World.loadLights n (w.emit .lightFromSDF)

/-- The loop over the model elements in `World::LoadEntities`: `LoadModel` on
each, in document order.  An error raised inside `LoadModel` is passed on
together with the world as that call left it: unchanged when the root is null,
and with the call of `model->Load` recorded when that call raised. -/
def World.loadModels {T E : Type} (env : SdfEnv E) :
    List E → World T → Except (Fault × World T) (World T)
  | [], w => .ok w
  | m :: ms, w =>
    match w.LoadModel env m with
    | .error f =>
      match w.rootElement with
      | none => .error (f, w)
      | some _ => .error (f, w.emit .modelLoad)
    | .ok (_, w1) => World.loadModels env ms w1

/-- The method `World::LoadEntities`, called with `_parent = this->rootElement`. -/
def World.LoadEntities {T E : Type} (env : SdfEnv E) (sdf : WorldSDF E) (w : World T) :
    Except (Fault × World T) (World T) :=
  match World.loadModels env sdf.models w with
  | .error e => .error e
  | .ok w1 => .ok (World.loadLights sdf.lights w1)

/-- The method `World::Load`.  `factory` is `PhysicsFactory::NewPhysicsEngine`
(none for a null pointer) and `statPeriod` the constant
`common::Time(0, 200000000)`; an error comes with the world as the exception
leaves it. -/
def World.Load {T E : Type} (env : SdfEnv E) (factory : String → Option (PhysicsEngine T))
    (statPeriod : T) (sdf : WorldSDF E) (w : World T) : Except (Fault × World T) (World T) :=
  let w1 := (w.emit .sceneFromSDF).emit .nodeInit
  let w2 : World T := { w1 with statPeriod := statPeriod }
  let w3 := (((w2.emit (.subscribe "~/factory")).emit (.subscribe "~/world_control")).emit
    (.subscribe "~/publish_scene")).emit (.subscribe "~/visual")
  let w4 := (((w3.emit (.advertise "~/scene")).emit (.advertise "~/world_stats")).emit
    (.advertise "~/selection")).emit (.advertise "~/new_entity")
  let type := sdf.physicsType
  let w5 : World T := { w4.emit (.newPhysicsEngine type) with physicsEngine := factory type }
  if w5.physicsEngine.isNone then
    .error (.thrown "Unable to create physics engine\n", w5)
  else
    let w6 := w5.emit .engineLoad
    let w7 : World T := { w6 with rootElement := some { name := "root", children := [] } }
    match w7.LoadEntities env sdf with
    | .error e => .error e
    | .ok w8 => .ok { w8 with modelUpdateFunc := some .ModelUpdateSingleLoop }

/-- A world object before `World::Load`, as the constructor leaves the members
it sets. -/
def newWorld : World ℤ :=
  { stepInc := false, pause := false, stop := false,
    simTime := 0, pauseTime := 0, startTime := 0, pauseStartTime := 0,
    realTimeOffset := 0, prevStatTime := 0, statPeriod := 0,
    rootElement := none, physicsEngine := none, modelUpdateFunc := none, trace := [] }

/-- A physics factory that knows the engine type `ode` only. -/
def toyFactory : String → Option (PhysicsEngine ℤ) :=
  fun type => if type = "ode" then some { stepTime := 1000000 } else none

/-! ### The physics loop of the simulator -/

/-- Is the effect a call of `world->Update()`? -/
def SimEffect.isWorldUpdate : SimEffect → Bool
  | .worldUpdate => true
  | _ => false

/-- Number of `world->Update()` calls recorded in a trace of the simulator. -/
def simWorldUpdates (tr : List SimEffect) : Nat :=
  tr.countP SimEffect.isWorldUpdate

/-- Record one outgoing call of the simulator at the end of its trace. -/
def Simulator.emit {T : Type} (s : Simulator T) (e : SimEffect) : Simulator T :=
  { s with trace := s.trace ++ [e] }

/-- The method `Simulator::GetRealTime`; `wall` is the reading of `GetWallTime()`. -/
def Simulator.GetRealTime {T : Type} [LinearOrderedAddCommGroup T] (s : Simulator T)
    (wall : T) : T :=
  wall - s.startTime

/-- The method `Simulator::GetStepInc`. -/
def Simulator.GetStepInc {T : Type} (s : Simulator T) : Bool :=
  s.stepInc

/-- The method `Simulator::SetStepInc`. -/
def Simulator.SetStepInc {T : Type} (step : Bool) (s : Simulator T) : Simulator T :=
  let s1 := s.emit .lockMRMutex
  let s2 : Simulator T := { s1 with stepInc := step }
  let s3 := s2.emit (.stepSignal step)
  let s4 := s3.SetPaused (!step)
  s4.emit .unlockMRMutex

/-- One iteration of the `while (!this->physicsQuit)` loop of
`Simulator::PhysicsLoop`, for the step time `step` read before the loop.  The
readings of `GetRealTime()` that only feed the unused sleep request are left
out; `wall` is the wall-clock reading of the timeout test.  The second
component tells whether the iteration left the loop with `break`. -/
def Simulator.PhysicsLoopBody {T : Type} [LinearOrderedAddCommGroup T] (step wall : T)
    (s : Simulator T) : Simulator T × Bool :=
  let s1 := (s.emit .lockMRMutex).emit .lockMDMutex
  let userStepped := false
  let s2 : Simulator T :=
    if s1.IsPaused then { s1 with pauseTime := s1.pauseTime + step }
    else { s1 with simTime := s1.simTime + step }
  let userStepped := if s2.GetStepInc then true else userStepped
  let s3 := s2.emit .worldUpdate
  let s4 := (s3.emit .unlockMDMutex).emit .unlockMRMutex
  let s5 := s4.emit .updateSimulationIface
  if s5.timeout > 0 ∧ s5.GetRealTime wall > s5.timeout then
    ({ s5 with userQuit := true }, true)
  else if userStepped then
    ((s5.SetStepInc false).SetPaused true, false)
  else (s5, false)

/-- The `while (!this->physicsQuit)` loop of `Simulator::PhysicsLoop`, for as
many iterations as wall-clock readings are supplied, with no call from another
thread in between. -/
def Simulator.PhysicsLoopIters {T : Type} [LinearOrderedAddCommGroup T] (step : T) :
    List T → Simulator T → Simulator T
  | [], s => s
  | wall :: walls, s =>
    if s.physicsQuit then s
    else
      let r := s.PhysicsLoopBody step wall
      if r.2 then r.1 else Simulator.PhysicsLoopIters step walls r.1

/-! ### Population generators (src/gazebo/physics/Population.cc)

Coordinates are `double` in the source.  Here they range over a linearly
ordered field `R`, so the arithmetic is exact; `CreatePosesBoxRandom` and
`CreatePosesBoxLinearX` are given a second time with the rounded arithmetic of
`double`, after the definition of that arithmetic.  The random number generator
`math::Rand::GetDblUniform` is an input: `rand k a b` is the value returned by
the `k`-th call of the run when it is called with the bounds `a` and `b`; the
functions that draw numbers take the number of calls made so far and return it
updated.  The macro `GZ_ASSERT` is not under src/; the flag `asserts` tells
whether it is compiled in, and a failed assertion then aborts. -/

/-- The class `math::Vector3`: three coordinates. -/
structure Vector3 (R : Type) where
  x : R
  y : R
  z : R
  deriving Repr, DecidableEq

/-- The macro `GZ_ASSERT(_expr, _msg)`. -/
def gzAssert (asserts : Bool) (expr : Bool) (msg : String) : Except Fault Unit :=
  if asserts && !expr then .error (.assertFailed msg) else .ok ()

/-- The counted loop `for (i = start; i < start + n; ++i) s = body(i, s)`. -/
def forLoop {σ : Type} (body : Nat → σ → σ) : Nat → Nat → σ → σ
  | 0, _, s => s
  | n + 1, i, s => forLoop body n (i + 1) (body i s)

/-- The loop `for (int i = 0; i < n; ++i) s = body(i, s)` for an `int` bound
`n` that the body does not change: no iteration when `n <= 0`. -/
def forInt {σ : Type} (n : Int) (body : Nat → σ → σ) (s : σ) : σ :=
  forLoop body n.toNat 0 s

/-- The method `Population::CreatePosesBoxRandom`; `_poses` is the vector
passed in, the results are the vector left and the number of random draws. -/
def Population.CreatePosesBoxRandom {R : Type} [LinearOrderedField R] (asserts : Bool)
    (rand : Nat → R → R → R) (_modelCount : Int) (_min _max : Vector3 R)
    (_poses : List (Vector3 R)) (draws : Nat) : Except Fault (List (Vector3 R) × Nat) := do
  gzAssert asserts _poses.isEmpty "Output parameter '_poses' is not empty"
  gzAssert asserts (decide (_modelCount > 0)) "Argument _modelCount is nonpositive"
  let dx := |_max.x - _min.x|
  let dy := |_max.y - _min.y|
  let dz := |_max.z - _min.z|
  let _poses : List (Vector3 R) := []
  pure (forInt _modelCount (fun _ (st : List (Vector3 R) × Nat) =>
    let p : Vector3 R :=
      { x := min _min.x _max.x + rand st.2 0 dx
        y := min _min.y _max.y + rand (st.2 + 1) 0 dy
        z := min _min.z _max.z + rand (st.2 + 2) 0 dz }
    (st.1 ++ [p], st.2 + 3)) (_poses, draws))

/-- The method `Population::CreatePosesBoxGrid`.  The state of the loops is the
vector and the running point `p`. -/
def Population.CreatePosesBoxGrid {R : Type} [LinearOrderedField R] (asserts : Bool)
    (_min : Vector3 R) (_rows _cols : Int) (_step : Vector3 R)
    (_poses : List (Vector3 R)) : Except Fault (List (Vector3 R)) := do
  gzAssert asserts _poses.isEmpty "Output parameter '_poses' is not empty"
  gzAssert asserts (decide (_rows > 0)) "Argument _rows is nonpositive"
  gzAssert asserts (decide (_cols > 0)) "Argument _cols is nonpositive"
  let _poses : List (Vector3 R) := []
  let p := _min
  let r := forInt _rows (fun _ (st : List (Vector3 R) × Vector3 R) =>
    let st1 := forInt _cols (fun _ (st : List (Vector3 R) × Vector3 R) =>
      (st.1 ++ [st.2], { st.2 with x := st.2.x + _step.x })) st
    (st1.1, { st1.2 with x := _min.x, y := st1.2.y + _step.y })) (_poses, p)
  pure r.1

/-- The method `Population::CreatePosesBoxLinearX`. -/
def Population.CreatePosesBoxLinearX {R : Type} [LinearOrderedField R] (asserts : Bool)
    (_modelCount : Int) (_min _max : Vector3 R) (_poses : List (Vector3 R)) :
    Except Fault (List (Vector3 R)) := do
  gzAssert asserts _poses.isEmpty "Output parameter '_poses' is not empty"
  gzAssert asserts (decide (_modelCount > 0)) "Argument _modelCount is nonpositive"
  let dx := |_max.x - _min.x|
  let _poses : List (Vector3 R) := []
  pure (forInt _modelCount (fun i (ps : List (Vector3 R)) =>
    let p : Vector3 R :=
      { x := min _min.x _max.x + (i : R) * dx / (_modelCount : R)
        y := (_min.y + _max.y) / 2
        z := (_min.z + _max.z) / 2 }
    ps ++ [p]) _poses)

/-- The method `Population::CreatePosesBoxLinearY`. -/
def Population.CreatePosesBoxLinearY {R : Type} [LinearOrderedField R] (asserts : Bool)
    (_modelCount : Int) (_min _max : Vector3 R) (_poses : List (Vector3 R)) :
    Except Fault (List (Vector3 R)) := do
  gzAssert asserts _poses.isEmpty "Output parameter '_poses' is not empty"
  gzAssert asserts (decide (_modelCount > 0)) "Argument _modelCount is nonpositive"
  let dy := |_max.y - _min.y|
  let _poses : List (Vector3 R) := []
  pure (forInt _modelCount (fun i (ps : List (Vector3 R)) =>
    let p : Vector3 R :=
      { x := (_min.x + _max.x) / 2
        y := min _min.y _max.y + (i : R) * dy / (_modelCount : R)
        z := (_min.z + _max.z) / 2 }
    ps ++ [p]) _poses)

/-- The method `Population::CreatePosesBoxLinearZ`. -/
def Population.CreatePosesBoxLinearZ {R : Type} [LinearOrderedField R] (asserts : Bool)
    (_modelCount : Int) (_min _max : Vector3 R) (_poses : List (Vector3 R)) :
    Except Fault (List (Vector3 R)) := do
  gzAssert asserts _poses.isEmpty "Output parameter '_poses' is not empty"
  gzAssert asserts (decide (_modelCount > 0)) "Argument _modelCount is nonpositive"
  let dz := |_max.z - _min.z|
  let _poses : List (Vector3 R) := []
  pure (forInt _modelCount (fun i (ps : List (Vector3 R)) =>
    let p : Vector3 R :=
      { x := (_min.x + _max.x) / 2
        y := (_min.y + _max.y) / 2
        z := min _min.z _max.z + (i : R) * dz / (_modelCount : R) }
    ps ++ [p]) _poses)

/-- The functions and the constant of the C math library used by the cylinder
generators. -/
structure Libm (R : Type) where
  pi : R
  cos : R → R
  sin : R → R

/-- The method `Population::CreatePosesCylinderRandom`. -/
def Population.CreatePosesCylinderRandom {R : Type} [LinearOrderedField R] (asserts : Bool)
    (libm : Libm R) (rand : Nat → R → R → R) (_modelCount : Int) (_center : Vector3 R)
    (_radius _height : R) (_poses : List (Vector3 R)) (draws : Nat) :
    Except Fault (List (Vector3 R) × Nat) := do
  gzAssert asserts _poses.isEmpty "Output parameter '_poses' is not empty"
  gzAssert asserts (decide (_modelCount > 0)) "Argument _modelCount is nonpositive"
  let _poses : List (Vector3 R) := []
  pure (forInt _modelCount (fun _ (st : List (Vector3 R) × Nat) =>
    let ang := rand st.2 0 (2 * libm.pi)
    let r := rand (st.2 + 1) 0 _radius
    let p : Vector3 R :=
      { x := _center.x + r * libm.cos ang
        y := _center.y + r * libm.sin ang
        z := _center.z + rand (st.2 + 2) 0 _height }
    (st.1 ++ [p], st.2 + 3)) (_poses, draws))

/-- A random generator for examples: the `k`-th call returns the point at
`1 / (k + 2)` of the way from the lower to the upper bound. -/
def toyRand : Nat → ℚ → ℚ → ℚ :=
  fun k a b => a + (b - a) / ((k : ℚ) + 2)

/-- Stand-ins for the C math library in examples (exact rationals have no
cosine): a constant cosine and sine. -/
def toyLibm : Libm ℚ :=
  { pi := 22 / 7, cos := fun _ => 1, sin := fun _ => 0 }

/-! ### Strings of `std::string`

A string is the list of its characters.  Positions and lengths are `size_t`
values: naturals below `2 ^ 64`, with sums and differences taken modulo
`2 ^ 64`; `npos` is the largest of them. -/

/-- The constant `std::string::npos`. -/
def npos : Nat := 2 ^ 64 - 1

/-- Sum of two `size_t` values. -/
def sizeAdd (a b : Nat) : Nat := (a + b) % 2 ^ 64

/-- Difference of two `size_t` values. -/
def sizeSub (a b : Nat) : Nat := (a + (2 ^ 64 - b % 2 ^ 64)) % 2 ^ 64

/-- Position of the first occurrence of `pat` in `s`, when `s` starts at
position `i` of the string searched. -/
def findAux (pat : List Char) : List Char → Nat → Option Nat
  | [], i => if pat.isEmpty then some i else none
  | c :: cs, i => if pat.isPrefixOf (c :: cs) then some i else findAux pat cs (i + 1)

/-- The method `std::string::find(pat, pos)`: the position of the first
occurrence of `pat` at or after `pos`, or `npos`. -/
def strFind (s pat : List Char) (pos : Nat) : Nat :=
  if pos > s.length then npos
  else (findAux pat (s.drop pos) pos).getD npos

/-- The method `std::string::replace(pos, len, str)`: it throws
`std::out_of_range` when `pos` is past the end, and `len` is cut at the end of
the string. -/
def strReplace (s : List Char) (pos len : Nat) (str : List Char) : Except Fault (List Char) :=
  if pos > s.length then .error (.thrown "std::out_of_range")
  else .ok (s.take pos ++ str ++ s.drop (pos + min len (s.length - pos)))

/-- The method `std::string::insert(pos, str)`: it throws `std::out_of_range`
when `pos` is past the end. -/
def strInsert (s : List Char) (pos : Nat) (str : List Char) : Except Fault (List Char) :=
  if pos > s.length then .error (.thrown "std::out_of_range")
  else .ok (s.take pos ++ str ++ s.drop pos)

/-- The text `boost::lexical_cast<std::string>(i)` of a `size_t`: its decimal
digits, most significant first. -/
def decimal (n : Nat) : List Char :=
  if n = 0 then ['0'] else ((Nat.digits 10 n).reverse).map Nat.digitChar

/-- The name given to clone `i`:
`params.modelName + "_clone_" + boost::lexical_cast<std::string>(i)`. -/
def Population.cloneName (modelName : List Char) (i : Nat) : List Char :=
  modelName ++ "_clone_".toList ++ decimal i

/-- The text of the pose element of a clone at `p`; `showDouble` is
`boost::lexical_cast<std::string>` on a `double`. -/
def Population.poseText {R : Type} (showDouble : R → List Char) (p : Vector3 R) : List Char :=
  "\n    <pose>".toList ++ showDouble p.x ++ " ".toList ++ showDouble p.y ++
    " ".toList ++ showDouble p.z ++ " 0 0 0</pose>".toList

/-- The body of the loop of `Population::PopulateOne` up to the call of
`InsertModelString`: the text of clone `i` at position `p`.  `cloneSdf` is the
text returned by `sdf.ToString()`. -/
def Population.cloneText {R : Type} (showDouble : R → List Char) (modelName : List Char)
    (cloneSdf : List Char) (i : Nat) (p : Vector3 R) : Except Fault (List Char) :=
  let delim := "model name='".toList
  let first := sizeAdd (strFind cloneSdf delim 0) delim.length
  let last := strFind cloneSdf "'".toList first
  let newName := Population.cloneName modelName i
  match strReplace cloneSdf first (sizeSub last first) newName with
  | .error f => .error f
  | .ok cloneSdf =>
    let endDelim := "'>".toList
    let first := sizeAdd (strFind cloneSdf delim 0) delim.length
    let last := strFind cloneSdf endDelim first
    let pose := Population.poseText showDouble p
    strInsert cloneSdf (sizeAdd last endDelim.length) pose

/-! ### `Population::PopulateOne` and `Population::PopulateAll` -/

/-- The inner loop `while (x < dx) { obs.push_back((x, y, 0)); x += .1; }` of
`Population::CreatePosesBoxUniform`, for at most the given number of
iterations; none when they do not suffice.  The steps are exact here; in
`double` the sums of `.1` are rounded, and the number of samples of a row can
differ by one from the exact count. -/
def Population.sampleRow {R : Type} [LinearOrderedField R] (dx y : R) :
    Nat → R → List (Vector3 R) → Option (List (Vector3 R) × R)
  | 0, _, _ => none
  | fuel + 1, x, obs =>
    if x < dx then Population.sampleRow dx y fuel (x + 1 / 10) (obs ++ [{ x := x, y := y, z := 0 }])
    else some (obs, x)

/-- The outer loop `while (y < dy) { ...; x = 0.0; y += .1; }` of
`Population::CreatePosesBoxUniform`. -/
def Population.sampleBox {R : Type} [LinearOrderedField R] (dx dy : R) (rowFuel : Nat) :
    Nat → R → R → List (Vector3 R) → Option (List (Vector3 R))
  | 0, _, _, _ => none
  | fuel + 1, x, y, obs =>
    if y < dy then
      match Population.sampleRow dx y rowFuel x obs with
      | none => none
      | some (obs1, _) => Population.sampleBox dx dy rowFuel fuel 0 (y + 1 / 10) obs1
    else some obs

/-- The loop `for (i = 0; i < n; ++i) s = body(i, s)` with a body that can
fail. -/
def forLoopM {σ : Type} (body : Nat → σ → Except Fault σ) : Nat → Nat → σ → Except Fault σ
  | 0, _, s => .ok s
  | n + 1, i, s =>
    match body i s with
    | .error f => .error f
    | .ok s1 => forLoopM body n (i + 1) s1

/-- Element `i` of a `std::vector` read with `operator[]`. -/
def vectorAt {α : Type} (v : List α) (i : Nat) : Except Fault α :=
  match v[i]? with
  | some a => .ok a
  | none => .error .outOfBounds

/-- The method `Population::CreatePosesBoxUniform`.  `kmeans obs k` stands for
the centroids that `math::Kmeans(obs).Cluster(k, centroids, labels)` leaves.
The sampling loops get `ceil (10 * d) + 1` iterations. -/
def Population.CreatePosesBoxUniform {R : Type} [LinearOrderedField R] [FloorRing R]
    (asserts : Bool) (kmeans : List (Vector3 R) → Int → List (Vector3 R))
    (rand : Nat → R → R → R) (_modelCount : Int) (_min _max : Vector3 R)
    (_poses : List (Vector3 R)) (draws : Nat) : Except Fault (List (Vector3 R) × Nat) := do
  gzAssert asserts _poses.isEmpty "Output parameter '_poses' is not empty"
  gzAssert asserts (decide (_modelCount > 0)) "Argument _modelCount is nonpositive"
  let dx := |_max.x - _min.x|
  let dy := |_max.y - _min.y|
  let dz := |_max.z - _min.z|
  match Population.sampleBox dx dy (Nat.ceil (10 * dx) + 1) (Nat.ceil (10 * dy) + 1) 0 0 [] with
  | none => .error .outOfFuel
  | some obs =>
    let centroids := kmeans obs _modelCount
    let _poses : List (Vector3 R) := []
    forLoopM (fun i (st : List (Vector3 R) × Nat) =>
      match vectorAt centroids i with
      | .error f => .error f
      | .ok c =>
        let p : Vector3 R :=
          { x := min _min.x _max.x + c.x
            y := min _min.y _max.y + c.y
            z := min _min.z _max.z + rand st.2 0 dz }
        .ok (st.1 ++ [p], st.2 + 1)) _modelCount.toNat 0 (_poses, draws)

/-- The method `Population::CreatePosesCylinderUniform`. -/
def Population.CreatePosesCylinderUniform {R : Type} [LinearOrderedField R]
    (asserts : Bool) (libm : Libm R) (kmeans : List (Vector3 R) → Int → List (Vector3 R))
    (rand : Nat → R → R → R) (_modelCount : Int) (_center : Vector3 R) (_radius _height : R)
    (_poses : List (Vector3 R)) (draws : Nat) : Except Fault (List (Vector3 R) × Nat) := do
  gzAssert asserts _poses.isEmpty "Output parameter '_poses' is not empty"
  gzAssert asserts (decide (_modelCount > 0)) "Argument _modelCount is nonpositive"
  let points := 10000
  let sampled := forLoop (fun _ (st : List (Vector3 R) × Nat) =>
    let ang := rand st.2 0 (2 * libm.pi)
    let r := rand (st.2 + 1) 0 _radius
    let p : Vector3 R :=
      { x := _center.x + r * libm.cos ang
        y := _center.y + r * libm.sin ang
        z := _center.z + rand (st.2 + 2) 0 _height }
    (st.1 ++ [p], st.2 + 3)) points 0 ([], draws)
  let centroids := kmeans sampled.1 _modelCount
  let _poses : List (Vector3 R) := []
  forLoopM (fun i (st : List (Vector3 R) × Nat) =>
    match vectorAt centroids i with
    | .error f => .error f
    | .ok c =>
      let p : Vector3 R := { x := c.x, y := c.y, z := rand st.2 0 _height }
      .ok (st.1 ++ [p], st.2 + 1)) _modelCount.toNat 0 (_poses, sampled.2)

/-- The structure `PopulationParams` (declared in Population.hh). -/
structure PopulationParams (R : Type) where
  modelCount : Int
  min : Vector3 R
  max : Vector3 R
  step : Vector3 R
  center : Vector3 R
  height : R
  radius : R
  rows : Int
  cols : Int
  modelSdf : List Char
  modelName : List Char
  distribution : String
  region : String

/-- A `<box>` element as `ParseSdf` reads it: the values of its children, none
for a missing child. -/
structure BoxElem (R : Type) where
  min : Option (Vector3 R)
  max : Option (Vector3 R)

/-- A `<cylinder>` element as `ParseSdf` reads it. -/
structure CylinderElem (R : Type) where
  center : Option (Vector3 R)
  radius : Option R
  height : Option R

/-- A `<region>` element as `ParseSdf` reads it. -/
structure RegionElem (R : Type) where
  box : Option (BoxElem R)
  cylinder : Option (CylinderElem R)

/-- A `<distribution>` element as `ParseSdf` reads it. -/
structure DistributionElem (R : Type) where
  type : Option String
  rows : Option Int
  cols : Option Int
  step : Option (Vector3 R)

/-- A `<model>` element as `ParseSdf` reads it: the text `ToString("")` and the
value of the attribute `name`. -/
structure ModelElem where
  text : List Char
  name : List Char

/-- A `<population>` element as `ParseSdf` reads it. -/
structure PopulationElem (R : Type) where
  model : Option ModelElem
  model_count : Option Int
  distribution : Option (DistributionElem R)
  region : Option (RegionElem R)

/-- The block of `Population::ParseSdf` that reads rows, columns and step of a
grid distribution. -/
def Population.parseGrid {R : Type} (distribution : DistributionElem R)
    (_params : PopulationParams R) : Option (PopulationParams R) :=
  if _params.distribution = "grid" then
    match distribution.rows with
    | none => none
    | some rows =>
      match distribution.cols with
      | none => none
      | some cols =>
        match distribution.step with
        | none => none
        | some step => some { _params with rows := rows, cols := cols, step := step }
  else some _params

/-- The block of `Population::ParseSdf` that reads a box region. -/
def Population.parseBox {R : Type} (box : BoxElem R) (_params : PopulationParams R) :
    Option (PopulationParams R) :=
  let _params := { _params with region := "box" }
  match box.min with
  | none => none
  | some pmin =>
    let _params := { _params with min := pmin }
    if _params.distribution = "random" ∨ _params.distribution = "uniform" ∨
        _params.distribution = "linear-x" ∨ _params.distribution = "linear-y" ∨
        _params.distribution = "linear-z" then
      match box.max with
      | none => none
      | some pmax => some { _params with max := pmax }
    else some _params

/-- The block of `Population::ParseSdf` that reads a cylinder region. -/
def Population.parseCylinder {R : Type} (cylinder : CylinderElem R)
    (_params : PopulationParams R) : Option (PopulationParams R) :=
  let _params := { _params with region := "cylinder" }
  match cylinder.center with
  | none => none
  | some center =>
    match cylinder.radius with
    | none => none
    | some radius =>
      match cylinder.height with
      | none => none
      | some height =>
        some { _params with center := center, radius := radius, height := height }

/-- The block of `Population::ParseSdf` that reads the region element. -/
def Population.parseRegion {R : Type} (region : RegionElem R) (_params : PopulationParams R) :
    Option (PopulationParams R) :=
  match region.box with
  | some box => Population.parseBox box _params
  | none =>
    match region.cylinder with
    | some cylinder => Population.parseCylinder cylinder _params
    | none => none

/-- The test of `Population::ParseSdf` on the distribution type. -/
def Population.unknownDistribution (distribution : String) : Bool :=
  distribution != "random" && distribution != "uniform" && distribution != "grid" &&
    distribution != "linear-x" && distribution != "linear-y" && distribution != "linear-z"

/-- The method `Population::ParseSdf`; none stands for the result `false`.
The template `ValueFromSdf` is declared in Population.hh, not under src/; like
its sibling `ElementFromSdf` it is taken to fail exactly when the child is
missing. -/
def Population.ParseSdf {R : Type} (_population : PopulationElem R)
    (_params : PopulationParams R) : Option (PopulationParams R) :=
  match _population.model with
  | none => none
  | some model =>
    let _params := { _params with modelSdf := model.text, modelName := model.name }
    match _population.model_count with
    | none => none
    | some modelCount =>
      let _params := { _params with modelCount := modelCount }
      match _population.distribution with
      | none => none
      | some distribution =>
        match distribution.type with
        | none => none
        | some type =>
          let _params := { _params with distribution := type }
          if Population.unknownDistribution _params.distribution then none
          else
            match Population.parseGrid distribution _params with
            | none => none
            | some _params =>
              match _population.region with
              | none => none
              | some region => Population.parseRegion region _params

/-- What `Population::PopulateOne` takes from outside the translated code. -/
structure PopEnv (R : Type) where
  /-- Whether `GZ_ASSERT` is compiled in. -/
  asserts : Bool
  /-- The generator `math::Rand::GetDblUniform`, call by call. -/
  rand : Nat → R → R → R
  /-- The C math library. -/
  libm : Libm R
  /-- The centroids left by `math::Kmeans(obs).Cluster(k, centroids, labels)`. -/
  kmeans : List (Vector3 R) → Int → List (Vector3 R)
  /-- The text `boost::lexical_cast<std::string>` gives for a `double`. -/
  showDouble : R → List Char
  /-- The text `sdf.ToString()` returns after `sdf.SetFromString(text)`. -/
  sdfToString : List Char → List Char
  /-- The value of a default-constructed `PopulationParams`. -/
  defaultParams : PopulationParams R

/-- The state `Population::PopulateOne` works on: the texts passed to
`World::InsertModelString`, in call order, and the number of random draws. -/
structure PopState where
  inserted : List (List Char)
  draws : Nat
  deriving Repr, DecidableEq

/-- The conversion `static_cast<int>` of a `size_t` (32-bit `int`). -/
def toInt32 (n : Nat) : Int :=
  ((n + 2 ^ 31) % 2 ^ 32 : Nat) - 2 ^ 31

/-- The chain of tests on region and distribution in `Population::PopulateOne`
with the generator each selects; none stands for the unrecognized combination.
The results are the vector `objects` and the number of random draws. -/
def Population.generate {R : Type} [LinearOrderedField R] [FloorRing R] (env : PopEnv R)
    (params : PopulationParams R) (objects : List (Vector3 R)) (draws : Nat) :
    Except Fault (Option (List (Vector3 R) × Nat)) :=
  if params.region = "box" ∧ params.distribution = "random" then
    (Population.CreatePosesBoxRandom env.asserts env.rand params.modelCount params.min
      params.max objects draws).map some
  else if params.region = "box" ∧ params.distribution = "uniform" then
    (Population.CreatePosesBoxUniform env.asserts env.kmeans env.rand params.modelCount
      params.min params.max objects draws).map some
  else if params.region = "box" ∧ params.distribution = "grid" then
    (Population.CreatePosesBoxGrid env.asserts params.min params.rows params.cols params.step
      objects).map (fun ps => some (ps, draws))
  else if params.region = "box" ∧ params.distribution = "linear-x" then
    (Population.CreatePosesBoxLinearX env.asserts params.modelCount params.min params.max
      objects).map (fun ps => some (ps, draws))
  else if params.region = "box" ∧ params.distribution = "linear-y" then
    (Population.CreatePosesBoxLinearY env.asserts params.modelCount params.min params.max
      objects).map (fun ps => some (ps, draws))
  else if params.region = "box" ∧ params.distribution = "linear-z" then
    (Population.CreatePosesBoxLinearZ env.asserts params.modelCount params.min params.max
      objects).map (fun ps => some (ps, draws))
  else if params.region = "cylinder" ∧ params.distribution = "random" then
    (Population.CreatePosesCylinderRandom env.asserts env.libm env.rand params.modelCount
      params.center params.radius params.height objects draws).map some
  else if params.region = "cylinder" ∧ params.distribution = "uniform" then
    (Population.CreatePosesCylinderUniform env.asserts env.libm env.kmeans env.rand
      params.modelCount params.center params.radius params.height objects draws).map some
  else .ok none

/-- The condition of the assertion after the generators in
`Population::PopulateOne`: `params.modelCount == static_cast<int>(objects.size())`. -/
def Population.poseCountOk {R : Type} (modelCount : Int) (objects : List (Vector3 R)) : Bool :=
  decide (modelCount = toInt32 objects.length)

/-- The loop over `objects` at the end of `Population::PopulateOne`: one clone
text per pose, passed to `World::InsertModelString`. -/
def Population.insertClones {R : Type} (env : PopEnv R) (params : PopulationParams R)
    (objects : List (Vector3 R)) (st : PopState) : Except Fault PopState :=
  let source := "<sdf version ='1.5'>".toList ++ params.modelSdf ++ "</sdf>".toList
  forLoopM (fun i (st : PopState) =>
    match vectorAt objects i with
    | .error f => .error f
    | .ok o =>
      let p : Vector3 R := { x := o.x, y := o.y, z := o.z }
      let cloneSdf := env.sdfToString source
      match Population.cloneText env.showDouble params.modelName cloneSdf i p with
      | .error f => .error f
      | .ok text => .ok { st with inserted := st.inserted ++ [text] }) objects.length 0 st

/-- The method `Population::PopulateOne`: the value returned and the state
left.  The element passed is never null here, so the assertion on it is left
out. -/
def Population.PopulateOne {R : Type} [LinearOrderedField R] [FloorRing R] (env : PopEnv R)
    (_population : PopulationElem R) (st : PopState) : Except Fault (Bool × PopState) :=
  let objects : List (Vector3 R) := []
  let params := env.defaultParams
  match Population.ParseSdf _population params with
  | none => .ok (false, st)
  | some params =>
    if params.modelCount ≤ 0 then .ok (false, st)
    else
      match Population.generate env params objects st.draws with
      | .error f => .error f
      | .ok none => .ok (false, st)
      | .ok (some (objects, draws)) =>
        match gzAssert env.asserts (Population.poseCountOk params.modelCount objects)
            "Unexpected number of objects while generating a population" with
        | .error f => .error f
        | .ok _ =>
          match Population.insertClones env params objects { st with draws := draws } with
          | .error f => .error f
          | .ok st1 => .ok (true, st1)

/-- The loop `while (popElem)` of `Population::PopulateAll` over the population
elements that follow one another in the description. -/
def Population.populateLoop {R : Type} [LinearOrderedField R] [FloorRing R] (env : PopEnv R) :
    List (PopulationElem R) → Bool → PopState → Except Fault (Bool × PopState)
  | [], result, st => .ok (result, st)
  | popElem :: rest, result, st =>
    match Population.PopulateOne env popElem st with
    | .error f => .error f
    | .ok (ok, st1) => Population.populateLoop env rest (if !ok then false else result) st1

/-- The method `Population::PopulateAll` on the list of population elements of
the description (the empty list for a null `populationElem`). -/
def Population.PopulateAll {R : Type} [LinearOrderedField R] [FloorRing R] (env : PopEnv R)
    (elems : List (PopulationElem R)) (st : PopState) : Except Fault (Bool × PopState) :=
  match gzAssert env.asserts (!elems.isEmpty) "<population> SDF element is NULL" with
  | .error f => .error f
  | .ok _ => Population.populateLoop env elems true st

/-- The text expected for clone `i` of a description printed as
`pre ++ "model name='" ++ name ++ "'>" ++ post`: the name replaced by the clone
name, and the pose element of pose `i` put right after the model tag. -/
def Population.cloneSpec {R : Type} (showDouble : R → List Char)
    (modelName pre post : List Char) (objects : List (Vector3 R)) (i : Nat) : List Char :=
  match objects[i]? with
  | some o =>
    pre ++ "model name='".toList ++ (modelName ++ "_clone_".toList ++ decimal i) ++
      "'>".toList ++
      ("\n    <pose>".toList ++ showDouble o.x ++ " ".toList ++ showDouble o.y ++
        " ".toList ++ showDouble o.z ++ " 0 0 0</pose>".toList) ++ post
  | none => []

/-- A population environment for examples: assertions compiled in, the toy
generator and math library, a clustering that keeps the first `k`
observations, numbers printed as numerator `/` denominator, and a description
printed back as it was read. -/
def toyPopEnv : PopEnv ℚ :=
  { asserts := true
    rand := toyRand
    libm := toyLibm
    kmeans := fun obs k => obs.take k.toNat
    showDouble := fun q => decimal q.num.natAbs ++ ['/'] ++ decimal q.den
    sdfToString := fun text => text
    defaultParams :=
      { modelCount := 0, min := ⟨0, 0, 0⟩, max := ⟨0, 0, 0⟩, step := ⟨0, 0, 0⟩,
        center := ⟨0, 0, 0⟩, height := 0, radius := 0, rows := 0, cols := 0,
        modelSdf := [], modelName := [], distribution := "", region := "" } }

/-- A population of two cans on a 1 by 2 grid from the origin. -/
def canGrid : PopulationElem ℚ :=
  { model := some { text := "<model name='can'><static>1</static></model>".toList,
                    name := "can".toList }
    model_count := some 2
    distribution := some { type := some "grid", rows := some 1, cols := some 2,
                           step := some ⟨1, 1, 0⟩ }
    region := some { box := some { min := some ⟨0, 0, 0⟩, max := none }, cylinder := none } }

/-- The parameters `ParseSdf` reads from `canGrid`. -/
def canGridParams : PopulationParams ℚ :=
  { toyPopEnv.defaultParams with
    modelSdf := "<model name='can'><static>1</static></model>".toList
    modelName := "can".toList
    modelCount := 2
    distribution := "grid"
    rows := 1
    cols := 2
    step := ⟨1, 1, 0⟩
    region := "box"
    min := ⟨0, 0, 0⟩ }

/-- The population `canGrid` with a `model_count` of zero. -/
def canNone : PopulationElem ℚ :=
  { canGrid with model_count := some 0 }

/-! ### Entities (src/server/Entity.cc)

Entities live in a store; a pointer to an entity is its index in the store and
`none` is the null pointer.  The visual nodes are left out. -/

/-- The members of `Entity` that the translated methods read or write. -/
structure Entity where
  parent : Option Nat
  id : Nat
  isStatic : Bool
  children : List Nat
  name : String
  deriving Repr, DecidableEq

/-- The entities constructed so far, the static counter `Entity::idCounter`
and the entities handed to `PhysicsEngine::AddEntity`, in call order. -/
structure EntityStore where
  entities : List Entity
  idCounter : Nat
  engineEntities : List Nat
  deriving Repr, DecidableEq

/-- The entity a pointer points to; a pointer that is not the index of an
entity cannot be dereferenced. -/
def EntityStore.deref (s : EntityStore) (p : Nat) : Except Fault Entity :=
  match s.entities[p]? with
  | some e => .ok e
  | none => .error .nullDeref

/-- Write the entity a pointer points to. -/
def EntityStore.store (s : EntityStore) (p : Nat) (e : Entity) : EntityStore :=
  { s with entities := s.entities.set p e }

/-- The method `Entity::SetParent`. -/
def EntityStore.SetParent (s : EntityStore) (this : Nat) (parent : Option Nat) :
    Except Fault EntityStore :=
  match s.deref this with
  | .error f => .error f
  | .ok e => .ok (s.store this { e with parent := parent })

/-- The method `Entity::GetParent`. -/
def EntityStore.GetParent (s : EntityStore) (this : Nat) : Except Fault (Option Nat) :=
  match s.deref this with
  | .error f => .error f
  | .ok e => .ok e.parent

/-- The method `Entity::AddChild`. -/
def EntityStore.AddChild (s : EntityStore) (this : Nat) (child : Option Nat) :
    Except Fault EntityStore :=
  match s.deref this with
  | .error f => .error f
  | .ok e =>
    match child with
    | none => .error (.thrown "Cannot add a null child to an entity")
    | some c => .ok (s.store this { e with children := e.children ++ [c] })

/-- The method `Entity::GetChildren`. -/
def EntityStore.GetChildren (s : EntityStore) (this : Nat) : Except Fault (List Nat) :=
  match s.deref this with
  | .error f => .error f
  | .ok e => .ok e.children

/-- The method `Entity::SetStatic`. -/
def EntityStore.SetStatic (s : EntityStore) (this : Nat) (isStatic : Bool) :
    Except Fault EntityStore :=
  match s.deref this with
  | .error f => .error f
  | .ok e => .ok (s.store this { e with isStatic := isStatic })

/-- The method `Entity::IsStatic`. -/
def EntityStore.IsStatic (s : EntityStore) (this : Nat) : Except Fault Bool :=
  match s.deref this with
  | .error f => .error f
  | .ok e => .ok e.isStatic

/-- The constructor `Entity::Entity(Entity *parent)`: the pointer to the new
entity and the store it leaves.  `idCounter` is an `unsigned int`. -/
def EntityStore.construct (s : EntityStore) (parent : Option Nat) :
    Except Fault (Nat × EntityStore) :=
  let this := s.entities.length
  let e : Entity :=
    { parent := parent, id := s.idCounter, isStatic := false, children := [], name := "" }
  let s1 : EntityStore :=
    { s with entities := s.entities ++ [e], idCounter := (s.idCounter + 1) % 2 ^ 32 }
  let linked : Except Fault EntityStore :=
    match parent with
    | some p =>
      match s1.AddChild p (some this) with
      | .error f => .error f
      | .ok s2 =>
        match s2.IsStatic p with
        | .error f => .error f
        | .ok parentStatic => s2.SetStatic this parentStatic
    | none => .ok s1
  match linked with
  | .error f => .error f
  | .ok s3 => .ok (this, { s3 with engineEntities := s3.engineEntities ++ [this] })

/-- A sequence of `SetStatic` calls on one entity, first call first. -/
def EntityStore.setStaticSeq (this : Nat) : List Bool → EntityStore → Except Fault EntityStore
  | [], s => .ok s
  | b :: bs, s =>
    match s.SetStatic this b with
    | .error f => .error f
    | .ok s1 => EntityStore.setStaticSeq this bs s1

/-- Does the entity have a static ancestor?  The parent pointers are followed
for at most `fuel` steps. -/
def EntityStore.hasStaticAncestor (s : EntityStore) : Nat → Nat → Bool
  | 0, _ => false
  | fuel + 1, this =>
    match s.entities[this]? with
    | none => false
    | some e =>
      match e.parent with
      | none => false
      | some p =>
        match s.entities[p]? with
        | none => false
        | some pe => pe.isStatic || s.hasStaticAncestor fuel p

/-- A store with one static entity (pointer 0) and a child of it (pointer 1),
as `construct`, `SetStatic(true)` on the first and `construct` with the first as
parent leave it. -/
def staticPair : EntityStore :=
  { entities := [{ parent := none, id := 0, isStatic := true, children := [1], name := "" },
                 { parent := some 0, id := 1, isStatic := true, children := [], name := "" }],
    idCounter := 2, engineEntities := [0, 1] }

/-- The empty store. -/
def emptyStore : EntityStore :=
  { entities := [], idCounter := 0, engineEntities := [] }

/-- Tree consistency of a store, in the words of the specification: every
entity with a non-null parent `p` appears exactly once in the children list of
`p` and in the children list of no other entity, and every entity listed in the
children of `q` has parent `q`. -/
def EntityStore.TreeConsistent (s : EntityStore) : Prop :=
  (∀ (c : Nat) (e : Entity) (p : Nat), s.entities[c]? = some e → e.parent = some p →
    (∃ pe, s.entities[p]? = some pe ∧ pe.children.count c = 1) ∧
      ∀ (q : Nat) (qe : Entity), q ≠ p → s.entities[q]? = some qe → c ∉ qe.children) ∧
  (∀ (q : Nat) (qe : Entity) (c : Nat), s.entities[q]? = some qe → c ∈ qe.children →
    ∃ e, s.entities[c]? = some e ∧ e.parent = some q)

/-- A store with a root (pointer 0) and one child of it (pointer 1), as
`construct` with a null parent followed by `construct` with parent 0 leave it. -/
def rootAndChild : EntityStore :=
  { entities := [{ parent := none, id := 0, isStatic := false, children := [1], name := "" },
                 { parent := some 0, id := 1, isStatic := false, children := [], name := "" }],
    idCounter := 2, engineEntities := [0, 1] }

/-- A clustering for examples: the first `k` observations, padded with the
origin when there are fewer than `k`. -/
def toyKmeans : List (Vector3 ℚ) → Int → List (Vector3 ℚ) :=
  fun obs k => (obs ++ List.replicate k.toNat (⟨0, 0, 0⟩ : Vector3 ℚ)).take k.toNat

/-! ### The arithmetic of `double`

A `double` is a value of IEEE 754 binary64, and an operation of C++ on
`double` is the exact operation followed by rounding to the nearest `double`,
ties to the even significand (the default rounding mode, with every
intermediate result stored as a `double`, as on x86-64).  A finite value is
`(-1)^negative * m * 2^e`, kept with `m` odd, or with `m = 0` and `e = 0` for
the two zeros, so that two finite values are equal exactly when their three
components are.  Results of magnitude `2^1024` or more are infinite; the
smallest spacing of the finite values is `2^-1074`. -/

/-- A value of the type `double`. -/
inductive Double where
  | finite (negative : Bool) (m : Nat) (e : Int)
  | infinite (negative : Bool)
  | nan
  deriving Repr, DecidableEq

/-- The number of binary digits of `n`, counted in at most `fuel` steps. -/
def bitLengthAux : Nat → Nat → Nat
  | 0, _ => 0
  | fuel + 1, n => if n = 0 then 0 else bitLengthAux fuel (n / 2) + 1

/-- The number of binary digits of `n`: `2^(bitLength n - 1) <= n < 2^(bitLength n)`
for `n > 0`. -/
def bitLength (n : Nat) : Nat :=
  bitLengthAux n n

/-- Halve `m` and raise `e` while `m` is even, in at most `fuel` steps. -/
def Double.normalizeAux : Nat → Nat → Int → Nat × Int
  | 0, m, e => (m, e)
  | fuel + 1, m, e =>
    if m % 2 = 0 ∧ m ≠ 0 then Double.normalizeAux fuel (m / 2) (e + 1) else (m, e)

/-- The finite value `(-1)^negative * m * 2^e`, with `m` made odd. -/
def Double.normalize (negative : Bool) (m : Nat) (e : Int) : Double :=
  if m = 0 then .finite negative 0 0
  else .finite negative (Double.normalizeAux m m e).1 (Double.normalizeAux m m e).2

/-- The `double` nearest to the rational `(-1)^negative * a / q`, for `q > 0`, ties
to even.  With `2^L <= a/q < 2^(L+1)` the result is a multiple `n * 2^e` of the
spacing `2^e`, `e = max (L - 52) (-1074)`, of the values of that size. -/
def Double.round (negative : Bool) (a q : Nat) : Double :=
  if a = 0 then .finite negative 0 0
  else
    let d : Int := (bitLength a : Int) - (bitLength q : Int)
    let L : Int := if q * 2 ^ d.toNat ≤ a * 2 ^ (-d).toNat then d else d - 1
    let e : Int := max (L - 52) (-1074)
    let num : Nat := a * 2 ^ (-e).toNat
    let den : Nat := q * 2 ^ e.toNat
    let n0 : Nat := num / den
    let r : Nat := num % den
    let n : Nat := if den < 2 * r ∨ (2 * r = den ∧ n0 % 2 = 1) then n0 + 1 else n0
    if 971 ≤ e ∧ 2 ^ 53 ≤ n * 2 ^ (e - 971).toNat then .infinite negative
    else Double.normalize negative n e

/-- The `double` nearest to `(-1)^negative * m * 2^e`. -/
def Double.roundDyadic (negative : Bool) (m : Nat) (e : Int) : Double :=
  Double.round negative (m * 2 ^ e.toNat) (2 ^ (-e).toNat)

/-- The conversion of an integer to `double`. -/
def Double.ofInt (n : Int) : Double :=
  Double.round (decide (n < 0)) n.natAbs 1

/-- The `double` of a decimal constant of the value `p / q`, `q > 0`. -/
def Double.ofRatio (p : Int) (q : Nat) : Double :=
  Double.round (decide (p < 0)) p.natAbs q

/-- The natural number `m` with the sign of a finite value. -/
def Double.signed (negative : Bool) (m : Nat) : Int :=
  if negative then -(m : Int) else (m : Int)

/-- The unary minus of `double`. -/
def Double.neg : Double → Double
  | .finite n m e => .finite (!n) m e
  | .infinite n => .infinite (!n)
  | .nan => .nan

/-- The function `std::abs` on `double`. -/
def Double.abs : Double → Double
  | .finite _ m e => .finite false m e
  | .infinite _ => .infinite false
  | .nan => .nan

/-- The operator `+` of `double`. -/
def Double.add : Double → Double → Double
  | .nan, _ => .nan
  | _, .nan => .nan
  | .infinite n1, .infinite n2 => if n1 = n2 then .infinite n1 else .nan
  | .infinite n1, .finite _ _ _ => .infinite n1
  | .finite _ _ _, .infinite n2 => .infinite n2
  | .finite n1 m1 e1, .finite n2 m2 e2 =>
    if m1 = 0 ∧ m2 = 0 then .finite (n1 && n2) 0 0
    else
      let e0 : Int := min e1 e2
      let s : Int := Double.signed n1 (m1 * 2 ^ (e1 - e0).toNat) +
        Double.signed n2 (m2 * 2 ^ (e2 - e0).toNat)
      if s = 0 then .finite false 0 0
      else Double.roundDyadic (decide (s < 0)) s.natAbs e0

/-- The operator `-` of `double`. -/
def Double.sub (x y : Double) : Double :=
  Double.add x (Double.neg y)

/-- The operator `*` of `double`. -/
def Double.mul : Double → Double → Double
  | .nan, _ => .nan
  | _, .nan => .nan
  | .infinite n1, .infinite n2 => .infinite (n1 != n2)
  | .infinite n1, .finite n2 m2 _ => if m2 = 0 then .nan else .infinite (n1 != n2)
  | .finite n1 m1 _, .infinite n2 => if m1 = 0 then .nan else .infinite (n1 != n2)
  | .finite n1 m1 e1, .finite n2 m2 e2 => Double.roundDyadic (n1 != n2) (m1 * m2) (e1 + e2)

/-- The operator `/` of `double`. -/
def Double.div : Double → Double → Double
  | .nan, _ => .nan
  | _, .nan => .nan
  | .infinite _, .infinite _ => .nan
  | .infinite n1, .finite n2 _ _ => .infinite (n1 != n2)
  | .finite n1 _ _, .infinite n2 => .finite (n1 != n2) 0 0
  | .finite n1 m1 e1, .finite n2 m2 e2 =>
    if m2 = 0 then (if m1 = 0 then .nan else .infinite (n1 != n2))
    else Double.round (n1 != n2) (m1 * 2 ^ (e1 - e2).toNat) (m2 * 2 ^ (e2 - e1).toNat)

/-- The operator `<` of `double`. -/
def Double.lt : Double → Double → Bool
  | .nan, _ => false
  | _, .nan => false
  | .infinite n1, .infinite n2 => n1 && !n2
  | .infinite n1, .finite _ _ _ => n1
  | .finite _ _ _, .infinite n2 => !n2
  | .finite n1 m1 e1, .finite n2 m2 e2 =>
    decide (Double.signed n1 (m1 * 2 ^ (e1 - min e1 e2).toNat) <
      Double.signed n2 (m2 * 2 ^ (e2 - min e1 e2).toNat))

/-- The function `std::min` on `double`: `(b < a) ? b : a`. -/
def Double.min (a b : Double) : Double :=
  if Double.lt b a then b else a

instance Double.instAdd : Add Double := ⟨Double.add⟩
instance Double.instSub : Sub Double := ⟨Double.sub⟩
instance Double.instMul : Mul Double := ⟨Double.mul⟩
instance Double.instDiv : Div Double := ⟨Double.div⟩
instance Double.instLT : LT Double := ⟨fun a b => Double.lt a b = true⟩
instance Double.instDecidableLT (a b : Double) : Decidable (a < b) :=
  inferInstanceAs (Decidable (Double.lt a b = true))

/-- The rational value of a finite `double`; 0 for the other values. -/
def Double.toRat : Double → ℚ
  | .finite n m e => (Double.signed n m : ℚ) * 2 ^ e
  | .infinite _ => 0
  | .nan => 0

/-- The method `Population::CreatePosesBoxLinearX` with the arithmetic of
`double`: `dx = std::abs(_max.x - _min.x)` and
`p.x = std::min(_min.x, _max.x) + i * dx / static_cast<double>(_modelCount)`,
each operation rounded. -/
def Population.CreatePosesBoxLinearXDouble (asserts : Bool) (_modelCount : Int)
    (_min _max : Vector3 Double) (_poses : List (Vector3 Double)) :
    Except Fault (List (Vector3 Double)) := do
  gzAssert asserts _poses.isEmpty "Output parameter '_poses' is not empty"
  gzAssert asserts (decide (_modelCount > 0)) "Argument _modelCount is nonpositive"
  let dx := Double.abs (_max.x - _min.x)
  let _poses : List (Vector3 Double) := []
  pure (forInt _modelCount (fun i (ps : List (Vector3 Double)) =>
    let p : Vector3 Double :=
      { x := Double.min _min.x _max.x + Double.ofInt i * dx / Double.ofInt _modelCount
        y := (_min.y + _max.y) / Double.ofRatio 2 1
        z := (_min.z + _max.z) / Double.ofRatio 2 1 }
    ps ++ [p]) _poses)

/-- The value `struct timeval` that `gettimeofday` fills in. -/
structure Timeval where
  tv_sec : Int
  tv_usec : Int
  deriving Repr, DecidableEq

/-- The expression `t.tv_sec + t.tv_usec/1e6`, as the code computes it: both
members are converted to `double`, and the quotient and the sum are rounded. -/
def Timeval.toSeconds (t : Timeval) : Double :=
  Double.ofInt t.tv_sec + Double.ofInt t.tv_usec / Double.ofRatio 1000000 1

/-- The time of a clock reading in seconds, as a rational number. -/
def Timeval.exactSeconds (t : Timeval) : ℚ :=
  (t.tv_sec : ℚ) + (t.tv_usec : ℚ) / 1000000

/-- A clock reading as `gettimeofday` gives it before the year 2242:
`0 <= tv_sec < 2^33` and `0 <= tv_usec < 10^6`. -/
def Timeval.inRange (t : Timeval) : Prop :=
  0 ≤ t.tv_sec ∧ t.tv_sec < 2 ^ 33 ∧ 0 ≤ t.tv_usec ∧ t.tv_usec < 1000000

/-- What one pass of the loop of `WaitForResponse` reads: the shared counter
`data->responseCount` at the loop test and the clock `t1` in the loop body. -/
structure WaitReading where
  responseCount : Int
  t1 : Timeval
  deriving Repr, DecidableEq

/-- The method `SimulationIface::WaitForResponse`, started at clock reading
`t0`; the list holds the readings of the successive passes, and the loop is
still waiting when the list is used up.  The test of the loop body is made in
`double`, as in the source. -/
def SimulationIface.WaitForResponse (t0 : Timeval) : List WaitReading → Except Fault Bool
  | [] => .error .outOfFuel
  | r :: rest =>
    let timeout : Double := Double.ofRatio 3 1
    if r.responseCount = 0 then
      if r.t1.toSeconds - t0.toSeconds > timeout then .ok false
      else SimulationIface.WaitForResponse t0 rest
    else .ok true

/-- The request types that `GetPose3d` and `GetPose2d` post. -/
inductive SimulationRequestType
  | GET_POSE3D
  | GET_POSE2D
  deriving Repr, DecidableEq

/-- The members of `SimulationRequestData` written by `GetPose3d`. -/
structure SimulationRequestData where
  type : SimulationRequestType
  name : List Char
  deriving Repr, DecidableEq

/-- The members of `SimulationData` used by `GetPose3d`; `modelPose` is
`responses[0].modelPose`. -/
structure SimulationData (P : Type) where
  responseCount : Int
  requestCount : Nat
  requests : List SimulationRequestData
  modelPose : P

/-- The method `SimulationIface::GetPose3d(name, pose)`: the value returned, the
caller's `pose` afterwards and the shared data as this call wrote it.  `final`
is the shared data as the server left it when the wait is over.  The name is
copied with `strncpy(.., name.c_str(), 512)` and cut at 511 characters. -/
def SimulationIface.GetPose3d {P : Type} (asserts : Bool) (data : SimulationData P)
    (name : List Char) (pose : P) (t0 : Timeval) (readings : List WaitReading)
    (final : SimulationData P) : Except Fault (Bool × P × SimulationData P) :=
  if data.requestCount < data.requests.length then
    let request : SimulationRequestData := { type := .GET_POSE3D, name := (name.takeWhile (fun c => c != '\x00')).take 511 }
    let posted : SimulationData P :=
      { data with responseCount := 0, requestCount := data.requestCount + 1,
                  requests := data.requests.set data.requestCount request }
    match SimulationIface.WaitForResponse t0 readings with
    | .error f => .error f
    | .ok false => .ok (false, pose, posted)
    | .ok true =>
      if asserts && !(decide (final.responseCount = 1)) then
        .error (.assertFailed "this->data->responseCount == 1")
      else .ok (true, final.modelPose, posted)
  else .error .outOfBounds

/-! ### Rendering windows (src/server/rendering/WindowManager.cc)

`Ogre::Root::createRenderWindow` is an input: `create name k` is what the call
of attempt `k` (counted from 0) does when asked for the window `name`. -/

/-- What one call of `createRenderWindow` does: it returns a window, returns
`NULL`, or throws. -/
inductive CreateResult (W : Type) where
  | window (w : W)
  | null
  | thrown
  deriving Repr, DecidableEq

/-- Did the call return a window? -/
def CreateResult.isWindow {W : Type} : CreateResult W → Bool
  | .window _ => true
  | _ => false

/-- The members of `WindowManager`, the static `windowCounter` and the number
of lines written to `gzerr`. -/
structure WindowManager (W : Type) where
  windows : List W
  windowCounter : Nat
  reports : Nat
  deriving Repr, DecidableEq

/-- The loop `while (window == NULL && (attempts++) < 10)` of `CreateWindow`:
the values of `window`, `attempts` and the number of reports when it is left.
`attempts` is an `int` that stays below 12. -/
def WindowManager.createLoop {W : Type} (create : Nat → CreateResult W) :
    Nat → Option W → Nat → Nat → Option (Option W × Nat × Nat)
  | 0, _, _, _ => none
  | fuel + 1, window, attempts, reports =>
    match window with
    | some w => some (some w, attempts, reports)
    | none =>
      if attempts < 10 then
        match create attempts with
        | .window w => WindowManager.createLoop create fuel (some w) (attempts + 1) reports
        | .null => WindowManager.createLoop create fuel none (attempts + 1) reports
        | .thrown => WindowManager.createLoop create fuel none (attempts + 1) (reports + 1)
      else some (none, attempts + 1, reports)

/-- The method `WindowManager::CreateWindow(ogreHandle, width, height)`: the
index returned and the manager afterwards.  The window is asked for under the
name `OgreWindow(n)`. -/
def WindowManager.CreateWindow {W : Type} (create : List Char → Nat → CreateResult W)
    (m : WindowManager W) (_ogreHandle : List Char) (_width _height : Nat) :
    Except Fault (Int × WindowManager W) :=
  let name := "OgreWindow(".toList ++ decimal m.windowCounter ++ ")".toList
  let m1 : WindowManager W := { m with windowCounter := (m.windowCounter + 1) % 2 ^ 32 }
  match WindowManager.createLoop (create name) 12 none 0 m1.reports with
  | none => .error .outOfFuel
  | some (window, attempts, reports) =>
    if attempts ≥ 10 then .error (.thrown "Unable to create the rendering window\n")
    else
      match window with
      | none => .error .nullDeref
      | some w =>
        let m2 : WindowManager W := { m1 with windows := m1.windows ++ [w], reports := reports }
        .ok (toInt32 (m2.windows.length - 1), m2)

/-! ### The arrange plugin (src/plugins/ArrangePlugin.cc)

The description handed to `Load` is kept as the children that `Load` asks for:
the `<model_name>` values, the `<initial_arrangement>` value and the
`<arrangement>` elements with their `<pose>` children, each list in document
order; an attribute that is absent is `none`.  An `ElementPtr` that walks over
the siblings of one name is the list of the siblings not yet passed, and `NULL`
is the empty list.  The world is the function `GetModel`, and `GetWorldPose`
is a function on models. -/

/-- A `<pose>` child of an `<arrangement>`. -/
structure ArrangePoseElem (P : Type) where
  model : Option String
  pose : P

/-- An `<arrangement>` element. -/
structure ArrangementElem (P : Type) where
  name : Option String
  poses : List (ArrangePoseElem P)

/-- The description of the plugin. -/
structure ArrangeSdf (P : Type) where
  model_name : List String
  initial_arrangement : Option String
  arrangement : List (ArrangementElem P)

/-- The assignment `m[key] = value` on a `std::map`, kept as an association
list. -/
def mapAssign {K V : Type} [DecidableEq K] (m : List (K × V)) (key : K) (value : V) :
    List (K × V) :=
  match m with
  | [] => [(key, value)]
  | (k, v) :: rest =>
    if k = key then (key, value) :: rest else (k, v) :: mapAssign rest key value

/-- The members of `ArrangePlugin` that `Load` writes, and the lines written
to `gzerr`. -/
structure ArrangePlugin (M P : Type) where
  objects : List (String × (M × P))
  initialArrangementName : String
  arrangements : List (String × List (String × P))
  errors : List String

/-- The loop over the `<model_name>` elements in `ArrangePlugin::Load`; every
pass moves on to the next sibling. -/
def ArrangePlugin.modelNameLoop {M P : Type} (GetModel : String → Option M)
    (GetWorldPose : M → P) : List String → ArrangePlugin M P → Except Fault (ArrangePlugin M P)
  | [], p => .ok p
  | modelName :: rest, p =>
    match GetModel modelName with
    | none => .error .nullDeref
    | some model =>
      ArrangePlugin.modelNameLoop GetModel GetWorldPose rest
        { p with objects := mapAssign p.objects modelName (model, GetWorldPose model) }

/-- The loop over the `<pose>` elements of one arrangement: the map `poses` and
the error lines it leaves.  One unit of fuel is used per pass. -/
def ArrangePlugin.poseLoop {P : Type} (arrangementName : String) :
    Nat → List (ArrangePoseElem P) → List (String × P) → List String →
      Except Fault (List (String × P) × List String)
  | 0, _, _, _ => .error .outOfFuel
  | _ + 1, [], poses, errors => .ok (poses, errors)
  | fuel + 1, poseElem :: rest, poses, errors =>
    match poseElem.model with
    | none =>
      ArrangePlugin.poseLoop arrangementName fuel (poseElem :: rest) poses
        (errors ++ ["In arrangement [" ++ arrangementName ++
          "], a pose element is missing the model attribute"])
    | some poseName =>
      ArrangePlugin.poseLoop arrangementName fuel rest
        (mapAssign poses poseName poseElem.pose) errors

/-- The loop over the `<arrangement>` elements.  One unit of fuel is used per
pass, and the inner loop gets what is left. -/
def ArrangePlugin.arrangementLoop {M P : Type} :
    Nat → List (ArrangementElem P) → ArrangePlugin M P → Except Fault (ArrangePlugin M P)
  | 0, _, _ => .error .outOfFuel
  | _ + 1, [], p => .ok p
  | fuel + 1, elem :: rest, p =>
    match elem.name with
    | none =>
      ArrangePlugin.arrangementLoop fuel (elem :: rest)
        { p with errors := p.errors ++ ["arrangement element missing name attribute"] }
    | some arrangementName =>
      let p1 : ArrangePlugin M P :=
        if p.initialArrangementName.isEmpty then
          { p with initialArrangementName := arrangementName }
        else p
      match ArrangePlugin.poseLoop arrangementName fuel elem.poses [] p1.errors with
      | .error f => .error f
      | .ok (poses, errors) =>
        ArrangePlugin.arrangementLoop fuel rest
          { p1 with arrangements := mapAssign p1.arrangements arrangementName poses,
                    errors := errors }

/-- The method `ArrangePlugin::Load`, with fuel for the loops that can repeat
a pass. -/
def ArrangePlugin.Load {M P : Type} (GetModel : String → Option M) (GetWorldPose : M → P)
    (fuel : Nat) (sdf : ArrangeSdf P) (p : ArrangePlugin M P) :
    Except Fault (ArrangePlugin M P) :=
  match ArrangePlugin.modelNameLoop GetModel GetWorldPose sdf.model_name p with
  | .error f => .error f
  | .ok p1 =>
    let p2 : ArrangePlugin M P :=
      match sdf.initial_arrangement with
      | some name => { p1 with initialArrangementName := name }
      | none => p1
    ArrangePlugin.arrangementLoop fuel sdf.arrangement p2

/-! ### The master (src/src/Master.cc)

A `ConnectionPtr` is the number of the connection it points to, or `none` for a
null pointer.  The map `connections` is an association list.  The calls made on
connections are recorded in a trace.  `publishers`, `subscribers` and
`worldNames` are filled by `ProcessMessage` only, which is not translated: they
are empty in the states that `OnAccept` and `RemoveConnection` reach from a new
master, so the loops over them have no pass and the lists sent by `OnAccept` are
empty.  The mutexes and `printf` are left out. -/

/-- The calls the master makes on a connection. -/
inductive MasterEffect where
  | enqueueMsg (connection : Nat) (type : String)
  | asyncRead (connection : Nat) (index : Nat)
  deriving Repr, DecidableEq

/-- The members of `Master` used by `OnAccept` and `RemoveConnection`. -/
structure Master where
  connections : List (Nat × Option Nat)
  msgs : List (Nat × String)
  trace : List MasterEffect
  deriving Repr, DecidableEq

/-- The call `connections.find(index)`: the connection stored under the key,
if the key is in the map. -/
def Master.find (m : Master) (index : Nat) : Option (Option Nat) :=
  (m.connections.find? (fun kv => kv.1 == index)).map (fun kv => kv.2)

/-- The method `Master::OnAccept`: the three initial messages are queued on the
new connection, the connection is stored under the key `connections.size()`
and the reads from it are bound to that key. -/
def Master.OnAccept (m : Master) (new_connection : Option Nat) : Except Fault Master :=
  match new_connection with
  | none => .error .nullDeref
  | some c =>
    let index := m.connections.length
    .ok { m with
      connections := mapAssign m.connections index (some c)
      trace := m.trace ++ [.enqueueMsg c "version_init", .enqueueMsg c "topic_namepaces_init",
        .enqueueMsg c "publishers_init", .asyncRead c index] }

/-- The method `Master::RemoveConnection`. -/
def Master.RemoveConnection (m : Master) (_index : Nat) : Master :=
  match m.find _index with
  | none => m
  | some none => m
  | some (some _) =>
    { m with
      msgs := m.msgs.filter (fun msg => msg.1 != _index)
      connections := m.connections.filter (fun kv => kv.1 != _index) }

/-- A call of one of the two methods. -/
inductive MasterCall where
  | OnAccept (new_connection : Option Nat)
  | RemoveConnection (index : Nat)
  deriving Repr, DecidableEq

/-- A sequence of calls, first call first. -/
def Master.calls : List MasterCall → Master → Except Fault Master
  | [], m => .ok m
  | .OnAccept c :: rest, m =>
    match m.OnAccept c with
    | .error f => .error f
    | .ok m1 => Master.calls rest m1
  | .RemoveConnection i :: rest, m => Master.calls rest (m.RemoveConnection i)

/-- A master right after construction. -/
def newMaster : Master :=
  { connections := [], msgs := [], trace := [] }

/-! ### The search of the plot palette (src/gazebo/gui/plot/Palette.cc)

The source model is the list of its top rows; an item holds the data of the
filter role, the data of the role `TYPE` and its child rows.  A row handed to
`filterAcceptsRow` as `(_srcRow, _srcParent)` is the item at that place together
with the names of its ancestors, nearest first, which is what the walk over
`parentIndex` reads.  The mark `TO_EXPAND` written on the source model is not
kept: nothing in these methods reads it. -/

/-- An item of the source model. -/
inductive Item where
  | mk (name : List Char) (type : List Char) (rows : List Item)

/-- An item for the places where one is needed by default. -/
instance Item.instInhabited : Inhabited Item := ⟨.mk [] [] []⟩

/-- The data of the filter role of an item. -/
def Item.name : Item → List Char
  | .mk name _ _ => name

/-- The data of the role `TYPE` of an item. -/
def Item.type : Item → List Char
  | .mk _ type _ => type

/-- The child rows of an item. -/
def Item.rows : Item → List Item
  | .mk _ _ rows => rows

/-- The method `SearchModel::filterAcceptsRowItself` on a row whose filter-role
data is `text`: `text.contains(_word, Qt::CaseInsensitive)`, where `fold` is the
case folding of Qt. -/
def SearchModel.filterAcceptsRowItself (fold : Char → Char) (text _word : List Char) : Bool :=
  decide ((_word.map fold) <:+: (text.map fold))

mutual
/-- The method `SearchModel::filterAcceptsRow` on the row holding the item,
for the search string `search`. -/
def SearchModel.filterAcceptsRow (fold : Char → Char) (search : List Char)
    (ancestors : List (List Char)) : Item → Bool
  | .mk name type rows =>
    if search = [] then false
    else if type = "title".toList then false
    else
      (search.splitOn ' ').all fun word =>
        word == [] || SearchModel.hasAcceptedChildren fold search (name :: ancestors) rows ||
          SearchModel.filterAcceptsRowItself fold name word ||
          ancestors.any (fun a => SearchModel.filterAcceptsRowItself fold a word)
/-- The method `SearchModel::hasAcceptedChildren` on a row with the child rows
`rows`; `ancestors` are the names of the row and of its ancestors. -/
def SearchModel.hasAcceptedChildren (fold : Char → Char) (search : List Char)
    (ancestors : List (List Char)) : List Item → Bool
  | [] => false
  | c :: cs =>
    SearchModel.filterAcceptsRow fold search ancestors c ||
      SearchModel.hasAcceptedChildren fold search ancestors cs
end

mutual
/-- The method `SearchModel::hasChildAcceptsItself` on the index of an item. -/
def SearchModel.hasChildAcceptsItselfAt (fold : Char → Char) (_word : List Char) : Item → Bool
  | .mk _ _ rows => SearchModel.hasChildAcceptsItself fold _word rows
/-- The method `SearchModel::hasChildAcceptsItself` on an index with the child
rows `rows`.  It only decides the mark `TO_EXPAND`. -/
def SearchModel.hasChildAcceptsItself (fold : Char → Char) (_word : List Char) :
    List Item → Bool
  | [] => false
  | c :: cs =>
    SearchModel.filterAcceptsRowItself fold c.name _word ||
      SearchModel.hasChildAcceptsItselfAt fold _word c ||
      SearchModel.hasChildAcceptsItself fold _word cs
end

/-- The item at the end of a path of row numbers from the top rows, with the
names of its ancestors, nearest first. -/
def Item.rowAt : List Item → List (List Char) → List Nat → Option (List (List Char) × Item)
  | _, _, [] => none
  | rows, ancestors, [i] => rows[i]?.map (fun item => (ancestors, item))
  | rows, ancestors, i :: j :: rest =>
    match rows[i]? with
    | none => none
    | some item => Item.rowAt item.rows (item.name :: ancestors) (j :: rest)

/-- The method `SearchModel::filterAcceptsRow(_srcRow, _srcParent)` on a source
model, the parent index being the path of row numbers that leads to it (the
empty path for the top rows); `none` when there is no such row. -/
def SearchModel.filterAcceptsRowAt (fold : Char → Char) (search : List Char)
    (model : List Item) (_srcRow : Nat) (_srcParent : List Nat) : Option Bool :=
  (Item.rowAt model [] (_srcParent ++ [_srcRow])).map
    (fun r => SearchModel.filterAcceptsRow fold search r.1 r.2)

/-- Rule 1 in the words of the specification: every word of the search is
contained in the row or in one of its ancestors. -/
def SearchSpec.everyWordFound (fold : Char → Char) (search : List Char)
    (ancestors : List (List Char)) (item : Item) : Prop :=
  ∀ word ∈ search.splitOn ' ', SearchModel.filterAcceptsRowItself fold item.name word = true ∨
    ∃ a ∈ ancestors, SearchModel.filterAcceptsRowItself fold a word = true

mutual
/-- The descendants of an item, each with the names of its ancestors. -/
def Item.descendants (ancestors : List (List Char)) : Item → List (List (List Char) × Item)
  | .mk name _ rows => Item.descendantsOf (name :: ancestors) rows
/-- The rows of a list and their descendants. -/
def Item.descendantsOf (ancestors : List (List Char)) :
    List Item → List (List (List Char) × Item)
  | [] => []
  | c :: cs => (ancestors, c) :: (Item.descendants ancestors c ++ Item.descendantsOf ancestors cs)
end

/-- The rule of the specification: the search is not empty, the row is not a
title, and every word is found in the row or its ancestors, or in that way for
one of its descendants that is not a title. -/
def SearchSpec.accepted (fold : Char → Char) (search : List Char)
    (ancestors : List (List Char)) (item : Item) : Prop :=
  search ≠ [] ∧ item.type ≠ "title".toList ∧
    (SearchSpec.everyWordFound fold search ancestors item ∨
      ∃ d ∈ item.descendants ancestors, d.2.type ≠ "title".toList ∧
        SearchSpec.everyWordFound fold search d.1 d.2)

mutual
/-- The row itself, if it is not a title, followed by its descendants that are
not titles and hang below it through rows that are not titles. -/
def Item.openRows (ancestors : List (List Char)) : Item → List (List (List Char) × Item)
  | .mk name type rows =>
    if type = "title".toList then []
    else (ancestors, .mk name type rows) :: Item.openRowsOf (name :: ancestors) rows
/-- The open rows of the rows of a list. -/
def Item.openRowsOf (ancestors : List (List Char)) : List Item → List (List (List Char) × Item)
  | [] => []
  | c :: cs => Item.openRows ancestors c ++ Item.openRowsOf ancestors cs
end

mutual
/-- No title at or below the item has child rows. -/
def Item.titlesAreLeaves : Item → Bool
  | .mk _ type rows => (type != "title".toList || rows.isEmpty) && Item.titlesAreLeavesOf rows
/-- No title at or below the rows has child rows. -/
def Item.titlesAreLeavesOf : List Item → Bool
  | [] => true
  | c :: cs => Item.titlesAreLeaves c && Item.titlesAreLeavesOf cs
end

/-- The source model of the example in the documentation of
`SearchModel::filterAcceptsRow`: `a` with the children `b` and `c`, and `d`
below `c`. -/
def abcd : List Item :=
  [.mk ['a'] [] [.mk ['b'] [] [], .mk ['c'] [] [.mk ['d'] [] []]]]

/-- What `filterAcceptsRow` returns for the rows `a`, `b`, `c` and `d` of
`abcd`, in this order. -/
def abcdAccepted (search : String) : List (Option Bool) :=
  [SearchModel.filterAcceptsRowAt Char.toLower search.toList abcd 0 [],
   SearchModel.filterAcceptsRowAt Char.toLower search.toList abcd 0 [0],
   SearchModel.filterAcceptsRowAt Char.toLower search.toList abcd 1 [0],
   SearchModel.filterAcceptsRowAt Char.toLower search.toList abcd 0 [0, 1]]

/-- A model row `x` as `Palette::FillModels` makes its rows: the title `MODELS`,
appended without child rows, and after it the nested model `foo`. -/
def modelsTree : Item :=
  .mk "x".toList "model".toList
    [.mk "MODELS".toList "title".toList [], .mk "foo".toList "model".toList []]

/-! ### The threads around the world (src/src/physics/World.cc)

`World::RunLoop` runs in the thread made by `World::Start`, `World::OnFactoryMsg`
in the thread of the transport layer, and `World::Stop` is called from a third
thread.  The statements of the threads are interleaved: a step of the system is
one step of one thread, and a schedule names the thread of each step.  A write
is seen by every later read.  The mutex `updateMutex` is the thread that holds
it, and a thread that finds it held stays where it is; `boost::thread::join`
is passed once the function of the joined thread has returned.  The loop thread
is taken from its first loop test, with the local `step` already read, and it
waits at the loop test when the clock readings supplied to it are used up. -/

/-- The three threads. -/
inductive ThreadId where
  | loop
  | factory
  | caller
  deriving Repr, DecidableEq

/-- Where the thread of `World::RunLoop` is. -/
inductive LoopPc where
  /-- At `while (!this->stop)`. -/
  | test
  /-- After the statistics block, at `if (this->IsPaused() && !this->stepInc)`. -/
  | body
  /-- In the else branch, at the `scoped_lock` on `updateMutex`. -/
  | wantLock
  /-- The lock is held, before `this->simTime += step`. -/
  | locked
  /-- The step is added, `this->Update()` is called and has not returned. -/
  | updating
  /-- The call of `Update` has returned, the lock is not yet released. -/
  | updated
  /-- The lock is released (or the pause branch was taken), at
  `if (this->IsPaused() && this->stepInc)`. -/
  | unlocked
  /-- The function `RunLoop` has returned. -/
  | returned
  deriving Repr, DecidableEq

/-- Where the thread of `World::OnFactoryMsg` is. -/
inductive FactoryPc where
  /-- No message is being handled. -/
  | idle
  /-- The description of the message is read, at the `scoped_lock`. -/
  | parsed (msg : Factory)
  /-- The lock is held, before `LoadModel`. -/
  | locked (msg : Factory)
  /-- The call of `LoadModel` has returned `model`, before `model->Init()`. -/
  | loaded (model : Model)
  /-- The call of `Init` has returned, the lock is not yet released. -/
  | inited
  deriving Repr, DecidableEq

/-- Where the thread that calls `World::Stop` is. -/
inductive CallerPc where
  /-- Not inside `Stop`. -/
  | outside
  /-- After `this->stop = true`, at `if (this->thread)`. -/
  | flagged
  /-- Inside `this->thread->join()`. -/
  | joining
  /-- The call of `join` has returned, before `delete this->thread` and
  `this->thread = NULL`. -/
  | joined
  deriving Repr, DecidableEq

/-- Does the loop thread hold `updateMutex` at this place? -/
def LoopPc.holdsMutex : LoopPc → Bool
  | .locked => true
  | .updating => true
  | .updated => true
  | _ => false

/-- Does the factory thread hold `updateMutex` at this place? -/
def FactoryPc.holdsMutex : FactoryPc → Bool
  | .locked _ => true
  | .loaded _ => true
  | .inited => true
  | _ => false

/-- The message taken from the queue whose model is not loaded yet. -/
def FactoryPc.messages : FactoryPc → List Factory
  | .parsed msg => [msg]
  | .locked msg => [msg]
  | _ => []

/-- The world and the threads around it: `thread` tells whether the member
`this->thread` is not `NULL`, `clocks` are the clock readings of the loop
passes to come, `inbox` the factory messages not yet delivered and `stopCalls`
the number of calls of `Stop` still to be made. -/
structure Threads (T : Type) where
  world : World T
  updateMutex : Option ThreadId
  thread : Bool
  loopPc : LoopPc
  clocks : List (IterClock T)
  factoryPc : FactoryPc
  inbox : List Factory
  callerPc : CallerPc
  stopCalls : Nat

/-- One step of the thread of `World::RunLoop`. -/
def Threads.loopStep {T : Type} [LinearOrderedAddCommGroup T] (step : T) (s : Threads T) :
    Except Fault (Threads T) :=
  match s.loopPc with
  | .test =>
    if s.world.stop then .ok { s with loopPc := .returned }
    else
      match s.clocks with
      | [] => .ok s
      | c :: cs => .ok { s with world := s.world.publishStats c, clocks := cs, loopPc := .body }
  | .body =>
    if s.world.IsPaused && !s.world.stepInc then
      .ok { s with world := { s.world with pauseTime := s.world.pauseTime + step },
                   loopPc := .unlocked }
    else .ok { s with loopPc := .wantLock }
  | .wantLock =>
    match s.updateMutex with
    | some _ => .ok s
    | none =>
      .ok { s with updateMutex := some .loop, world := s.world.emit .lockUpdateMutex,
                   loopPc := .locked }
  | .locked =>
    .ok { s with world := { s.world with simTime := s.world.simTime + step },
                 loopPc := .updating }
  | .updating =>
    match s.world.Update with
    | .error f => .error f
    | .ok w => .ok { s with world := w, loopPc := .updated }
  | .updated =>
    .ok { s with world := s.world.emit .unlockUpdateMutex, updateMutex := none,
                 loopPc := .unlocked }
  | .unlocked => .ok { s with world := s.world.clearStep, loopPc := .test }
  | .returned => .ok s

/-- One step of the thread of `World::OnFactoryMsg`. -/
def Threads.factoryStep {T E : Type} (env : SdfEnv E) (s : Threads T) :
    Except Fault (Threads T) :=
  match s.factoryPc with
  | .idle =>
    match s.inbox with
    | [] => .ok s
    | msg :: rest =>
      let r := World.readFactorySDF env msg
      .ok { s with world := (s.world.emit (.sdfInitString r.1)).emit (.sdfRead r.2.1),
                   inbox := rest, factoryPc := .parsed msg }
  | .parsed msg =>
    match s.updateMutex with
    | some _ => .ok s
    | none =>
      .ok { s with updateMutex := some .factory, world := s.world.emit .lockUpdateMutex,
                   factoryPc := .locked msg }
  | .locked msg =>
    match s.world.LoadModel env (World.readFactorySDF env msg).2.2.root with
    | .error f => .error f
    | .ok (model, w) => .ok { s with world := w, factoryPc := .loaded model }
  | .loaded model =>
    .ok { s with world := s.world.emit (.modelInit model.GetCompleteScopedName),
                 factoryPc := .inited }
  | .inited =>
    .ok { s with world := s.world.emit .unlockUpdateMutex, updateMutex := none,
                 factoryPc := .idle }

/-- One step of the thread that calls `World::Stop`. -/
def Threads.callerStep {T : Type} (s : Threads T) : Threads T :=
  match s.callerPc with
  | .outside =>
    match s.stopCalls with
    | 0 => s
    | n + 1 => { s with world := s.world.Stop, stopCalls := n, callerPc := .flagged }
  | .flagged => if s.thread then { s with callerPc := .joining } else { s with callerPc := .outside }
  | .joining => if s.loopPc = .returned then { s with callerPc := .joined } else s
  | .joined => { s with thread := false, callerPc := .outside }

/-- One step of the system, made by the thread `t`. -/
def Threads.step {T E : Type} [LinearOrderedAddCommGroup T] (env : SdfEnv E) (step : T)
    (t : ThreadId) (s : Threads T) : Except Fault (Threads T) :=
  match t with
  | .loop => s.loopStep step
  | .factory => s.factoryStep env
  | .caller => .ok s.callerStep

/-- The steps of a schedule, first step first. -/
def Threads.run {T E : Type} [LinearOrderedAddCommGroup T] (env : SdfEnv E) (step : T) :
    List ThreadId → Threads T → Except Fault (Threads T)
  | [], s => .ok s
  | t :: ts, s =>
    match s.step env step t with
    | .error f => .error f
    | .ok s1 => Threads.run env step ts s1

/-- The system right after `World::Start`: nobody holds the mutex, the loop
thread is at its first loop test, no message is being handled and nobody is
inside `Stop`. -/
def Threads.started {T : Type} (w : World T) (clocks : List (IterClock T))
    (inbox : List Factory) (stopCalls : Nat) : Threads T :=
  { world := w, updateMutex := none, thread := true, loopPc := .test, clocks := clocks,
    factoryPc := .idle, inbox := inbox, callerPc := .outside, stopCalls := stopCalls }

/-- The number of children of the root element of the world, zero without a
root. -/
def World.entityCount {T : Type} (w : World T) : Nat :=
  match w.rootElement with
  | some root => root.GetChildCount
  | none => 0

/-- A whole loop pass or a whole factory message, as one operation. -/
inductive WorldOp (T : Type) where
  | iteration (c : IterClock T)
  | factoryMsg (msg : Factory)

/-- The factory messages among operations, in order. -/
def WorldOp.messages {T : Type} : List (WorldOp T) → List Factory
  | [] => []
  | .iteration _ :: ops => WorldOp.messages ops
  | .factoryMsg msg :: ops => msg :: WorldOp.messages ops

/-- A serial execution: the operations run one after the other, each from its
first statement to its last. -/
def World.serial {T E : Type} [LinearOrderedAddCommGroup T] (env : SdfEnv E) (step : T) :
    List (WorldOp T) → World T → Except Fault (World T)
  | [], w => .ok w
  | .iteration c :: ops, w =>
    match w.RunLoopBody step c with
    | .error f => .error f
    | .ok w1 => World.serial env step ops w1
  | .factoryMsg msg :: ops, w =>
    match w.OnFactoryMsg env msg with
    | .error f => .error f
    | .ok w1 => World.serial env step ops w1

/-- The invariant of the system: the mutex is held by the loop thread exactly
at the places of its locked block and by the factory thread exactly at the
places of its locked block; the world is loaded; the entities and the messages
still to be loaded add up to `total`; every such message has a model that
loads; and the flag, the thread handle and the place of the caller of `Stop`
agree, `calls` being the number of calls of `Stop` at the start. -/
structure Threads.Inv {T E : Type} (env : SdfEnv E) (total calls : Nat) (s : Threads T) :
    Prop where
  loopMutex : s.updateMutex = some .loop ↔ s.loopPc.holdsMutex = true
  factoryMutex : s.updateMutex = some .factory ↔ s.factoryPc.holdsMutex = true
  callerMutex : s.updateMutex ≠ some .caller
  engine : s.world.physicsEngine.isSome = true
  updateFunc : s.world.modelUpdateFunc = some .ModelUpdateSingleLoop
  count : ∃ root, s.world.rootElement = some root ∧
    root.GetChildCount + s.factoryPc.messages.length + s.inbox.length = total
  loads : ∀ msg ∈ s.factoryPc.messages ++ s.inbox,
    ∃ name, env.modelLoad (World.readFactorySDF env msg).2.2.root = .ok name
  flag : s.callerPc ≠ .outside → s.world.stop = true
  handle : s.thread = false → s.world.stop = true ∧ s.loopPc = .returned
  joined : s.callerPc = .joined → s.loopPc = .returned
  joining : s.callerPc = .joining ∨ s.callerPc = .joined → s.thread = true
  observed : s.loopPc = .returned → s.world.stop = true
  open_le : s.stopCalls + (if s.callerPc = .outside then 0 else 1) ≤ calls
  returned : s.stopCalls + (if s.callerPc = .outside then 0 else 1) < calls → s.thread = false

/-- The number of steps the loop thread needs to return once the flag `stop`
is set and the mutex is free. -/
def LoopPc.toReturn : LoopPc → Nat
  | .returned => 0
  | .test => 1
  | .unlocked => 2
  | .updated => 3
  | .updating => 4
  | .locked => 5
  | .wantLock => 6
  | .body => 7

/-- The number of steps after which the factory thread has released the mutex
it holds. -/
def FactoryPc.toRelease : FactoryPc → Nat
  | .locked _ => 3
  | .loaded _ => 2
  | .inited => 1
  | _ => 0


/-! ### The threads around the simulator (src/server/Simulator.cc)

`Simulator::PhysicsLoop` runs in the thread made by `Simulator::StartPhysics`
and `Simulator::StopPhysics` is called from another thread; the steps of the two
threads are interleaved as for the world.  A pass of the physics loop is one
step, begun when the loop test is passed and done when its body is. -/

/-- The two threads. -/
inductive PhysicsThreadId where
  | loop
  | caller
  deriving Repr, DecidableEq

/-- Where the thread of `Simulator::PhysicsLoop` is. -/
inductive PhysicsPc where
  /-- At `while (!this->physicsQuit)`. -/
  | test
  /-- Inside the loop body, `world->Update()` included. -/
  | body
  /-- The function `PhysicsLoop` has returned. -/
  | returned
  deriving Repr, DecidableEq

/-- The simulator and the two threads: `physicsThread` tells whether the
member `this->physicsThread` is not `NULL`, `walls` are the wall-clock
readings of the passes to come, `callerPc` is the place of the caller inside
`StopPhysics` and `stopCalls` the number of calls of `StopPhysics` still to be
made. -/
structure PhysicsThreads (T : Type) where
  sim : Simulator T
  physicsThread : Bool
  loopPc : PhysicsPc
  walls : List T
  callerPc : CallerPc
  stopCalls : Nat

/-- One step of the thread of `Simulator::PhysicsLoop`. -/
def PhysicsThreads.loopStep {T : Type} [LinearOrderedAddCommGroup T] (step : T)
    (s : PhysicsThreads T) : PhysicsThreads T :=
  match s.loopPc with
  | .test =>
    if s.sim.physicsQuit then { s with loopPc := .returned }
    else
      match s.walls with
      | [] => s
      | _ :: _ => { s with loopPc := .body }
  | .body =>
    match s.walls with
    | [] => s
    | wall :: rest =>
      let r := s.sim.PhysicsLoopBody step wall
      { s with sim := r.1, walls := rest, loopPc := if r.2 then .returned else .test }
  | .returned => s

/-- One step of the thread that calls `Simulator::StopPhysics`. -/
def PhysicsThreads.callerStep {T : Type} (s : PhysicsThreads T) : PhysicsThreads T :=
  match s.callerPc with
  | .outside =>
    match s.stopCalls with
    | 0 => s
    | n + 1 =>
      { s with sim := { s.sim with physicsQuit := true }, stopCalls := n, callerPc := .flagged }
  | .flagged =>
    if s.physicsThread then { s with callerPc := .joining } else { s with callerPc := .outside }
  | .joining => if s.loopPc = .returned then { s with callerPc := .joined } else s
  | .joined => { s with physicsThread := false, callerPc := .outside }

/-- One step of the system, made by the thread `t`. -/
def PhysicsThreads.step {T : Type} [LinearOrderedAddCommGroup T] (step : T)
    (t : PhysicsThreadId) (s : PhysicsThreads T) : PhysicsThreads T :=
  match t with
  | .loop => s.loopStep step
  | .caller => s.callerStep

/-- The steps of a schedule, first step first. -/
def PhysicsThreads.run {T : Type} [LinearOrderedAddCommGroup T] (step : T) :
    List PhysicsThreadId → PhysicsThreads T → PhysicsThreads T
  | [], s => s
  | t :: ts, s => PhysicsThreads.run step ts (s.step step t)

/-- The system right after `Simulator::StartPhysics`. -/
def PhysicsThreads.started {T : Type} (sim : Simulator T) (walls : List T)
    (stopCalls : Nat) : PhysicsThreads T :=
  { sim := sim, physicsThread := true, loopPc := .test, walls := walls,
    callerPc := .outside, stopCalls := stopCalls }

/-- The invariant of the system: the flag, the thread handle and the place of
the caller of `StopPhysics` agree, `calls` being the number of calls of
`StopPhysics` at the start. -/
structure PhysicsThreads.Inv {T : Type} (calls : Nat) (s : PhysicsThreads T) : Prop where
  flag : s.callerPc ≠ .outside → s.sim.physicsQuit = true
  handle : s.physicsThread = false → s.sim.physicsQuit = true ∧ s.loopPc = .returned
  joined : s.callerPc = .joined → s.loopPc = .returned
  joining : s.callerPc = .joining ∨ s.callerPc = .joined → s.physicsThread = true
  pass : s.loopPc = .body → s.walls ≠ []
  open_le : s.stopCalls + (if s.callerPc = .outside then 0 else 1) ≤ calls
  returned : s.stopCalls + (if s.callerPc = .outside then 0 else 1) < calls →
    s.physicsThread = false

/-- A schedule for examples: `Stop` is called twice while the loop thread is
in its first pass. -/
def stopSchedule : List ThreadId :=
  [.loop, .loop, .caller, .loop, .caller, .caller, .loop, .loop, .loop, .loop, .loop,
    .caller, .caller, .caller, .caller]

/-- A schedule for examples: `StopPhysics` is called twice while the physics
loop is in its first pass. -/
def stopPhysicsSchedule : List PhysicsThreadId :=
  [.loop, .caller, .caller, .caller, .loop, .loop, .caller, .caller, .caller, .caller]

/-! ## The effects of one `World::Update` -/

theorem World.updateChildrenFrom_eq {T : Type} (root : Base) (fuel i : Nat) (w : World T)
    (h : i + fuel = root.GetChildCount) :
    World.updateChildrenFrom root fuel i w =
      { w with trace := w.trace ++ (List.range' i fuel).map Effect.entityUpdate } := by
  induction fuel generalizing i w with
  | zero => simp [World.updateChildrenFrom]
  | succ k ih =>
    have hlt : i < root.GetChildCount := by omega
    rw [World.updateChildrenFrom, if_pos hlt, ih (i + 1) _ (by omega)]
    simp [World.emit, List.range'_succ]

theorem World.Update_ok {T : Type} (w : World T) (root : Base)
    (hroot : w.rootElement = some root)
    (hfun : w.modelUpdateFunc = some .ModelUpdateSingleLoop) :
    w.Update = .ok { w with trace := w.trace ++ [Effect.worldUpdateStartSignal] ++
      (List.range root.GetChildCount).map Effect.entityUpdate ++
      (if w.physicsEngine.isSome then [Effect.UpdatePhysics] else []) ++
      [Effect.worldUpdateEndSignal] } := by
  unfold World.Update
  simp only [World.emit, hfun, World.ModelUpdateSingleLoop, hroot]
  rw [World.updateChildrenFrom_eq root _ 0 _ (by simp)]
  cases hpe : w.physicsEngine <;> simp [World.emit, List.range_eq_range']

theorem World.Update_loaded {T : Type} (w : World T) (h : w.Loaded) :
    ∃ root, w.rootElement = some root ∧
      w.Update = .ok { w with trace := w.trace ++ [Effect.worldUpdateStartSignal] ++
        (List.range root.GetChildCount).map Effect.entityUpdate ++
        [Effect.UpdatePhysics, Effect.worldUpdateEndSignal] } := by
  obtain ⟨hr, he, hf⟩ := h
  obtain ⟨root, hroot⟩ := Option.isSome_iff_exists.mp hr
  refine ⟨root, hroot, ?_⟩
  rw [World.Update_ok w root hroot hf, he]
  simp

theorem updateCalls_append {T : Type} (a b : List (Effect T)) :
    updateCalls (a ++ b) = updateCalls a + updateCalls b := by
  simp [updateCalls]

theorem updateCalls_entityUpdates {T : Type} (l : List Nat) :
    updateCalls (l.map (Effect.entityUpdate : Nat → Effect T)) = 0 := by
  induction l with
  | nil => rfl
  | cons a l ih =>
    simp only [updateCalls, List.map_cons, List.countP_cons] at ih ⊢
    simp [ih, Effect.isUpdateStart]

/-! ## One iteration of the loop of `World::RunLoop` -/

theorem World.publishStats_fields {T : Type} [LinearOrderedAddCommGroup T] (c : IterClock T)
    (w : World T) :
    (w.publishStats c).simTime = w.simTime ∧ (w.publishStats c).pauseTime = w.pauseTime ∧
    (w.publishStats c).pause = w.pause ∧ (w.publishStats c).stepInc = w.stepInc ∧
    (w.publishStats c).stop = w.stop ∧ (w.publishStats c).rootElement = w.rootElement ∧
    (w.publishStats c).physicsEngine = w.physicsEngine ∧
    (w.publishStats c).modelUpdateFunc = w.modelUpdateFunc ∧
    updateCalls (w.publishStats c).trace = updateCalls w.trace := by
  unfold World.publishStats
  split <;> simp [World.emit, updateCalls, Effect.isUpdateStart]

theorem World.publishStats_loaded {T : Type} [LinearOrderedAddCommGroup T] (c : IterClock T)
    (w : World T) (h : w.Loaded) : (w.publishStats c).Loaded := by
  obtain ⟨_, _, _, _, _, h1, h2, h3, _⟩ := World.publishStats_fields c w
  unfold World.Loaded at h ⊢
  rw [h1, h2, h3]
  exact h

theorem World.advance_paused {T : Type} [LinearOrderedAddCommGroup T] (step : T) (w : World T)
    (hp : w.pause = true) (hs : w.stepInc = false) :
    w.advance step = .ok { w with pauseTime := w.pauseTime + step } := by
  simp [World.advance, World.IsPaused, hp, hs]

theorem World.advance_stepping {T : Type} [LinearOrderedAddCommGroup T] (step : T) (w : World T)
    (h : w.Loaded) (hps : w.pause = false ∨ w.stepInc = true) :
    ∃ root, w.rootElement = some root ∧
      w.advance step = .ok { w with
        simTime := w.simTime + step
        trace := w.trace ++ [Effect.lockUpdateMutex, Effect.worldUpdateStartSignal] ++
          (List.range root.GetChildCount).map Effect.entityUpdate ++
          [Effect.UpdatePhysics, Effect.worldUpdateEndSignal, Effect.unlockUpdateMutex] } := by
  have hl : ({ w.emit Effect.lockUpdateMutex with simTime := w.simTime + step } : World T).Loaded := h
  obtain ⟨root, hroot, hupd⟩ := World.Update_loaded _ hl
  refine ⟨root, hroot, ?_⟩
  have hc : (w.IsPaused && !w.stepInc) = false := by
    rcases hps with hp | hs
    · simp [World.IsPaused, hp]
    · simp [hs]
  simp only [World.advance, hc]
  simp only [World.emit] at hupd ⊢
  simp [hupd]

theorem World.RunLoopBody_stepping {T : Type} [LinearOrderedAddCommGroup T] (step : T)
    (c : IterClock T) (w : World T) (h : w.Loaded) (hps : w.pause = false ∨ w.stepInc = true) :
    ∃ w1, w.RunLoopBody step c = .ok w1 ∧ w1.simTime = w.simTime + step ∧
      w1.pauseTime = w.pauseTime ∧ w1.pause = w.pause ∧ w1.stop = w.stop ∧
      w1.stepInc = (!w.pause && w.stepInc) ∧ w1.Loaded ∧
      updateCalls w1.trace = updateCalls w.trace + 1 := by
  obtain ⟨h1, h2, h3, h4, h5, h6, h7, h8, h9⟩ := World.publishStats_fields c w
  have hl := World.publishStats_loaded c w h
  obtain ⟨root, -, hadv⟩ := World.advance_stepping step (w.publishStats c) hl (by rw [h3, h4]; exact hps)
  simp only [World.RunLoopBody, hadv]
  refine ⟨_, rfl, ?_⟩
  have hcnt : ∀ (tr : List (Effect T)) (l : List Nat),
      updateCalls (tr ++ [Effect.lockUpdateMutex, Effect.worldUpdateStartSignal] ++
        l.map Effect.entityUpdate ++
        [Effect.UpdatePhysics, Effect.worldUpdateEndSignal, Effect.unlockUpdateMutex])
        = updateCalls tr + 1 := by
    intro tr l
    rw [updateCalls_append, updateCalls_append, updateCalls_append, updateCalls_entityUpdates]
    simp [updateCalls, Effect.isUpdateStart]
  unfold World.clearStep World.IsPaused
  unfold World.Loaded at hl ⊢
  split <;> rename_i hc <;> simp only [h3, h4] at hc <;>
    simp only [h1, h2, h3, h4, h5, hcnt, h9] <;>
    cases hp : w.pause <;> cases hs : w.stepInc <;> simp_all

theorem World.RunLoopBody_paused {T : Type} [LinearOrderedAddCommGroup T] (step : T)
    (c : IterClock T) (w : World T) (hp : w.pause = true) (hs : w.stepInc = false) :
    w.RunLoopBody step c =
      .ok { w.publishStats c with pauseTime := (w.publishStats c).pauseTime + step } := by
  obtain ⟨-, -, h3, h4, -⟩ := World.publishStats_fields c w
  simp only [World.RunLoopBody]
  rw [World.advance_paused step _ (h3.trans hp) (h4.trans hs)]
  simp [World.clearStep, h4, hs]

/-! ## Runs of the loop of `World::RunLoop` -/

theorem World.RunLoopIters_unpaused {T : Type} [LinearOrderedAddCommGroup T] (step : T)
    (cs : List (IterClock T)) (w : World T) (h : w.Loaded) (hp : w.pause = false)
    (hstop : w.stop = false) :
    ∃ w1, w.RunLoopIters step cs = .ok w1 ∧ w1.simTime = w.simTime + cs.length • step ∧
      w1.pauseTime = w.pauseTime ∧ w1.pause = false ∧
      updateCalls w1.trace = updateCalls w.trace + cs.length := by
  induction cs generalizing w with
  | nil => exact ⟨w, rfl, by simp, rfl, hp, rfl⟩
  | cons c cs ih =>
    obtain ⟨w1, hb, hsim, hpt, hpause, hst, -, hl, hcnt⟩ :=
      World.RunLoopBody_stepping step c w h (Or.inl hp)
    obtain ⟨w2, hrun, hsim2, hpt2, hpause2, hcnt2⟩ :=
      ih w1 hl (hpause.trans hp) (hst.trans hstop)
    refine ⟨w2, ?_, ?_, ?_, hpause2, ?_⟩
    · simp [World.RunLoopIters, hstop, hb, hrun]
    · rw [hsim2, hsim, List.length_cons, succ_nsmul]
      abel
    · rw [hpt2, hpt]
    · rw [hcnt2, hcnt, List.length_cons]
      omega

/-- C1: an iteration of the loop of `World::RunLoop` entered with the world not
paused adds exactly the step time to `simTime` and leaves `pauseTime` as it was;
`n` consecutive unpaused iterations from `simTime = t` end at `t + n * step`,
also when run through `World::RunLoop` with the step time of the engine; with
exact seconds, 100 iterations of step 0.001 from 0 end at 0.1. -/
theorem C1_unpaused_iterations_advance_simTime {T : Type} [LinearOrderedAddCommGroup T] :
    (∀ (step : T) (c : IterClock T) (w : World T), w.Loaded → w.pause = false →
      ∃ w1, w.RunLoopBody step c = .ok w1 ∧ w1.simTime = w.simTime + step ∧
        w1.pauseTime = w.pauseTime) ∧
    (∀ (step : T) (cs : List (IterClock T)) (w : World T), w.Loaded → w.pause = false →
      w.stop = false →
      ∃ w1, w.RunLoopIters step cs = .ok w1 ∧ w1.simTime = w.simTime + cs.length • step ∧
        w1.pauseTime = w.pauseTime) ∧
    (∀ (wallStart : T) (cs : List (IterClock T)) (w : World T) (engine : PhysicsEngine T),
      w.Loaded → w.physicsEngine = some engine → w.pause = false → w.stop = false →
      ∃ w1, w.RunLoop wallStart cs = .ok w1 ∧
        w1.simTime = w.simTime + cs.length • engine.GetStepTime ∧
        w1.pauseTime = w.pauseTime) ∧
    (∀ (cs : List (IterClock ℚ)) (w : World ℚ), w.Loaded → w.pause = false →
      w.stop = false → w.simTime = 0 → cs.length = 100 →
      ∃ w1, w.RunLoopIters (1 / 1000) cs = .ok w1 ∧ w1.simTime = 1 / 10) := by
  refine ⟨?_, ?_, ?_, ?_⟩
  · intro step c w h hp
    obtain ⟨w1, hb, hsim, hpt, -⟩ := World.RunLoopBody_stepping step c w h (Or.inl hp)
    exact ⟨w1, hb, hsim, hpt⟩
  · intro step cs w h hp hstop
    obtain ⟨w1, hrun, hsim, hpt, -⟩ := World.RunLoopIters_unpaused step cs w h hp hstop
    exact ⟨w1, hrun, hsim, hpt⟩
  · intro wallStart cs w engine h he hp hstop
    have hl : ({ w.emit Effect.InitForThread with startTime := wallStart } : World T).Loaded := h
    obtain ⟨w1, hrun, hsim, hpt, -⟩ :=
      World.RunLoopIters_unpaused engine.GetStepTime cs _ hl hp hstop
    exact ⟨w1, by simp only [World.RunLoop, he]; exact hrun, hsim, hpt⟩
  · intro cs w h hp hstop h0 hlen
    obtain ⟨w1, hrun, hsim, -⟩ := World.RunLoopIters_unpaused (1 / 1000 : ℚ) cs w h hp hstop
    refine ⟨w1, hrun, ?_⟩
    rw [hsim, h0, hlen]
    norm_num

/-- Witness of C1 on the sample world: one unpaused iteration with a step of
one millisecond. -/
theorem C1_witness :
    sampleWorld.Loaded ∧ sampleWorld.pause = false ∧
      ∃ w1, sampleWorld.RunLoopBody 1000000 ⟨0, 0, 0⟩ = .ok w1 ∧
        w1.simTime = sampleWorld.simTime + 1000000 ∧ w1.pauseTime = sampleWorld.pauseTime :=
  ⟨⟨rfl, rfl, rfl⟩, rfl,
    C1_unpaused_iterations_advance_simTime.1 1000000 ⟨0, 0, 0⟩ sampleWorld ⟨rfl, rfl, rfl⟩ rfl⟩

/-- C2: an iteration of the loop of `World::RunLoop` entered with the world
paused and `stepInc` false adds exactly the step time to `pauseTime`, leaves
`simTime` as it was and does not call `World::Update`: apart from `pauseTime`
the state is the one the statistics block left, and no effect other than a
possible statistics message is produced. -/
theorem C2_paused_iteration_accumulates_pauseTime {T : Type} [LinearOrderedAddCommGroup T]
    (step : T) (c : IterClock T) (w : World T) (hp : w.pause = true)
    (hs : w.stepInc = false) :
    ∃ w1, w.RunLoopBody step c = .ok w1 ∧ w1.pauseTime = w.pauseTime + step ∧
      w1.simTime = w.simTime ∧ updateCalls w1.trace = updateCalls w.trace ∧
      w1.trace = (w.publishStats c).trace ∧
      w1 = { w.publishStats c with pauseTime := w.pauseTime + step } := by
  obtain ⟨h1, h2, -, -, -, -, -, -, h9⟩ := World.publishStats_fields c w
  refine ⟨_, World.RunLoopBody_paused step c w hp hs, ?_, h1, h9, rfl, ?_⟩
  · simp [h2]
  · simp [h2]

/-- Witness of C2 on the paused sample world. -/
theorem C2_witness :
    ∃ w1, pausedWorld.RunLoopBody 1000000 ⟨0, 0, 0⟩ = .ok w1 ∧
      w1.pauseTime = pausedWorld.pauseTime + 1000000 ∧
      w1.simTime = pausedWorld.simTime ∧ updateCalls w1.trace = updateCalls pausedWorld.trace ∧
      w1.trace = (pausedWorld.publishStats ⟨0, 0, 0⟩).trace ∧
      w1 = { pausedWorld.publishStats ⟨0, 0, 0⟩ with pauseTime := pausedWorld.pauseTime + 1000000 } :=
  C2_paused_iteration_accumulates_pauseTime 1000000 ⟨0, 0, 0⟩ pausedWorld (by decide) (by decide)

/-! ## Single stepping while paused (C3) -/

theorem World.SetPaused_same {T : Type} [LinearOrderedAddCommGroup T] (wall : T) (w : World T) :
    w.SetPaused wall w.pause = w := by
  simp [World.SetPaused]

theorem World.SetPaused_trace {T : Type} [LinearOrderedAddCommGroup T] (wall : T) (p : Bool)
    (w : World T) :
    (w.SetPaused wall p).trace = w.trace ++ (if p = w.pause then [] else [Effect.pauseSignal p]) ∧
      (w.SetPaused wall p).pause = p := by
  unfold World.SetPaused
  by_cases h : w.pause = p
  · simp [h]
  · have h2 : ¬ p = w.pause := fun e => h e.symm
    cases p <;> simp [h, h2, World.emit]

theorem Simulator.SetPaused_effects {T : Type} (p : Bool) (s : Simulator T) :
    (s.SetPaused p).trace = s.trace ++ [SimEffect.lockMRMutex] ++
        (if p = s.pause then [] else [SimEffect.pauseSignal p]) ++ [SimEffect.unlockMRMutex] ∧
      (s.SetPaused p).pause = p := by
  unfold Simulator.SetPaused
  by_cases h : s.pause = p
  · simp [h]
  · have h2 : ¬ p = s.pause := fun e => h e.symm
    simp [h, h2]

/-- C4: `SetPaused(p)` fires the pause notification exactly when `p` differs
from the current pause flag, and with `p` equal to the flag it returns the
state it was given (pause flag, `pauseStartTime`, `realTimeOffset` and all
other members; the simulator only takes and releases its lock).  A second
`SetPaused(p)` in a row never fires, so on a running world or simulator two
consecutive `SetPaused(true)` fire exactly one notification.  All of this for
`World::SetPaused` and for `Simulator::SetPaused`. -/
theorem C4_SetPaused_notifies_only_on_transition {T : Type} [LinearOrderedAddCommGroup T] :
    (∀ (wall : T) (p : Bool) (w : World T),
      (w.SetPaused wall p).trace =
        w.trace ++ (if p = w.pause then [] else [Effect.pauseSignal p]) ∧
      pauseSignals (w.SetPaused wall p).trace =
        pauseSignals w.trace + (if p = w.pause then 0 else 1)) ∧
    (∀ (wall : T) (p : Bool) (w : World T), p = w.pause → w.SetPaused wall p = w) ∧
    (∀ (wall1 wall2 : T) (p : Bool) (w : World T),
      (w.SetPaused wall1 p).SetPaused wall2 p = w.SetPaused wall1 p) ∧
    (∀ (wall1 wall2 : T) (w : World T), w.pause = false →
      ((w.SetPaused wall1 true).SetPaused wall2 true).trace =
        w.trace ++ [Effect.pauseSignal true] ∧
      pauseSignals ((w.SetPaused wall1 true).SetPaused wall2 true).trace =
        pauseSignals w.trace + 1) ∧
    (∀ (p : Bool) (s : Simulator T),
      (s.SetPaused p).trace = s.trace ++ [SimEffect.lockMRMutex] ++
        (if p = s.pause then [] else [SimEffect.pauseSignal p]) ++ [SimEffect.unlockMRMutex] ∧
      simPauseSignals (s.SetPaused p).trace =
        simPauseSignals s.trace + (if p = s.pause then 0 else 1)) ∧
    (∀ (p : Bool) (s : Simulator T), p = s.pause →
      s.SetPaused p =
        { s with trace := s.trace ++ [SimEffect.lockMRMutex, SimEffect.unlockMRMutex] }) ∧
    (∀ (s : Simulator T), s.pause = false →
      simPauseSignals ((s.SetPaused true).SetPaused true).trace = simPauseSignals s.trace + 1) := by
  refine ⟨?_, ?_, ?_, ?_, ?_, ?_, ?_⟩
  · intro wall p w
    have ht := (World.SetPaused_trace wall p w).1
    refine ⟨ht, ?_⟩
    rw [ht]
    by_cases h : p = w.pause <;> simp [h, pauseSignals, Effect.isPauseSignal]
  · intro wall p w h
    rw [h]
    exact World.SetPaused_same wall w
  · intro wall1 wall2 p w
    have h := (World.SetPaused_trace wall1 p w).2
    have := World.SetPaused_same wall2 (w.SetPaused wall1 p)
    rw [h] at this
    exact this
  · intro wall1 wall2 w hw
    have h1 := World.SetPaused_trace wall1 true w
    have h2 := World.SetPaused_trace wall2 true (w.SetPaused wall1 true)
    have ht : ((w.SetPaused wall1 true).SetPaused wall2 true).trace =
        w.trace ++ [Effect.pauseSignal true] := by
      rw [h2.1, h1.1, h1.2, hw]
      simp
    refine ⟨ht, ?_⟩
    rw [ht]
    simp [pauseSignals, Effect.isPauseSignal]
  · intro p s
    have ht := (Simulator.SetPaused_effects p s).1
    refine ⟨ht, ?_⟩
    rw [ht]
    by_cases h : p = s.pause <;> simp [h, simPauseSignals, SimEffect.isPauseSignal]
  · intro p s h
    subst h
    simp [Simulator.SetPaused]
  · intro s hs
    have h1 := Simulator.SetPaused_effects true s
    have h2 := Simulator.SetPaused_effects true (s.SetPaused true)
    rw [h2.1, h1.1, h1.2, hs]
    simp [simPauseSignals, SimEffect.isPauseSignal]

/-- Witness of C4: pausing the running sample world twice, at 5 ms and at 7 ms. -/
theorem C4_witness :
    sampleWorld.pause = false ∧
    ((sampleWorld.SetPaused 5000000 true).SetPaused 7000000 true).trace =
        sampleWorld.trace ++ [Effect.pauseSignal true] ∧
      pauseSignals ((sampleWorld.SetPaused 5000000 true).SetPaused 7000000 true).trace =
        pauseSignals sampleWorld.trace + 1 :=
  ⟨rfl, C4_SetPaused_notifies_only_on_transition.2.2.2.1 5000000 7000000 sampleWorld rfl⟩

/-! ## A step request made while the world runs (C5) -/

theorem World.SetPaused_fields {T : Type} [LinearOrderedAddCommGroup T] (wall : T) (p : Bool)
    (w : World T) :
    (w.SetPaused wall p).stepInc = w.stepInc ∧ (w.SetPaused wall p).simTime = w.simTime ∧
    (w.SetPaused wall p).pauseTime = w.pauseTime ∧ (w.SetPaused wall p).stop = w.stop ∧
    (w.SetPaused wall p).rootElement = w.rootElement ∧
    (w.SetPaused wall p).physicsEngine = w.physicsEngine ∧
    (w.SetPaused wall p).modelUpdateFunc = w.modelUpdateFunc ∧
    updateCalls (w.SetPaused wall p).trace = updateCalls w.trace := by
  unfold World.SetPaused
  by_cases h : w.pause = p
  · simp [h]
  · cases p <;> simp [h, World.emit, updateCalls, Effect.isUpdateStart]

theorem World.step_request_survives_unpaused {T : Type} [LinearOrderedAddCommGroup T]
    (step wall : T) (c1 c2 : IterClock T) (w : World T) (h : w.Loaded) (hp : w.pause = false) :
    ∃ w1 w2, w.OnStep.RunLoopBody step c1 = .ok w1 ∧ w1.stepInc = true ∧
      w1.simTime = w.simTime + step ∧ (w1.SetPaused wall true).pause = true ∧
      (w1.SetPaused wall true).RunLoopBody step c2 = .ok w2 ∧
      w2.simTime = w.simTime + step + step ∧
      updateCalls w2.trace = updateCalls w1.trace + 1 ∧ w2.stepInc = false := by
  obtain ⟨w1, hb, hsim, -, hpause, -, hstep, hl, -⟩ :=
    World.RunLoopBody_stepping step c1 w.OnStep h (Or.inl hp)
  have hp0 : w.OnStep.pause = false := hp
  have hs0 : w.OnStep.stepInc = true := rfl
  have hs1 : w1.stepInc = true := by rw [hstep, hp0, hs0]; rfl
  obtain ⟨f1, f2, -, -, f5, f6, f7, f8⟩ := World.SetPaused_fields wall true w1
  have hp2 := (World.SetPaused_trace wall true w1).2
  have hl2 : (w1.SetPaused wall true).Loaded := by
    unfold World.Loaded at hl ⊢
    rw [f5, f6, f7]
    exact hl
  obtain ⟨w2, hb2, hsim2, -, -, -, hstep2, -, hcnt2⟩ :=
    World.RunLoopBody_stepping step c2 (w1.SetPaused wall true) hl2 (Or.inr (f1.trans hs1))
  refine ⟨w1, w2, hb, hs1, hsim, hp2, hb2, ?_, ?_, ?_⟩
  · rw [hsim2, f2, hsim]
    rfl
  · rw [hcnt2, f8]
  · rw [hstep2, hp2]
    rfl

/-- C5, the code at the failing input: `OnStep()` on the running sample world,
one iteration (the request is still set when it ends), `SetPaused(true)`, one
more iteration: that iteration, entered paused, adds a step to `simTime` and
calls `Update`; only then is the request cleared. -/
theorem C5_step_request_outlives_unpaused_iteration :
    sampleWorld.pause = false ∧
    ∃ w1 w2, sampleWorld.OnStep.RunLoopBody 1000000 ⟨0, 0, 0⟩ = .ok w1 ∧
      w1.stepInc = true ∧ w1.simTime = 1000000 ∧
      (w1.SetPaused 7000000 true).pause = true ∧
      (w1.SetPaused 7000000 true).RunLoopBody 1000000 ⟨0, 0, 0⟩ = .ok w2 ∧
      w2.simTime = 2000000 ∧ updateCalls w2.trace = updateCalls w1.trace + 1 ∧
      w2.stepInc = false := by
  obtain ⟨w1, w2, h1, h2, h3, h4, h5, h6, h7, h8⟩ :=
    World.step_request_survives_unpaused (1000000 : ℤ) 7000000 ⟨0, 0, 0⟩ ⟨0, 0, 0⟩ sampleWorld
      ⟨rfl, rfl, rfl⟩ rfl
  exact ⟨rfl, w1, w2, h1, h2, h3, h4, h5, h6, h7, h8⟩

/-! ## The effects of `World::Update` (C6) -/

/-- C6: on a loaded world with `n` top-level entities and a physics engine,
`World::Update` returns, changes nothing but the trace, and adds to it exactly:
the world-update-start signal, `Update()` on the top-level entities
`0, 1, ..., n-1` in this order, one `UpdatePhysics()`, the world-update-end
signal. -/
theorem C6_Update_effect_sequence {T : Type} (w : World T) (root : Base)
    (engine : PhysicsEngine T) (n : Nat)
    (hroot : w.rootElement = some root) (hn : root.GetChildCount = n)
    (hengine : w.physicsEngine = some engine)
    (hfun : w.modelUpdateFunc = some .ModelUpdateSingleLoop) :
    w.Update = .ok { w with trace := w.trace ++
      ([Effect.worldUpdateStartSignal] ++ (List.range n).map Effect.entityUpdate ++
        [Effect.UpdatePhysics, Effect.worldUpdateEndSignal]) } := by
  rw [World.Update_ok w root hroot hfun, hengine, hn]
  simp

/-- Witness of C6: the sample world has two models. -/
theorem C6_witness :
    sampleWorld.Update = .ok { sampleWorld with trace := sampleWorld.trace ++
      ([Effect.worldUpdateStartSignal] ++ (List.range 2).map Effect.entityUpdate ++
        [Effect.UpdatePhysics, Effect.worldUpdateEndSignal]) } :=
  C6_Update_effect_sequence sampleWorld _ _ 2 rfl rfl rfl rfl

/-! ## Control messages (C7) -/

/-- C7, counterexample: a control message that carries the step field with
value false sets `stepInc` on the sample world, where it was false. -/
theorem C7_counterexample :
    ¬ ((sampleWorld.OnControl 0 { pause := none, step := some false }).stepInc
        = sampleWorld.stepInc) := by
  decide

/-- C7, amended: after `World::OnControl(msg)` the pause flag is `msg.pause`
when the message carries the pause field and is unchanged when it does not;
`stepInc` is true whenever the message carries the step field, whatever the
value of the field, and is unchanged when the field is absent. -/
theorem C7_OnControl_flags {T : Type} [LinearOrderedAddCommGroup T] (wall : T)
    (data : WorldControl) (w : World T) :
    (w.OnControl wall data).pause = data.pause.getD w.pause ∧
    (∀ b : Bool, data.step = some b → (w.OnControl wall data).stepInc = true) ∧
    (data.step = none → (w.OnControl wall data).stepInc = w.stepInc) := by
  have hsp : ∀ p : Bool, (w.SetPaused wall p).stepInc = w.stepInc := by
    intro p
    unfold World.SetPaused
    by_cases h : w.pause = p
    · simp [h]
    · cases p <;> simp [h, World.emit]
  obtain ⟨dp, ds⟩ := data
  cases dp with
  | none =>
    cases ds with
    | none => simp [World.OnControl]
    | some b => simp [World.OnControl, World.OnStep]
  | some p =>
    have h := (World.SetPaused_trace wall p w).2
    cases ds with
    | none => simp [World.OnControl, h, hsp]
    | some b => simp [World.OnControl, World.OnStep, h]

/-- Witness of C7: a message with pause true and step false on the sample
world. -/
theorem C7_witness :
    (sampleWorld.OnControl 3 { pause := some true, step := some false }).pause = true ∧
    (sampleWorld.OnControl 3 { pause := some true, step := some false }).stepInc = true :=
  ⟨(C7_OnControl_flags 3 { pause := some true, step := some false } sampleWorld).1,
    (C7_OnControl_flags 3 { pause := some true, step := some false } sampleWorld).2.1 false rfl⟩

/-! ## Factory messages (C8, C9, C10) -/

theorem World.LoadModel_ok {T E : Type} (env : SdfEnv E) (sdf : E) (w : World T)
    (parent : Base) (name : String) (hroot : w.rootElement = some parent)
    (hload : env.modelLoad sdf = .ok name) :
    w.LoadModel env sdf = .ok ({ name := name, scope := parent.name },
      { w with
        rootElement := some { parent with
          children := parent.children ++ [{ name := name, scope := parent.name }] }
        trace := w.trace ++ [Effect.modelLoad,
          Effect.addEntitySignal (Model.GetCompleteScopedName ⟨name, parent.name⟩),
          Effect.newEntityPublish (Model.GetCompleteScopedName ⟨name, parent.name⟩)] }) := by
  simp [World.LoadModel, hroot, hload, World.emit]

theorem World.LoadModel_inv {T E : Type} (env : SdfEnv E) (sdf : E) (w : World T)
    (r : Model × World T) (h : w.LoadModel env sdf = .ok r) :
    ∃ parent name, w.rootElement = some parent ∧ env.modelLoad sdf = .ok name := by
  unfold World.LoadModel at h
  cases hroot : w.rootElement with
  | none => simp [hroot] at h
  | some parent =>
    cases hload : env.modelLoad sdf with
    | error f => simp [hroot, hload] at h
    | ok name => exact ⟨parent, name, rfl, rfl⟩

theorem World.OnFactoryMsg_ok {T E : Type} (env : SdfEnv E) (msg : Factory) (w : World T)
    (parent : Base) (name : String) (hroot : w.rootElement = some parent)
    (hload : env.modelLoad (World.readFactorySDF env msg).2.2.root = .ok name) :
    w.OnFactoryMsg env msg = .ok { w with
      rootElement := some { parent with
        children := parent.children ++ [{ name := name, scope := parent.name }] }
      trace := w.trace ++ [Effect.sdfInitString (World.readFactorySDF env msg).1,
        Effect.sdfRead (World.readFactorySDF env msg).2.1,
        Effect.lockUpdateMutex, Effect.modelLoad,
        Effect.addEntitySignal (Model.GetCompleteScopedName ⟨name, parent.name⟩),
        Effect.newEntityPublish (Model.GetCompleteScopedName ⟨name, parent.name⟩),
        Effect.modelInit (Model.GetCompleteScopedName ⟨name, parent.name⟩),
        Effect.unlockUpdateMutex] } := by
  unfold World.OnFactoryMsg
  simp only []
  rw [World.LoadModel_ok env _ _ parent name (by simpa [World.emit] using hroot) hload]
  simp [World.emit]

theorem World.OnFactoryMsg_error {T E : Type} (env : SdfEnv E) (msg : Factory) (w : World T)
    (parent : Base) (f : Fault) (hroot : w.rootElement = some parent)
    (hload : env.modelLoad (World.readFactorySDF env msg).2.2.root = .error f) :
    w.OnFactoryMsg env msg = .error f := by
  simp [World.OnFactoryMsg, World.LoadModel, World.emit, hroot, hload]

theorem World.OnFactoryMsg_inv {T E : Type} (env : SdfEnv E) (msg : Factory) (w w1 : World T)
    (h : w.OnFactoryMsg env msg = .ok w1) :
    ∃ parent name, w.rootElement = some parent ∧
      env.modelLoad (World.readFactorySDF env msg).2.2.root = .ok name := by
  unfold World.OnFactoryMsg at h
  simp only [] at h
  split at h
  · simp at h
  · rename_i model w2 hlm
    obtain ⟨parent, name, hroot, hload⟩ := World.LoadModel_inv env _ _ _ hlm
    exact ⟨parent, name, by simpa [World.emit] using hroot, hload⟩

/-- C8, counterexample: the inline description of the message does not parse
(`sdf::readString` returns false), and still `World::OnFactoryMsg` on the
sample world runs `LoadModel`: a third model stands under the root, the
entity-added notification is emitted and `Init` is called on the new model. -/
theorem C8_counterexample :
    (World.readFactorySDF toyEnv { xml := some "", filename := "" }).2.1 = false ∧
    sampleWorld.OnFactoryMsg toyEnv { xml := some "", filename := "" } =
      .ok { sampleWorld with
        rootElement := some { name := "root",
                              children := [{ name := "ground", scope := "root" },
                                           { name := "box", scope := "root" },
                                           { name := "", scope := "root" }] }
        trace := [Effect.sdfInitString true, Effect.sdfRead false, Effect.lockUpdateMutex,
          Effect.modelLoad, Effect.addEntitySignal "root::", Effect.newEntityPublish "root::",
          Effect.modelInit "root::", Effect.unlockUpdateMutex] } :=
  ⟨by decide, World.OnFactoryMsg_ok toyEnv _ sampleWorld _ "" rfl rfl⟩

/-- C8, amended: when `sdf::readString` or `sdf::readFile` reports failure,
`World::OnFactoryMsg` does not drop the message.  The value is not looked at:
`LoadModel` runs on the root of the SDF object as the parser left it; an error
raised by `Model::Load` leaves the handler, and otherwise one model is added
under the root, the add-entity signal and the new_entity message are emitted
and `Init` is called on the new model. -/
theorem C8_failed_parse_still_loads {T E : Type} (env : SdfEnv E) (msg : Factory)
    (w : World T) (parent : Base) (hroot : w.rootElement = some parent)
    (hfail : (World.readFactorySDF env msg).2.1 = false) :
    (∀ f, env.modelLoad (World.readFactorySDF env msg).2.2.root = .error f →
      w.OnFactoryMsg env msg = .error f) ∧
    (∀ name, env.modelLoad (World.readFactorySDF env msg).2.2.root = .ok name →
      ∃ w1, w.OnFactoryMsg env msg = .ok w1 ∧
        w1.rootElement = some { parent with
          children := parent.children ++ [{ name := name, scope := parent.name }] } ∧
        w1.trace = w.trace ++ [Effect.sdfInitString (World.readFactorySDF env msg).1,
          Effect.sdfRead false, Effect.lockUpdateMutex, Effect.modelLoad,
          Effect.addEntitySignal (Model.GetCompleteScopedName ⟨name, parent.name⟩),
          Effect.newEntityPublish (Model.GetCompleteScopedName ⟨name, parent.name⟩),
          Effect.modelInit (Model.GetCompleteScopedName ⟨name, parent.name⟩),
          Effect.unlockUpdateMutex]) := by
  refine ⟨fun f hload => World.OnFactoryMsg_error env msg w parent f hroot hload, ?_⟩
  intro name hload
  refine ⟨_, World.OnFactoryMsg_ok env msg w parent name hroot hload, rfl, ?_⟩
  simp [hfail]

/-- Witness of C8 (amended): a message whose file name does not parse, on the
sample world. -/
theorem C8_witness :
    ∃ w1, sampleWorld.OnFactoryMsg toyEnv { xml := none, filename := "" } = .ok w1 ∧
      w1.rootElement = some { name := "root",
                              children := [{ name := "ground", scope := "root" },
                                           { name := "box", scope := "root" }] ++
                                          [{ name := "", scope := "root" }] } ∧
      w1.trace = sampleWorld.trace ++ [Effect.sdfInitString true,
          Effect.sdfRead false, Effect.lockUpdateMutex, Effect.modelLoad,
          Effect.addEntitySignal (Model.GetCompleteScopedName ⟨"", "root"⟩),
          Effect.newEntityPublish (Model.GetCompleteScopedName ⟨"", "root"⟩),
          Effect.modelInit (Model.GetCompleteScopedName ⟨"", "root"⟩),
          Effect.unlockUpdateMutex] :=
  (C8_failed_parse_still_loads toyEnv { xml := none, filename := "" } sampleWorld _ rfl
    (by decide)).2 "" rfl

/-- C9, counterexample: handling the description `box1` on the sample world,
the add-entity signal and the new_entity message come before `Init()` of the
new model in the order of calls. -/
theorem C9_counterexample :
    ∃ w1, sampleWorld.OnFactoryMsg toyEnv { xml := some "box1", filename := "" } = .ok w1 ∧
      w1.trace = [Effect.sdfInitString true, Effect.sdfRead true, Effect.lockUpdateMutex,
          Effect.modelLoad, Effect.addEntitySignal "root::box1",
          Effect.newEntityPublish "root::box1", Effect.modelInit "root::box1",
          Effect.unlockUpdateMutex] ∧
      w1.trace.findIdx Effect.isAddEntitySignal < w1.trace.findIdx Effect.isModelInit ∧
      w1.trace.findIdx Effect.isNewEntityPublish < w1.trace.findIdx Effect.isModelInit :=
  ⟨_, World.OnFactoryMsg_ok toyEnv _ sampleWorld _ "box1" rfl rfl, by decide, by decide,
    by decide⟩

/-- C9, amended: a factory message that `World::OnFactoryMsg` handles goes
through parse, construct and `Load`, publish, `Init` in this order: the calls
it adds are the two parser calls, the lock, `Model::Load`, the add-entity
signal and the new_entity message of the new model, and only then `Init()` on
that model, then the release of the lock. -/
theorem C9_publish_before_Init {T E : Type} (env : SdfEnv E) (msg : Factory)
    (w w1 : World T) (h : w.OnFactoryMsg env msg = .ok w1) :
    ∃ (name : String) (initOk readOk : Bool),
      w1.trace = w.trace ++ [Effect.sdfInitString initOk, Effect.sdfRead readOk,
        Effect.lockUpdateMutex, Effect.modelLoad, Effect.addEntitySignal name,
        Effect.newEntityPublish name, Effect.modelInit name, Effect.unlockUpdateMutex] := by
  obtain ⟨parent, name, hroot, hload⟩ := World.OnFactoryMsg_inv env msg w w1 h
  rw [World.OnFactoryMsg_ok env msg w parent name hroot hload] at h
  injection h with h
  subst h
  exact ⟨_, _, _, rfl⟩

/-- Witness of C9 (amended): the description `box1` on the sample world. -/
theorem C9_witness :
    ∃ (name : String) (initOk readOk : Bool),
      ({ sampleWorld with
          rootElement := some { name := "root",
                                children := [{ name := "ground", scope := "root" },
                                             { name := "box", scope := "root" },
                                             { name := "box1", scope := "root" }] }
          trace := [Effect.sdfInitString true, Effect.sdfRead true, Effect.lockUpdateMutex,
            Effect.modelLoad, Effect.addEntitySignal "root::box1",
            Effect.newEntityPublish "root::box1", Effect.modelInit "root::box1",
            Effect.unlockUpdateMutex] } : World ℤ).trace =
        sampleWorld.trace ++ [Effect.sdfInitString initOk, Effect.sdfRead readOk,
          Effect.lockUpdateMutex, Effect.modelLoad, Effect.addEntitySignal name,
          Effect.newEntityPublish name, Effect.modelInit name, Effect.unlockUpdateMutex] :=
  C9_publish_before_Init toyEnv { xml := some "box1", filename := "" } sampleWorld _
    (World.OnFactoryMsg_ok toyEnv _ sampleWorld _ "box1" rfl rfl)

/-- C10: for every factory message `World::OnFactoryMsg` handles (it returns
without an error), the calls it adds hold exactly one add-entity signal and
exactly one new_entity message, and both carry the complete scoped name of the
model that `LoadModel` created and returned; the handler returns without an
error whenever the world has a root and `Model::Load` raises none. -/
theorem C10_one_notification_per_factory_message {T E : Type} (env : SdfEnv E)
    (msg : Factory) (w : World T) :
    (∀ w1, w.OnFactoryMsg env msg = .ok w1 →
      ∃ (model : Model) (w2 : World T) (added : List (Effect T)),
        (((w.emit (.sdfInitString (World.readFactorySDF env msg).1)).emit
            (.sdfRead (World.readFactorySDF env msg).2.1)).emit .lockUpdateMutex).LoadModel env
          (World.readFactorySDF env msg).2.2.root = .ok (model, w2) ∧
        w1.trace = w.trace ++ added ∧
        added.filter Effect.isAddEntitySignal =
          [Effect.addEntitySignal model.GetCompleteScopedName] ∧
        added.filter Effect.isNewEntityPublish =
          [Effect.newEntityPublish model.GetCompleteScopedName] ∧
        addEntitySignals w1.trace = addEntitySignals w.trace + 1 ∧
        newEntityPublishes w1.trace = newEntityPublishes w.trace + 1) ∧
    (∀ parent name, w.rootElement = some parent →
      env.modelLoad (World.readFactorySDF env msg).2.2.root = .ok name →
      ∃ w1, w.OnFactoryMsg env msg = .ok w1) := by
  constructor
  · intro w1 h
    obtain ⟨parent, name, hroot, hload⟩ := World.OnFactoryMsg_inv env msg w w1 h
    rw [World.OnFactoryMsg_ok env msg w parent name hroot hload] at h
    injection h with h
    subst h
    refine ⟨_, _, _, World.LoadModel_ok env _ _ parent name
      (by simpa [World.emit] using hroot) hload, rfl, ?_, ?_, ?_, ?_⟩ <;>
    simp [List.filter, Effect.isAddEntitySignal, Effect.isNewEntityPublish, addEntitySignals,
      newEntityPublishes, Model.GetCompleteScopedName]
  · intro parent name hroot hload
    exact ⟨_, World.OnFactoryMsg_ok env msg w parent name hroot hload⟩

/-- Witness of C10: the description `box1` on the sample world is handled, with
one signal and one message for `root::box1`. -/
theorem C10_witness :
    (∃ w1, sampleWorld.OnFactoryMsg toyEnv { xml := some "box1", filename := "" } = .ok w1) ∧
    ∀ w1, sampleWorld.OnFactoryMsg toyEnv { xml := some "box1", filename := "" } = .ok w1 →
      addEntitySignals w1.trace = addEntitySignals sampleWorld.trace + 1 ∧
      newEntityPublishes w1.trace = newEntityPublishes sampleWorld.trace + 1 :=
  ⟨(C10_one_notification_per_factory_message toyEnv { xml := some "box1", filename := "" }
      sampleWorld).2 _ "box1" rfl rfl,
    fun w1 h =>
      let ⟨_, _, _, _, _, _, _, h1, h2⟩ :=
        (C10_one_notification_per_factory_message toyEnv { xml := some "box1", filename := "" }
          sampleWorld).1 w1 h
      ⟨h1, h2⟩⟩

/-! ## Loading a world (C11) -/

theorem World.Load_without_engine {T E : Type} (env : SdfEnv E)
    (factory : String → Option (PhysicsEngine T)) (statPeriod : T) (sdf : WorldSDF E)
    (w : World T) (h : factory sdf.physicsType = none) :
    w.Load env factory statPeriod sdf =
      .error (.thrown "Unable to create physics engine\n",
        { w with
          statPeriod := statPeriod
          physicsEngine := none
          trace := w.trace ++ [.sceneFromSDF, .nodeInit, .subscribe "~/factory",
            .subscribe "~/world_control", .subscribe "~/publish_scene", .subscribe "~/visual",
            .advertise "~/scene", .advertise "~/world_stats", .advertise "~/selection",
            .advertise "~/new_entity", .newPhysicsEngine sdf.physicsType] }) := by
  simp [World.Load, h, World.emit]

/-- C11: when the physics factory returns null for the type named in the
description, `World::Load` raises the error "Unable to create physics engine";
at that point the calls made are the scene, node, subscribe and advertise
calls and the factory call only: the root element is as before the call (not
created), no model was loaded and `Load` of the engine was not called. -/
theorem C11_Load_raises_without_engine {T E : Type} (env : SdfEnv E)
    (factory : String → Option (PhysicsEngine T)) (statPeriod : T) (sdf : WorldSDF E)
    (w : World T) (h : factory sdf.physicsType = none) :
    ∃ w1 added, w.Load env factory statPeriod sdf =
        .error (.thrown "Unable to create physics engine\n", w1) ∧
      w1.rootElement = w.rootElement ∧ w1.physicsEngine = none ∧
      w1.modelUpdateFunc = w.modelUpdateFunc ∧
      w1.trace = w.trace ++ added ∧
      Effect.engineLoad ∉ added ∧ Effect.modelLoad ∉ added ∧
      (∀ name, Effect.addEntitySignal name ∉ added) ∧
      added.getLast? = some (Effect.newPhysicsEngine sdf.physicsType) := by
  refine ⟨_, _, World.Load_without_engine env factory statPeriod sdf w h, rfl, rfl, rfl, rfl, ?_⟩
  simp

/-- Witness of C11: the toy factory has no engine of type `bullet`. -/
theorem C11_witness :
    ∃ w1 added, newWorld.Load toyEnv toyFactory 200000000
        { physicsType := "bullet", models := [some "box"], lights := 1 } =
        .error (.thrown "Unable to create physics engine\n", w1) ∧
      w1.rootElement = newWorld.rootElement ∧ w1.physicsEngine = none ∧
      w1.modelUpdateFunc = newWorld.modelUpdateFunc ∧
      w1.trace = newWorld.trace ++ added ∧
      Effect.engineLoad ∉ added ∧ Effect.modelLoad ∉ added ∧
      (∀ name, Effect.addEntitySignal name ∉ added) ∧
      added.getLast? = some (Effect.newPhysicsEngine "bullet") :=
  C11_Load_raises_without_engine toyEnv toyFactory 200000000
    { physicsType := "bullet", models := [some "box"], lights := 1 } newWorld (by decide)

/-! ## The physics loop of the simulator (C12) -/

theorem Simulator.SetPaused_clocks {T : Type} (p : Bool) (s : Simulator T) :
    (s.SetPaused p).simTime = s.simTime ∧ (s.SetPaused p).pauseTime = s.pauseTime ∧
      simWorldUpdates (s.SetPaused p).trace = simWorldUpdates s.trace := by
  unfold Simulator.SetPaused
  by_cases h : s.pause = p <;> simp [h, simWorldUpdates, SimEffect.isWorldUpdate]

theorem Simulator.SetStepInc_clocks {T : Type} (step : Bool) (s : Simulator T) :
    (s.SetStepInc step).simTime = s.simTime ∧ (s.SetStepInc step).pauseTime = s.pauseTime ∧
      simWorldUpdates (s.SetStepInc step).trace = simWorldUpdates s.trace := by
  unfold Simulator.SetStepInc
  simp only [Simulator.emit]
  obtain ⟨h1, h2, h3⟩ := Simulator.SetPaused_clocks (!step)
    ({ s with stepInc := step,
              trace := (s.trace ++ [SimEffect.lockMRMutex]) ++ [SimEffect.stepSignal step] })
  refine ⟨h1, h2, ?_⟩
  simp only [simWorldUpdates, List.countP_append] at h3 ⊢
  rw [h3]
  simp [SimEffect.isWorldUpdate]

/-- C12: every iteration of the loop of `Simulator::PhysicsLoop` calls
`World::Update` exactly once, paused or not, and adds the step time to exactly
one clock: to `pauseTime` when the simulator is paused (`simTime` unchanged), to
`simTime` when it is not (`pauseTime` unchanged). -/
theorem C12_PhysicsLoop_updates_every_iteration {T : Type} [LinearOrderedAddCommGroup T]
    (step wall : T) (s : Simulator T) :
    simWorldUpdates (s.PhysicsLoopBody step wall).1.trace = simWorldUpdates s.trace + 1 ∧
    (s.pause = true →
      (s.PhysicsLoopBody step wall).1.pauseTime = s.pauseTime + step ∧
      (s.PhysicsLoopBody step wall).1.simTime = s.simTime) ∧
    (s.pause = false →
      (s.PhysicsLoopBody step wall).1.simTime = s.simTime + step ∧
      (s.PhysicsLoopBody step wall).1.pauseTime = s.pauseTime) := by
  have key : ∀ s5 : Simulator T,
      ((s5.SetStepInc false).SetPaused true).simTime = s5.simTime ∧
      ((s5.SetStepInc false).SetPaused true).pauseTime = s5.pauseTime ∧
      simWorldUpdates ((s5.SetStepInc false).SetPaused true).trace =
        simWorldUpdates s5.trace := by
    intro s5
    obtain ⟨a1, a2, a3⟩ := Simulator.SetPaused_clocks true (s5.SetStepInc false)
    obtain ⟨b1, b2, b3⟩ := Simulator.SetStepInc_clocks false s5
    exact ⟨a1.trans b1, a2.trans b2, a3.trans b3⟩
  unfold Simulator.PhysicsLoopBody
  simp only [simWorldUpdates] at key ⊢
  simp only [Simulator.emit, Simulator.IsPaused, Simulator.GetStepInc]
  cases hp : s.pause <;> cases hs : s.stepInc <;>
    simp only [hp, hs, if_true, if_false, Bool.false_eq_true] <;>
    split <;>
    simp [key, SimEffect.isWorldUpdate]

/-- Witness of C12: one iteration on the running sample simulator. -/
theorem C12_witness :
    sampleSimulator.pause = false ∧
      (sampleSimulator.PhysicsLoopBody 1000000 0).1.simTime = sampleSimulator.simTime + 1000000 ∧
      (sampleSimulator.PhysicsLoopBody 1000000 0).1.pauseTime = sampleSimulator.pauseTime :=
  ⟨rfl, (C12_PhysicsLoop_updates_every_iteration 1000000 0 sampleSimulator).2.2 rfl⟩

/-! ## Population generators: number of poses (C13) -/

theorem forLoop_measure {σ : Type} (len : σ → Nat) (body : Nat → σ → σ)
    (h : ∀ i s, len (body i s) = len s + 1) (n i : Nat) (s : σ) :
    len (forLoop body n i s) = len s + n := by
  induction n generalizing i s with
  | zero => rfl
  | succ n ih => rw [forLoop, ih, h]; omega

theorem forInt_measure {σ : Type} (len : σ → Nat) (body : Nat → σ → σ)
    (h : ∀ i s, len (body i s) = len s + 1) (n : Int) (hn : 0 ≤ n) (s : σ) :
    (len (forInt n body s) : Int) = len s + n := by
  unfold forInt
  rw [forLoop_measure len body h]
  push_cast
  rw [Int.toNat_of_nonneg hn]

theorem gzAssert_ok (asserts : Bool) (expr : Bool) (msg : String) (h : expr = true) :
    gzAssert asserts expr msg = .ok () := by
  simp [gzAssert, h]

/-- C13: for every `modelCount > 0` and all region parameters, each of
`CreatePosesBoxRandom`, `CreatePosesBoxLinearX`, `CreatePosesBoxLinearY`,
`CreatePosesBoxLinearZ` and `CreatePosesCylinderRandom`, called with an empty
output vector, returns and leaves exactly `modelCount` poses in it (with or
without `GZ_ASSERT` compiled in, whatever the random generator returns). -/
theorem C13_generators_return_modelCount_poses {R : Type} [LinearOrderedField R]
    (asserts : Bool) (libm : Libm R) (rand : Nat → R → R → R) (modelCount : Int)
    (hpos : 0 < modelCount) (pmin pmax center : Vector3 R) (radius height : R) (draws : Nat) :
    (∃ ps k, Population.CreatePosesBoxRandom asserts rand modelCount pmin pmax [] draws
        = .ok (ps, k) ∧ (ps.length : Int) = modelCount) ∧
    (∃ ps, Population.CreatePosesBoxLinearX asserts modelCount pmin pmax [] = .ok ps ∧
      (ps.length : Int) = modelCount) ∧
    (∃ ps, Population.CreatePosesBoxLinearY asserts modelCount pmin pmax [] = .ok ps ∧
      (ps.length : Int) = modelCount) ∧
    (∃ ps, Population.CreatePosesBoxLinearZ asserts modelCount pmin pmax [] = .ok ps ∧
      (ps.length : Int) = modelCount) ∧
    (∃ ps k, Population.CreatePosesCylinderRandom asserts libm rand modelCount center radius
        height [] draws = .ok (ps, k) ∧ (ps.length : Int) = modelCount) := by
  have h1 : gzAssert asserts ([] : List (Vector3 R)).isEmpty
      "Output parameter '_poses' is not empty" = .ok () := gzAssert_ok _ _ _ rfl
  have h2 : gzAssert asserts (decide (modelCount > 0))
      "Argument _modelCount is nonpositive" = .ok () := gzAssert_ok _ _ _ (by simpa using hpos)
  have hp : ∀ (body : Nat → List (Vector3 R) × Nat → List (Vector3 R) × Nat),
      (∀ i s, (body i s).1.length = s.1.length + 1) →
      ((forInt modelCount body ([], draws)).1.length : Int) = modelCount := by
    intro body hb
    have := forInt_measure (fun st : List (Vector3 R) × Nat => st.1.length) body hb modelCount
      hpos.le ([], draws)
    simpa using this
  have hl : ∀ (body : Nat → List (Vector3 R) → List (Vector3 R)),
      (∀ i s, (body i s).length = s.length + 1) →
      ((forInt modelCount body []).length : Int) = modelCount := by
    intro body hb
    have := forInt_measure (fun ps : List (Vector3 R) => ps.length) body hb modelCount
      hpos.le []
    simpa using this
  refine ⟨?_, ?_, ?_, ?_, ?_⟩
  · obtain ⟨r, hr, hlen⟩ : ∃ r, Population.CreatePosesBoxRandom asserts rand modelCount pmin
        pmax [] draws = .ok r ∧ (r.1.length : Int) = modelCount := by
      simp only [Population.CreatePosesBoxRandom, h1, h2, bind, Except.bind, pure, Except.pure]
      exact ⟨_, rfl, hp _ (by intro i s; simp)⟩
    exact ⟨r.1, r.2, hr, hlen⟩
  · simp only [Population.CreatePosesBoxLinearX, h1, h2, bind, Except.bind, pure, Except.pure]
    exact ⟨_, rfl, hl _ (by intro i s; simp)⟩
  · simp only [Population.CreatePosesBoxLinearY, h1, h2, bind, Except.bind, pure, Except.pure]
    exact ⟨_, rfl, hl _ (by intro i s; simp)⟩
  · simp only [Population.CreatePosesBoxLinearZ, h1, h2, bind, Except.bind, pure, Except.pure]
    exact ⟨_, rfl, hl _ (by intro i s; simp)⟩
  · obtain ⟨r, hr, hlen⟩ : ∃ r, Population.CreatePosesCylinderRandom asserts libm rand
        modelCount center radius height [] draws = .ok r ∧ (r.1.length : Int) = modelCount := by
      simp only [Population.CreatePosesCylinderRandom, h1, h2, bind, Except.bind, pure,
        Except.pure]
      exact ⟨_, rfl, hp _ (by intro i s; simp)⟩
    exact ⟨r.1, r.2, hr, hlen⟩

/-! ## The grid generator (C14) -/

theorem grid_length {α : Type} (g : Nat → Nat → α) (m c : Nat) :
    ((List.range m).flatMap (fun a => (List.range c).map (g a))).length = m * c := by
  induction m with
  | zero => simp
  | succ m ih =>
    rw [List.range_succ, List.flatMap_append, List.length_append, ih]
    simp [Nat.succ_mul]

theorem grid_getElem? {α : Type} (g : Nat → Nat → α) (m c i j : Nat) (hi : i < m)
    (hj : j < c) :
    ((List.range m).flatMap (fun a => (List.range c).map (g a)))[i * c + j]? = some (g i j) := by
  induction m with
  | zero => omega
  | succ m ih =>
    rw [List.range_succ, List.flatMap_append]
    by_cases him : i < m
    · have hlt : i * c + j < ((List.range m).flatMap (fun a => (List.range c).map (g a))).length := by
        rw [grid_length]
        calc i * c + j < i * c + c := by omega
          _ = (i + 1) * c := by ring
          _ ≤ m * c := Nat.mul_le_mul_right c him
      rw [List.getElem?_append_left hlt]
      exact ih him
    · have hieq : i = m := by omega
      subst hieq
      rw [List.getElem?_append_right (by rw [grid_length]; omega), grid_length]
      simp [hj]

theorem forLoop_gridRow {R : Type} [LinearOrderedField R] (sx x0 : R) (n j0 : Nat)
    (ps : List (Vector3 R)) (p : Vector3 R) (hp : p.x = x0 + (j0 : R) * sx) :
    forLoop (fun _ (st : List (Vector3 R) × Vector3 R) =>
        (st.1 ++ [st.2], { st.2 with x := st.2.x + sx })) n j0 (ps, p) =
      (ps ++ (List.range' j0 n).map (fun (b : Nat) => ({ x := x0 + (b : R) * sx, y := p.y, z := p.z } :
          Vector3 R)),
        { x := x0 + ((j0 + n : Nat) : R) * sx, y := p.y, z := p.z }) := by
  induction n generalizing j0 ps p with
  | zero =>
    obtain ⟨px, py, pz⟩ := p
    simp only [forLoop, List.range'_zero, List.map_nil, List.append_nil, Nat.add_zero]
    simp only at hp
    rw [hp]
  | succ n ih =>
    rw [forLoop, ih (j0 + 1) _ _ (by push_cast; rw [hp]; ring)]
    obtain ⟨px, py, pz⟩ := p
    simp only at hp
    simp only [List.range'_succ, List.map_cons, List.append_assoc, List.singleton_append,
      Prod.mk.injEq, List.append_cancel_left_eq, List.cons.injEq, Vector3.mk.injEq, and_true,
      true_and]
    push_cast
    refine ⟨by rw [hp], by ring⟩

theorem forLoop_gridRows {R : Type} [LinearOrderedField R] (pmin step : Vector3 R) (cols : Int)
    (y0 : R) (n i0 : Nat) (ps : List (Vector3 R)) :
    forLoop (fun _ (st : List (Vector3 R) × Vector3 R) =>
        let st1 := forInt cols (fun _ (st : List (Vector3 R) × Vector3 R) =>
          (st.1 ++ [st.2], { st.2 with x := st.2.x + step.x })) st
        (st1.1, { st1.2 with x := pmin.x, y := st1.2.y + step.y })) n i0
        (ps, { x := pmin.x, y := y0 + (i0 : R) * step.y, z := pmin.z }) =
      (ps ++ (List.range' i0 n).flatMap (fun (a : Nat) => (List.range cols.toNat).map
          (fun (b : Nat) =>
            ({ x := pmin.x + (b : R) * step.x, y := y0 + (a : R) * step.y, z := pmin.z } :
              Vector3 R))),
        { x := pmin.x, y := y0 + ((i0 + n : Nat) : R) * step.y, z := pmin.z }) := by
  simp only [forInt]
  induction n generalizing i0 ps with
  | zero => simp [forLoop]
  | succ n ih =>
    rw [forLoop]
    rw [forLoop_gridRow step.x pmin.x cols.toNat 0 ps _ (by simp)]
    have hy : (y0 + (i0 : R) * step.y + step.y) = y0 + ((i0 + 1 : Nat) : R) * step.y := by
      push_cast; ring
    simp only [hy]
    rw [ih (i0 + 1)]
    simp only [List.range'_succ, List.flatMap_cons, List.append_assoc, List.range_eq_range',
      Prod.mk.injEq, true_and, Vector3.mk.injEq, and_true]
    push_cast
    ring

theorem Population.CreatePosesBoxGrid_ok {R : Type} [LinearOrderedField R] (asserts : Bool)
    (pmin step : Vector3 R) (rows cols : Int) (hrows : 0 < rows) (hcols : 0 < cols) :
    Population.CreatePosesBoxGrid asserts pmin rows cols step [] =
      .ok ((List.range rows.toNat).flatMap (fun (a : Nat) => (List.range cols.toNat).map
        (fun (b : Nat) =>
          ({ x := pmin.x + (b : R) * step.x, y := pmin.y + (a : R) * step.y, z := pmin.z } :
            Vector3 R)))) := by
  have h1 : gzAssert asserts ([] : List (Vector3 R)).isEmpty
      "Output parameter '_poses' is not empty" = .ok () := gzAssert_ok _ _ _ rfl
  have h2 : gzAssert asserts (decide (rows > 0)) "Argument _rows is nonpositive" = .ok () :=
    gzAssert_ok _ _ _ (by simpa using hrows)
  have h3 : gzAssert asserts (decide (cols > 0)) "Argument _cols is nonpositive" = .ok () :=
    gzAssert_ok _ _ _ (by simpa using hcols)
  have hloop := forLoop_gridRows pmin step cols pmin.y rows.toNat 0 []
  simp only [Nat.cast_zero, zero_mul, add_zero, List.nil_append] at hloop
  simp only [Population.CreatePosesBoxGrid, h1, h2, h3, bind, Except.bind, pure, Except.pure]
  rw [forInt, hloop, ← List.range_eq_range']

/-- C14: for `rows > 0` and `cols > 0`, any corner `min` and any step vector,
`CreatePosesBoxGrid` returns exactly `rows * cols` poses; in exact arithmetic
the pose at index `i * cols + j` (`i < rows`, `j < cols`) is
`(min.x + j * step.x, min.y + i * step.y, min.z)`, and the first pose is
`min`. -/
theorem C14_grid_lattice {R : Type} [LinearOrderedField R] (asserts : Bool)
    (pmin step : Vector3 R) (rows cols : Int) (hrows : 0 < rows) (hcols : 0 < cols) :
    ∃ ps, Population.CreatePosesBoxGrid asserts pmin rows cols step [] = .ok ps ∧
      (ps.length : Int) = rows * cols ∧
      (∀ i j : Nat, (i : Int) < rows → (j : Int) < cols →
        ps[i * cols.toNat + j]? =
          some { x := pmin.x + (j : R) * step.x, y := pmin.y + (i : R) * step.y,
                 z := pmin.z }) ∧
      ps.head? = some pmin := by
  have hidx : ∀ i j : Nat, (i : Int) < rows → (j : Int) < cols →
      ((List.range rows.toNat).flatMap (fun (a : Nat) => (List.range cols.toNat).map
          (fun (b : Nat) =>
            ({ x := pmin.x + (b : R) * step.x, y := pmin.y + (a : R) * step.y, z := pmin.z } :
              Vector3 R))))[i * cols.toNat + j]? =
        some { x := pmin.x + (j : R) * step.x, y := pmin.y + (i : R) * step.y,
               z := pmin.z } := by
    intro i j hi hj
    exact grid_getElem? (fun (a b : Nat) =>
      (⟨pmin.x + (b : R) * step.x, pmin.y + (a : R) * step.y, pmin.z⟩ : Vector3 R))
      rows.toNat cols.toNat i j (by omega) (by omega)
  refine ⟨_, Population.CreatePosesBoxGrid_ok asserts pmin step rows cols hrows hcols, ?_,
    hidx, ?_⟩
  · rw [grid_length]
    push_cast
    rw [Int.toNat_of_nonneg hrows.le, Int.toNat_of_nonneg hcols.le]
  · have h0 := hidx 0 0 (by simpa using hrows) (by simpa using hcols)
    rw [List.head?_eq_getElem?]
    simpa using h0

/-- Witness of C13: five poses in the box from `(0,0,0)` to `(10,0,0)` and in
a cylinder of radius 1 and height 1. -/
theorem C13_witness :
    (∃ ps k, Population.CreatePosesBoxRandom true toyRand 5 ⟨0, 0, 0⟩ ⟨10, 0, 0⟩ [] 0
        = .ok (ps, k) ∧ (ps.length : Int) = 5) ∧
    (∃ ps, Population.CreatePosesBoxLinearX true 5 (⟨0, 0, 0⟩ : Vector3 ℚ) ⟨10, 0, 0⟩ []
        = .ok ps ∧ (ps.length : Int) = 5) ∧
    (∃ ps, Population.CreatePosesBoxLinearY true 5 (⟨0, 0, 0⟩ : Vector3 ℚ) ⟨10, 0, 0⟩ []
        = .ok ps ∧ (ps.length : Int) = 5) ∧
    (∃ ps, Population.CreatePosesBoxLinearZ true 5 (⟨0, 0, 0⟩ : Vector3 ℚ) ⟨10, 0, 0⟩ []
        = .ok ps ∧ (ps.length : Int) = 5) ∧
    (∃ ps k, Population.CreatePosesCylinderRandom true toyLibm toyRand 5 ⟨0, 0, 0⟩ 1 1 [] 0
        = .ok (ps, k) ∧ (ps.length : Int) = 5) :=
  C13_generators_return_modelCount_poses true toyLibm toyRand 5 (by decide) ⟨0, 0, 0⟩
    ⟨10, 0, 0⟩ ⟨0, 0, 0⟩ 1 1 0

/-- Witness of C14: `rows = 3`, `cols = 4`, `step = (1, 1, 0)` from the origin
gives 12 poses on the 3 by 4 unit lattice. -/
theorem C14_witness :
    ∃ ps, Population.CreatePosesBoxGrid true (⟨0, 0, 0⟩ : Vector3 ℚ) 3 4 ⟨1, 1, 0⟩ [] = .ok ps ∧
      (ps.length : Int) = 12 ∧
      (∀ i j : Nat, (i : Int) < 3 → (j : Int) < 4 →
        ps[i * 4 + j]? = some { x := 0 + (j : ℚ) * 1, y := 0 + (i : ℚ) * 1, z := 0 }) ∧
      ps.head? = some ⟨0, 0, 0⟩ :=
  C14_grid_lattice true ⟨0, 0, 0⟩ ⟨1, 1, 0⟩ 3 4 (by decide) (by decide)

/-! ## The linear generator along x (C15) -/

theorem forLoop_push {α : Type} (f : Nat → α) (n i0 : Nat) (ps : List α) :
    forLoop (fun i (ps : List α) => ps ++ [f i]) n i0 ps = ps ++ (List.range' i0 n).map f := by
  induction n generalizing i0 ps with
  | zero => simp [forLoop]
  | succ n ih => rw [forLoop, ih]; simp [List.range'_succ]

theorem Population.CreatePosesBoxLinearX_ok {R : Type} [LinearOrderedField R] (asserts : Bool)
    (n : Int) (hn : 0 < n) (pmin pmax : Vector3 R) :
    Population.CreatePosesBoxLinearX asserts n pmin pmax [] =
      .ok ((List.range n.toNat).map (fun (i : Nat) =>
        ({ x := min pmin.x pmax.x + (i : R) * |pmax.x - pmin.x| / (n : R)
           y := (pmin.y + pmax.y) / 2
           z := (pmin.z + pmax.z) / 2 } : Vector3 R))) := by
  have h1 : gzAssert asserts ([] : List (Vector3 R)).isEmpty
      "Output parameter '_poses' is not empty" = .ok () := gzAssert_ok _ _ _ rfl
  have h2 : gzAssert asserts (decide (n > 0)) "Argument _modelCount is nonpositive" = .ok () :=
    gzAssert_ok _ _ _ (by simpa using hn)
  simp only [Population.CreatePosesBoxLinearX, h1, h2, bind, Except.bind, pure, Except.pure,
    forInt]
  rw [forLoop_push, List.nil_append, List.range_eq_range']

set_option maxRecDepth 20000 in
/-- C15, counterexample: in `double`, with `modelCount = 5`, `min.x = 1` and
`max.x = 1 + 2^-52`, the next `double` after 1, the quotients `i * dx / 5` are
below the spacing of the values around 1 and the five x-coordinates are
`1, 1, 1, 1 + 2^-52, 1 + 2^-52`: the first is not below the second, so they are
neither strictly increasing nor equally spaced, and the last one is not below
`lo + |max.x - min.x|`. -/
theorem C15_counterexample :
    ∃ ps : List (Vector3 Double),
      Population.CreatePosesBoxLinearXDouble true 5
        ⟨Double.ofInt 1, Double.ofInt 0, Double.ofInt 0⟩
        ⟨.finite false (2 ^ 52 + 1) (-52), Double.ofInt 0, Double.ofInt 0⟩ [] = .ok ps ∧
      ps.map (fun p => p.x) =
        [Double.ofInt 1, Double.ofInt 1, Double.ofInt 1,
          .finite false (2 ^ 52 + 1) (-52), .finite false (2 ^ 52 + 1) (-52)] ∧
      (∃ p q, ps[0]? = some p ∧ ps[1]? = some q ∧ ¬ (p.x < q.x)) ∧
      (∃ p, ps[4]? = some p ∧
        ¬ (p.x < Double.min (Double.ofInt 1) (.finite false (2 ^ 52 + 1) (-52)) +
          Double.abs (.finite false (2 ^ 52 + 1) (-52) - Double.ofInt 1))) :=
  ⟨_, rfl, by decide, ⟨_, _, rfl, rfl, by decide⟩, ⟨_, rfl, by decide⟩⟩

set_option maxRecDepth 20000 in
/-- C15, amended: in exact arithmetic, for `modelCount = n > 0`,
`CreatePosesBoxLinearX` returns `n` poses and the `i`-th one (`0 <= i < n`) is
`(lo + i * |max.x - min.x| / n, (min.y + max.y) / 2, (min.z + max.z) / 2)` with
`lo = min(min.x, max.x)`; consecutive x-coordinates differ by
`|max.x - min.x| / n`, and when `min.x` and `max.x` differ the x-coordinates
are strictly increasing and lie in `[lo, lo + |max.x - min.x|)`.  With
`n = 5`, `min = (0,0,0)` and `max = (10,0,0)` the x-coordinates are
`0, 2, 4, 6, 8`, in exact arithmetic and in `double` alike. -/
theorem C15_linearX_poses {R : Type} [LinearOrderedField R] (asserts : Bool)
    (n : Int) (hn : 0 < n) (pmin pmax : Vector3 R) :
    (∃ ps, Population.CreatePosesBoxLinearX asserts n pmin pmax [] = .ok ps ∧
      (ps.length : Int) = n ∧
      (∀ i : Nat, (i : Int) < n →
        ps[i]? = some { x := min pmin.x pmax.x + (i : R) * |pmax.x - pmin.x| / (n : R)
                        y := (pmin.y + pmax.y) / 2
                        z := (pmin.z + pmax.z) / 2 }) ∧
      (∀ (i : Nat) (p q : Vector3 R), ps[i]? = some p → ps[i + 1]? = some q →
        q.x - p.x = |pmax.x - pmin.x| / (n : R)) ∧
      (pmin.x ≠ pmax.x → ∀ (i j : Nat) (p q : Vector3 R), i < j →
        ps[i]? = some p → ps[j]? = some q → p.x < q.x) ∧
      (pmin.x ≠ pmax.x → ∀ (i : Nat) (p : Vector3 R), ps[i]? = some p →
        min pmin.x pmax.x ≤ p.x ∧ p.x < min pmin.x pmax.x + |pmax.x - pmin.x|)) ∧
    Population.CreatePosesBoxLinearX asserts 5 (⟨0, 0, 0⟩ : Vector3 R) ⟨10, 0, 0⟩ [] =
      .ok [⟨0, 0, 0⟩, ⟨2, 0, 0⟩, ⟨4, 0, 0⟩, ⟨6, 0, 0⟩, ⟨8, 0, 0⟩] ∧
    Population.CreatePosesBoxLinearXDouble asserts 5
        ⟨Double.ofInt 0, Double.ofInt 0, Double.ofInt 0⟩
        ⟨Double.ofInt 10, Double.ofInt 0, Double.ofInt 0⟩ [] =
      .ok [⟨Double.ofInt 0, Double.ofInt 0, Double.ofInt 0⟩,
        ⟨Double.ofInt 2, Double.ofInt 0, Double.ofInt 0⟩,
        ⟨Double.ofInt 4, Double.ofInt 0, Double.ofInt 0⟩,
        ⟨Double.ofInt 6, Double.ofInt 0, Double.ofInt 0⟩,
        ⟨Double.ofInt 8, Double.ofInt 0, Double.ofInt 0⟩] := by
  refine ⟨?_, ?_, ?_⟩
  case refine_2 =>
    rw [Population.CreatePosesBoxLinearX_ok asserts 5 (by decide)]
    simp [List.range_succ]
    norm_num
  case refine_3 =>
    cases asserts <;> rfl
  refine ⟨_, Population.CreatePosesBoxLinearX_ok asserts n hn pmin pmax, ?_, ?_, ?_, ?_, ?_⟩
  · simp [Int.toNat_of_nonneg hn.le]
  · intro i hi
    have : i < n.toNat := by omega
    simp [this]
  all_goals
    have hnR : (0 : R) < (n : R) := by exact_mod_cast hn
    have hget : ∀ (i : Nat) (p : Vector3 R),
        ((List.range n.toNat).map (fun (i : Nat) =>
          ({ x := min pmin.x pmax.x + (i : R) * |pmax.x - pmin.x| / (n : R)
             y := (pmin.y + pmax.y) / 2
             z := (pmin.z + pmax.z) / 2 } : Vector3 R)))[i]? = some p →
        i < n.toNat ∧ p.x = min pmin.x pmax.x + (i : R) * |pmax.x - pmin.x| / (n : R) := by
      intro i p h
      simp only [List.getElem?_map, List.getElem?_range, Option.map_eq_some'] at h
      obtain ⟨a, ha, rfl⟩ := h
      by_cases hlt : i < n.toNat
      · rw [List.getElem?_range hlt] at ha
        cases ha
        exact ⟨hlt, rfl⟩
      · rw [List.getElem?_eq_none (by simpa using hlt)] at ha
        cases ha
  · intro i p q hp hq
    obtain ⟨-, hpx⟩ := hget i p hp
    obtain ⟨-, hqx⟩ := hget (i + 1) q hq
    rw [hpx, hqx]
    push_cast
    ring
  · intro hne i j p q hij hp hq
    obtain ⟨-, hpx⟩ := hget i p hp
    obtain ⟨-, hqx⟩ := hget j q hq
    have hd : 0 < |pmax.x - pmin.x| := abs_pos.mpr (sub_ne_zero.mpr (Ne.symm hne))
    have hij' : (i : R) < (j : R) := by exact_mod_cast hij
    rw [hpx, hqx]
    have : (i : R) * |pmax.x - pmin.x| / (n : R) < (j : R) * |pmax.x - pmin.x| / (n : R) :=
      div_lt_div_of_pos_right (mul_lt_mul_of_pos_right hij' hd) hnR
    linarith
  · intro hne i p hp
    obtain ⟨hlt, hpx⟩ := hget i p hp
    have hd : 0 < |pmax.x - pmin.x| := abs_pos.mpr (sub_ne_zero.mpr (Ne.symm hne))
    have hi0 : (0 : R) ≤ (i : R) := Nat.cast_nonneg i
    have hin : (i : R) < (n : R) := by
      have : (i : Int) < n := by omega
      exact_mod_cast this
    rw [hpx]
    constructor
    · have : 0 ≤ (i : R) * |pmax.x - pmin.x| / (n : R) :=
        div_nonneg (mul_nonneg hi0 hd.le) hnR.le
      linarith
    · have : (i : R) * |pmax.x - pmin.x| / (n : R) < |pmax.x - pmin.x| := by
        rw [div_lt_iff₀ hnR]
        calc (i : R) * |pmax.x - pmin.x| < (n : R) * |pmax.x - pmin.x| :=
              mul_lt_mul_of_pos_right hin hd
          _ = |pmax.x - pmin.x| * (n : R) := by ring
      linarith

/-- Witness of C15: `modelCount = 5` from `(0,0,0)` to `(10,0,0)` over the
rational numbers; the x-coordinates are 0, 2, 4, 6, 8. -/
theorem C15_witness :
    (∃ ps, Population.CreatePosesBoxLinearX true 5 (⟨0, 0, 0⟩ : Vector3 ℚ) ⟨10, 0, 0⟩ [] =
        .ok ps ∧ (ps.length : Int) = 5) ∧
    Population.CreatePosesBoxLinearX true 5 (⟨0, 0, 0⟩ : Vector3 ℚ) ⟨10, 0, 0⟩ [] =
      .ok [⟨0, 0, 0⟩, ⟨2, 0, 0⟩, ⟨4, 0, 0⟩, ⟨6, 0, 0⟩, ⟨8, 0, 0⟩] := by
  have h := C15_linearX_poses (R := ℚ) true 5 (by decide) ⟨0, 0, 0⟩ ⟨10, 0, 0⟩
  obtain ⟨ps, hok, hlen, -⟩ := h.1
  exact ⟨⟨ps, hok, hlen⟩, h.2.1⟩

/-! ## Population elements (C16, C17, C18) -/

theorem Population.parseGrid_frame {R : Type} (d : DistributionElem R)
    (p q : PopulationParams R) (h : Population.parseGrid d p = some q) :
    q.modelCount = p.modelCount ∧ q.modelSdf = p.modelSdf ∧ q.modelName = p.modelName := by
  unfold Population.parseGrid at h
  split at h
  · split at h
    · cases h
    · split at h
      · cases h
      · split at h
        · cases h
        · cases h; exact ⟨rfl, rfl, rfl⟩
  · cases h; exact ⟨rfl, rfl, rfl⟩

theorem Population.parseRegion_frame {R : Type} (r : RegionElem R)
    (p q : PopulationParams R) (h : Population.parseRegion r p = some q) :
    q.modelCount = p.modelCount ∧ q.modelSdf = p.modelSdf ∧ q.modelName = p.modelName := by
  unfold Population.parseRegion at h
  split at h
  · unfold Population.parseBox at h
    simp only at h
    split at h
    · cases h
    · split at h
      · split at h
        · cases h
        · cases h; exact ⟨rfl, rfl, rfl⟩
      · cases h; exact ⟨rfl, rfl, rfl⟩
  · split at h
    · unfold Population.parseCylinder at h
      simp only at h
      split at h
      · cases h
      · split at h
        · cases h
        · split at h
          · cases h
          · cases h; exact ⟨rfl, rfl, rfl⟩
    · cases h

theorem Population.ParseSdf_fields {R : Type} (e : PopulationElem R)
    (p0 p : PopulationParams R) (h : Population.ParseSdf e p0 = some p) :
    e.model_count = some p.modelCount ∧
    (∃ m, e.model = some m ∧ p.modelSdf = m.text ∧ p.modelName = m.name) := by
  unfold Population.ParseSdf at h
  cases hm : e.model with
  | none => rw [hm] at h; cases h
  | some m =>
    cases hc : e.model_count with
    | none => rw [hm, hc] at h; cases h
    | some c =>
      cases hd : e.distribution with
      | none => rw [hm, hc, hd] at h; cases h
      | some d =>
        cases ht : d.type with
        | none => rw [hm, hc, hd] at h; simp only [ht] at h; cases h
        | some t =>
          rw [hm, hc, hd] at h
          simp only [ht] at h
          split at h
          · cases h
          · split at h
            · cases h
            · rename_i p1 hg
              split at h
              · cases h
              · rename_i r hr
                obtain ⟨g1, g2, g3⟩ := Population.parseGrid_frame d _ p1 hg
                obtain ⟨r1, r2, r3⟩ := Population.parseRegion_frame r p1 p h
                exact ⟨by rw [r1, g1], m, rfl, by rw [r2, g2], by rw [r3, g3]⟩

theorem Population.PopulateOne_nonpositive {R : Type} [LinearOrderedField R] [FloorRing R]
    (env : PopEnv R) (e : PopulationElem R) (c : Int) (hc : e.model_count = some c)
    (hneg : c ≤ 0) (st : PopState) :
    Population.PopulateOne env e st = .ok (false, st) := by
  unfold Population.PopulateOne
  simp only []
  cases hp : Population.ParseSdf e env.defaultParams with
  | none => rfl
  | some params =>
    have hmc := (Population.ParseSdf_fields e _ params hp).1
    rw [hc] at hmc
    have : params.modelCount ≤ 0 := by
      have := Option.some.inj hmc
      omega
    simp [this]

theorem Population.populateLoop_result {R : Type} [LinearOrderedField R] [FloorRing R]
    (env : PopEnv R) (l : List (PopulationElem R)) (r : Bool) (st : PopState) :
    Population.populateLoop env l r st =
      (Population.populateLoop env l true st).map (fun x => (r && x.1, x.2)) := by
  induction l generalizing r st with
  | nil => simp [Population.populateLoop, Except.map]
  | cons e rest ih =>
    simp only [Population.populateLoop]
    cases hone : Population.PopulateOne env e st with
    | error f => simp [Except.map]
    | ok res =>
      obtain ⟨ok, st1⟩ := res
      simp only []
      rw [ih (if !ok then false else r) st1, ih (if !ok then false else true) st1]
      cases hrest : Population.populateLoop env rest true st1 with
      | error f => simp [Except.map]
      | ok res2 => cases ok <;> simp [Except.map]

theorem Population.populateLoop_append {R : Type} [LinearOrderedField R] [FloorRing R]
    (env : PopEnv R) (pre l : List (PopulationElem R)) (r : Bool) (st : PopState) :
    Population.populateLoop env (pre ++ l) r st =
      match Population.populateLoop env pre r st with
      | .error f => .error f
      | .ok (r1, st1) => Population.populateLoop env l r1 st1 := by
  induction pre generalizing r st with
  | nil => simp [Population.populateLoop]
  | cons e rest ih =>
    simp only [List.cons_append, Population.populateLoop]
    cases hone : Population.PopulateOne env e st with
    | error f => rfl
    | ok res =>
      obtain ⟨ok, st1⟩ := res
      exact ih _ st1

/-- C18: for a population element whose `model_count` is zero or negative,
`PopulateOne` returns false and leaves the state as it was (no random draw for
a pose, no model inserted); `PopulateAll` on a description that holds such an
element still runs `PopulateOne` on the elements after it, from the state the
elements before it left, and returns false when no error ends it. -/
theorem C18_nonpositive_model_count {R : Type} [LinearOrderedField R] [FloorRing R]
    (env : PopEnv R) (e : PopulationElem R) (c : Int) (hc : e.model_count = some c)
    (hneg : c ≤ 0) :
    (∀ st, Population.PopulateOne env e st = .ok (false, st)) ∧
    (∀ (pre post : List (PopulationElem R)) (st : PopState),
      Population.PopulateAll env (pre ++ e :: post) st =
        match Population.populateLoop env pre true st with
        | .error f => .error f
        | .ok (_, st1) =>
          match Population.populateLoop env post true st1 with
          | .error f => .error f
          | .ok (_, st2) => .ok (false, st2)) := by
  refine ⟨Population.PopulateOne_nonpositive env e c hc hneg, ?_⟩
  intro pre post st
  have hne : gzAssert env.asserts (!(pre ++ e :: post).isEmpty)
      "<population> SDF element is NULL" = .ok () := gzAssert_ok _ _ _ (by simp)
  simp only [Population.PopulateAll, hne]
  rw [Population.populateLoop_append]
  cases hpre : Population.populateLoop env pre true st with
  | error f => rfl
  | ok res =>
    obtain ⟨r1, st1⟩ := res
    simp only [Population.populateLoop,
      Population.PopulateOne_nonpositive env e c hc hneg st1]
    rw [Population.populateLoop_result]
    cases hpost : Population.populateLoop env post true st1 with
    | error f => rfl
    | ok res2 => simp [Except.map]

theorem toInt32_of_lt (n : Nat) (h : n < 2 ^ 31) : toInt32 n = n := by
  unfold toInt32
  have : (n + 2 ^ 31) % 2 ^ 32 = n + 2 ^ 31 := Nat.mod_eq_of_lt (by omega)
  rw [this]
  push_cast
  ring

theorem Population.generate_grid {R : Type} [LinearOrderedField R] [FloorRing R]
    (env : PopEnv R) (params : PopulationParams R) (hregion : params.region = "box")
    (hdist : params.distribution = "grid") (objects : List (Vector3 R)) (draws : Nat) :
    Population.generate env params objects draws =
      (Population.CreatePosesBoxGrid env.asserts params.min params.rows params.cols params.step
        objects).map (fun ps => some (ps, draws)) := by
  simp [Population.generate, hregion, hdist]

/-- C16, counterexample: with `rows = -2`, `cols = -3` and `model_count = 6`
the product `rows * cols` equals `model_count`, but without `GZ_ASSERT` the
grid generator returns no pose at all and the pose-count condition is false;
with `GZ_ASSERT` the generator aborts on `rows`.  And for a grid of
`65536 * 65537` poses the condition holds with `model_count = 65536`, because
the size is converted to `int`. -/
theorem C16_counterexample :
    ((-2 : Int) * (-3) = 6) ∧
    Population.CreatePosesBoxGrid false (⟨0, 0, 0⟩ : Vector3 ℚ) (-2) (-3) ⟨1, 1, 0⟩ [] = .ok [] ∧
    Population.poseCountOk 6 ([] : List (Vector3 ℚ)) = false ∧
    Population.CreatePosesBoxGrid true (⟨0, 0, 0⟩ : Vector3 ℚ) (-2) (-3) ⟨1, 1, 0⟩ [] =
      .error (.assertFailed "Argument _rows is nonpositive") ∧
    (∀ objects : List (Vector3 ℚ), objects.length = 65536 * 65537 →
      Population.poseCountOk 65536 objects = true) := by
  refine ⟨by decide, ?_, by decide, ?_, ?_⟩
  · simp [Population.CreatePosesBoxGrid, gzAssert, forInt, forLoop, bind, Except.bind, pure,
      Except.pure]
  · simp [Population.CreatePosesBoxGrid, gzAssert, bind, Except.bind]
  · intro objects h
    unfold Population.poseCountOk
    rw [h]
    decide

/-- C16, amended: for a box/grid population element that `ParseSdf` accepts,
with `model_count > 0` (otherwise `PopulateOne` returns false before any pose
is generated), `rows > 0`, `cols > 0` and `rows * cols` below `2 ^ 31`, the
poses generated are those of `CreatePosesBoxGrid`, `rows * cols` of them
whatever the positive `model_count` is; the pose-count condition of `PopulateOne` holds exactly when
`rows * cols = model_count`; and `PopulateOne` does nothing to make the counts
agree: it aborts on the assertion when `GZ_ASSERT` is compiled in and the
counts differ, and otherwise hands exactly the generated poses to the loop
that inserts the clones. -/
theorem C16_grid_count_not_reconciled {R : Type} [LinearOrderedField R] [FloorRing R]
    (env : PopEnv R) (e : PopulationElem R) (params : PopulationParams R)
    (hparse : Population.ParseSdf e env.defaultParams = some params)
    (hregion : params.region = "box") (hdist : params.distribution = "grid")
    (hcount : 0 < params.modelCount) (hrows : 0 < params.rows) (hcols : 0 < params.cols)
    (hsmall : params.rows * params.cols < 2 ^ 31) :
    ∃ objects, Population.CreatePosesBoxGrid env.asserts params.min params.rows params.cols
        params.step [] = .ok objects ∧
      (objects.length : Int) = params.rows * params.cols ∧
      (∀ st : PopState,
        Population.generate env params [] st.draws = .ok (some (objects, st.draws))) ∧
      (Population.poseCountOk params.modelCount objects = true ↔
        params.rows * params.cols = params.modelCount) ∧
      (∀ st : PopState, Population.PopulateOne env e st =
        if env.asserts = true ∧ params.rows * params.cols ≠ params.modelCount then
          .error (.assertFailed "Unexpected number of objects while generating a population")
        else
          match Population.insertClones env params objects st with
          | .error f => .error f
          | .ok st1 => .ok (true, st1)) := by
  have hgrid := Population.CreatePosesBoxGrid_ok env.asserts params.min params.step
    params.rows params.cols hrows hcols
  generalize hobj : (List.range params.rows.toNat).flatMap (fun (a : Nat) =>
    (List.range params.cols.toNat).map (fun (b : Nat) =>
      ({ x := params.min.x + (b : R) * params.step.x, y := params.min.y + (a : R) * params.step.y,
         z := params.min.z } : Vector3 R))) = objects at hgrid
  have hlen : (objects.length : Int) = params.rows * params.cols := by
    rw [← hobj, grid_length]
    push_cast
    rw [Int.toNat_of_nonneg hrows.le, Int.toNat_of_nonneg hcols.le]
  have hgen : ∀ st : PopState,
      Population.generate env params [] st.draws = .ok (some (objects, st.draws)) := by
    intro st
    rw [Population.generate_grid env params hregion hdist, hgrid]
    rfl
  have hlenNat : objects.length < 2 ^ 31 := by
    have : (objects.length : Int) < 2 ^ 31 := by rw [hlen]; exact hsmall
    exact_mod_cast this
  have hok : Population.poseCountOk params.modelCount objects = true ↔
      params.rows * params.cols = params.modelCount := by
    unfold Population.poseCountOk
    rw [toInt32_of_lt _ hlenNat, hlen, decide_eq_true_iff]
    exact eq_comm
  refine ⟨objects, hgrid, hlen, hgen, hok, ?_⟩
  intro st
  unfold Population.PopulateOne
  simp only [hparse, not_le.mpr hcount, if_false, hgen st]
  by_cases hEq : params.rows * params.cols = params.modelCount
  · have hT : Population.poseCountOk params.modelCount objects = true := hok.mpr hEq
    rw [gzAssert_ok _ _ _ hT]
    simp [hEq]
  · have hF : Population.poseCountOk params.modelCount objects = false := by
      cases h : Population.poseCountOk params.modelCount objects
      · rfl
      · exact absurd (hok.mp h) hEq
    cases ha : env.asserts <;> simp [gzAssert, hF, hEq, ha]

/-! ### Searching in strings -/

theorem findAux_first (pat a b : List Char) (i : Nat) (hpat : pat ≠ [])
    (hno : ¬ pat <:+: a ++ pat.dropLast) :
    findAux pat (a ++ pat ++ b) i = some (i + a.length) := by
  induction a generalizing i with
  | nil =>
    obtain ⟨c, cs, rfl⟩ := List.exists_cons_of_ne_nil hpat
    have hp : (c :: cs).isPrefixOf (c :: cs ++ b) = true :=
      List.isPrefixOf_iff_prefix.mpr (List.prefix_append _ _)
    simp only [List.nil_append, List.cons_append, findAux, List.length_nil, Nat.add_zero]
    rw [if_pos (by simp)]
  | cons c a ih =>
    have hnp : ¬ pat.isPrefixOf (c :: a ++ pat ++ b) = true := by
      intro hp
      have hpre : pat <+: c :: a ++ pat ++ b := List.isPrefixOf_iff_prefix.mp hp
      have hsplit : c :: a ++ pat ++ b = (c :: a ++ pat.dropLast) ++ ([pat.getLast hpat] ++ b) := by
        conv_lhs => rw [← List.dropLast_append_getLast hpat]
        simp
      rw [hsplit] at hpre
      have hle : pat.length ≤ (c :: a ++ pat.dropLast).length := by
        simp only [List.cons_append, List.length_cons, List.length_append, List.length_dropLast]
        have : 0 < pat.length := List.length_pos.mpr hpat
        omega
      have : pat <+: c :: a ++ pat.dropLast :=
        List.prefix_of_prefix_length_le hpre (List.prefix_append _ _) hle
      exact hno this.isInfix
    have hno2 : ¬ pat <:+: a ++ pat.dropLast := by
      intro h
      apply hno
      obtain ⟨s, t, hst⟩ := h
      exact ⟨c :: s, t, by simp [← hst]⟩
    have hstep : findAux pat (c :: a ++ pat ++ b) i = findAux pat (a ++ pat ++ b) (i + 1) := by
      show findAux pat (c :: (a ++ pat ++ b)) i = _
      have hnp2 : ¬ pat.isPrefixOf (c :: (a ++ pat ++ b)) = true := hnp
      rw [findAux, if_neg hnp2]
    rw [hstep, ih (i + 1) hno2, List.length_cons]
    congr 1
    omega

theorem strFind_first (u pat a b : List Char) (hpat : pat ≠ [])
    (hno : ¬ pat <:+: a ++ pat.dropLast) :
    strFind (u ++ (a ++ pat ++ b)) pat u.length = u.length + a.length := by
  unfold strFind
  rw [if_neg (by simp)]
  rw [List.drop_left, findAux_first pat a b u.length hpat hno]
  rfl

theorem not_infix_of_not_mem_single (c : Char) (l : List Char) (h : c ∉ l) :
    ¬ [c] <:+: l ++ [c].dropLast := by
  rintro ⟨s, t, hst⟩
  apply h
  have : c ∈ s ++ [c] ++ t := by simp
  rw [hst] at this
  simpa using this

theorem not_infix_of_not_mem_pair (c d : Char) (l : List Char) (h : c ∉ l) :
    ¬ [c, d] <:+: l ++ [c, d].dropLast := by
  rintro ⟨s, t, hst⟩
  have hlen := congrArg List.length hst
  simp only [List.length_append, List.length_cons, List.length_nil, List.dropLast] at hlen
  have hget : (s ++ [c, d] ++ t)[s.length]? = some c := by
    rw [List.append_assoc, List.getElem?_append_right (le_refl _)]
    simp
  rw [hst] at hget
  have hlt : s.length < l.length := by omega
  simp only [List.dropLast] at hget
  rw [List.getElem?_append_left hlt] at hget
  exact h (List.getElem?_mem hget)

theorem strFind_at (s u pat a b : List Char) (pos : Nat) (hs : s = u ++ (a ++ pat ++ b))
    (hpos : pos = u.length) (hpat : pat ≠ []) (hno : ¬ pat <:+: a ++ pat.dropLast) :
    strFind s pat pos = pos + a.length := by
  subst hs hpos
  exact strFind_first u pat a b hpat hno

theorem strReplace_mid (s u mid v str : List Char) (pos len : Nat) (hs : s = u ++ mid ++ v)
    (hpos : pos = u.length) (hlen : len = mid.length) :
    strReplace s pos len str = .ok (u ++ str ++ v) := by
  subst hs hpos hlen
  unfold strReplace
  rw [if_neg (by simp)]
  have h1 : List.take u.length (u ++ mid ++ v) = u := by
    rw [List.append_assoc, List.take_left]
  have h2 : min mid.length ((u ++ mid ++ v).length - u.length) = mid.length := by
    simp only [List.length_append]
    omega
  have h3 : List.drop (u.length + mid.length) (u ++ mid ++ v) = v := by
    rw [← List.length_append, List.drop_left]
  rw [h1, h2, h3]

theorem strInsert_at (s u v str : List Char) (pos : Nat) (hs : s = u ++ v)
    (hpos : pos = u.length) :
    strInsert s pos str = .ok (u ++ str ++ v) := by
  subst hs hpos
  unfold strInsert
  rw [if_neg (by simp), List.take_left, List.drop_left]

theorem sizeAdd_of_lt (a b : Nat) (h : a + b < 2 ^ 64) : sizeAdd a b = a + b :=
  Nat.mod_eq_of_lt h

theorem sizeSub_add (a b : Nat) (h : a + b < 2 ^ 64) : sizeSub (a + b) a = b := by
  unfold sizeSub
  have ha : a % 2 ^ 64 = a := Nat.mod_eq_of_lt (by omega)
  rw [ha]
  have : a + b + (2 ^ 64 - a) = b + 2 ^ 64 := by omega
  rw [this, Nat.add_mod_right]
  exact Nat.mod_eq_of_lt (by omega)

/-! ### Decimal texts -/

theorem digitChar_ne_quote (d : Nat) (hd : d < 10) :
    Nat.digitChar d ≠ '\'' ∧ (Nat.digitChar d).toNat - 48 = d := by
  interval_cases d <;> exact ⟨by decide, by decide⟩

theorem decimal_no_quote (n : Nat) : '\'' ∉ decimal n := by
  unfold decimal
  split
  · decide
  · intro h
    obtain ⟨d, hd, hdc⟩ := List.mem_map.mp h
    have hlt : d < 10 := Nat.digits_lt_base (by norm_num) (List.mem_reverse.mp hd)
    exact (digitChar_ne_quote d hlt).1 hdc

theorem digits_of_chars (l : List Nat) (hl : ∀ d ∈ l, d < 10) :
    (l.map Nat.digitChar).map (fun c => c.toNat - 48) = l := by
  induction l with
  | nil => rfl
  | cons d l ih =>
    simp only [List.map_cons, List.cons.injEq]
    exact ⟨(digitChar_ne_quote d (hl d (List.mem_cons_self _ _))).2,
      ih (fun x hx => hl x (List.mem_cons_of_mem _ hx))⟩

theorem decimal_injective (n m : Nat) (h : decimal n = decimal m) : n = m := by
  have hdig : ∀ k : Nat, ∀ d ∈ (Nat.digits 10 k).reverse, d < 10 := fun k d hd =>
    Nat.digits_lt_base (by norm_num) (List.mem_reverse.mp hd)
  have hzero : ∀ k : Nat, k ≠ 0 →
      ((Nat.digits 10 k).reverse).map Nat.digitChar ≠ ['0'] := by
    intro k hk heq
    have h1 := congrArg (List.map (fun c : Char => c.toNat - 48)) heq
    rw [digits_of_chars _ (hdig k)] at h1
    have h2 : Nat.digits 10 k = [0] := by
      have := congrArg List.reverse h1
      simpa using this
    have h3 := Nat.getLast_digit_ne_zero 10 hk
    simp [h2] at h3
  unfold decimal at h
  by_cases hn : n = 0 <;> by_cases hm : m = 0
  · rw [hn, hm]
  · rw [if_pos hn, if_neg hm] at h
    exact absurd h.symm (hzero m hm)
  · rw [if_neg hn, if_pos hm] at h
    exact absurd h (hzero n hn)
  · rw [if_neg hn, if_neg hm] at h
    have h1 := congrArg (List.map (fun c : Char => c.toNat - 48)) h
    rw [digits_of_chars _ (hdig n), digits_of_chars _ (hdig m)] at h1
    exact Nat.digits_inj_iff.mp (List.reverse_injective h1)

theorem decimal_length_le (n : Nat) (h : n < 2 ^ 64) : (decimal n).length ≤ 20 := by
  unfold decimal
  split
  · decide
  · rename_i hn
    simp only [List.length_map, List.length_reverse]
    have hlt : n < 10 ^ 20 := lt_of_lt_of_le h (by norm_num)
    rw [Nat.digits_len 10 n (by norm_num) hn]
    have := Nat.log_lt_of_lt_pow hn hlt
    omega

/-! ### The text of a clone -/

theorem Population.cloneName_no_quote (modelName : List Char) (i : Nat)
    (h : '\'' ∉ modelName) : '\'' ∉ Population.cloneName modelName i := by
  unfold Population.cloneName
  simp only [List.mem_append, not_or]
  exact ⟨⟨h, by decide⟩, decimal_no_quote i⟩

theorem Population.cloneName_injective (modelName : List Char) (i j : Nat)
    (h : Population.cloneName modelName i = Population.cloneName modelName j) : i = j := by
  unfold Population.cloneName at h
  exact decimal_injective i j (List.append_cancel_left h)

theorem Population.cloneName_length (modelName : List Char) (i : Nat) (h : i < 2 ^ 64) :
    (Population.cloneName modelName i).length ≤ modelName.length + 27 := by
  unfold Population.cloneName
  have := decimal_length_le i h
  have h7 : "_clone_".toList.length = 7 := rfl
  simp only [List.length_append, h7]
  omega

theorem Population.cloneText_ok {R : Type} (showDouble : R → List Char)
    (modelName pre name post : List Char) (i : Nat) (p : Vector3 R)
    (hfirst : ¬ "model name='".toList <:+: pre ++ "model name='".toList.dropLast)
    (hname : '\'' ∉ name) (hmodel : '\'' ∉ modelName)
    (hsize : pre.length + name.length + post.length + 14 < 2 ^ 64)
    (hsize2 : pre.length + (Population.cloneName modelName i).length + post.length + 14
      < 2 ^ 64) :
    Population.cloneText showDouble modelName
        (pre ++ "model name='".toList ++ name ++ "'>".toList ++ post) i p =
      .ok (pre ++ "model name='".toList ++ Population.cloneName modelName i ++ "'>".toList ++
        Population.poseText showDouble p ++ post) := by
  have hD12 : "model name='".toList.length = 12 := rfl
  have hDne : "model name='".toList ≠ [] := by decide
  have hq : "'".toList = ['\''] := rfl
  have hqg : "'>".toList = ['\'', '>'] := rfl
  unfold Population.cloneText
  simp only []
  generalize "model name='".toList = D at *
  generalize hN : Population.cloneName modelName i = newName at *
  have hnew : '\'' ∉ newName := hN ▸ Population.cloneName_no_quote modelName i hmodel
  -- first search of the delimiter
  have f1 : strFind (pre ++ D ++ name ++ "'>".toList ++ post) D 0 = pre.length := by
    have := strFind_at (pre ++ D ++ name ++ "'>".toList ++ post) [] D pre
      (name ++ "'>".toList ++ post) 0 (by simp) rfl hDne hfirst
    simpa using this
  have a1 : sizeAdd pre.length D.length = pre.length + 12 := by
    rw [hD12]; exact sizeAdd_of_lt _ _ (by omega)
  -- search of the quote that ends the name
  have f2 : strFind (pre ++ D ++ name ++ "'>".toList ++ post) "'".toList (pre.length + 12) =
      pre.length + 12 + name.length := by
    rw [hq]
    exact strFind_at _ (pre ++ D) ['\''] name ('>' :: post) _ (by simp [hqg])
      (by simp [hD12]) (by decide) (not_infix_of_not_mem_single _ _ hname)
  have s1 : sizeSub (pre.length + 12 + name.length) (pre.length + 12) = name.length :=
    sizeSub_add _ _ (by omega)
  have r1 : strReplace (pre ++ D ++ name ++ "'>".toList ++ post) (pre.length + 12) name.length
      newName = .ok ((pre ++ D) ++ newName ++ ("'>".toList ++ post)) :=
    strReplace_mid _ (pre ++ D) name ("'>".toList ++ post) newName _ _ (by simp)
      (by simp [hD12]) rfl
  -- second search of the delimiter, in the text with the new name
  have f3 : strFind ((pre ++ D) ++ newName ++ ("'>".toList ++ post)) D 0 = pre.length := by
    have := strFind_at ((pre ++ D) ++ newName ++ ("'>".toList ++ post)) [] D pre
      (newName ++ ("'>".toList ++ post)) 0 (by simp) rfl hDne hfirst
    simpa using this
  have f4 : strFind ((pre ++ D) ++ newName ++ ("'>".toList ++ post)) "'>".toList
      (pre.length + 12) = pre.length + 12 + newName.length := by
    rw [hqg]
    exact strFind_at _ (pre ++ D) ['\'', '>'] newName post _ (by simp)
      (by simp [hD12]) (by decide) (not_infix_of_not_mem_pair _ _ _ hnew)
  have a2 : sizeAdd (pre.length + 12 + newName.length) "'>".toList.length =
      pre.length + 12 + newName.length + 2 :=
    sizeAdd_of_lt _ _ (by rw [hqg]; simp only [List.length_cons, List.length_nil]; omega)
  have i1 : strInsert ((pre ++ D) ++ newName ++ ("'>".toList ++ post))
      (pre.length + 12 + newName.length + 2) (Population.poseText showDouble p) =
      .ok ((pre ++ D ++ newName ++ "'>".toList) ++ Population.poseText showDouble p ++ post) :=
    strInsert_at _ (pre ++ D ++ newName ++ "'>".toList) post _ _ (by simp)
      (by simp [hD12, hqg]; omega)
  simp only [f1, a1, f2, s1, r1, f3, f4, a2, i1]

theorem forLoopM_inserted (body : Nat → PopState → Except Fault PopState)
    (g : Nat → List Char) (n i0 : Nat) (st : PopState)
    (hbody : ∀ i, i0 ≤ i → i < i0 + n → ∀ s : PopState,
      body i s = .ok { s with inserted := s.inserted ++ [g i] }) :
    forLoopM body n i0 st =
      .ok { st with inserted := st.inserted ++ (List.range' i0 n).map g } := by
  induction n generalizing i0 st with
  | zero => simp [forLoopM]
  | succ n ih =>
    rw [forLoopM, hbody i0 (le_refl _) (by omega) st]
    simp only []
    rw [ih (i0 + 1) _ (fun i h1 h2 s => hbody i (by omega) (by omega) s)]
    simp [List.range'_succ]

theorem Population.PopulateOne_true_inv {R : Type} [LinearOrderedField R] [FloorRing R]
    (env : PopEnv R) (e : PopulationElem R) (params : PopulationParams R) (st st1 : PopState)
    (objects : List (Vector3 R)) (draws : Nat)
    (hparse : Population.ParseSdf e env.defaultParams = some params)
    (hgen : Population.generate env params [] st.draws = .ok (some (objects, draws)))
    (hok : Population.PopulateOne env e st = .ok (true, st1)) :
    Population.insertClones env params objects { st with draws := draws } = .ok st1 := by
  unfold Population.PopulateOne at hok
  simp only [hparse] at hok
  split at hok
  · cases hok
  · rw [hgen] at hok
    simp only [] at hok
    split at hok
    · cases hok
    · split at hok
      · cases hok
      · rename_i st2 hins
        cases hok
        exact hins

theorem Population.insertClones_ok {R : Type} (env : PopEnv R) (params : PopulationParams R)
    (objects : List (Vector3 R)) (st : PopState) (pre name post : List Char)
    (htext : env.sdfToString ("<sdf version ='1.5'>".toList ++ params.modelSdf ++
      "</sdf>".toList) = pre ++ "model name='".toList ++ name ++ "'>".toList ++ post)
    (hfirst : ¬ "model name='".toList <:+: pre ++ "model name='".toList.dropLast)
    (hname : '\'' ∉ name) (hmodel : '\'' ∉ params.modelName)
    (hsize : pre.length + name.length + params.modelName.length + post.length + 64 < 2 ^ 64)
    (hobjects : objects.length < 2 ^ 64) :
    Population.insertClones env params objects st =
      .ok { st with
        inserted := st.inserted ++
          (List.range' 0 objects.length).map
            (Population.cloneSpec env.showDouble params.modelName pre post objects) } := by
  unfold Population.insertClones
  simp only []
  apply forLoopM_inserted
  intro i _ hi s
  have hi' : i < objects.length := by omega
  have hget : objects[i]? = some objects[i] := List.getElem?_eq_getElem hi'
  have hlen := Population.cloneName_length params.modelName i (by omega)
  simp only [vectorAt, hget, htext, Population.cloneSpec]
  rw [Population.cloneText_ok env.showDouble params.modelName pre name post i _ hfirst
    hname hmodel (by omega) (by omega)]
  rfl

theorem Population.PopulateOne_ok {R : Type} [LinearOrderedField R] [FloorRing R]
    (env : PopEnv R) (e : PopulationElem R) (params : PopulationParams R) (st st1 : PopState)
    (objects : List (Vector3 R)) (draws : Nat)
    (hparse : Population.ParseSdf e env.defaultParams = some params)
    (hcount : 0 < params.modelCount)
    (hgen : Population.generate env params [] st.draws = .ok (some (objects, draws)))
    (hcheck : Population.poseCountOk params.modelCount objects = true)
    (hins : Population.insertClones env params objects { st with draws := draws } = .ok st1) :
    Population.PopulateOne env e st = .ok (true, st1) := by
  unfold Population.PopulateOne
  simp only [hparse, not_le.mpr hcount, if_false, hgen, gzAssert_ok _ _ _ hcheck, hins]

/-- C17: when `PopulateOne` succeeds, with `objects` the `k` poses generated,
and the text `sdf.ToString()` returns has the shape
`pre ++ "model name='" ++ name ++ "'>" ++ post` (first occurrence of
`model name='`, no quote in the name or in `modelName`, text sizes that fit
`size_t`), it calls `InsertModelString` exactly `k` times; the text of call `i`
is `pre ++ "model name='" ++ modelName ++ "_clone_" ++ i ++ "'>"`, then the
pose element with the coordinates of pose `i` followed by ` 0 0 0`, then
`post`; and the names of different clones differ. -/
theorem C17_clones_named_and_posed {R : Type} [LinearOrderedField R] [FloorRing R]
    (env : PopEnv R) (e : PopulationElem R) (params : PopulationParams R) (st st1 : PopState)
    (objects : List (Vector3 R)) (draws : Nat) (pre name post : List Char)
    (hparse : Population.ParseSdf e env.defaultParams = some params)
    (hgen : Population.generate env params [] st.draws = .ok (some (objects, draws)))
    (hok : Population.PopulateOne env e st = .ok (true, st1))
    (htext : env.sdfToString ("<sdf version ='1.5'>".toList ++ params.modelSdf ++
      "</sdf>".toList) = pre ++ "model name='".toList ++ name ++ "'>".toList ++ post)
    (hfirst : ¬ "model name='".toList <:+: pre ++ "model name='".toList.dropLast)
    (hname : '\'' ∉ name) (hmodel : '\'' ∉ params.modelName)
    (hsize : pre.length + name.length + params.modelName.length + post.length + 64 < 2 ^ 64)
    (hobjects : objects.length < 2 ^ 64) :
    ∃ added : List (List Char), st1.inserted = st.inserted ++ added ∧
      added.length = objects.length ∧
      (∀ (i : Nat) (o : Vector3 R), objects[i]? = some o →
        added[i]? = some (pre ++ "model name='".toList ++
          (params.modelName ++ "_clone_".toList ++ decimal i) ++ "'>".toList ++
          ("\n    <pose>".toList ++ env.showDouble o.x ++ " ".toList ++ env.showDouble o.y ++
            " ".toList ++ env.showDouble o.z ++ " 0 0 0</pose>".toList) ++ post)) ∧
      (∀ i j : Nat, i ≠ j →
        params.modelName ++ "_clone_".toList ++ decimal i ≠
          params.modelName ++ "_clone_".toList ++ decimal j) := by
  have hins := Population.PopulateOne_true_inv env e params st st1 objects draws hparse hgen hok
  rw [Population.insertClones_ok env params objects _ pre name post htext hfirst hname hmodel
    hsize hobjects] at hins
  cases hins
  refine ⟨(List.range' 0 objects.length).map
    (Population.cloneSpec env.showDouble params.modelName pre post objects), rfl, by simp,
    ?_, ?_⟩
  · intro i o hio
    have hi : i < objects.length := (List.getElem?_eq_some.mp hio).1
    rw [← List.range_eq_range', List.getElem?_map, List.getElem?_range hi]
    simp only [Option.map_some', Population.cloneSpec, hio]
  · intro i j hij h
    exact hij (Population.cloneName_injective params.modelName i j h)

/-- Witness of C16 (amended): the 1 by 2 grid of `canGrid` with
`model_count = 2`. -/
theorem C16_witness :
    ∃ objects : List (Vector3 ℚ),
      (objects.length : Int) = canGridParams.rows * canGridParams.cols ∧
      (Population.poseCountOk canGridParams.modelCount objects = true ↔
        canGridParams.rows * canGridParams.cols = canGridParams.modelCount) := by
  obtain ⟨objects, -, hlen, -, hiff, -⟩ :=
    C16_grid_count_not_reconciled toyPopEnv canGrid canGridParams rfl rfl rfl (by decide)
      (by decide) (by decide) (by decide)
  exact ⟨objects, hlen, hiff⟩

/-- Witness of C17: `PopulateOne` on `canGrid` succeeds and inserts two clones,
the first one named `can_clone_0`. -/
theorem C17_witness :
    ∃ (st1 : PopState) (added : List (List Char)),
      Population.PopulateOne toyPopEnv canGrid ⟨[], 0⟩ = .ok (true, st1) ∧
      st1.inserted = [] ++ added ∧ added.length = 2 ∧
      added[0]? = some ("<sdf version ='1.5'><".toList ++ "model name='".toList ++
        ("can".toList ++ "_clone_".toList ++ decimal 0) ++ "'>".toList ++
        ("\n    <pose>".toList ++ toyPopEnv.showDouble 0 ++ " ".toList ++
          toyPopEnv.showDouble 0 ++ " ".toList ++ toyPopEnv.showDouble 0 ++
          " 0 0 0</pose>".toList) ++ "<static>1</static></model></sdf>".toList) := by
  have hgrid := Population.CreatePosesBoxGrid_ok true (⟨0, 0, 0⟩ : Vector3 ℚ) ⟨1, 1, 0⟩ 1 2
    (by decide) (by decide)
  have hobj : (List.range (1 : Int).toNat).flatMap (fun (a : Nat) =>
      (List.range (2 : Int).toNat).map (fun (b : Nat) =>
        ({ x := (0 : ℚ) + (b : ℚ) * 1, y := 0 + (a : ℚ) * 1, z := 0 } : Vector3 ℚ))) =
      [⟨0, 0, 0⟩, ⟨1, 0, 0⟩] := by
    simp [List.range_succ]
  rw [hobj] at hgrid
  have hgen : Population.generate toyPopEnv canGridParams [] (⟨[], 0⟩ : PopState).draws =
      .ok (some ([⟨0, 0, 0⟩, ⟨1, 0, 0⟩], 0)) := by
    rw [Population.generate_grid toyPopEnv canGridParams rfl rfl]
    show (Population.CreatePosesBoxGrid true (⟨0, 0, 0⟩ : Vector3 ℚ) 1 2 ⟨1, 1, 0⟩ []).map _ = _
    rw [hgrid]
    rfl
  have htext : toyPopEnv.sdfToString ("<sdf version ='1.5'>".toList ++ canGridParams.modelSdf ++
      "</sdf>".toList) = "<sdf version ='1.5'><".toList ++ "model name='".toList ++
      "can".toList ++ "'>".toList ++ "<static>1</static></model></sdf>".toList := by
    decide
  have hins := Population.insertClones_ok toyPopEnv canGridParams [⟨0, 0, 0⟩, ⟨1, 0, 0⟩]
    ⟨[], 0⟩ _ _ _ htext (by decide) (by decide) (by decide) (by decide) (by decide)
  have hok := Population.PopulateOne_ok toyPopEnv canGrid canGridParams ⟨[], 0⟩ _ _ 0 rfl
    (by decide) hgen (by decide) hins
  obtain ⟨added, hadd, hlen, hidx, -⟩ :=
    C17_clones_named_and_posed toyPopEnv canGrid canGridParams ⟨[], 0⟩ _
      [⟨0, 0, 0⟩, ⟨1, 0, 0⟩] 0 _ _ _ rfl hgen hok htext (by decide) (by decide) (by decide)
      (by decide) (by decide)
  exact ⟨_, added, hok, hadd, hlen, hidx 0 ⟨0, 0, 0⟩ rfl⟩

/-- Witness of C18: `PopulateOne` on the population with `model_count = 0`. -/
theorem C18_witness :
    Population.PopulateOne toyPopEnv canNone ⟨[], 0⟩ = .ok (false, ⟨[], 0⟩) :=
  (C18_nonpositive_model_count toyPopEnv canNone 0 rfl (by decide)).1 ⟨[], 0⟩

/-! ## Static entities (C19, C20) -/

theorem EntityStore.IsStatic_store_same (s : EntityStore) (p : Nat) (e : Entity)
    (hp : p < s.entities.length) : (s.store p e).IsStatic p = .ok e.isStatic := by
  simp [EntityStore.IsStatic, EntityStore.deref, EntityStore.store, List.getElem?_set, hp]

theorem EntityStore.deref_store_other (s : EntityStore) (p q : Nat) (e : Entity)
    (hpq : p ≠ q) : (s.store p e).deref q = s.deref q := by
  simp [EntityStore.deref, EntityStore.store, List.getElem?_set, hpq]

theorem getElem?_set_append_parent {α : Type} (l : List α) (e0 x : α) (p : Nat)
    (hlt : p < l.length) :
    ((l ++ [e0]).set p x)[p]? = some x ∧ ((l ++ [e0]).set p x)[l.length]? = some e0 := by
  have hne : p ≠ l.length := Nat.ne_of_lt hlt
  constructor
  · rw [List.getElem?_set]
    simp [Nat.lt_succ_of_lt hlt]
  · rw [List.getElem?_set, if_neg hne, List.getElem?_append_right (le_refl _)]
    simp

theorem getElem?_set_set_append {α : Type} (l : List α) (e0 x y : α) (p : Nat)
    (hlt : p < l.length) :
    (((l ++ [e0]).set p x).set l.length y)[l.length]? = some y ∧
      (((l ++ [e0]).set p x).set l.length y)[p]? = some x := by
  have hne : l.length ≠ p := Nat.ne_of_gt hlt
  constructor
  · rw [List.getElem?_set]
    simp
  · rw [List.getElem?_set, if_neg hne]
    exact (getElem?_set_append_parent l e0 x p hlt).1

theorem EntityStore.construct_with_parent (s : EntityStore) (p : Nat) (parentEntity : Entity)
    (hp : s.entities[p]? = some parentEntity) :
    ∃ s1, s.construct (some p) = .ok (s.entities.length, s1) ∧
      s1.IsStatic s.entities.length = .ok parentEntity.isStatic ∧
      s1.IsStatic p = .ok parentEntity.isStatic := by
  have hlt : p < s.entities.length := (List.getElem?_eq_some.mp hp).1
  generalize he0 : (⟨some p, s.idCounter, false, [], ""⟩ : Entity) = e0
  generalize hs1 :
    (⟨s.entities ++ [e0], (s.idCounter + 1) % 2 ^ 32, s.engineEntities⟩ : EntityStore) = s1
  have hent1 : s1.entities = s.entities ++ [e0] := by rw [← hs1]
  have hA : s1.AddChild p (some s.entities.length) = .ok (s1.store p
      { parentEntity with children := parentEntity.children ++ [s.entities.length] }) := by
    simp only [EntityStore.AddChild, EntityStore.deref, hent1, List.getElem?_append_left hlt, hp]
  generalize hx : ({ parentEntity with
    children := parentEntity.children ++ [s.entities.length] } : Entity) = x at hA
  have hxs : x.isStatic = parentEntity.isStatic := by rw [← hx]
  generalize hs2 : s1.store p x = s2 at hA
  have hent2 : s2.entities = (s.entities ++ [e0]).set p x := by
    rw [← hs2, EntityStore.store, hent1]
  obtain ⟨g1, g2⟩ := getElem?_set_append_parent s.entities e0 x p hlt
  have hI : s2.IsStatic p = .ok parentEntity.isStatic := by
    simp only [EntityStore.IsStatic, EntityStore.deref, hent2, g1, hxs]
  have hS : s2.SetStatic s.entities.length parentEntity.isStatic =
      .ok (s2.store s.entities.length { e0 with isStatic := parentEntity.isStatic }) := by
    simp only [EntityStore.SetStatic, EntityStore.deref, hent2, g2]
  generalize hy : ({ e0 with isStatic := parentEntity.isStatic } : Entity) = y at hS
  have hys : y.isStatic = parentEntity.isStatic := by rw [← hy]
  obtain ⟨k1, k2⟩ := getElem?_set_set_append s.entities e0 x y p hlt
  have hc : s.construct (some p) = .ok (s.entities.length,
      { s2.store s.entities.length y with
        engineEntities := (s2.store s.entities.length y).engineEntities ++
          [s.entities.length] }) := by
    simp only [EntityStore.construct, he0, hs1, hA, hx, hs2, hI, hS]
  refine ⟨_, hc, ?_, ?_⟩
  · simp only [EntityStore.IsStatic, EntityStore.deref, EntityStore.store, hent2, k1, hys]
  · simp only [EntityStore.IsStatic, EntityStore.deref, EntityStore.store, hent2, k2, hxs]

/-- C19: right after construction, an `Entity` built with a non-null parent has
`IsStatic()` equal to the `IsStatic()` of the parent at that moment (which the
constructor leaves as it was), and an `Entity` built with a null parent has
`IsStatic()` false; the constructor returns in both cases. -/
theorem C19_constructor_inherits_static (s : EntityStore) :
    (∀ (p : Nat) (parentStatic : Bool), s.IsStatic p = .ok parentStatic →
      ∃ this s1, s.construct (some p) = .ok (this, s1) ∧
        s1.IsStatic this = .ok parentStatic ∧ s1.IsStatic p = .ok parentStatic) ∧
    (∃ this s1, s.construct none = .ok (this, s1) ∧ s1.IsStatic this = .ok false) := by
  constructor
  · intro p parentStatic hstat
    cases hp : s.entities[p]? with
    | none => simp [EntityStore.IsStatic, EntityStore.deref, hp] at hstat
    | some parentEntity =>
      have : parentEntity.isStatic = parentStatic := by
        simpa [EntityStore.IsStatic, EntityStore.deref, hp] using hstat
      obtain ⟨s1, h1, h2, h3⟩ := EntityStore.construct_with_parent s p parentEntity hp
      exact ⟨_, s1, h1, this ▸ h2, this ▸ h3⟩
  · refine ⟨s.entities.length, _, rfl, ?_⟩
    simp [EntityStore.IsStatic, EntityStore.deref]

/-- Witness of C19: a child constructed under the static entity 0 of
`staticPair` is static. -/
theorem C19_witness :
    ∃ this s1, staticPair.construct (some 0) = .ok (this, s1) ∧
      s1.IsStatic this = .ok true ∧ s1.IsStatic 0 = .ok true :=
  (C19_constructor_inherits_static staticPair).1 0 true rfl

/-- C20, counterexample: `staticPair` is what construction of an entity,
`SetStatic(true)` on it and construction of a child leave; the child has a
static ancestor and is static, and after `SetStatic(false)` on the child its
`IsStatic()` is false while the ancestor is still static. -/
theorem C20_counterexample :
    (∃ s1 s2, emptyStore.construct none = .ok (0, s1) ∧ s1.SetStatic 0 true = .ok s2 ∧
      s2.construct (some 0) = .ok (1, staticPair)) ∧
    staticPair.hasStaticAncestor 2 1 = true ∧ staticPair.IsStatic 1 = .ok true ∧
    ∃ s3, staticPair.setStaticSeq 1 [false] = .ok s3 ∧ s3.IsStatic 1 = .ok false ∧
      s3.hasStaticAncestor 2 1 = true := by
  refine ⟨⟨_, _, rfl, rfl, rfl⟩, rfl, rfl, _, rfl, rfl, rfl⟩

theorem EntityStore.setStaticSeq_last (this : Nat) (bs : List Bool) (b : Bool)
    (s : EntityStore) (e : Entity) (he : s.entities[this]? = some e) :
    ∃ s1, EntityStore.setStaticSeq this (bs ++ [b]) s = .ok s1 ∧
      s1.entities = s.entities.set this { e with isStatic := b } ∧
      s1.idCounter = s.idCounter ∧ s1.engineEntities = s.engineEntities := by
  have hlt : this < s.entities.length := (List.getElem?_eq_some.mp he).1
  induction bs generalizing s e with
  | nil =>
    simp [EntityStore.setStaticSeq, EntityStore.SetStatic, EntityStore.deref, he,
      EntityStore.store]
  | cons b0 bs ih =>
    have hstep : s.SetStatic this b0 = .ok (s.store this { e with isStatic := b0 }) := by
      simp [EntityStore.SetStatic, EntityStore.deref, he]
    have he1 : (s.store this { e with isStatic := b0 }).entities[this]? =
        some { e with isStatic := b0 } := by
      simp [EntityStore.store, List.getElem?_set, hlt]
    obtain ⟨s1, h1, h2, h3, h4⟩ := ih (s.store this { e with isStatic := b0 }) _ he1
      (by simpa [EntityStore.store] using hlt)
    refine ⟨s1, ?_, ?_, h3, h4⟩
    · simp only [List.cons_append, EntityStore.setStaticSeq, hstep]
      exact h1
    · rw [h2]
      simp [EntityStore.store]

/-- C20, amended: `SetStatic(s)` stores `s` in the flag of the entity itself and
looks at no ancestor: after any sequence of `SetStatic` calls on an entity that
ends with `SetStatic(b)`, `IsStatic()` of that entity is `b`, whatever the flags
of its ancestors, and every other entity is as before. -/
theorem C20_SetStatic_overrides (s : EntityStore) (this : Nat) (e : Entity)
    (he : s.entities[this]? = some e) (bs : List Bool) (b : Bool) :
    ∃ s1, EntityStore.setStaticSeq this (bs ++ [b]) s = .ok s1 ∧
      s1.IsStatic this = .ok b ∧
      (∀ q, q ≠ this → s1.entities[q]? = s.entities[q]?) ∧
      s1.entities[this]? = some { e with isStatic := b } := by
  have hlt : this < s.entities.length := (List.getElem?_eq_some.mp he).1
  obtain ⟨s1, h1, h2, -, -⟩ := EntityStore.setStaticSeq_last this bs b s e he
  refine ⟨s1, h1, ?_, ?_, ?_⟩
  · simp [EntityStore.IsStatic, EntityStore.deref, h2, List.getElem?_set, hlt]
  · intro q hq
    simp [h2, List.getElem?_set, Ne.symm hq]
  · simp [h2, List.getElem?_set, hlt]

/-- Witness of C20 (amended): `SetStatic(true)` then `SetStatic(false)` on the
child of `staticPair`. -/
theorem C20_witness :
    ∃ s1, EntityStore.setStaticSeq 1 ([true] ++ [false]) staticPair = .ok s1 ∧
      s1.IsStatic 1 = .ok false ∧
      (∀ q, q ≠ 1 → s1.entities[q]? = staticPair.entities[q]?) ∧
      s1.entities[1]? = some { parent := some 0, id := 1, isStatic := false, children := [],
                               name := "" } :=
  C20_SetStatic_overrides staticPair 1 _ rfl [true] false

/-! ## Tree consistency of the entities (C21) -/

theorem getElem?_set_append_single {α : Type} (l : List α) (x y : α) (p : Nat)
    (hlt : p < l.length) (i : Nat) :
    (l.set p x ++ [y])[i]? =
      if i = l.length then some y else if i = p then some x else l[i]? := by
  by_cases hi : i = l.length
  · subst hi
    rw [if_pos rfl, List.getElem?_append_right (by simp)]
    simp
  · rw [if_neg hi]
    by_cases hlen : i < l.length
    · rw [List.getElem?_append_left (by simpa using hlen), List.getElem?_set]
      by_cases hip : i = p
      · subst hip
        simp [hlen]
      · simp [hip, Ne.symm hip]
    · have hgt : l.length < i := by omega
      have hip : i ≠ p := by omega
      rw [if_neg hip, List.getElem?_eq_none (by simp; omega), List.getElem?_eq_none (by omega)]

theorem set_set_append_single {α : Type} (l : List α) (e0 x y : α) (p : Nat)
    (hlt : p < l.length) :
    ((l ++ [e0]).set p x).set l.length y = l.set p x ++ [y] := by
  apply List.ext_getElem?
  intro i
  rw [getElem?_set_append_single l x y p hlt i, List.getElem?_set]
  by_cases hi : i = l.length
  · subst hi
    simp
  · rw [if_neg (Ne.symm hi), if_neg hi, List.getElem?_set]
    by_cases hip : i = p
    · subst hip
      simp [Nat.lt_succ_of_lt hlt]
    · rw [if_neg (Ne.symm hip), if_neg hip]
      by_cases hlen : i < l.length
      · rw [List.getElem?_append_left hlen]
      · rw [List.getElem?_eq_none (by simp; omega), List.getElem?_eq_none (by omega)]

theorem EntityStore.construct_entities (s : EntityStore) (p : Nat) (parentEntity : Entity)
    (hp : s.entities[p]? = some parentEntity) :
    s.construct (some p) = .ok (s.entities.length,
      { entities := s.entities.set p
            { parentEntity with children := parentEntity.children ++ [s.entities.length] } ++
            [⟨some p, s.idCounter, parentEntity.isStatic, [], ""⟩],
        idCounter := (s.idCounter + 1) % 2 ^ 32,
        engineEntities := s.engineEntities ++ [s.entities.length] }) := by
  have hlt : p < s.entities.length := (List.getElem?_eq_some.mp hp).1
  obtain ⟨g1, g2⟩ := getElem?_set_append_parent s.entities
    (⟨some p, s.idCounter, false, [], ""⟩ : Entity)
    { parentEntity with children := parentEntity.children ++ [s.entities.length] } p hlt
  simp only [EntityStore.construct, EntityStore.AddChild, EntityStore.deref,
    List.getElem?_append_left hlt, hp, EntityStore.store, EntityStore.IsStatic, g1,
    EntityStore.SetStatic, g2, set_set_append_single _ _ _ _ _ hlt]

theorem EntityStore.TreeConsistent_extend (s s1 : EntityStore) (po : Option Nat)
    (h : s.TreeConsistent)
    (hA : ∀ (i : Nat) (e1 : Entity), s1.entities[i]? = some e1 →
      (i = s.entities.length ∧ e1.parent = po ∧ e1.children = []) ∨
      (i ≠ s.entities.length ∧ ∃ e, s.entities[i]? = some e ∧ e1.parent = e.parent ∧
        e1.children = e.children ++ (if some i = po then [s.entities.length] else [])))
    (hB : ∀ (i : Nat) (e : Entity), s.entities[i]? = some e →
      ∃ e1, s1.entities[i]? = some e1 ∧ e1.parent = e.parent ∧
        e1.children = e.children ++ (if some i = po then [s.entities.length] else []))
    (hC : ∃ e1, s1.entities[s.entities.length]? = some e1 ∧ e1.parent = po ∧ e1.children = [])
    (hD : ∀ p, po = some p → p < s.entities.length) :
    s1.TreeConsistent := by
  have hfresh : ∀ (q : Nat) (qe : Entity), s.entities[q]? = some qe →
      s.entities.length ∉ qe.children := by
    intro q qe hq hmem
    obtain ⟨e, he, -⟩ := h.2 q qe _ hq hmem
    have := (List.getElem?_eq_some.mp he).1
    omega
  constructor
  · intro c e1 p1 hc hpar
    rcases hA c e1 hc with ⟨hcn, hp1, -⟩ | ⟨hcn, e, he, hpe, -⟩
    · have hpo : po = some p1 := by rw [← hp1, hpar]
      have hlt := hD p1 hpo
      obtain ⟨e2, h2, -, hch2⟩ := hB p1 _ (List.getElem?_eq_getElem hlt)
      constructor
      · refine ⟨e2, h2, ?_⟩
        rw [hch2, hpo, if_pos rfl, hcn, List.count_append,
          List.count_eq_zero.mpr (hfresh p1 _ (List.getElem?_eq_getElem hlt))]
        simp
      · intro q qe hqp hq hmem
        rcases hA q qe hq with ⟨-, -, hnil⟩ | ⟨-, qe0, hqe0, -, hch⟩
        · rw [hnil] at hmem
          cases hmem
        · have hne : some q ≠ po := by
            rw [hpo]
            intro hh
            exact hqp (Option.some.inj hh)
          rw [hch, if_neg hne, List.append_nil, hcn] at hmem
          exact hfresh q qe0 hqe0 hmem
    · obtain ⟨⟨pe0, hpe0, hcnt⟩, hoth⟩ := h.1 c e p1 he (by rw [← hpe, hpar])
      obtain ⟨e2, h2, -, hch2⟩ := hB p1 pe0 hpe0
      constructor
      · refine ⟨e2, h2, ?_⟩
        rw [hch2, List.count_append, hcnt]
        split
        · rw [List.count_eq_zero.mpr (fun hm => hcn (List.mem_singleton.mp hm))]
        · simp
      · intro q qe hqp hq hmem
        rcases hA q qe hq with ⟨-, -, hnil⟩ | ⟨-, qe0, hqe0, -, hch⟩
        · rw [hnil] at hmem
          cases hmem
        · rw [hch, List.mem_append] at hmem
          rcases hmem with hmem | hmem
          · exact hoth q qe0 hqp hqe0 hmem
          · split at hmem
            · exact hcn (List.mem_singleton.mp hmem)
            · cases hmem
  · intro q qe c hq hmem
    rcases hA q qe hq with ⟨-, -, hnil⟩ | ⟨-, qe0, hqe0, -, hch⟩
    · rw [hnil] at hmem
      cases hmem
    · rw [hch, List.mem_append] at hmem
      rcases hmem with hmem | hmem
      · obtain ⟨e, he, hpar⟩ := h.2 q qe0 c hqe0 hmem
        obtain ⟨e2, h2, hp2, -⟩ := hB c e he
        exact ⟨e2, h2, by rw [hp2, hpar]⟩
      · split at hmem
        · rename_i hpo
          obtain ⟨e2, h2, hp2, -⟩ := hC
          rw [List.mem_singleton.mp hmem]
          exact ⟨e2, h2, by rw [hp2, hpo]⟩
        · cases hmem

theorem rootAndChild_consistent : rootAndChild.TreeConsistent := by
  constructor
  · intro c e p hc hpar
    match c, hc with
    | 0, hc =>
      cases (show some _ = some e from hc)
      cases hpar
    | 1, hc =>
      cases (show some _ = some e from hc)
      cases hpar
      refine ⟨⟨_, rfl, by decide⟩, ?_⟩
      intro q qe hq hqe
      match q, hq, hqe with
      | 0, hq, _ => exact absurd rfl hq
      | 1, _, hqe =>
        cases (show some _ = some qe from hqe)
        exact fun hm => nomatch hm
      | q + 2, _, hqe => cases (show none = some qe from hqe)
    | c + 2, hc => cases (show none = some e from hc)
  · intro q qe c hq hmem
    match q, hq with
    | 0, hq =>
      cases (show some _ = some qe from hq)
      cases List.mem_singleton.mp hmem
      exact ⟨_, rfl, rfl⟩
    | 1, hq =>
      cases (show some _ = some qe from hq)
      cases hmem
    | q + 2, hq => cases (show none = some qe from hq)

/-- C21, counterexample: the store `rootAndChild`, which two constructor calls
leave, is tree consistent; after `SetParent(NULL)` on the child the child is still
listed under the root, and after `AddChild(child)` on the root the child is
listed twice, so neither resulting store is tree consistent. -/
theorem C21_counterexample :
    (∃ s1, emptyStore.construct none = .ok (0, s1) ∧
      s1.construct (some 0) = .ok (1, rootAndChild)) ∧
    rootAndChild.TreeConsistent ∧
    (∃ s1, rootAndChild.SetParent 1 none = .ok s1 ∧ ¬ s1.TreeConsistent) ∧
    (∃ s1, rootAndChild.AddChild 0 (some 1) = .ok s1 ∧ ¬ s1.TreeConsistent) := by
  refine ⟨⟨_, rfl, rfl⟩, rootAndChild_consistent, ⟨_, rfl, ?_⟩, ⟨_, rfl, ?_⟩⟩
  · intro h
    obtain ⟨e, he, hpar⟩ := h.2 0 _ 1 rfl (List.mem_singleton.mpr rfl)
    cases (show some _ = some e from he)
    cases hpar
  · intro h
    obtain ⟨⟨pe, hpe, hcnt⟩, -⟩ := h.1 1 _ 0 rfl rfl
    cases (show some _ = some pe from hpe)
    exact absurd hcnt (by decide)

/-- C21, amended: tree consistency is preserved by the constructor.  From a
tree-consistent store, the constructor with an existing parent `p` returns,
leaves a tree-consistent store in which the new entity has parent `p` and the
children of `p` are the former ones followed by the new entity once (it was not
listed before), and the constructor with a null parent returns and leaves a
tree-consistent store.  `AddChild` only appends to the children list of its
receiver and `SetParent` only assigns the parent field of its receiver. -/
theorem C21_constructor_keeps_tree_consistent (s : EntityStore) (h : s.TreeConsistent) :
    (∀ (p : Nat) (pe : Entity), s.entities[p]? = some pe →
      ∃ s1, s.construct (some p) = .ok (s.entities.length, s1) ∧ s1.TreeConsistent ∧
        s1.GetChildren p = .ok (pe.children ++ [s.entities.length]) ∧
        s1.GetParent s.entities.length = .ok (some p) ∧
        s.entities.length ∉ pe.children) ∧
    (∃ s1, s.construct none = .ok (s.entities.length, s1) ∧ s1.TreeConsistent ∧
      s1.GetParent s.entities.length = .ok none) ∧
    (∀ (this c : Nat) (e : Entity), s.entities[this]? = some e →
      s.AddChild this (some c) = .ok (s.store this { e with children := e.children ++ [c] })) ∧
    (∀ (this : Nat) (parent : Option Nat) (e : Entity), s.entities[this]? = some e →
      s.SetParent this parent = .ok (s.store this { e with parent := parent })) := by
  refine ⟨?_, ?_, ?_, ?_⟩
  · intro p pe hp
    have hlt : p < s.entities.length := (List.getElem?_eq_some.mp hp).1
    have hne : p ≠ s.entities.length := Nat.ne_of_lt hlt
    have hget := getElem?_set_append_single s.entities
      { pe with children := pe.children ++ [s.entities.length] }
      (⟨some p, s.idCounter, pe.isStatic, [], ""⟩ : Entity) p hlt
    refine ⟨_, EntityStore.construct_entities s p pe hp, ?_, ?_, ?_, ?_⟩
    · apply EntityStore.TreeConsistent_extend s _ (some p) h
      · intro i e1 hi
        rw [hget i] at hi
        by_cases hin : i = s.entities.length
        · rw [if_pos hin] at hi
          cases hi
          exact Or.inl ⟨hin, rfl, rfl⟩
        · rw [if_neg hin] at hi
          right
          by_cases hip : i = p
          · rw [if_pos hip] at hi
            cases hi
            exact ⟨hin, pe, hip ▸ hp, rfl, by simp [hip]⟩
          · rw [if_neg hip] at hi
            exact ⟨hin, e1, hi, rfl, by simp [hip]⟩
      · intro i e hi
        have hin : i ≠ s.entities.length := Nat.ne_of_lt (List.getElem?_eq_some.mp hi).1
        rw [hget i, if_neg hin]
        by_cases hip : i = p
        · rw [if_pos hip]
          have : e = pe := by
            rw [hip, hp] at hi
            exact (Option.some.inj hi).symm
          exact ⟨_, rfl, by rw [this], by simp [hip, this]⟩
        · rw [if_neg hip]
          exact ⟨e, hi, rfl, by simp [hip]⟩
      · rw [hget, if_pos rfl]
        exact ⟨_, rfl, rfl, rfl⟩
      · intro q hq
        cases hq
        exact hlt
    · simp only [EntityStore.GetChildren, EntityStore.deref, hget p, if_neg hne, if_pos]
    · simp only [EntityStore.GetParent, EntityStore.deref, hget s.entities.length, if_pos]
    · intro hmem
      obtain ⟨e, he, -⟩ := h.2 p pe _ hp hmem
      exact Nat.lt_irrefl _ (List.getElem?_eq_some.mp he).1
  · have hget : ∀ i, (s.entities ++ [(⟨none, s.idCounter, false, [], ""⟩ : Entity)])[i]? =
        if i = s.entities.length then some ⟨none, s.idCounter, false, [], ""⟩
        else s.entities[i]? := by
      intro i
      by_cases hin : i = s.entities.length
      · rw [if_pos hin, hin, List.getElem?_append_right (le_refl _)]
        simp
      · rw [if_neg hin]
        by_cases hlt : i < s.entities.length
        · rw [List.getElem?_append_left hlt]
        · rw [List.getElem?_eq_none (by simp; omega), List.getElem?_eq_none (by omega)]
    refine ⟨_, rfl, ?_, ?_⟩
    · apply EntityStore.TreeConsistent_extend s _ none h
      · intro i e1 hi
        rw [hget i] at hi
        by_cases hin : i = s.entities.length
        · rw [if_pos hin] at hi
          cases hi
          exact Or.inl ⟨hin, rfl, rfl⟩
        · rw [if_neg hin] at hi
          exact Or.inr ⟨hin, e1, hi, rfl, by simp⟩
      · intro i e hi
        have hin : i ≠ s.entities.length := Nat.ne_of_lt (List.getElem?_eq_some.mp hi).1
        rw [hget i, if_neg hin]
        exact ⟨e, hi, rfl, by simp⟩
      · rw [hget, if_pos rfl]
        exact ⟨_, rfl, rfl, rfl⟩
      · intro q hq
        cases hq
    · simp only [EntityStore.GetParent, EntityStore.deref, hget s.entities.length, if_pos]
  · intro this c e he
    simp only [EntityStore.AddChild, EntityStore.deref, he]
  · intro this parent e he
    simp only [EntityStore.SetParent, EntityStore.deref, he]

/-- Witness of C21 (amended): a third entity constructed under the root of
`rootAndChild`. -/
theorem C21_witness :
    rootAndChild.TreeConsistent ∧
    ∃ s1, rootAndChild.construct (some 0) = .ok (2, s1) ∧ s1.TreeConsistent ∧
      s1.GetChildren 0 = .ok [1, 2] ∧ s1.GetParent 2 = .ok (some 0) ∧ 2 ∉ [1] :=
  ⟨rootAndChild_consistent,
    (C21_constructor_keeps_tree_consistent rootAndChild rootAndChild_consistent).1 0 _ rfl⟩

/-! ## The random generators stay in their region (C26, C27) -/

theorem gzAssert_pre (asserts : Bool) (expr : Bool) (msg : String)
    (h : asserts = true → expr = true) : gzAssert asserts expr msg = .ok () := by
  cases asserts with
  | false => simp [gzAssert]
  | true => simp [gzAssert, h rfl]

theorem forLoop_invariant {σ : Type} (P : σ → Prop) (body : Nat → σ → σ)
    (h : ∀ i s, P s → P (body i s)) (n i : Nat) (s : σ) (hs : P s) :
    P (forLoop body n i s) := by
  induction n generalizing i s with
  | zero => exact hs
  | succ n ih =>
    rw [forLoop]
    exact ih (i + 1) (body i s) (h i s hs)

theorem forLoopM_invariant {σ : Type} (P : Nat → σ → Prop) (body : Nat → σ → Except Fault σ)
    (n i : Nat) (s : σ) (hs : P i s)
    (h : ∀ j t, i ≤ j → j < i + n → P j t → ∃ t1, body j t = .ok t1 ∧ P (j + 1) t1) :
    ∃ s1, forLoopM body n i s = .ok s1 ∧ P (i + n) s1 := by
  induction n generalizing i s with
  | zero => exact ⟨s, rfl, hs⟩
  | succ n ih =>
    obtain ⟨t1, ht1, hP1⟩ := h i s (le_refl _) (by omega) hs
    obtain ⟨s1, hs1, hP⟩ := ih (i + 1) t1 hP1
      (fun j t hj1 hj2 hPj => h j t (by omega) (by omega) hPj)
    refine ⟨s1, ?_, ?_⟩
    · rw [forLoopM, ht1]
      exact hs1
    · rw [show i + (n + 1) = i + 1 + n by omega]
      exact hP

theorem toyRand_range (k : Nat) (d : ℚ) (hd : 0 ≤ d) :
    0 ≤ toyRand k 0 d ∧ toyRand k 0 d ≤ d := by
  have hk : (0 : ℚ) < (k : ℚ) + 2 := by positivity
  simp only [toyRand, zero_add, sub_zero]
  constructor
  · exact div_nonneg hd hk.le
  · rw [div_le_iff₀ hk]
    nlinarith [Nat.cast_nonneg (α := ℚ) k]

/-- C26 (divergence): with a sampler that returns values in `[0, height]` and
a clustering that returns at least `modelCount` centroids,
`CreatePosesCylinderUniform` returns `modelCount` poses whose `z` lies in
`[0, height]`: the `z` of the centre is not added, so for a centre above
`height` every pose is below the cylinder.  `CreatePosesCylinderRandom`, on the
same arguments, returns `modelCount` poses whose `z` lies in
`[center.z, center.z + height]`. -/
theorem C26_uniform_cylinder_drops_center_z {R : Type} [LinearOrderedField R]
    (asserts : Bool) (libm : Libm R) (kmeans : List (Vector3 R) → Int → List (Vector3 R))
    (rand : Nat → R → R → R) (modelCount : Int) (center : Vector3 R) (radius height : R)
    (poses : List (Vector3 R)) (draws : Nat)
    (hrand : ∀ k : Nat, 0 ≤ rand k 0 height ∧ rand k 0 height ≤ height)
    (hpre : asserts = true → poses = [] ∧ 0 < modelCount)
    (hk : ∀ obs, modelCount.toNat ≤ (kmeans obs modelCount).length) :
    (∃ ps k, Population.CreatePosesCylinderUniform asserts libm kmeans rand modelCount center
        radius height poses draws = .ok (ps, k) ∧ ps.length = modelCount.toNat ∧
      ∀ p ∈ ps, 0 ≤ p.z ∧ p.z ≤ height) ∧
    (∃ ps k, Population.CreatePosesCylinderRandom asserts libm rand modelCount center
        radius height poses draws = .ok (ps, k) ∧ ps.length = modelCount.toNat ∧
      ∀ p ∈ ps, center.z ≤ p.z ∧ p.z ≤ center.z + height) := by
  have h1 : gzAssert asserts poses.isEmpty "Output parameter '_poses' is not empty" = .ok () :=
    gzAssert_pre _ _ _ (fun ha => by rw [(hpre ha).1]; rfl)
  have h2 : gzAssert asserts (decide (modelCount > 0))
      "Argument _modelCount is nonpositive" = .ok () :=
    gzAssert_pre _ _ _ (fun ha => by simpa using (hpre ha).2)
  constructor
  · simp only [Population.CreatePosesCylinderUniform, h1, h2, bind, Except.bind]
    generalize (forLoop _ 10000 0 (([] : List (Vector3 R)), draws)) = sampled
    obtain ⟨s1, hs1, hlen, hz⟩ := forLoopM_invariant
      (fun (j : Nat) (st : List (Vector3 R) × Nat) =>
        st.1.length = j ∧ ∀ p ∈ st.1, 0 ≤ p.z ∧ p.z ≤ height)
      (fun i (st : List (Vector3 R) × Nat) =>
        match vectorAt (kmeans sampled.1 modelCount) i with
        | .error f => .error f
        | .ok c => .ok (st.1 ++ [({ x := c.x, y := c.y, z := rand st.2 0 height } : Vector3 R)],
            st.2 + 1))
      modelCount.toNat 0 ([], sampled.2) ⟨rfl, fun p hp => nomatch hp⟩
      (by
        intro j t _ hj ht
        have hjlt : j < (kmeans sampled.1 modelCount).length :=
          lt_of_lt_of_le (by omega) (hk sampled.1)
        simp only [vectorAt, List.getElem?_eq_getElem hjlt]
        refine ⟨_, rfl, by simp [ht.1], ?_⟩
        intro p hp
        rcases List.mem_append.mp hp with hp | hp
        · exact ht.2 p hp
        · rw [List.mem_singleton.mp hp]
          exact hrand _)
    exact ⟨s1.1, s1.2, hs1, by simpa using hlen, hz⟩
  · simp only [Population.CreatePosesCylinderRandom, h1, h2, bind, Except.bind, pure,
      Except.pure]
    refine ⟨_, _, rfl, ?_, ?_⟩
    · rw [forLoop_measure (fun st : List (Vector3 R) × Nat => st.1.length)]
      · simp
      · intro i s
        simp
    · apply forLoop_invariant (fun st : List (Vector3 R) × Nat => ∀ p ∈ st.1,
        center.z ≤ p.z ∧ p.z ≤ center.z + height)
      · intro i st hst p hp
        rcases List.mem_append.mp hp with hp | hp
        · exact hst p hp
        · rw [List.mem_singleton.mp hp]
          have := hrand (st.2 + 2)
          constructor <;> simp only <;> linarith
      · intro p hp
        cases hp

/-- Witness of C26: one pose asked for in the cylinder of height 1 whose
centre is at height 10; the pose of `CreatePosesCylinderUniform` has `z` at
most 1, the pose of `CreatePosesCylinderRandom` has `z` at least 10. -/
theorem C26_witness :
    (∃ ps k, Population.CreatePosesCylinderUniform true toyLibm toyKmeans toyRand 1
        ⟨0, 0, 10⟩ 1 1 [] 0 = .ok (ps, k) ∧ ps.length = (1 : Int).toNat ∧
      ∀ p ∈ ps, 0 ≤ p.z ∧ p.z ≤ 1) ∧
    (∃ ps k, Population.CreatePosesCylinderRandom true toyLibm toyRand 1
        ⟨0, 0, 10⟩ 1 1 [] 0 = .ok (ps, k) ∧ ps.length = (1 : Int).toNat ∧
      ∀ p ∈ ps, (⟨0, 0, 10⟩ : Vector3 ℚ).z ≤ p.z ∧ p.z ≤ (⟨0, 0, 10⟩ : Vector3 ℚ).z + 1) :=
  C26_uniform_cylinder_drops_center_z true toyLibm toyKmeans toyRand 1 ⟨0, 0, 10⟩ 1 1 [] 0
    (fun k => toyRand_range k 1 (by norm_num)) (fun _ => ⟨rfl, by decide⟩)
    (fun obs => by simp [toyKmeans])

/-! ## The arithmetic of `double`

The rounding of `Double.round` is off by at most half the spacing of the
values around the exact result; conversions of integers below `2^53` are
exact.  These bounds carry the test of `WaitForResponse` over to the exact
time between two clock readings. -/

theorem bitLengthAux_zero (fuel : Nat) : bitLengthAux fuel 0 = 0 := by
  cases fuel <;> simp [bitLengthAux]

theorem bitLengthAux_spec (fuel : Nat) : ∀ (n : Nat), 0 < n → n < 2 ^ fuel →
    0 < bitLengthAux fuel n ∧ 2 ^ (bitLengthAux fuel n - 1) ≤ n ∧ n < 2 ^ bitLengthAux fuel n := by
  induction fuel with
  | zero =>
    intro n hn hf
    simp at hf
    omega
  | succ fuel ih =>
    intro n hn hf
    have hn0 : n ≠ 0 := by omega
    rw [bitLengthAux, if_neg hn0]
    by_cases h1 : n / 2 = 0
    · have hn1 : n = 1 := by omega
      subst hn1
      simp [bitLengthAux_zero]
    · have hpos : 0 < n / 2 := Nat.pos_of_ne_zero h1
      have hlt : n / 2 < 2 ^ fuel := by
        rw [Nat.div_lt_iff_lt_mul (by decide)]
        rw [pow_succ] at hf
        exact hf
      obtain ⟨hb, hlo, hhi⟩ := ih (n / 2) hpos hlt
      refine ⟨by omega, ?_, ?_⟩
      · have : bitLengthAux fuel (n / 2) + 1 - 1 = (bitLengthAux fuel (n / 2) - 1) + 1 := by omega
        rw [this, pow_succ]
        have := Nat.div_mul_le_self n 2
        nlinarith
      · rw [pow_succ]
        have := Nat.lt_mul_of_div_lt hhi (by decide : 0 < 2)
        exact this

theorem bitLength_spec (n : Nat) (hn : 0 < n) :
    0 < bitLength n ∧ 2 ^ (bitLength n - 1) ≤ n ∧ n < 2 ^ bitLength n :=
  bitLengthAux_spec n n hn (Nat.lt_two_pow n)

theorem normalizeAux_value (fuel : Nat) : ∀ (m : Nat) (e : Int),
    ((Double.normalizeAux fuel m e).1 : ℚ) * 2 ^ (Double.normalizeAux fuel m e).2 =
      (m : ℚ) * 2 ^ e := by
  induction fuel with
  | zero => intro m e; rfl
  | succ fuel ih =>
    intro m e
    rw [Double.normalizeAux]
    split
    · rename_i h
      rw [ih, zpow_add_one₀ (by norm_num : (2 : ℚ) ≠ 0)]
      have hm : m = 2 * (m / 2) := by omega
      have hm2 : (m : ℚ) = 2 * ((m / 2 : Nat) : ℚ) := by exact_mod_cast hm
      rw [hm2]
      ring
    · rfl

theorem double_normalize_value (neg : Bool) (m : Nat) (e : Int) :
    ∃ m1 e1, Double.normalize neg m e = .finite neg m1 e1 ∧
      (m1 : ℚ) * 2 ^ e1 = (m : ℚ) * 2 ^ e := by
  unfold Double.normalize
  by_cases hm : m = 0
  · rw [if_pos hm]
    exact ⟨0, 0, rfl, by simp [hm]⟩
  · rw [if_neg hm]
    exact ⟨_, _, rfl, normalizeAux_value m m e⟩

theorem zpow_two_split (d : Int) :
    (2 : ℚ) ^ d = (2 : ℚ) ^ d.toNat / (2 : ℚ) ^ (-d).toNat := by
  rcases le_total 0 d with h | h
  · have h1 : (-d).toNat = 0 := Int.toNat_eq_zero.mpr (by omega)
    rw [h1, pow_zero, div_one, ← zpow_natCast, Int.toNat_of_nonneg h]
  · have h1 : d.toNat = 0 := Int.toNat_eq_zero.mpr h
    have h2 : ((-d).toNat : Int) = -d := Int.toNat_of_nonneg (by omega)
    rw [h1, pow_zero, ← zpow_natCast, h2, zpow_neg, one_div, inv_inv]

/-- The quantities of `Double.round` for a positive rational in the range of
the normal values: the result is finite, and it is off by at most half the
spacing `2^(L-52)` of the values between `2^L` and `2^(L+1)`. -/
theorem double_round_spec (neg : Bool) (a q : Nat) (ha : 0 < a) (hq : 0 < q)
    (hlo : (2 : ℚ) ^ (-1022 : Int) ≤ (a : ℚ) / q) (hhi : (a : ℚ) / q < (2 : ℚ) ^ (1023 : Int)) :
    ∃ (m : Nat) (e L : Int), Double.round neg a q = .finite neg m e ∧
      (2 : ℚ) ^ L ≤ (a : ℚ) / q ∧ (a : ℚ) / q < (2 : ℚ) ^ (L + 1) ∧
      |(m : ℚ) * 2 ^ e - (a : ℚ) / q| ≤ (2 : ℚ) ^ (L - 53) ∧
      (q * 2 ^ (L - 52).toNat ∣ a * 2 ^ (-(L - 52)).toNat → (m : ℚ) * 2 ^ e = (a : ℚ) / q) := by
  have hqQ : (0 : ℚ) < (q : ℚ) := by exact_mod_cast hq
  have haQ : (0 : ℚ) < (a : ℚ) := by exact_mod_cast ha
  obtain ⟨hA0, hAlo, hAhi⟩ := bitLength_spec a ha
  obtain ⟨hQ0, hQlo, hQhi⟩ := bitLength_spec q hq
  -- the exponent
  obtain ⟨L, hLdef, hL1, hL2⟩ : ∃ L : Int,
      L = (if q * 2 ^ ((bitLength a : Int) - (bitLength q : Int)).toNat ≤
            a * 2 ^ (-((bitLength a : Int) - (bitLength q : Int))).toNat
          then (bitLength a : Int) - (bitLength q : Int)
          else (bitLength a : Int) - (bitLength q : Int) - 1) ∧
      (2 : ℚ) ^ L ≤ (a : ℚ) / q ∧ (a : ℚ) / q < (2 : ℚ) ^ (L + 1) := by
    refine ⟨_, rfl, ?_⟩
    set d : Int := (bitLength a : Int) - (bitLength q : Int) with hd
    have hAloQ : (2 : ℚ) ^ ((bitLength a : Int) - 1) ≤ (a : ℚ) := by
      have : ((bitLength a : Int) - 1) = ((bitLength a - 1 : Nat) : Int) := by omega
      rw [this, zpow_natCast]
      exact_mod_cast hAlo
    have hAhiQ : (a : ℚ) < (2 : ℚ) ^ (bitLength a : Int) := by
      rw [zpow_natCast]
      exact_mod_cast hAhi
    have hQloQ : (2 : ℚ) ^ ((bitLength q : Int) - 1) ≤ (q : ℚ) := by
      have : ((bitLength q : Int) - 1) = ((bitLength q - 1 : Nat) : Int) := by omega
      rw [this, zpow_natCast]
      exact_mod_cast hQlo
    have hQhiQ : (q : ℚ) < (2 : ℚ) ^ (bitLength q : Int) := by
      rw [zpow_natCast]
      exact_mod_cast hQhi
    have h2 : (0 : ℚ) < 2 := by norm_num
    have h2ne : (2 : ℚ) ≠ 0 := by norm_num
    -- a / q < 2 ^ (d + 1)
    have hup : (a : ℚ) / q < (2 : ℚ) ^ (d + 1) := by
      rw [div_lt_iff₀ hqQ]
      calc (a : ℚ) < (2 : ℚ) ^ (bitLength a : Int) := hAhiQ
        _ = (2 : ℚ) ^ (d + 1) * (2 : ℚ) ^ ((bitLength q : Int) - 1) := by
            rw [← zpow_add₀ h2ne]; congr 1; omega
        _ ≤ (2 : ℚ) ^ (d + 1) * q := by
            apply mul_le_mul_of_nonneg_left hQloQ (zpow_nonneg h2.le _)
    -- 2 ^ (d - 1) ≤ a / q
    have hdown : (2 : ℚ) ^ (d - 1) ≤ (a : ℚ) / q := by
      rw [le_div_iff₀ hqQ]
      calc (2 : ℚ) ^ (d - 1) * q ≤ (2 : ℚ) ^ (d - 1) * (2 : ℚ) ^ (bitLength q : Int) := by
            apply mul_le_mul_of_nonneg_left hQhiQ.le (zpow_nonneg h2.le _)
        _ = (2 : ℚ) ^ ((bitLength a : Int) - 1) := by
            rw [← zpow_add₀ h2ne]; congr 1; omega
        _ ≤ a := hAloQ
    have htest : (q * 2 ^ d.toNat ≤ a * 2 ^ (-d).toNat) ↔ (2 : ℚ) ^ d ≤ (a : ℚ) / q := by
      rw [le_div_iff₀ hqQ, zpow_two_split d, div_mul_eq_mul_div,
        div_le_iff₀ (pow_pos h2 _)]
      constructor
      · intro h
        have : ((q * 2 ^ d.toNat : Nat) : ℚ) ≤ ((a * 2 ^ (-d).toNat : Nat) : ℚ) := by
          exact_mod_cast h
        push_cast at this
        linarith
      · intro h
        have : ((q * 2 ^ d.toNat : Nat) : ℚ) ≤ ((a * 2 ^ (-d).toNat : Nat) : ℚ) := by
          push_cast
          linarith
        exact_mod_cast this
    by_cases ht : q * 2 ^ d.toNat ≤ a * 2 ^ (-d).toNat
    · rw [if_pos ht]
      exact ⟨htest.mp ht, hup⟩
    · rw [if_neg ht]
      refine ⟨hdown, ?_⟩
      have : d - 1 + 1 = d := by omega
      rw [this]
      exact lt_of_not_le (fun h => ht (htest.mpr h))
  have h2 : (0 : ℚ) < 2 := by norm_num
  have h2ne : (2 : ℚ) ≠ 0 := by norm_num
  have hLlow : -1022 ≤ L := by
    have h := lt_of_le_of_lt hlo hL2
    have := (zpow_lt_zpow_iff_right₀ (by norm_num : (1 : ℚ) < 2)).mp h
    omega
  have hLhigh : L ≤ 1022 := by
    have h := lt_of_le_of_lt hL1 hhi
    have := (zpow_lt_zpow_iff_right₀ (by norm_num : (1 : ℚ) < 2)).mp h
    omega
  have hmax : max (L - 52) (-1074) = L - 52 := max_eq_left (by omega)
  have hdenpos : 0 < q * 2 ^ (L - 52).toNat := Nat.mul_pos hq (pow_pos (by decide) _)
  have hdenQ : (0 : ℚ) < ((q * 2 ^ (L - 52).toNat : Nat) : ℚ) := by exact_mod_cast hdenpos
  have hratio : ((a * 2 ^ (-(L - 52)).toNat : Nat) : ℚ) / ((q * 2 ^ (L - 52).toNat : Nat) : ℚ) =
      (a : ℚ) / q * (2 : ℚ) ^ (-(L - 52)) := by
    rw [zpow_two_split (-(L - 52)), neg_neg]
    push_cast
    field_simp
  obtain ⟨n, hn_def, hn_err, hn_exact⟩ : ∃ n : Nat,
      n = (if q * 2 ^ (L - 52).toNat < 2 * (a * 2 ^ (-(L - 52)).toNat % (q * 2 ^ (L - 52).toNat)) ∨
            (2 * (a * 2 ^ (-(L - 52)).toNat % (q * 2 ^ (L - 52).toNat)) = q * 2 ^ (L - 52).toNat ∧
              a * 2 ^ (-(L - 52)).toNat / (q * 2 ^ (L - 52).toNat) % 2 = 1)
          then a * 2 ^ (-(L - 52)).toNat / (q * 2 ^ (L - 52).toNat) + 1
          else a * 2 ^ (-(L - 52)).toNat / (q * 2 ^ (L - 52).toNat)) ∧
      |(n : ℚ) - ((a * 2 ^ (-(L - 52)).toNat : Nat) : ℚ) / ((q * 2 ^ (L - 52).toNat : Nat) : ℚ)|
        ≤ 1 / 2 ∧
      (q * 2 ^ (L - 52).toNat ∣ a * 2 ^ (-(L - 52)).toNat →
        (n : ℚ) = ((a * 2 ^ (-(L - 52)).toNat : Nat) : ℚ) / ((q * 2 ^ (L - 52).toNat : Nat) : ℚ)) := by
    refine ⟨_, rfl, ?_⟩
    generalize a * 2 ^ (-(L - 52)).toNat = num at *
    generalize q * 2 ^ (L - 52).toNat = den at *
    have hdm := Nat.div_add_mod num den
    have hr := Nat.mod_lt num hdenpos
    have hq1 : (num : ℚ) / den = ((num / den : Nat) : ℚ) + ((num % den : Nat) : ℚ) / den := by
      have : ((den * (num / den) + num % den : Nat) : ℚ) = (num : ℚ) := by exact_mod_cast hdm
      push_cast at this
      rw [div_eq_iff hdenQ.ne.symm, add_mul, div_mul_cancel₀ _ hdenQ.ne.symm]
      linarith
    have hr0 : (0 : ℚ) ≤ ((num % den : Nat) : ℚ) / den := div_nonneg (Nat.cast_nonneg _) hdenQ.le
    have hr1 : ((num % den : Nat) : ℚ) / den < 1 := by
      rw [div_lt_one hdenQ]
      exact_mod_cast hr
    constructor
    · split
      · rename_i hc
        have hge : (1 : ℚ) / 2 ≤ ((num % den : Nat) : ℚ) / den := by
          rw [le_div_iff₀ hdenQ]
          have : den ≤ 2 * (num % den) := by
            rcases hc with hc | hc
            · exact hc.le
            · exact hc.1.ge
          have : ((den : Nat) : ℚ) ≤ ((2 * (num % den) : Nat) : ℚ) := by exact_mod_cast this
          push_cast at this
          linarith
        rw [hq1, abs_le]
        push_cast
        constructor <;> linarith
      · rename_i hc
        have hle : ((num % den : Nat) : ℚ) / den ≤ 1 / 2 := by
          rw [div_le_iff₀ hdenQ]
          have : 2 * (num % den) ≤ den := by
            by_contra h
            exact hc (Or.inl (by omega))
          have : ((2 * (num % den) : Nat) : ℚ) ≤ ((den : Nat) : ℚ) := by exact_mod_cast this
          push_cast at this
          linarith
        rw [hq1, abs_le]
        constructor <;> linarith
    · intro hdvd
      have hmod : num % den = 0 := Nat.mod_eq_zero_of_dvd hdvd
      rw [hq1, hmod]
      have : ¬ (den < 2 * 0 ∨ (2 * 0 = den ∧ num / den % 2 = 1)) := by
        rintro (h | h)
        · omega
        · omega
      rw [if_neg this]
      simp
  have hround : Double.round neg a q = Double.normalize neg n (L - 52) := by
    simp only [Double.round]
    rw [if_neg (by omega : ¬ a = 0), ← hLdef, hmax, ← hn_def]
    rw [if_neg (fun h => by omega)]
  obtain ⟨m1, e1, hnorm, hval⟩ := double_normalize_value neg n (L - 52)
  have haq : (a : ℚ) / q = ((a * 2 ^ (-(L - 52)).toNat : Nat) : ℚ) /
      ((q * 2 ^ (L - 52).toNat : Nat) : ℚ) * (2 : ℚ) ^ (L - 52) := by
    rw [hratio, mul_assoc, ← zpow_add₀ h2ne]
    simp
  refine ⟨m1, e1, L, by rw [hround, hnorm], hL1, hL2, ?_, ?_⟩
  · rw [hval, haq, ← sub_mul, abs_mul, abs_of_pos (zpow_pos h2 (L - 52))]
    have : (2 : ℚ) ^ (L - 53) = 1 / 2 * (2 : ℚ) ^ (L - 52) := by
      have : L - 52 = (L - 53) + 1 := by omega
      rw [this, zpow_add_one₀ h2ne]
      ring
    rw [this]
    exact mul_le_mul_of_nonneg_right hn_err (zpow_pos h2 _).le
  · intro hdvd
    rw [hval, haq, hn_exact hdvd]

theorem double_signed_scale (n : Bool) (m k : Nat) :
    ((Double.signed n (m * 2 ^ k) : Int) : ℚ) = ((Double.signed n m : Int) : ℚ) * (2 : ℚ) ^ k := by
  cases n <;> simp [Double.signed]

theorem zpow_two_toNat_sub (e1 e0 : Int) (h : e0 ≤ e1) :
    (2 : ℚ) ^ (e1 - e0).toNat * (2 : ℚ) ^ e0 = (2 : ℚ) ^ e1 := by
  rw [← zpow_natCast, Int.toNat_of_nonneg (by omega), ← zpow_add₀ (by norm_num : (2 : ℚ) ≠ 0)]
  congr 1
  omega

/-- The operator `<` on finite values compares the rational values. -/
theorem double_lt_finite (n1 n2 : Bool) (m1 m2 : Nat) (e1 e2 : Int) :
    (Double.finite n1 m1 e1 < Double.finite n2 m2 e2) ↔
      (Double.finite n1 m1 e1).toRat < (Double.finite n2 m2 e2).toRat := by
  show Double.lt _ _ = true ↔ _
  simp only [Double.lt, decide_eq_true_iff, Double.toRat]
  have h0 : (0 : ℚ) < (2 : ℚ) ^ (min e1 e2) := zpow_pos (by norm_num) _
  rw [← zpow_two_toNat_sub e1 (min e1 e2) (min_le_left _ _),
    ← zpow_two_toNat_sub e2 (min e1 e2) (min_le_right _ _), ← mul_assoc, ← mul_assoc,
    mul_lt_mul_right h0, ← double_signed_scale, ← double_signed_scale]
  exact Int.cast_lt.symm

/-- The conversion of an integer `0 <= s < 2^53` is exact. -/
theorem double_ofInt_value (s : Int) (h0 : 0 ≤ s) (h1 : s < 2 ^ 53) :
    ∃ (m : Nat) (e : Int), Double.ofInt s = .finite false m e ∧ (m : ℚ) * 2 ^ e = (s : ℚ) := by
  have hneg : decide (s < 0) = false := by simpa using h0
  unfold Double.ofInt
  rw [hneg]
  by_cases hs : s = 0
  · subst hs
    exact ⟨0, 0, rfl, by simp⟩
  · have ha : 0 < s.natAbs := Int.natAbs_pos.mpr hs
    have hcast : ((s.natAbs : Nat) : ℚ) = (s : ℚ) := by
      rw [Nat.cast_natAbs, abs_of_nonneg h0]
    have h1Q : (s : ℚ) < 2 ^ 53 := by exact_mod_cast h1
    have h1' : (1 : ℚ) ≤ (s : ℚ) := by
      have : (1 : Int) ≤ s := by omega
      exact_mod_cast this
    obtain ⟨m, e, L, hr, hL1, hL2, -, hex⟩ := double_round_spec false s.natAbs 1 ha (by decide)
      (by
        rw [hcast]
        simp only [Nat.cast_one, div_one]
        refine le_trans ?_ h1'
        exact zpow_le_one_of_nonpos₀ (by norm_num) (by norm_num))
      (by
        rw [hcast]
        simp only [Nat.cast_one, div_one]
        refine lt_trans h1Q ?_
        norm_num)
    have hL : L ≤ 52 := by
      rw [hcast] at hL1
      simp only [Nat.cast_one, div_one] at hL1
      have h := lt_of_le_of_lt hL1 h1Q
      have h53 : (2 : ℚ) ^ 53 = (2 : ℚ) ^ (53 : Int) := by norm_num
      rw [h53] at h
      have := (zpow_lt_zpow_iff_right₀ (by norm_num : (1 : ℚ) < 2)).mp h
      omega
    have h0' : (L - 52).toNat = 0 := Int.toNat_eq_zero.mpr (by omega)
    refine ⟨m, e, hr, ?_⟩
    rw [hex (by rw [h0']; simp), hcast]
    simp

/-- The quotient of two positive finite values in the range of the normal
values: finite, and off by at most half the spacing. -/
theorem double_div_pos (m1 m2 : Nat) (e1 e2 : Int) (h1 : 0 < m1) (h2 : 0 < m2)
    (hlo : (2 : ℚ) ^ (-1022 : Int) ≤ ((m1 : ℚ) * 2 ^ e1) / ((m2 : ℚ) * 2 ^ e2))
    (hhi : ((m1 : ℚ) * 2 ^ e1) / ((m2 : ℚ) * 2 ^ e2) < (2 : ℚ) ^ (1023 : Int)) :
    ∃ (m : Nat) (e L : Int),
      Double.finite false m1 e1 / Double.finite false m2 e2 = .finite false m e ∧
      (2 : ℚ) ^ L ≤ ((m1 : ℚ) * 2 ^ e1) / ((m2 : ℚ) * 2 ^ e2) ∧
      ((m1 : ℚ) * 2 ^ e1) / ((m2 : ℚ) * 2 ^ e2) < (2 : ℚ) ^ (L + 1) ∧
      |(m : ℚ) * 2 ^ e - ((m1 : ℚ) * 2 ^ e1) / ((m2 : ℚ) * 2 ^ e2)| ≤ (2 : ℚ) ^ (L - 53) := by
  have h2ne : (2 : ℚ) ≠ 0 := by norm_num
  have hm2 : (m2 : ℚ) ≠ 0 := by exact_mod_cast h2.ne.symm
  have hratio : ((m1 * 2 ^ (e1 - e2).toNat : Nat) : ℚ) / ((m2 * 2 ^ (e2 - e1).toNat : Nat) : ℚ) =
      ((m1 : ℚ) * 2 ^ e1) / ((m2 : ℚ) * 2 ^ e2) := by
    have hs := zpow_two_split (e1 - e2)
    have hneg : -(e1 - e2) = e2 - e1 := by omega
    rw [hneg] at hs
    have he : (2 : ℚ) ^ e1 = (2 : ℚ) ^ (e1 - e2) * (2 : ℚ) ^ e2 := by
      rw [← zpow_add₀ h2ne]
      congr 1
      omega
    rw [he, hs]
    push_cast
    have hp1 : (2 : ℚ) ^ (e2 - e1).toNat ≠ 0 := pow_ne_zero _ h2ne
    have hp2 : (2 : ℚ) ^ e2 ≠ 0 := zpow_ne_zero _ h2ne
    field_simp
    ring
  have hdef : Double.finite false m1 e1 / Double.finite false m2 e2 =
      Double.round false (m1 * 2 ^ (e1 - e2).toNat) (m2 * 2 ^ (e2 - e1).toNat) := by
    show Double.div _ _ = _
    simp only [Double.div]
    rw [if_neg (by omega : ¬ m2 = 0)]
    rfl
  obtain ⟨m, e, L, hr, hL1, hL2, herr, -⟩ := double_round_spec false
    (m1 * 2 ^ (e1 - e2).toNat) (m2 * 2 ^ (e2 - e1).toNat)
    (Nat.mul_pos h1 (pow_pos (by decide) _)) (Nat.mul_pos h2 (pow_pos (by decide) _))
    (by rw [hratio]; exact hlo) (by rw [hratio]; exact hhi)
  rw [hratio] at hL1 hL2 herr
  exact ⟨m, e, L, by rw [hdef, hr], hL1, hL2, herr⟩

/-- The sum of two finite values when the exact sum is positive and in the
range of the normal values: finite, not negative, and off by at most half the
spacing. -/
theorem double_add_pos (n1 n2 : Bool) (m1 m2 : Nat) (e1 e2 : Int)
    (hlo : (2 : ℚ) ^ (-1022 : Int) ≤
      (Double.finite n1 m1 e1).toRat + (Double.finite n2 m2 e2).toRat)
    (hhi : (Double.finite n1 m1 e1).toRat + (Double.finite n2 m2 e2).toRat <
      (2 : ℚ) ^ (1023 : Int)) :
    ∃ (m : Nat) (e L : Int),
      Double.finite n1 m1 e1 + Double.finite n2 m2 e2 = .finite false m e ∧
      (2 : ℚ) ^ L ≤ (Double.finite n1 m1 e1).toRat + (Double.finite n2 m2 e2).toRat ∧
      (Double.finite n1 m1 e1).toRat + (Double.finite n2 m2 e2).toRat < (2 : ℚ) ^ (L + 1) ∧
      |(m : ℚ) * 2 ^ e - ((Double.finite n1 m1 e1).toRat + (Double.finite n2 m2 e2).toRat)|
        ≤ (2 : ℚ) ^ (L - 53) := by
  have h2ne : (2 : ℚ) ≠ 0 := by norm_num
  have h2pos : (0 : ℚ) < 2 := by norm_num
  have hpos : (0 : ℚ) < (Double.finite n1 m1 e1).toRat + (Double.finite n2 m2 e2).toRat :=
    lt_of_lt_of_le (zpow_pos h2pos _) hlo
  generalize hs : Double.signed n1 (m1 * 2 ^ (e1 - min e1 e2).toNat) +
    Double.signed n2 (m2 * 2 ^ (e2 - min e1 e2).toNat) = s
  have hsval : (s : ℚ) * (2 : ℚ) ^ (min e1 e2) =
      (Double.finite n1 m1 e1).toRat + (Double.finite n2 m2 e2).toRat := by
    rw [← hs]
    push_cast
    rw [double_signed_scale, double_signed_scale, add_mul, mul_assoc, mul_assoc,
      zpow_two_toNat_sub e1 _ (min_le_left _ _), zpow_two_toNat_sub e2 _ (min_le_right _ _)]
    simp only [Double.toRat]
  have hspos : 0 < s := by
    have h0 : (0 : ℚ) < (2 : ℚ) ^ (min e1 e2) := zpow_pos h2pos _
    have : (0 : ℚ) < (s : ℚ) := by
      by_contra hneg
      have : (s : ℚ) * (2 : ℚ) ^ (min e1 e2) ≤ 0 :=
        mul_nonpos_of_nonpos_of_nonneg (not_lt.mp hneg) h0.le
      rw [hsval] at this
      exact absurd hpos (not_lt.mpr this)
    exact_mod_cast this
  have hnz : ¬ (m1 = 0 ∧ m2 = 0) := by
    rintro ⟨h1, h2⟩
    subst h1 h2
    simp [Double.toRat, Double.signed] at hpos
  have hcast : ((s.natAbs : Nat) : ℚ) = (s : ℚ) := by
    rw [Nat.cast_natAbs, abs_of_nonneg hspos.le]
  have hratio : ((s.natAbs * 2 ^ (min e1 e2).toNat : Nat) : ℚ) /
      ((2 ^ (-(min e1 e2)).toNat : Nat) : ℚ) =
      (Double.finite n1 m1 e1).toRat + (Double.finite n2 m2 e2).toRat := by
    rw [← hsval, zpow_two_split (min e1 e2)]
    push_cast
    rw [hcast]
    ring
  have hdef : Double.finite n1 m1 e1 + Double.finite n2 m2 e2 =
      Double.round false (s.natAbs * 2 ^ (min e1 e2).toNat) (2 ^ (-(min e1 e2)).toNat) := by
    show Double.add _ _ = _
    simp only [Double.add]
    rw [if_neg hnz, hs, if_neg hspos.ne.symm, Double.roundDyadic]
    have : decide (s < 0) = false := by simpa using hspos.le
    rw [this]
  obtain ⟨m, e, L, hr, hL1, hL2, herr, -⟩ := double_round_spec false
    (s.natAbs * 2 ^ (min e1 e2).toNat) (2 ^ (-(min e1 e2)).toNat)
    (Nat.mul_pos (Int.natAbs_pos.mpr hspos.ne.symm) (pow_pos (by decide) _))
    (pow_pos (by decide) _)
    (by rw [hratio]; exact hlo) (by rw [hratio]; exact hhi)
  rw [hratio] at hL1 hL2 herr
  exact ⟨m, e, L, by rw [hdef, hr], hL1, hL2, herr⟩

theorem double_million : Double.ofRatio 1000000 1 = .finite false 15625 6 := by decide

theorem double_three : Double.ofRatio 3 1 = .finite false 3 0 := by decide

/-- The quotient `tv_usec/1e6` of a reading with `0 <= tv_usec < 10^6`: not
negative, within `2^-54` of the exact quotient, and zero or at least `2^-20`. -/
theorem double_usec_quotient (u : Int) (hu0 : 0 ≤ u) (hu1 : u < 1000000) :
    ∃ (m : Nat) (e : Int),
      Double.ofInt u / Double.ofRatio 1000000 1 = .finite false m e ∧
      |(m : ℚ) * 2 ^ e - (u : ℚ) / 1000000| ≤ (2 : ℚ) ^ (-54 : Int) ∧
      (m = 0 ∨ (2 : ℚ) ^ (-20 : Int) ≤ (m : ℚ) * 2 ^ e) := by
  obtain ⟨mB, eB, hB, hBv⟩ := double_ofInt_value u hu0 (by omega)
  rw [hB, double_million]
  have huQ : (u : ℚ) < 1000000 := by exact_mod_cast hu1
  by_cases hu : u = 0
  · subst hu
    rw [Int.cast_zero] at hBv
    have hm : mB = 0 := by
      have h0 : (2 : ℚ) ^ eB ≠ 0 := zpow_ne_zero _ (by norm_num)
      have : (mB : ℚ) = 0 := by
        rcases mul_eq_zero.mp hBv with h | h
        · exact h
        · exact absurd h h0
      exact_mod_cast this
    subst hm
    refine ⟨0, 0, ?_, by norm_num, Or.inl rfl⟩
    show Double.div _ _ = _
    simp [Double.div, Double.round]
  · have hmpos : 0 < mB := by
      rcases Nat.eq_zero_or_pos mB with h | h
      · subst h
        have : (u : ℚ) = 0 := by rw [← hBv]; simp
        exact absurd (by exact_mod_cast this) hu
      · exact h
    have hu1' : (1 : ℚ) ≤ (u : ℚ) := by
      have : (1 : Int) ≤ u := by omega
      exact_mod_cast this
    have hC : ((15625 : Nat) : ℚ) * (2 : ℚ) ^ (6 : Int) = 1000000 := by norm_num
    have hratio : ((mB : ℚ) * 2 ^ eB) / (((15625 : Nat) : ℚ) * 2 ^ (6 : Int)) =
        (u : ℚ) / 1000000 := by rw [hBv, hC]
    obtain ⟨m, e, L, hr, hL1, hL2, herr⟩ := double_div_pos mB 15625 eB 6 hmpos (by decide)
      (by
        rw [hratio, le_div_iff₀ (by norm_num)]
        refine le_trans ?_ hu1'
        norm_num)
      (by
        rw [hratio, div_lt_iff₀ (by norm_num)]
        refine lt_trans huQ ?_
        norm_num)
    rw [hratio] at hL1 hL2 herr
    have hLneg : L ≤ -1 := by
      have h1 : (u : ℚ) / 1000000 < (2 : ℚ) ^ (0 : Int) := by
        rw [zpow_zero, div_lt_one (by norm_num)]
        exact huQ
      have := (zpow_lt_zpow_iff_right₀ (by norm_num : (1 : ℚ) < 2)).mp (lt_of_le_of_lt hL1 h1)
      omega
    have hbound : (2 : ℚ) ^ (L - 53) ≤ (2 : ℚ) ^ (-54 : Int) :=
      zpow_le_zpow_right₀ (by norm_num) (by omega)
    have herr' := le_trans herr hbound
    refine ⟨m, e, hr, herr', Or.inr ?_⟩
    have hlow : (1 : ℚ) / 1000000 ≤ (u : ℚ) / 1000000 :=
      div_le_div_of_nonneg_right hu1' (by norm_num)
    have := (abs_le.mp herr').1
    have h54 : (2 : ℚ) ^ (-20 : Int) ≤ 1 / 1000000 - (2 : ℚ) ^ (-54 : Int) := by norm_num
    generalize (2 : ℚ) ^ (-20 : Int) = c20 at *
    generalize (2 : ℚ) ^ (-54 : Int) = c54 at *
    linarith

/-- The seconds of a clock reading as the code computes them,
`tv_sec + tv_usec/1e6` in `double`, for `0 <= tv_sec < 2^33` and
`0 <= tv_usec < 10^6`: a finite value that is not negative and within
`2^-21 + 2^-54` of the exact time. -/
theorem timeval_toSeconds_error (t : Timeval) (hs0 : 0 ≤ t.tv_sec) (hs1 : t.tv_sec < 2 ^ 33)
    (hu0 : 0 ≤ t.tv_usec) (hu1 : t.tv_usec < 1000000) :
    ∃ (m : Nat) (e : Int), t.toSeconds = .finite false m e ∧
      |(m : ℚ) * 2 ^ e - t.exactSeconds| ≤ (2 : ℚ) ^ (-21 : Int) + (2 : ℚ) ^ (-54 : Int) := by
  obtain ⟨mA, eA, hA, hAv⟩ := double_ofInt_value t.tv_sec hs0 (by omega)
  obtain ⟨mU, eU, hU, hUerr, hUlow⟩ := double_usec_quotient t.tv_usec hu0 hu1
  unfold Timeval.toSeconds Timeval.exactSeconds
  rw [hA, hU]
  have hsQ : (t.tv_sec : ℚ) ≤ 2 ^ 33 - 1 := by
    have : t.tv_sec ≤ 2 ^ 33 - 1 := by omega
    exact_mod_cast this
  have hs0Q : (0 : ℚ) ≤ (t.tv_sec : ℚ) := by exact_mod_cast hs0
  have huQ : (t.tv_usec : ℚ) / 1000000 ≤ 999999 / 1000000 := by
    have : t.tv_usec ≤ 999999 := by omega
    have : (t.tv_usec : ℚ) ≤ 999999 := by exact_mod_cast this
    exact div_le_div_of_nonneg_right this (by norm_num)
  have hu0Q : (0 : ℚ) ≤ (t.tv_usec : ℚ) / 1000000 :=
    div_nonneg (by exact_mod_cast hu0) (by norm_num)
  have hUabs := abs_le.mp hUerr
  have hUnn : (0 : ℚ) ≤ (mU : ℚ) * 2 ^ eU :=
    mul_nonneg (Nat.cast_nonneg _) (zpow_pos (by norm_num) _).le
  have hsum : (Double.finite false mA eA).toRat + (Double.finite false mU eU).toRat =
      (t.tv_sec : ℚ) + (mU : ℚ) * 2 ^ eU := by
    simp only [Double.toRat, Double.signed]
    push_cast
    rw [hAv]
  by_cases hz : mA = 0 ∧ mU = 0
  · obtain ⟨h1, h2⟩ := hz
    subst h1 h2
    refine ⟨0, 0, ?_, ?_⟩
    · show Double.add _ _ = _
      simp [Double.add]
    · have hs : (t.tv_sec : ℚ) = 0 := by rw [← hAv]; simp
      rw [hs]
      simp only [Nat.cast_zero, zero_mul, zero_add, zero_sub, abs_neg] at hUerr ⊢
      refine le_trans hUerr ?_
      norm_num
  · have hlo : (2 : ℚ) ^ (-1022 : Int) ≤
        (Double.finite false mA eA).toRat + (Double.finite false mU eU).toRat := by
      rw [hsum]
      have h20 : (2 : ℚ) ^ (-1022 : Int) ≤ (2 : ℚ) ^ (-20 : Int) :=
        zpow_le_zpow_right₀ (by norm_num) (by norm_num)
      by_cases hmA : mA = 0
      · have hmU : mU ≠ 0 := fun h => hz ⟨hmA, h⟩
        rcases hUlow with h | h
        · exact absurd h hmU
        · exact le_trans h20 (le_trans h (le_add_of_nonneg_left hs0Q))
      · have : (t.tv_sec : ℚ) ≠ 0 := by
          rw [← hAv]
          exact mul_ne_zero (by exact_mod_cast hmA) (zpow_ne_zero _ (by norm_num))
        have hs1' : (1 : ℚ) ≤ (t.tv_sec : ℚ) := by
          have : t.tv_sec ≠ 0 := by exact_mod_cast this
          have : (1 : Int) ≤ t.tv_sec := by omega
          exact_mod_cast this
        have h1 : (2 : ℚ) ^ (-20 : Int) ≤ 1 := by norm_num
        exact le_trans h20 (le_trans h1 (le_trans hs1' (le_add_of_nonneg_right hUnn)))
    have h54 : (2 : ℚ) ^ (-54 : Int) < 1 / 1000000 := by norm_num
    have hhi32 : (Double.finite false mA eA).toRat + (Double.finite false mU eU).toRat <
        (2 : ℚ) ^ (33 : Int) := by
      rw [hsum]
      have : (2 : ℚ) ^ (33 : Int) = 2 ^ 33 := by norm_num
      rw [this]
      generalize (2 : ℚ) ^ (-54 : Int) = c54 at *
      linarith [hUabs.2]
    have hhi : (Double.finite false mA eA).toRat + (Double.finite false mU eU).toRat <
        (2 : ℚ) ^ (1023 : Int) :=
      lt_trans hhi32 (zpow_lt_zpow_right₀ (by norm_num) (by norm_num))
    obtain ⟨m, e, L, hr, hL1, hL2, herr⟩ := double_add_pos false false mA mU eA eU hlo hhi
    have hL : L ≤ 32 := by
      have := (zpow_lt_zpow_iff_right₀ (by norm_num : (1 : ℚ) < 2)).mp (lt_of_le_of_lt hL1 hhi32)
      omega
    have hbound : (2 : ℚ) ^ (L - 53) ≤ (2 : ℚ) ^ (-21 : Int) :=
      zpow_le_zpow_right₀ (by norm_num) (by omega)
    rw [hsum] at herr
    have herr' := abs_le.mp (le_trans herr hbound)
    have h1 := herr'.1
    have h2 := herr'.2
    have h3 := hUabs.1
    have h4 := hUabs.2
    refine ⟨m, e, hr, ?_⟩
    generalize (2 : ℚ) ^ (-54 : Int) = c54 at *
    generalize (2 : ℚ) ^ (-21 : Int) = c21 at *
    exact abs_le.mpr ⟨by linarith, by linarith⟩

/-- When more than 3 seconds lie between two clock readings, the test
`(t1.tv_sec + t1.tv_usec/1e6) - (t0.tv_sec + t0.tv_usec/1e6) > 3.0` of
`WaitForResponse` holds in `double`: the readings are whole microseconds, so
the exact difference is at least `3.000001`, and the rounding errors of the
two sums add up to less than `0.00000096`. -/
theorem timeval_elapsed_exceeds (t0 t1 : Timeval) (h0 : t0.inRange) (h1 : t1.inRange)
    (h : 3 < t1.exactSeconds - t0.exactSeconds) :
    t1.toSeconds - t0.toSeconds > Double.ofRatio 3 1 := by
  obtain ⟨m0, e0, hT0, herr0⟩ := timeval_toSeconds_error t0 h0.1 h0.2.1 h0.2.2.1 h0.2.2.2
  obtain ⟨m1, e1, hT1, herr1⟩ := timeval_toSeconds_error t1 h1.1 h1.2.1 h1.2.2.1 h1.2.2.2
  have hE : 3 + 1 / 1000000 ≤ t1.exactSeconds - t0.exactSeconds := by
    unfold Timeval.exactSeconds at h ⊢
    have hK : (3000000 : Int) <
        (t1.tv_sec * 1000000 + t1.tv_usec) - (t0.tv_sec * 1000000 + t0.tv_usec) := by
      have : ((3000000 : Int) : ℚ) <
          (((t1.tv_sec * 1000000 + t1.tv_usec) - (t0.tv_sec * 1000000 + t0.tv_usec) : Int) : ℚ) := by
        push_cast
        linarith
      exact_mod_cast this
    have hK1 : (3000001 : Int) ≤
        (t1.tv_sec * 1000000 + t1.tv_usec) - (t0.tv_sec * 1000000 + t0.tv_usec) := by omega
    have : ((3000001 : Int) : ℚ) ≤
        (((t1.tv_sec * 1000000 + t1.tv_usec) - (t0.tv_sec * 1000000 + t0.tv_usec) : Int) : ℚ) := by
      exact_mod_cast hK1
    push_cast at this
    linarith
  have hup1 : t1.exactSeconds < 2 ^ 33 := by
    unfold Timeval.exactSeconds
    have a1 : (t1.tv_sec : ℚ) ≤ 2 ^ 33 - 1 := by
      have : t1.tv_sec ≤ 2 ^ 33 - 1 := by have := h1.2.1; omega
      exact_mod_cast this
    have a2 : (t1.tv_usec : ℚ) < 1000000 := by exact_mod_cast h1.2.2.2
    linarith
  have e21 : (2 : ℚ) ^ (-21 : Int) = 1 / 2097152 := by norm_num
  have e54 : (2 : ℚ) ^ (-54 : Int) = 1 / 18014398509481984 := by norm_num
  rw [e21, e54] at herr0 herr1
  have a0 := abs_le.mp herr0
  have a1 := abs_le.mp herr1
  have hm0 : (0 : ℚ) ≤ (m0 : ℚ) * 2 ^ e0 :=
    mul_nonneg (Nat.cast_nonneg _) (zpow_pos (by norm_num) _).le
  have hsum : (Double.finite false m1 e1).toRat + (Double.finite true m0 e0).toRat =
      (m1 : ℚ) * 2 ^ e1 - (m0 : ℚ) * 2 ^ e0 := by
    simp only [Double.toRat, Double.signed]
    push_cast
    ring
  have hv : 3 + 1 / 25000000 ≤ (m1 : ℚ) * 2 ^ e1 - (m0 : ℚ) * 2 ^ e0 := by
    linarith [a0.2, a1.1]
  obtain ⟨m, e, L, hr, hL1, -, herr⟩ := double_add_pos false true m1 m0 e1 e0
    (by
      rw [hsum]
      refine le_trans ?_ (le_trans (by norm_num : (1 : ℚ) ≤ 3 + 1 / 25000000) hv)
      exact zpow_le_one_of_nonpos₀ (by norm_num) (by norm_num))
    (by
      rw [hsum]
      have : (2 : ℚ) ^ (34 : Int) < (2 : ℚ) ^ (1023 : Int) :=
        zpow_lt_zpow_right₀ (by norm_num) (by norm_num)
      refine lt_trans ?_ this
      have : (2 : ℚ) ^ (34 : Int) = 2 ^ 34 := by norm_num
      rw [this]
      linarith [a1.2])
  rw [hsum] at hL1 herr
  have hrel : (2 : ℚ) ^ (L - 53) ≤ ((m1 : ℚ) * 2 ^ e1 - (m0 : ℚ) * 2 ^ e0) * (1 / 9007199254740992) := by
    have : (2 : ℚ) ^ (L - 53) = (2 : ℚ) ^ L * (2 : ℚ) ^ (-53 : Int) := by
      rw [← zpow_add₀ (by norm_num : (2 : ℚ) ≠ 0)]
      congr 1
    rw [this]
    have e53 : (2 : ℚ) ^ (-53 : Int) = 1 / 9007199254740992 := by norm_num
    rw [e53]
    exact mul_le_mul_of_nonneg_right hL1 (by norm_num)
  have hD := (abs_le.mp (le_trans herr hrel)).1
  have hgt : (3 : ℚ) < (m : ℚ) * 2 ^ e := by
    generalize (m1 : ℚ) * 2 ^ e1 - (m0 : ℚ) * 2 ^ e0 = v at *
    linarith
  show Double.ofRatio 3 1 < t1.toSeconds - t0.toSeconds
  rw [double_three, hT0, hT1]
  have hsub : Double.finite false m1 e1 - Double.finite false m0 e0 =
      Double.finite false m1 e1 + Double.finite true m0 e0 := rfl
  rw [hsub, hr, double_lt_finite]
  simp only [Double.toRat, Double.signed]
  norm_num
  exact hgt

/-! ## The synchronous query (C22) -/

theorem SimulationIface.WaitForResponse_skip (t0 : Timeval) (pre rest : List WaitReading)
    (hpre : ∀ x ∈ pre, x.responseCount = 0 ∧
      ¬ (x.t1.toSeconds - t0.toSeconds > Double.ofRatio 3 1)) :
    SimulationIface.WaitForResponse t0 (pre ++ rest) =
      SimulationIface.WaitForResponse t0 rest := by
  induction pre with
  | nil => rfl
  | cons x pre ih =>
    have hx := hpre x (List.mem_cons_self _ _)
    rw [List.cons_append, SimulationIface.WaitForResponse]
    rw [if_pos hx.1, if_neg hx.2]
    exact ih (fun y hy => hpre y (List.mem_cons_of_mem _ hy))

theorem SimulationIface.WaitForResponse_timeout (t0 : Timeval) (pre : List WaitReading)
    (r : WaitReading) (rest : List WaitReading) (hpre : ∀ x ∈ pre, x.responseCount = 0)
    (hr : r.responseCount = 0) (ht : r.t1.toSeconds - t0.toSeconds > Double.ofRatio 3 1) :
    SimulationIface.WaitForResponse t0 (pre ++ r :: rest) = .ok false := by
  induction pre with
  | nil =>
    rw [List.nil_append, SimulationIface.WaitForResponse]
    rw [if_pos hr, if_pos ht]
  | cons x pre ih =>
    have hx := hpre x (List.mem_cons_self _ _)
    rw [List.cons_append, SimulationIface.WaitForResponse]
    rw [if_pos hx]
    by_cases hxt : x.t1.toSeconds - t0.toSeconds > Double.ofRatio 3 1
    · rw [if_pos hxt]
    · rw [if_neg hxt]
      exact ih (fun y hy => hpre y (List.mem_cons_of_mem _ hy))

set_option maxRecDepth 20000 in
/-- When exactly 3 seconds lie between the two clock readings the test of
`WaitForResponse` can already hold: started at 2147483646.3 s, the pass at
2147483649.3 s computes the difference 3.0000002384185791015625 in `double`
and returns false. -/
theorem SimulationIface.WaitForResponse_at_three_seconds :
    (⟨2147483649, 300000⟩ : Timeval).exactSeconds -
      (⟨2147483646, 300000⟩ : Timeval).exactSeconds = 3 ∧
    (⟨2147483649, 300000⟩ : Timeval).toSeconds - (⟨2147483646, 300000⟩ : Timeval).toSeconds =
      .finite false 12582913 (-22) ∧
    SimulationIface.WaitForResponse ⟨2147483646, 300000⟩ [⟨0, ⟨2147483649, 300000⟩⟩] =
      .ok false := by
  refine ⟨by norm_num [Timeval.exactSeconds], by rfl, by rfl⟩

/-- C22: `WaitForResponse` goes round its loop while the passes read
`responseCount == 0` and the test
`(t1.tv_sec + t1.tv_usec/1e6) - (t0.tv_sec + t0.tv_usec/1e6) > 3.0`, computed in
`double`, does not hold.  It returns true at the first pass that reads
`responseCount != 0`, and false at the first pass that reads
`responseCount == 0` with the test holding.  For clock readings of
`gettimeofday` (`0 <= tv_sec < 2^33`, `0 <= tv_usec < 10^6`) the test holds
whenever more than 3 seconds lie between the readings, so a pass that reads
`responseCount == 0` more than 3.0 seconds after the start, every pass before
it having read `responseCount == 0`, makes the call return false.  Whenever
`WaitForResponse` returns false, `GetPose3d` returns false and the caller's
pose is the one passed in. -/
theorem C22_query_fails_after_timeout {P : Type} (t0 : Timeval) (pre : List WaitReading)
    (r : WaitReading) (rest : List WaitReading)
    (hpre : ∀ x ∈ pre, x.responseCount = 0) :
    ((∀ x ∈ pre, ¬ (x.t1.toSeconds - t0.toSeconds > Double.ofRatio 3 1)) →
      r.responseCount ≠ 0 →
      SimulationIface.WaitForResponse t0 (pre ++ r :: rest) = .ok true) ∧
    ((∀ x ∈ pre, ¬ (x.t1.toSeconds - t0.toSeconds > Double.ofRatio 3 1)) →
      r.responseCount = 0 → r.t1.toSeconds - t0.toSeconds > Double.ofRatio 3 1 →
      SimulationIface.WaitForResponse t0 (pre ++ r :: rest) = .ok false) ∧
    (r.responseCount = 0 → t0.inRange → r.t1.inRange →
      3 < r.t1.exactSeconds - t0.exactSeconds →
      SimulationIface.WaitForResponse t0 (pre ++ r :: rest) = .ok false) ∧
    (∀ (readings : List WaitReading) (asserts : Bool) (data final : SimulationData P)
      (name : List Char) (pose : P),
      SimulationIface.WaitForResponse t0 readings = .ok false →
      data.requestCount < data.requests.length →
      ∃ posted, SimulationIface.GetPose3d asserts data name pose t0 readings final =
        .ok (false, pose, posted)) := by
  refine ⟨?_, ?_, ?_, ?_⟩
  · intro hgo hr
    rw [SimulationIface.WaitForResponse_skip t0 pre _ (fun x hx => ⟨hpre x hx, hgo x hx⟩),
      SimulationIface.WaitForResponse]
    rw [if_neg hr]
  · intro _ hr ht
    exact SimulationIface.WaitForResponse_timeout t0 pre r rest hpre hr ht
  · intro hr h0 h1 ht
    exact SimulationIface.WaitForResponse_timeout t0 pre r rest hpre hr
      (timeval_elapsed_exceeds t0 r.t1 h0 h1 ht)
  · intro readings asserts data final name pose hw hcap
    simp only [SimulationIface.GetPose3d, if_pos hcap, hw]
    exact ⟨_, rfl⟩

/-- Witness of C22: started at 2147483646.3 s, a pass at 2147483647.8 s and a
pass at 2147483649.300001 s, both reading `responseCount == 0`; the second one
is more than 3 seconds after the start, the wait returns false and `GetPose3d`
returns false with the pose 9 passed in. -/
theorem C22_witness :
    SimulationIface.WaitForResponse ⟨2147483646, 300000⟩
      ([⟨0, ⟨2147483647, 800000⟩⟩] ++ ⟨0, ⟨2147483649, 300001⟩⟩ :: []) = .ok false ∧
    ∃ posted, SimulationIface.GetPose3d true ⟨5, 0, [⟨.GET_POSE2D, []⟩], 7⟩ ['a'] 9
      ⟨2147483646, 300000⟩ ([⟨0, ⟨2147483647, 800000⟩⟩] ++ ⟨0, ⟨2147483649, 300001⟩⟩ :: [])
      ⟨1, 1, [], 8⟩ = .ok (false, 9, posted) :=
  have h := @C22_query_fails_after_timeout Nat ⟨2147483646, 300000⟩
    [⟨0, ⟨2147483647, 800000⟩⟩] ⟨0, ⟨2147483649, 300001⟩⟩ []
    (by
      intro x hx
      rw [List.mem_singleton.mp hx])
  have hw := h.2.2.1 rfl ⟨by decide, by decide, by decide, by decide⟩
    ⟨by decide, by decide, by decide, by decide⟩ (by norm_num [Timeval.exactSeconds])
  ⟨hw, h.2.2.2 _ true _ _ ['a'] 9 hw (by decide)⟩

/-! ## The attempts of `WindowManager::CreateWindow` (C30) -/

theorem WindowManager.createLoop_success {W : Type} (create : Nat → CreateResult W)
    (k : Nat) (w : W) (hk : k < 10) (hw : create k = .window w) (n a : Nat) (hak : a + n = k)
    (hfail : ∀ j, a ≤ j → j < k → (create j).isWindow = false) (fuel reports : Nat)
    (hfuel : n + 2 ≤ fuel) :
    ∃ r, WindowManager.createLoop create fuel none a reports = some (some w, k + 1, r) := by
  induction n generalizing a fuel reports with
  | zero =>
    obtain ⟨f, rfl⟩ : ∃ f, fuel = f + 2 := ⟨fuel - 2, by omega⟩
    have ha : a = k := by omega
    subst ha
    exact ⟨reports, by simp [WindowManager.createLoop, hk, hw]⟩
  | succ n ih =>
    obtain ⟨f, rfl⟩ : ∃ f, fuel = f + 1 := ⟨fuel - 1, by omega⟩
    have ha10 : a < 10 := by omega
    have hfa := hfail a (le_refl _) (by omega)
    have hnext : ∀ r, ∃ r1, WindowManager.createLoop create f none (a + 1) r =
        some (some w, k + 1, r1) := fun r =>
      ih (a + 1) (by omega) (fun j hj1 hj2 => hfail j (by omega) hj2) f r (by omega)
    rw [WindowManager.createLoop]
    simp only [if_pos ha10]
    cases hc : create a with
    | window w1 => simp [hc, CreateResult.isWindow] at hfa
    | null => exact hnext reports
    | thrown => exact hnext (reports + 1)

theorem WindowManager.createLoop_failure {W : Type} (create : Nat → CreateResult W)
    (n a : Nat) (ha : a + n = 10)
    (hfail : ∀ j, a ≤ j → j < 10 → (create j).isWindow = false) (fuel reports : Nat)
    (hfuel : n + 1 ≤ fuel) :
    ∃ r, WindowManager.createLoop create fuel none a reports = some (none, 11, r) := by
  induction n generalizing a fuel reports with
  | zero =>
    obtain ⟨f, rfl⟩ : ∃ f, fuel = f + 1 := ⟨fuel - 1, by omega⟩
    have ha10 : a = 10 := by omega
    subst ha10
    exact ⟨reports, by simp [WindowManager.createLoop]⟩
  | succ n ih =>
    obtain ⟨f, rfl⟩ : ∃ f, fuel = f + 1 := ⟨fuel - 1, by omega⟩
    have ha10 : a < 10 := by omega
    have hfa := hfail a (le_refl _) ha10
    have hnext : ∀ r, ∃ r1, WindowManager.createLoop create f none (a + 1) r =
        some (none, 11, r1) := fun r =>
      ih (a + 1) (by omega) (fun j hj1 hj2 => hfail j (by omega) hj2) f r (by omega)
    rw [WindowManager.createLoop]
    simp only [if_pos ha10]
    cases hc : create a with
    | window w1 => simp [hc, CreateResult.isWindow] at hfa
    | null => exact hnext reports
    | thrown => exact hnext (reports + 1)

/-- C30 (divergence): `CreateWindow` raises the "Unable to create the rendering
window" error as soon as the first nine attempts fail, whatever the tenth
attempt does: a window created by the tenth attempt is not appended.  When an
attempt before the tenth is the first to return a window, `CreateWindow`
appends it and returns the former number of windows (as an `int`). -/
theorem C30_tenth_attempt_is_discarded {W : Type} (create : List Char → Nat → CreateResult W)
    (m : WindowManager W) (handle : List Char) (width height : Nat) :
    ((∀ j, j < 9 → (create ("OgreWindow(".toList ++ decimal m.windowCounter ++ ")".toList)
        j).isWindow = false) →
      m.CreateWindow create handle width height =
        .error (.thrown "Unable to create the rendering window\n")) ∧
    (∀ (k : Nat) (w : W), k < 9 →
      create ("OgreWindow(".toList ++ decimal m.windowCounter ++ ")".toList) k = .window w →
      (∀ j, j < k → (create ("OgreWindow(".toList ++ decimal m.windowCounter ++ ")".toList)
        j).isWindow = false) →
      ∃ r, m.CreateWindow create handle width height =
        .ok (toInt32 m.windows.length,
          { windows := m.windows ++ [w], windowCounter := (m.windowCounter + 1) % 2 ^ 32,
            reports := r })) := by
  generalize hname : "OgreWindow(".toList ++ decimal m.windowCounter ++ ")".toList = name
  constructor
  · intro hfail
    cases h9 : create name 9 with
    | window w =>
      obtain ⟨r, hr⟩ := WindowManager.createLoop_success (create name) 9 w (by decide) h9 9 0
        rfl (fun j _ hj => hfail j hj) 12 m.reports (by decide)
      simp only [WindowManager.CreateWindow, hname, hr]
      rfl
    | null =>
      obtain ⟨r, hr⟩ := WindowManager.createLoop_failure (create name) 10 0 rfl
        (fun j _ hj => by
          rcases Nat.lt_or_ge j 9 with h | h
          · exact hfail j h
          · have : j = 9 := by omega
            rw [this, h9]
            rfl) 12 m.reports (by decide)
      simp only [WindowManager.CreateWindow, hname, hr]
      rfl
    | thrown =>
      obtain ⟨r, hr⟩ := WindowManager.createLoop_failure (create name) 10 0 rfl
        (fun j _ hj => by
          rcases Nat.lt_or_ge j 9 with h | h
          · exact hfail j h
          · have : j = 9 := by omega
            rw [this, h9]
            rfl) 12 m.reports (by decide)
      simp only [WindowManager.CreateWindow, hname, hr]
      rfl
  · intro k w hk hw hfail
    obtain ⟨r, hr⟩ := WindowManager.createLoop_success (create name) k w (by omega) hw k 0
      (by omega) (fun j _ hj => hfail j hj) 12 m.reports (by omega)
    refine ⟨r, ?_⟩
    simp only [WindowManager.CreateWindow, hname, hr]
    rw [if_neg (by omega)]
    simp

/-- Witness of C30: nine attempts throw and the tenth returns the window 7;
`CreateWindow` raises the error. -/
theorem C30_witness :
    (⟨[1, 2], 2, 0⟩ : WindowManager Nat).CreateWindow
        (fun _ k => if k = 9 then .window 7 else .thrown) ['h'] 640 480 =
      .error (.thrown "Unable to create the rendering window\n") :=
  (C30_tenth_attempt_is_discarded (fun _ k => if k = 9 then .window 7 else .thrown)
    ⟨[1, 2], 2, 0⟩ ['h'] 640 480).1 (fun j hj => by
      rw [if_neg (by omega)]
      rfl)

/-! ## The loops of `ArrangePlugin::Load` (C29) -/

theorem ArrangePlugin.poseLoop_never {P : Type} (arrangementName : String) (fuel : Nat)
    (elems : List (ArrangePoseElem P)) (h : ∃ q ∈ elems, q.model = none)
    (poses : List (String × P)) (errors : List String)
    (r : List (String × P) × List String) :
    ArrangePlugin.poseLoop arrangementName fuel elems poses errors ≠ .ok r := by
  induction fuel generalizing elems poses errors with
  | zero =>
    rw [ArrangePlugin.poseLoop]
    exact fun hh => nomatch hh
  | succ fuel ih =>
    obtain ⟨q, hq, hnone⟩ := h
    cases elems with
    | nil => cases hq
    | cons e rest =>
      rw [ArrangePlugin.poseLoop]
      cases he : e.model with
      | none => exact ih (e :: rest) ⟨e, List.mem_cons_self _ _, he⟩ _ _
      | some poseName =>
        have hqr : q ∈ rest := by
          rcases List.mem_cons.mp hq with hqe | hqr
          · rw [hqe, he] at hnone
            cases hnone
          · exact hqr
        exact ih rest ⟨q, hqr, hnone⟩ _ _

theorem ArrangePlugin.arrangementLoop_never {M P : Type} (fuel : Nat)
    (elems : List (ArrangementElem P))
    (h : ∃ a ∈ elems, a.name = none ∨ ∃ q ∈ a.poses, q.model = none)
    (p r : ArrangePlugin M P) :
    ArrangePlugin.arrangementLoop fuel elems p ≠ .ok r := by
  induction fuel generalizing elems p with
  | zero =>
    rw [ArrangePlugin.arrangementLoop]
    exact fun hh => nomatch hh
  | succ fuel ih =>
    obtain ⟨a, ha, hbad⟩ := h
    cases elems with
    | nil => cases ha
    | cons e rest =>
      rw [ArrangePlugin.arrangementLoop]
      cases he : e.name with
      | none => exact ih (e :: rest) ⟨e, List.mem_cons_self _ _, Or.inl he⟩ _
      | some arrangementName =>
        simp only
        cases hp : ArrangePlugin.poseLoop arrangementName fuel e.poses []
            (if p.initialArrangementName.isEmpty = true then
              { p with initialArrangementName := arrangementName } else p).errors with
        | error f => exact fun hh => nomatch hh
        | ok res =>
          have har : a ∈ rest := by
            rcases List.mem_cons.mp ha with hae | har
            · exfalso
              rw [hae] at hbad
              rcases hbad with hn | hq
              · rw [he] at hn
                cases hn
              · exact ArrangePlugin.poseLoop_never arrangementName fuel e.poses hq _ _ res hp
            · exact har
          exact ih rest ⟨a, har, hbad⟩ _

theorem ArrangePlugin.poseLoop_total {P : Type} (arrangementName : String) (fuel : Nat)
    (elems : List (ArrangePoseElem P)) (h : ∀ q ∈ elems, q.model ≠ none)
    (hfuel : elems.length < fuel) (poses : List (String × P)) (errors : List String) :
    ∃ poses1, ArrangePlugin.poseLoop arrangementName fuel elems poses errors =
      .ok (poses1, errors) := by
  induction elems generalizing fuel poses with
  | nil =>
    obtain ⟨f, rfl⟩ : ∃ f, fuel = f + 1 := ⟨fuel - 1, by simp at hfuel; omega⟩
    exact ⟨poses, rfl⟩
  | cons e rest ih =>
    obtain ⟨f, rfl⟩ : ∃ f, fuel = f + 1 := ⟨fuel - 1, by simp at hfuel; omega⟩
    rw [ArrangePlugin.poseLoop]
    cases he : e.model with
    | none => exact absurd he (h e (List.mem_cons_self _ _))
    | some poseName =>
      exact ih f (fun q hq => h q (List.mem_cons_of_mem _ hq))
        (by simp at hfuel; omega) _

theorem ArrangePlugin.arrangementLoop_total {M P : Type} (fuel : Nat)
    (elems : List (ArrangementElem P))
    (h : ∀ a ∈ elems, a.name ≠ none ∧ ∀ q ∈ a.poses, q.model ≠ none)
    (hfuel : elems.length < fuel) (hposes : ∀ a ∈ elems, a.poses.length + elems.length < fuel)
    (p : ArrangePlugin M P) :
    ∃ p1, ArrangePlugin.arrangementLoop fuel elems p = .ok p1 ∧ p1.errors = p.errors := by
  induction elems generalizing fuel p with
  | nil =>
    obtain ⟨f, rfl⟩ : ∃ f, fuel = f + 1 := ⟨fuel - 1, by simp at hfuel; omega⟩
    exact ⟨p, rfl, rfl⟩
  | cons e rest ih =>
    obtain ⟨f, rfl⟩ : ∃ f, fuel = f + 1 := ⟨fuel - 1, by simp at hfuel; omega⟩
    rw [ArrangePlugin.arrangementLoop]
    cases he : e.name with
    | none => exact absurd he (h e (List.mem_cons_self _ _)).1
    | some arrangementName =>
      have hlen := hposes e (List.mem_cons_self _ _)
      obtain ⟨poses1, hp⟩ := ArrangePlugin.poseLoop_total arrangementName f e.poses
        (h e (List.mem_cons_self _ _)).2 (by simp at hlen; omega) []
        (if p.initialArrangementName.isEmpty = true then
          { p with initialArrangementName := arrangementName } else p).errors
      simp only [hp]
      obtain ⟨p1, h1, h2⟩ := ih f (fun a ha => h a (List.mem_cons_of_mem _ ha))
        (by simp at hfuel; omega)
        (fun a ha => by
          have := hposes a (List.mem_cons_of_mem _ ha)
          simp at this
          omega)
        { (if p.initialArrangementName.isEmpty = true then
            { p with initialArrangementName := arrangementName } else p) with
          arrangements := mapAssign (if p.initialArrangementName.isEmpty = true then
            { p with initialArrangementName := arrangementName } else p).arrangements
            arrangementName poses1,
          errors := (if p.initialArrangementName.isEmpty = true then
            { p with initialArrangementName := arrangementName } else p).errors }
      refine ⟨p1, h1, ?_⟩
      rw [h2]
      split <;> rfl

theorem ArrangePlugin.poseLoop_fault {P : Type} (arrangementName : String) (fuel : Nat)
    (elems : List (ArrangePoseElem P)) (poses : List (String × P)) (errors : List String)
    (f : Fault) (h : ArrangePlugin.poseLoop arrangementName fuel elems poses errors = .error f) :
    f = .outOfFuel := by
  induction fuel generalizing elems poses errors with
  | zero =>
    rw [ArrangePlugin.poseLoop] at h
    cases h
    rfl
  | succ fuel ih =>
    cases elems with
    | nil =>
      rw [ArrangePlugin.poseLoop] at h
      cases h
    | cons e rest =>
      rw [ArrangePlugin.poseLoop] at h
      cases he : e.model with
      | none =>
        rw [he] at h
        exact ih _ _ _ h
      | some poseName =>
        rw [he] at h
        exact ih _ _ _ h

theorem ArrangePlugin.arrangementLoop_fault {M P : Type} (fuel : Nat)
    (elems : List (ArrangementElem P)) (p : ArrangePlugin M P) (f : Fault)
    (h : ArrangePlugin.arrangementLoop fuel elems p = .error f) : f = .outOfFuel := by
  induction fuel generalizing elems p with
  | zero =>
    rw [ArrangePlugin.arrangementLoop] at h
    cases h
    rfl
  | succ fuel ih =>
    cases elems with
    | nil =>
      rw [ArrangePlugin.arrangementLoop] at h
      cases h
    | cons e rest =>
      rw [ArrangePlugin.arrangementLoop] at h
      cases he : e.name with
      | none =>
        rw [he] at h
        exact ih _ _ h
      | some arrangementName =>
        rw [he] at h
        simp only at h
        cases hp : ArrangePlugin.poseLoop arrangementName fuel e.poses []
            (if p.initialArrangementName.isEmpty = true then
              { p with initialArrangementName := arrangementName } else p).errors with
        | error g =>
          rw [hp] at h
          cases h
          exact ArrangePlugin.poseLoop_fault _ _ _ _ _ _ hp
        | ok res =>
          rw [hp] at h
          exact ih _ _ h

theorem ArrangePlugin.modelNameLoop_total {M P : Type} (GetModel : String → Option M)
    (GetWorldPose : M → P) (names : List String) (h : ∀ n ∈ names, GetModel n ≠ none)
    (p : ArrangePlugin M P) :
    ∃ p1, ArrangePlugin.modelNameLoop GetModel GetWorldPose names p = .ok p1 ∧
      p1.errors = p.errors ∧ p1.initialArrangementName = p.initialArrangementName := by
  induction names generalizing p with
  | nil => exact ⟨p, rfl, rfl, rfl⟩
  | cons n rest ih =>
    rw [ArrangePlugin.modelNameLoop]
    cases hn : GetModel n with
    | none => exact absurd hn (h n (List.mem_cons_self _ _))
    | some model => exact ih (fun k hk => h k (List.mem_cons_of_mem _ hk)) _

/-- C29 (divergence): when every named model exists, `ArrangePlugin::Load` on a
description with an `<arrangement>` that has no name attribute, or with a
`<pose>` that has no model attribute, is still in its loop whatever the number
of passes allowed: the pass that reports the element does not move on to the
next sibling.  On a description where every arrangement has a name and every
pose a model, `Load` returns once the passes allowed exceed the number of
arrangements plus the largest number of poses, and reports nothing. -/
theorem C29_missing_attribute_never_returns {M P : Type} (GetModel : String → Option M)
    (GetWorldPose : M → P) (sdf : ArrangeSdf P) (p : ArrangePlugin M P)
    (hmodels : ∀ n ∈ sdf.model_name, GetModel n ≠ none) :
    ((∃ a ∈ sdf.arrangement, a.name = none ∨ ∃ q ∈ a.poses, q.model = none) →
      ∀ fuel, ArrangePlugin.Load GetModel GetWorldPose fuel sdf p = .error .outOfFuel) ∧
    ((∀ a ∈ sdf.arrangement, a.name ≠ none ∧ ∀ q ∈ a.poses, q.model ≠ none) →
      ∀ fuel, sdf.arrangement.length < fuel →
        (∀ a ∈ sdf.arrangement, a.poses.length + sdf.arrangement.length < fuel) →
        ∃ p1, ArrangePlugin.Load GetModel GetWorldPose fuel sdf p = .ok p1 ∧
          p1.errors = p.errors) := by
  obtain ⟨p1, hp1, herr, -⟩ :=
    ArrangePlugin.modelNameLoop_total GetModel GetWorldPose sdf.model_name hmodels p
  constructor
  · intro hbad fuel
    simp only [ArrangePlugin.Load, hp1]
    generalize (match sdf.initial_arrangement with
      | some name => { p1 with initialArrangementName := name }
      | none => p1) = p2
    cases hr : ArrangePlugin.arrangementLoop fuel sdf.arrangement p2 with
    | error f => rw [ArrangePlugin.arrangementLoop_fault _ _ _ _ hr]
    | ok r => exact absurd hr (ArrangePlugin.arrangementLoop_never fuel _ hbad p2 r)
  · intro hgood fuel hfuel hposes
    simp only [ArrangePlugin.Load, hp1]
    obtain ⟨p3, h3, h4⟩ := ArrangePlugin.arrangementLoop_total fuel sdf.arrangement hgood hfuel
      hposes (match sdf.initial_arrangement with
        | some name => { p1 with initialArrangementName := name }
        | none => p1)
    refine ⟨p3, h3, ?_⟩
    rw [h4, ← herr]
    split <;> rfl

/-- Witness of C29: a description whose only `<arrangement>` has no name
attribute; with a million passes allowed, `Load` has not returned. -/
theorem C29_witness :
    ArrangePlugin.Load (fun _ => some 0) (fun (_ : Nat) => (0 : Nat)) 1000000
      ⟨["box"], none, [⟨none, [⟨some "box", 1⟩]⟩]⟩ ⟨[], "", [], []⟩ = .error .outOfFuel :=
  (C29_missing_attribute_never_returns (fun _ => some 0) (fun (_ : Nat) => (0 : Nat))
    ⟨["box"], none, [⟨none, [⟨some "box", 1⟩]⟩]⟩ ⟨[], "", [], []⟩
    (fun _ _ => by simp)).1 ⟨_, List.mem_singleton.mpr rfl, Or.inl rfl⟩ 1000000

/-! ## The keys of the connections of the master (C28) -/

theorem find_mapAssign_same {V : Type} (l : List (Nat × V)) (k : Nat) (v : V) :
    ((mapAssign l k v).find? (fun kv => kv.1 == k)).map (fun kv => kv.2) = some v := by
  induction l with
  | nil => simp [mapAssign]
  | cons kv rest ih =>
    obtain ⟨k1, v1⟩ := kv
    rw [mapAssign]
    by_cases h : k1 = k
    · simp [h]
    · rw [if_neg h, List.find?_cons_of_neg _ (by simpa using h)]
      exact ih

theorem length_mapAssign_of_find {V : Type} (l : List (Nat × V)) (k : Nat) (v old : V)
    (h : (l.find? (fun kv => kv.1 == k)).map (fun kv => kv.2) = some old) :
    (mapAssign l k v).length = l.length := by
  induction l with
  | nil => simp at h
  | cons kv rest ih =>
    obtain ⟨k1, v1⟩ := kv
    rw [mapAssign]
    by_cases hk : k1 = k
    · simp [hk]
    · rw [if_neg hk, List.length_cons, List.length_cons, ih]
      rw [List.find?_cons_of_neg _ (by simpa using hk)] at h
      exact h

/-- C28 (divergence): whenever the key `connections.size()` is already in the
map, `OnAccept` replaces the connection stored under it and the map does not
grow.  Such a state is reached by accepting two connections and removing the
first: the map then holds the second connection 11 under the key 1 and has size
1; `OnAccept` stores the third connection 12 under the key 1 as well, the open
connection 11 is no longer in the map, and the reads of both 11 and 12 are
bound to the index 1. -/
theorem C28_accept_reuses_index_of_open_connection :
    (∀ (m : Master) (c : Nat) (old : Option Nat), m.find m.connections.length = some old →
      ∃ m1, m.OnAccept (some c) = .ok m1 ∧ m1.find m.connections.length = some (some c) ∧
        m1.connections.length = m.connections.length) ∧
    ∃ m m1, Master.calls [.OnAccept (some 10), .OnAccept (some 11), .RemoveConnection 0]
        newMaster = .ok m ∧
      m.connections = [(1, some 11)] ∧ m.find m.connections.length = some (some 11) ∧
      m.OnAccept (some 12) = .ok m1 ∧
      m1.connections = [(1, some 12)] ∧
      MasterEffect.asyncRead 11 1 ∈ m1.trace ∧ MasterEffect.asyncRead 12 1 ∈ m1.trace := by
  constructor
  · intro m c old hold
    refine ⟨_, rfl, ?_, ?_⟩
    · exact find_mapAssign_same m.connections m.connections.length (some c)
    · exact length_mapAssign_of_find m.connections m.connections.length (some c) old hold
  · exact ⟨_, _, rfl, rfl, rfl, rfl, rfl, by decide, by decide⟩

/-! ## The rows accepted by the search of the plot palette (C25) -/

theorem SearchModel.filterAcceptsRowItself_nil (fold : Char → Char) (text : List Char) :
    SearchModel.filterAcceptsRowItself fold text [] = true := by
  simp [SearchModel.filterAcceptsRowItself]

mutual
theorem SearchModel.filterAcceptsRow_iff (fold : Char → Char) (search : List Char)
    (hs : search ≠ []) (ancestors : List (List Char)) : ∀ (item : Item),
    (SearchModel.filterAcceptsRow fold search ancestors item = true ↔
      ∃ d ∈ item.openRows ancestors, SearchSpec.everyWordFound fold search d.1 d.2)
  | .mk name type rows => by
    have ih := SearchModel.hasAcceptedChildren_iff fold search hs (name :: ancestors) rows
    rw [SearchModel.filterAcceptsRow, Item.openRows, if_neg hs]
    by_cases ht : type = "title".toList
    · simp [ht]
    · rw [if_neg ht, if_neg ht]
      cases hA : SearchModel.hasAcceptedChildren fold search (name :: ancestors) rows with
      | true =>
        obtain ⟨d, hd, hw⟩ := ih.mp hA
        constructor
        · intro _
          exact ⟨d, List.mem_cons_of_mem _ hd, hw⟩
        · intro _
          simp
      | false =>
        have hno : ¬ ∃ d ∈ Item.openRowsOf (name :: ancestors) rows,
            SearchSpec.everyWordFound fold search d.1 d.2 := by
          intro h
          rw [← ih, hA] at h
          cases h
        constructor
        · intro h
          refine ⟨_, List.mem_cons_self _ _, ?_⟩
          intro word hword
          have := List.all_eq_true.mp h word hword
          simp only [Bool.or_false, Bool.or_eq_true, beq_iff_eq, List.any_eq_true] at this
          rcases this with (hnil | hself) | hanc
          · left
            rw [hnil]
            exact SearchModel.filterAcceptsRowItself_nil fold _
          · exact Or.inl hself
          · exact Or.inr hanc
        · rintro ⟨d, hd, hw⟩
          rcases List.mem_cons.mp hd with hd | hd
          · subst hd
            apply List.all_eq_true.mpr
            intro word hword
            rcases hw word hword with h1 | h2
            · simp [show SearchModel.filterAcceptsRowItself fold name word = true from h1]
            · simp only [Bool.or_false, Bool.or_eq_true, beq_iff_eq, List.any_eq_true]
              exact Or.inr h2
          · exact absurd ⟨d, hd, hw⟩ hno
theorem SearchModel.hasAcceptedChildren_iff (fold : Char → Char) (search : List Char)
    (hs : search ≠ []) (ancestors : List (List Char)) : ∀ (rows : List Item),
    (SearchModel.hasAcceptedChildren fold search ancestors rows = true ↔
      ∃ d ∈ Item.openRowsOf ancestors rows, SearchSpec.everyWordFound fold search d.1 d.2)
  | [] => by simp [SearchModel.hasAcceptedChildren, Item.openRowsOf]
  | c :: cs => by
    have ih1 := SearchModel.filterAcceptsRow_iff fold search hs ancestors c
    have ih2 := SearchModel.hasAcceptedChildren_iff fold search hs ancestors cs
    rw [SearchModel.hasAcceptedChildren, Item.openRowsOf, Bool.or_eq_true, ih1, ih2]
    constructor
    · rintro (⟨d, hd, hw⟩ | ⟨d, hd, hw⟩)
      · exact ⟨d, List.mem_append_left _ hd, hw⟩
      · exact ⟨d, List.mem_append_right _ hd, hw⟩
    · rintro ⟨d, hd, hw⟩
      rcases List.mem_append.mp hd with hd | hd
      · exact Or.inl ⟨d, hd, hw⟩
      · exact Or.inr ⟨d, hd, hw⟩
end

theorem Item.descendants_title_leaf (ancestors : List (List Char)) (c : Item)
    (hleaf : c.titlesAreLeaves = true) (ht : c.type = "title".toList) :
    Item.descendants ancestors c = [] := by
  cases c with
  | mk name type rows =>
    rw [Item.titlesAreLeaves, Bool.and_eq_true, Bool.or_eq_true] at hleaf
    have ht1 : type = "title".toList := ht
    have hrows : rows = [] := by
      rcases hleaf.1 with h | h
      · rw [ht1] at h
        simp at h
      · exact List.isEmpty_iff.mp h
    rw [Item.descendants, hrows, Item.descendantsOf]

mutual
theorem Item.openRows_iff (P : List (List Char) × Item → Prop) (ancestors : List (List Char)) :
    ∀ (item : Item), item.titlesAreLeaves = true →
    ((∃ d ∈ item.openRows ancestors, P d) ↔
      item.type ≠ "title".toList ∧ (P (ancestors, item) ∨
        ∃ d ∈ item.descendants ancestors, d.2.type ≠ "title".toList ∧ P d))
  | .mk name type rows => by
    intro hleaf
    rw [Item.titlesAreLeaves, Bool.and_eq_true] at hleaf
    have ih := Item.openRowsOf_iff P (name :: ancestors) rows hleaf.2
    rw [Item.openRows, Item.descendants]
    by_cases ht : type = "title".toList
    · rw [if_pos ht]
      constructor
      · rintro ⟨d, hd, -⟩
        cases hd
      · rintro ⟨hne, -⟩
        exact absurd ht hne
    · rw [if_neg ht]
      constructor
      · rintro ⟨d, hd, hP⟩
        rcases List.mem_cons.mp hd with hd | hd
        · exact ⟨ht, Or.inl (hd ▸ hP)⟩
        · exact ⟨ht, Or.inr (ih.mp ⟨d, hd, hP⟩)⟩
      · rintro ⟨-, hP | hex⟩
        · exact ⟨_, List.mem_cons_self _ _, hP⟩
        · obtain ⟨d, hd, hP⟩ := ih.mpr hex
          exact ⟨d, List.mem_cons_of_mem _ hd, hP⟩
theorem Item.openRowsOf_iff (P : List (List Char) × Item → Prop) (ancestors : List (List Char)) :
    ∀ (rows : List Item), Item.titlesAreLeavesOf rows = true →
    ((∃ d ∈ Item.openRowsOf ancestors rows, P d) ↔
      ∃ d ∈ Item.descendantsOf ancestors rows, d.2.type ≠ "title".toList ∧ P d)
  | [] => by
    intro _
    rw [Item.openRowsOf, Item.descendantsOf]
    constructor
    · rintro ⟨d, hd, -⟩
      cases hd
    · rintro ⟨d, hd, -⟩
      cases hd
  | c :: cs => by
    intro hleaf
    rw [Item.titlesAreLeavesOf, Bool.and_eq_true] at hleaf
    have ih1 := Item.openRows_iff P ancestors c hleaf.1
    have ih2 := Item.openRowsOf_iff P ancestors cs hleaf.2
    rw [Item.openRowsOf, Item.descendantsOf]
    constructor
    · rintro ⟨d, hd, hP⟩
      rcases List.mem_append.mp hd with hd | hd
      · obtain ⟨hct, h | ⟨d1, hd1, hnt, hP1⟩⟩ := ih1.mp ⟨d, hd, hP⟩
        · exact ⟨_, List.mem_cons_self _ _, hct, h⟩
        · exact ⟨d1, List.mem_cons_of_mem _ (List.mem_append_left _ hd1), hnt, hP1⟩
      · obtain ⟨d1, hd1, hnt, hP1⟩ := ih2.mp ⟨d, hd, hP⟩
        exact ⟨d1, List.mem_cons_of_mem _ (List.mem_append_right _ hd1), hnt, hP1⟩
    · rintro ⟨d, hd, hnt, hP⟩
      rcases List.mem_cons.mp hd with hd | hd
      · subst hd
        obtain ⟨d1, hd1, hP1⟩ := ih1.mpr ⟨hnt, Or.inl hP⟩
        exact ⟨d1, List.mem_append_left _ hd1, hP1⟩
      · rcases List.mem_append.mp hd with hd | hd
        · by_cases hct : c.type = "title".toList
          · rw [Item.descendants_title_leaf ancestors c hleaf.1 hct] at hd
            cases hd
          · obtain ⟨d1, hd1, hP1⟩ := ih1.mpr ⟨hct, Or.inr ⟨d, hd, hnt, hP⟩⟩
            exact ⟨d1, List.mem_append_left _ hd1, hP1⟩
        · obtain ⟨d1, hd1, hP1⟩ := ih2.mpr ⟨d, hd, hnt, hP⟩
          exact ⟨d1, List.mem_append_right _ hd1, hP1⟩
end

/-- C25: `filterAcceptsRow` is a total function of the item tree, and on the
trees of the source models, in which a title row has no child rows (`Palette`
appends each title as a new row without children and never makes a title the
parent of a row), it follows the documented rule: an empty search accepts no
row; otherwise a row is accepted if and only if it is not a title and every
word of the search is contained (whatever the case) in the row or one of its
ancestors, or one of its descendants is accepted in that way.  On the tree
`a > {b, c > {d}}` the rows accepted are those of the documentation. -/
theorem C25_search_follows_documented_rule (fold : Char → Char) (search : List Char)
    (ancestors : List (List Char)) (item : Item) (hleaf : item.titlesAreLeaves = true) :
    (search = [] → SearchModel.filterAcceptsRow fold search ancestors item = false) ∧
    (SearchModel.filterAcceptsRow fold search ancestors item = true ↔
      SearchSpec.accepted fold search ancestors item) ∧
    abcdAccepted "" = [some false, some false, some false, some false] ∧
    abcdAccepted "a" = [some true, some true, some true, some true] ∧
    abcdAccepted "b" = [some true, some true, some false, some false] ∧
    abcdAccepted "a b" = [some true, some true, some false, some false] ∧
    abcdAccepted "c" = [some true, some false, some true, some true] ∧
    abcdAccepted "d" = [some true, some false, some true, some true] ∧
    abcdAccepted "a c" = [some true, some false, some true, some true] ∧
    abcdAccepted "a d" = [some true, some false, some true, some true] ∧
    abcdAccepted "a c d" = [some true, some false, some true, some true] ∧
    abcdAccepted "c d" = [some true, some false, some true, some true] ∧
    abcdAccepted "a b c d" = [some false, some false, some false, some false] ∧
    abcdAccepted "b c" = [some false, some false, some false, some false] ∧
    abcdAccepted "b d" = [some false, some false, some false, some false] := by
  refine ⟨?_, ?_, by decide, by decide, by decide, by decide, by decide, by decide,
    by decide, by decide, by decide, by decide, by decide, by decide, by decide⟩
  · intro hs
    subst hs
    cases item with
    | mk name type rows => simp [SearchModel.filterAcceptsRow]
  · by_cases hs : search = []
    · subst hs
      constructor
      · intro h
        cases item with
        | mk name type rows => simp [SearchModel.filterAcceptsRow] at h
      · intro h
        exact absurd rfl h.1
    · rw [SearchModel.filterAcceptsRow_iff fold search hs ancestors item,
        Item.openRows_iff (fun d => SearchSpec.everyWordFound fold search d.1 d.2) ancestors
          item hleaf]
      constructor
      · intro h
        exact ⟨hs, h⟩
      · intro h
        exact h.2

/-- Witness of C25: in `modelsTree` the only title has no child rows; the
search "foo" accepts the row `x`, through its descendant `foo`, and the rule
holds of it. -/
theorem C25_witness :
    modelsTree.titlesAreLeaves = true ∧
    SearchModel.filterAcceptsRow Char.toLower "foo".toList [] modelsTree = true ∧
    SearchSpec.accepted Char.toLower "foo".toList [] modelsTree :=
  ⟨by decide, by decide,
    (C25_search_follows_documented_rule Char.toLower "foo".toList [] modelsTree
      (by decide)).2.1.mp (by decide)⟩

/-! ## The threads around the world (C23, C24) -/

theorem World.clearStep_fields {T : Type} (w : World T) :
    w.clearStep.stop = w.stop ∧ w.clearStep.rootElement = w.rootElement ∧
    w.clearStep.physicsEngine = w.physicsEngine ∧
    w.clearStep.modelUpdateFunc = w.modelUpdateFunc := by
  unfold World.clearStep
  split <;> exact ⟨rfl, rfl, rfl, rfl⟩

theorem Threads.Inv.running {T E : Type} {env : SdfEnv E} {total calls : Nat} {s : Threads T}
    (h : Threads.Inv env total calls s) (hpc : s.loopPc ≠ .returned) :
    s.thread = true ∧ s.callerPc ≠ .joined := by
  constructor
  · by_contra hne
    exact hpc (h.handle (by simpa using hne)).2
  · intro hj
    exact hpc (h.joined hj)

theorem Threads.loopStep_inv {T E : Type} [LinearOrderedAddCommGroup T] (env : SdfEnv E)
    (step : T) (total calls : Nat) (s : Threads T) (h : Threads.Inv env total calls s) :
    ∃ s1, s.loopStep step = .ok s1 ∧ Threads.Inv env total calls s1 ∧
      s1.world.entityCount = s.world.entityCount ∧ s1.world.stop = s.world.stop ∧
      s1.callerPc = s.callerPc ∧ s1.thread = s.thread ∧ s1.stopCalls = s.stopCalls ∧
      s1.factoryPc = s.factoryPc := by
  have hrun := h.running
  obtain ⟨hl, hf, hc, he, hu, ⟨root, hroot, hcount⟩, hloads, hflag, hhandle, hjoined, hjoining,
    hobs, hle, hret⟩ := h
  unfold Threads.loopStep
  cases hpc : s.loopPc with
  | test =>
    rw [hpc] at hrun
    obtain ⟨hthread, hnj⟩ := hrun (fun hh => nomatch hh)
    simp only
    by_cases hstop : s.world.stop = true
    · rw [if_pos hstop]
      refine ⟨_, rfl, ⟨?_, hf, hc, he, hu, ⟨root, hroot, hcount⟩, hloads, hflag, ?_, ?_, hjoining,
        ?_, hle, hret⟩, rfl, rfl, rfl, rfl, rfl, rfl⟩
      · simpa [hpc, LoopPc.holdsMutex] using hl
      · intro _
        exact ⟨hstop, rfl⟩
      · intro _
        rfl
      · intro _
        exact hstop
    · rw [if_neg hstop]
      cases hcl : s.clocks with
      | nil =>
        refine ⟨_, rfl, ⟨hl, hf, hc, he, hu, ⟨root, hroot, hcount⟩, hloads, hflag, hhandle,
          hjoined, hjoining, hobs, hle, hret⟩, rfl, rfl, rfl, rfl, rfl, rfl⟩
      | cons c cs =>
        obtain ⟨-, -, -, -, g1, g2, g3, g4, -⟩ := World.publishStats_fields c s.world
        refine ⟨_, rfl, ⟨?_, hf, hc, ?_, ?_, ⟨root, ?_, hcount⟩, hloads, ?_, ?_, ?_, hjoining,
          ?_, hle, hret⟩, ?_, ?_, rfl, rfl, rfl, rfl⟩
        · simpa [hpc, LoopPc.holdsMutex] using hl
        · simpa [g3] using he
        · simpa [g4] using hu
        · simpa [g2] using hroot
        · intro hne
          simpa [g1] using hflag hne
        · intro ht
          rw [hthread] at ht
          cases ht
        · intro hj
          exact absurd hj hnj
        · intro hr
          cases hr
        · simp [World.entityCount, g2]
        · exact g1
  | body =>
    rw [hpc] at hrun
    obtain ⟨hthread, hnj⟩ := hrun (fun hh => nomatch hh)
    have hmx : s.updateMutex ≠ some .loop := by
      intro hm
      have := hl.mp hm
      rw [hpc] at this
      cases this
    simp only
    by_cases hb : (s.world.IsPaused && !s.world.stepInc) = true
    · rw [if_pos hb]
      refine ⟨_, rfl, ⟨?_, hf, hc, he, hu, ⟨root, hroot, hcount⟩, hloads, hflag, ?_, ?_, hjoining,
        ?_, hle, hret⟩, rfl, rfl, rfl, rfl, rfl, rfl⟩
      · simpa [LoopPc.holdsMutex] using hmx
      · intro ht
        rw [hthread] at ht
        cases ht
      · intro hj
        exact absurd hj hnj
      · intro hr
        cases hr
    · rw [if_neg hb]
      refine ⟨_, rfl, ⟨?_, hf, hc, he, hu, ⟨root, hroot, hcount⟩, hloads, hflag, ?_, ?_, hjoining,
        ?_, hle, hret⟩, rfl, rfl, rfl, rfl, rfl, rfl⟩
      · simpa [LoopPc.holdsMutex] using hmx
      · intro ht
        rw [hthread] at ht
        cases ht
      · intro hj
        exact absurd hj hnj
      · intro hr
        cases hr
  | wantLock =>
    rw [hpc] at hrun
    obtain ⟨hthread, hnj⟩ := hrun (fun hh => nomatch hh)
    simp only
    cases hm : s.updateMutex with
    | some t =>
      refine ⟨_, rfl, ⟨hl, hf, hc, he, hu, ⟨root, hroot, hcount⟩, hloads, hflag, hhandle,
        hjoined, hjoining, hobs, hle, hret⟩, rfl, rfl, rfl, rfl, rfl, rfl⟩
    | none =>
      have hfm : ¬ s.factoryPc.holdsMutex = true := by
        intro hh
        have := hf.mpr hh
        rw [hm] at this
        cases this
      refine ⟨_, rfl, ⟨?_, ?_, ?_, he, hu, ⟨root, hroot, hcount⟩, hloads, hflag, ?_, ?_,
        hjoining, ?_, hle, hret⟩, rfl, rfl, rfl, rfl, rfl, rfl⟩
      · exact ⟨fun _ => rfl, fun _ => rfl⟩
      · exact ⟨fun hh => (by cases hh), fun hh => absurd hh hfm⟩
      · exact fun hh => nomatch hh
      · intro ht
        rw [hthread] at ht
        cases ht
      · intro hj
        exact absurd hj hnj
      · intro hr
        cases hr
  | locked =>
    rw [hpc] at hrun
    obtain ⟨hthread, hnj⟩ := hrun (fun hh => nomatch hh)
    have hm : s.updateMutex = some .loop := hl.mpr (by rw [hpc]; rfl)
    refine ⟨_, rfl, ⟨?_, hf, hc, he, hu, ⟨root, hroot, hcount⟩, hloads, hflag, ?_, ?_, hjoining,
      ?_, hle, hret⟩, rfl, rfl, rfl, rfl, rfl, rfl⟩
    · exact ⟨fun _ => rfl, fun _ => hm⟩
    · intro ht
      rw [hthread] at ht
      cases ht
    · intro hj
      exact absurd hj hnj
    · intro hr
      cases hr
  | updating =>
    rw [hpc] at hrun
    obtain ⟨hthread, hnj⟩ := hrun (fun hh => nomatch hh)
    have hm : s.updateMutex = some .loop := hl.mpr (by rw [hpc]; rfl)
    obtain ⟨root1, -, hupd⟩ := World.Update_loaded s.world ⟨by rw [hroot]; rfl, he, hu⟩
    simp only [hupd]
    refine ⟨_, rfl, ⟨?_, hf, hc, he, hu, ⟨root, hroot, hcount⟩, hloads, hflag, ?_, ?_, hjoining,
      ?_, hle, hret⟩, rfl, rfl, rfl, rfl, rfl, rfl⟩
    · exact ⟨fun _ => rfl, fun _ => hm⟩
    · intro ht
      rw [hthread] at ht
      cases ht
    · intro hj
      exact absurd hj hnj
    · intro hr
      cases hr
  | updated =>
    rw [hpc] at hrun
    obtain ⟨hthread, hnj⟩ := hrun (fun hh => nomatch hh)
    have hm : s.updateMutex = some .loop := hl.mpr (by rw [hpc]; rfl)
    have hfm : ¬ s.factoryPc.holdsMutex = true := by
      intro hh
      have := hf.mpr hh
      rw [hm] at this
      cases this
    refine ⟨_, rfl, ⟨?_, ?_, ?_, he, hu, ⟨root, hroot, hcount⟩, hloads, hflag, ?_, ?_,
      hjoining, ?_, hle, hret⟩, rfl, rfl, rfl, rfl, rfl, rfl⟩
    · exact ⟨fun hh => (by cases hh), fun hh => by cases hh⟩
    · exact ⟨fun hh => (by cases hh), fun hh => absurd hh hfm⟩
    · exact fun hh => nomatch hh
    · intro ht
      rw [hthread] at ht
      cases ht
    · intro hj
      exact absurd hj hnj
    · intro hr
      cases hr
  | unlocked =>
    rw [hpc] at hrun
    obtain ⟨hthread, hnj⟩ := hrun (fun hh => nomatch hh)
    have hmx : s.updateMutex ≠ some .loop := by
      intro hm
      have := hl.mp hm
      rw [hpc] at this
      cases this
    obtain ⟨g1, g2, g3, g4⟩ := World.clearStep_fields s.world
    refine ⟨_, rfl, ⟨?_, hf, hc, ?_, ?_, ⟨root, ?_, hcount⟩, hloads, ?_, ?_, ?_, hjoining,
      ?_, hle, hret⟩, ?_, ?_, rfl, rfl, rfl, rfl⟩
    · exact ⟨fun hh => absurd hh hmx, fun hh => nomatch hh⟩
    · simpa [g3] using he
    · simpa [g4] using hu
    · simpa [g2] using hroot
    · intro hne
      simpa [g1] using hflag hne
    · intro ht
      rw [hthread] at ht
      cases ht
    · intro hj
      exact absurd hj hnj
    · intro hr
      cases hr
    · simp [World.entityCount, g2]
    · exact g1
  | returned =>
    refine ⟨_, rfl, ⟨hl, hf, hc, he, hu, ⟨root, hroot, hcount⟩, hloads, hflag, hhandle,
      hjoined, hjoining, hobs, hle, hret⟩, rfl, rfl, rfl, rfl, rfl, rfl⟩

theorem Threads.factoryStep_inv {T E : Type} (env : SdfEnv E) (total calls : Nat)
    (s : Threads T) (h : Threads.Inv env total calls s) :
    ∃ s1, s.factoryStep env = .ok s1 ∧ Threads.Inv env total calls s1 ∧
      s1.world.stop = s.world.stop ∧ s1.loopPc = s.loopPc ∧ s1.callerPc = s.callerPc ∧
      s1.thread = s.thread ∧ s1.stopCalls = s.stopCalls := by
  obtain ⟨hl, hf, hc, he, hu, ⟨root, hroot, hcount⟩, hloads, hflag, hhandle, hjoined, hjoining,
    hobs, hle, hret⟩ := h
  unfold Threads.factoryStep
  cases hpc : s.factoryPc with
  | idle =>
    have hmx : s.updateMutex ≠ some .factory := by
      intro hm
      have := hf.mp hm
      rw [hpc] at this
      cases this
    cases hin : s.inbox with
    | nil =>
      exact ⟨_, rfl, ⟨hl, hf, hc, he, hu, ⟨root, hroot, hcount⟩, hloads, hflag, hhandle,
        hjoined, hjoining, hobs, hle, hret⟩, rfl, rfl, rfl, rfl, rfl⟩
    | cons msg rest =>
      refine ⟨_, rfl, ⟨hl, ?_, hc, he, hu, ⟨root, hroot, ?_⟩, ?_, hflag, hhandle, hjoined,
        hjoining, hobs, hle, hret⟩, rfl, rfl, rfl, rfl, rfl⟩
      · exact ⟨fun hh => absurd hh hmx, fun hh => (by cases hh)⟩
      · rw [hpc, hin] at hcount
        simp only [FactoryPc.messages, List.length_cons, List.length_nil] at hcount ⊢
        omega
      · intro m hm
        apply hloads m
        rw [hpc, hin]
        simpa [FactoryPc.messages] using hm
  | parsed msg =>
    simp only
    cases hm : s.updateMutex with
    | some t =>
      exact ⟨_, rfl, ⟨hl, hf, hc, he, hu, ⟨root, hroot, hcount⟩, hloads, hflag, hhandle,
        hjoined, hjoining, hobs, hle, hret⟩, rfl, rfl, rfl, rfl, rfl⟩
    | none =>
      have hlm : ¬ s.loopPc.holdsMutex = true := by
        intro hh
        have := hl.mpr hh
        rw [hm] at this
        cases this
      refine ⟨_, rfl, ⟨?_, ?_, ?_, he, hu, ⟨root, hroot, ?_⟩, ?_, hflag, hhandle, hjoined,
        hjoining, hobs, hle, hret⟩, rfl, rfl, rfl, rfl, rfl⟩
      · exact ⟨fun hh => (by cases hh), fun hh => absurd hh hlm⟩
      · exact ⟨fun _ => rfl, fun _ => rfl⟩
      · exact fun hh => nomatch hh
      · rw [hpc] at hcount
        exact hcount
      · rw [hpc] at hloads
        exact hloads
  | locked msg =>
    have hm : s.updateMutex = some .factory := hf.mpr (by rw [hpc]; rfl)
    obtain ⟨name, hname⟩ := hloads msg (by rw [hpc]; simp [FactoryPc.messages])
    simp only [World.LoadModel_ok env _ s.world root name hroot hname]
    refine ⟨_, rfl, ⟨hl, ?_, hc, he, hu, ⟨_, rfl, ?_⟩, ?_, hflag, hhandle, hjoined,
      hjoining, hobs, hle, hret⟩, rfl, rfl, rfl, rfl, rfl⟩
    · exact ⟨fun _ => rfl, fun _ => hm⟩
    · rw [hpc] at hcount
      simp only [FactoryPc.messages, Base.GetChildCount, List.length_append, List.length_cons,
        List.length_nil] at hcount ⊢
      omega
    · intro m hmem
      apply hloads m
      rw [hpc]
      simp only [FactoryPc.messages, List.nil_append] at hmem
      exact List.mem_append_right _ hmem
  | loaded model =>
    have hm : s.updateMutex = some .factory := hf.mpr (by rw [hpc]; rfl)
    refine ⟨_, rfl, ⟨hl, ?_, hc, he, hu, ⟨root, hroot, ?_⟩, ?_, hflag, hhandle, hjoined,
      hjoining, hobs, hle, hret⟩, rfl, rfl, rfl, rfl, rfl⟩
    · exact ⟨fun _ => rfl, fun _ => hm⟩
    · rw [hpc] at hcount
      exact hcount
    · rw [hpc] at hloads
      exact hloads
  | inited =>
    have hm : s.updateMutex = some .factory := hf.mpr (by rw [hpc]; rfl)
    have hlm : ¬ s.loopPc.holdsMutex = true := by
      intro hh
      have := hl.mpr hh
      rw [hm] at this
      cases this
    refine ⟨_, rfl, ⟨?_, ?_, ?_, he, hu, ⟨root, hroot, ?_⟩, ?_, hflag, hhandle, hjoined,
      hjoining, hobs, hle, hret⟩, rfl, rfl, rfl, rfl, rfl⟩
    · exact ⟨fun hh => (by cases hh), fun hh => absurd hh hlm⟩
    · exact ⟨fun hh => (by cases hh), fun hh => (by cases hh)⟩
    · exact fun hh => nomatch hh
    · rw [hpc] at hcount
      exact hcount
    · rw [hpc] at hloads
      exact hloads

theorem Threads.callerStep_inv {T E : Type} (env : SdfEnv E) (total calls : Nat)
    (s : Threads T) (h : Threads.Inv env total calls s) :
    Threads.Inv env total calls s.callerStep ∧ s.callerStep.loopPc = s.loopPc ∧
      s.callerStep.world.entityCount = s.world.entityCount ∧
      (s.world.stop = true → s.callerStep.world.stop = true) := by
  obtain ⟨hl, hf, hc, he, hu, ⟨root, hroot, hcount⟩, hloads, hflag, hhandle, hjoined, hjoining,
    hobs, hle, hret⟩ := h
  unfold Threads.callerStep
  cases hpc : s.callerPc with
  | outside =>
    cases hn : s.stopCalls with
    | zero =>
      exact ⟨⟨hl, hf, hc, he, hu, ⟨root, hroot, hcount⟩, hloads, hflag, hhandle, hjoined,
        hjoining, hobs, hle, hret⟩, rfl, rfl, fun hh => hh⟩
    | succ n =>
      rw [hpc, hn] at hle hret
      refine ⟨⟨hl, hf, hc, he, hu, ⟨root, hroot, hcount⟩, hloads, ?_, ?_, ?_, ?_, ?_, ?_, ?_⟩,
        rfl, rfl, fun _ => rfl⟩
      · intro _
        rfl
      · intro ht
        exact ⟨rfl, (hhandle ht).2⟩
      · intro hh
        cases hh
      · intro hh
        rcases hh with hh | hh <;> cases hh
      · intro _
        rfl
      · simpa using hle
      · intro hlt
        apply hret
        simpa using hlt
  | flagged =>
    have hstop : s.world.stop = true := hflag (by rw [hpc]; exact fun hh => nomatch hh)
    rw [hpc] at hle hret
    simp only
    by_cases ht : s.thread = true
    · rw [if_pos ht]
      refine ⟨⟨hl, hf, hc, he, hu, ⟨root, hroot, hcount⟩, hloads, ?_, hhandle, ?_, ?_, hobs, ?_,
        ?_⟩, rfl, rfl, fun hh => hh⟩
      · intro _
        exact hstop
      · intro hh
        cases hh
      · intro _
        exact ht
      · simpa using hle
      · intro hlt
        apply hret
        simpa using hlt
    · rw [if_neg ht]
      have htf : s.thread = false := by simpa using ht
      refine ⟨⟨hl, hf, hc, he, hu, ⟨root, hroot, hcount⟩, hloads, ?_, hhandle, ?_, ?_, hobs, ?_,
        ?_⟩, rfl, rfl, fun hh => hh⟩
      · intro hh
        exact absurd rfl hh
      · intro hh
        cases hh
      · intro hh
        rcases hh with hh | hh <;> cases hh
      · have hle1 : s.stopCalls + 1 ≤ calls := hle
        show s.stopCalls + 0 ≤ calls
        omega
      · intro _
        exact htf
  | joining =>
    have hstop : s.world.stop = true := hflag (by rw [hpc]; exact fun hh => nomatch hh)
    have hthread : s.thread = true := hjoining (Or.inl hpc)
    rw [hpc] at hle hret
    simp only
    by_cases hr : s.loopPc = .returned
    · rw [if_pos hr]
      refine ⟨⟨hl, hf, hc, he, hu, ⟨root, hroot, hcount⟩, hloads, ?_, hhandle, ?_, ?_, hobs, ?_,
        ?_⟩, rfl, rfl, fun hh => hh⟩
      · intro _
        exact hstop
      · intro _
        exact hr
      · intro _
        exact hthread
      · simpa using hle
      · intro hlt
        apply hret
        simpa using hlt
    · rw [if_neg hr]
      refine ⟨⟨hl, hf, hc, he, hu, ⟨root, hroot, hcount⟩, hloads, hflag, hhandle, hjoined,
        hjoining, hobs, ?_, ?_⟩, rfl, rfl, fun hh => hh⟩
      · rw [hpc]
        exact hle
      · rw [hpc]
        exact hret
  | joined =>
    have hr : s.loopPc = .returned := hjoined hpc
    have hstop : s.world.stop = true := hobs hr
    rw [hpc] at hle
    refine ⟨⟨hl, hf, hc, he, hu, ⟨root, hroot, hcount⟩, hloads, ?_, ?_, ?_, ?_, hobs, ?_, ?_⟩,
      rfl, rfl, fun hh => hh⟩
    · intro hh
      exact absurd rfl hh
    · intro _
      exact ⟨hstop, hr⟩
    · intro hh
      cases hh
    · intro hh
      rcases hh with hh | hh <;> cases hh
    · have hle1 : s.stopCalls + 1 ≤ calls := hle
      show s.stopCalls + 0 ≤ calls
      omega
    · intro _
      rfl

theorem Threads.step_inv {T E : Type} [LinearOrderedAddCommGroup T] (env : SdfEnv E)
    (step : T) (total calls : Nat) (t : ThreadId) (s : Threads T)
    (h : Threads.Inv env total calls s) :
    ∃ s1, s.step env step t = .ok s1 ∧ Threads.Inv env total calls s1 ∧
      (s.world.stop = true → s1.world.stop = true) := by
  cases t with
  | loop =>
    obtain ⟨s1, h1, h2, -, h3, -⟩ := Threads.loopStep_inv env step total calls s h
    exact ⟨s1, h1, h2, fun hh => h3.trans hh⟩
  | factory =>
    obtain ⟨s1, h1, h2, h3, -⟩ := Threads.factoryStep_inv env total calls s h
    exact ⟨s1, h1, h2, fun hh => h3.trans hh⟩
  | caller =>
    obtain ⟨h2, -, -, h3⟩ := Threads.callerStep_inv env total calls s h
    exact ⟨_, rfl, h2, h3⟩

theorem Threads.run_inv {T E : Type} [LinearOrderedAddCommGroup T] (env : SdfEnv E)
    (step : T) (total calls : Nat) (sched : List ThreadId) (s : Threads T)
    (h : Threads.Inv env total calls s) :
    ∃ s1, Threads.run env step sched s = .ok s1 ∧ Threads.Inv env total calls s1 ∧
      (s.world.stop = true → s1.world.stop = true) := by
  induction sched generalizing s with
  | nil => exact ⟨s, rfl, h, fun hh => hh⟩
  | cons t ts ih =>
    obtain ⟨s1, h1, h2, h3⟩ := Threads.step_inv env step total calls t s h
    obtain ⟨s2, h4, h5, h6⟩ := ih s1 h2
    refine ⟨s2, ?_, h5, fun hh => h6 (h3 hh)⟩
    rw [Threads.run, h1]
    exact h4

theorem Threads.run_append {T E : Type} [LinearOrderedAddCommGroup T] (env : SdfEnv E)
    (step : T) (a b : List ThreadId) (s s1 : Threads T)
    (h : Threads.run env step a s = .ok s1) :
    Threads.run env step (a ++ b) s = Threads.run env step b s1 := by
  induction a generalizing s with
  | nil =>
    cases h
    rfl
  | cons t ts ih =>
    rw [List.cons_append, Threads.run]
    rw [Threads.run] at h
    cases hs : s.step env step t with
    | error f =>
      rw [hs] at h
      cases h
    | ok s2 =>
      rw [hs] at h
      exact ih s2 h

theorem Threads.started_inv {T E : Type} (env : SdfEnv E) (w : World T) (root : Base)
    (hroot : w.rootElement = some root) (hloaded : w.Loaded) (clocks : List (IterClock T))
    (inbox : List Factory) (calls : Nat)
    (hloads : ∀ msg ∈ inbox,
      ∃ name, env.modelLoad (World.readFactorySDF env msg).2.2.root = .ok name) :
    Threads.Inv env (root.GetChildCount + inbox.length) calls
      (Threads.started w clocks inbox calls) :=
  { loopMutex := ⟨fun hh => (by cases hh), fun hh => (by cases hh)⟩
    factoryMutex := ⟨fun hh => (by cases hh), fun hh => (by cases hh)⟩
    callerMutex := fun hh => nomatch hh
    engine := hloaded.2.1
    updateFunc := hloaded.2.2
    count := ⟨root, hroot, rfl⟩
    loads := fun msg hmsg => hloads msg hmsg
    flag := fun hh => absurd rfl hh
    handle := fun hh => nomatch hh
    joined := fun hh => nomatch hh
    joining := fun hh => (by rcases hh with hh | hh <;> cases hh)
    observed := fun hh => nomatch hh
    open_le := Nat.le_refl _
    returned := fun hh => absurd hh (Nat.lt_irrefl _) }

theorem Threads.loopStep_progress {T E : Type} [LinearOrderedAddCommGroup T] (env : SdfEnv E)
    (step : T) (total calls : Nat) (s : Threads T) (h : Threads.Inv env total calls s)
    (hstop : s.world.stop = true) (hpc : s.loopPc ≠ .returned)
    (hfree : s.loopPc = .wantLock → s.updateMutex = none) :
    ∃ s1, s.loopStep step = .ok s1 ∧ s1.loopPc.toReturn < s.loopPc.toReturn := by
  unfold Threads.loopStep
  cases hp : s.loopPc with
  | test =>
    simp only [if_pos hstop]
    exact ⟨_, rfl, by simp [LoopPc.toReturn]⟩
  | body =>
    simp only
    by_cases hb : (s.world.IsPaused && !s.world.stepInc) = true
    · rw [if_pos hb]
      exact ⟨_, rfl, by simp [LoopPc.toReturn]⟩
    · rw [if_neg hb]
      exact ⟨_, rfl, by simp [LoopPc.toReturn]⟩
  | wantLock =>
    simp only [hfree hp]
    exact ⟨_, rfl, by simp [LoopPc.toReturn]⟩
  | locked => exact ⟨_, rfl, by simp [LoopPc.toReturn]⟩
  | updating =>
    obtain ⟨root, hroot, -⟩ := h.count
    obtain ⟨root1, -, hupd⟩ := World.Update_loaded s.world ⟨by rw [hroot]; rfl, h.engine,
      h.updateFunc⟩
    simp only [hupd]
    exact ⟨_, rfl, by simp [LoopPc.toReturn]⟩
  | updated => exact ⟨_, rfl, by simp [LoopPc.toReturn]⟩
  | unlocked => exact ⟨_, rfl, by simp [LoopPc.toReturn]⟩
  | returned => exact absurd hp hpc

theorem Threads.factoryStep_progress {T E : Type} (env : SdfEnv E) (total calls : Nat)
    (s : Threads T) (h : Threads.Inv env total calls s)
    (hhold : s.factoryPc.holdsMutex = true) :
    ∃ s1, s.factoryStep env = .ok s1 ∧ s1.factoryPc.toRelease < s.factoryPc.toRelease := by
  unfold Threads.factoryStep
  cases hp : s.factoryPc with
  | idle =>
    rw [hp] at hhold
    cases hhold
  | parsed msg =>
    rw [hp] at hhold
    cases hhold
  | locked msg =>
    obtain ⟨root, hroot, -⟩ := h.count
    obtain ⟨name, hname⟩ := h.loads msg (by rw [hp]; simp [FactoryPc.messages])
    simp only [World.LoadModel_ok env _ s.world root name hroot hname]
    exact ⟨_, rfl, by simp [FactoryPc.toRelease]⟩
  | loaded model => exact ⟨_, rfl, by simp [FactoryPc.toRelease]⟩
  | inited => exact ⟨_, rfl, by simp [FactoryPc.toRelease]⟩

theorem Threads.loop_returns {T E : Type} [LinearOrderedAddCommGroup T] (env : SdfEnv E)
    (step : T) (total calls : Nat) (n : Nat) (s : Threads T)
    (h : Threads.Inv env total calls s) (hstop : s.world.stop = true)
    (hn : s.loopPc.toReturn + s.factoryPc.toRelease ≤ n) :
    ∃ sched s1, sched.length ≤ n ∧ (∀ t ∈ sched, t ≠ ThreadId.caller) ∧
      Threads.run env step sched s = .ok s1 ∧ Threads.Inv env total calls s1 ∧
      s1.loopPc = .returned ∧ s1.world.stop = true ∧ s1.callerPc = s.callerPc ∧
      s1.thread = s.thread ∧ s1.stopCalls = s.stopCalls := by
  induction n generalizing s with
  | zero =>
    have hr : s.loopPc = .returned := by
      cases hp : s.loopPc <;> rw [hp] at hn <;> simp [LoopPc.toReturn] at hn
    exact ⟨[], s, Nat.le_refl _, (fun t ht => nomatch ht), rfl, h, hr, hstop, rfl, rfl, rfl⟩
  | succ n ih =>
    by_cases hr : s.loopPc = .returned
    · exact ⟨[], s, Nat.zero_le _, (fun t ht => nomatch ht), rfl, h, hr, hstop, rfl, rfl, rfl⟩
    · by_cases hblocked : s.loopPc = .wantLock ∧ s.updateMutex ≠ none
      · have hhold : s.factoryPc.holdsMutex = true := by
          obtain ⟨hw, hm⟩ := hblocked
          cases hmx : s.updateMutex with
          | none => exact absurd hmx hm
          | some t =>
            cases t with
            | loop =>
              have := h.loopMutex.mp hmx
              rw [hw] at this
              cases this
            | factory => exact h.factoryMutex.mp hmx
            | caller => exact absurd hmx h.callerMutex
        obtain ⟨s1, h1, h2, h3, h4, h5, h6, h7⟩ := Threads.factoryStep_inv env total calls s h
        obtain ⟨s1', h1', hlt⟩ := Threads.factoryStep_progress env total calls s h hhold
        rw [h1] at h1'
        cases h1'
        obtain ⟨sched, s2, hlen, hnc, hrun, hinv, hret, hst, hc2, ht2, hs2⟩ := ih s1 h2
          (h3.trans hstop) (by rw [h4]; omega)
        refine ⟨ThreadId.factory :: sched, s2, by simp; omega, ?_, ?_, hinv, hret, hst,
          hc2.trans h5, ht2.trans h6, hs2.trans h7⟩
        · intro t ht
          rcases List.mem_cons.mp ht with ht | ht
          · rw [ht]
            exact fun hh => nomatch hh
          · exact hnc t ht
        · rw [Threads.run]
          simp only [Threads.step, h1]
          exact hrun
      · have hfree : s.loopPc = .wantLock → s.updateMutex = none := by
          intro hw
          by_contra hm
          exact hblocked ⟨hw, hm⟩
        obtain ⟨s1, h1, h2, -, h3, h5, h6, h7, h8⟩ := Threads.loopStep_inv env step total calls s h
        obtain ⟨s1', h1', hlt⟩ := Threads.loopStep_progress env step total calls s h hstop hr hfree
        rw [h1] at h1'
        cases h1'
        obtain ⟨sched, s2, hlen, hnc, hrun, hinv, hret, hst, hc2, ht2, hs2⟩ := ih s1 h2
          (h3.trans hstop) (by rw [h8]; omega)
        refine ⟨ThreadId.loop :: sched, s2, by simp; omega, ?_, ?_, hinv, hret, hst,
          hc2.trans h5, ht2.trans h6, hs2.trans h7⟩
        · intro t ht
          rcases List.mem_cons.mp ht with ht | ht
          · rw [ht]
            exact fun hh => nomatch hh
          · exact hnc t ht
        · rw [Threads.run]
          simp only [Threads.step, h1]
          exact hrun

theorem LoopPc.toReturn_le (pc : LoopPc) : pc.toReturn ≤ 7 := by
  cases pc <;> simp [LoopPc.toReturn]

theorem FactoryPc.toRelease_le (pc : FactoryPc) : pc.toRelease ≤ 3 := by
  cases pc <;> simp [FactoryPc.toRelease]

theorem Threads.join_returns {T E : Type} [LinearOrderedAddCommGroup T] (env : SdfEnv E)
    (step : T) (total calls : Nat) (s : Threads T) (h : Threads.Inv env total calls s)
    (hpc : s.callerPc = .joining) :
    ∃ sched s1, Threads.run env step sched s = .ok s1 ∧ Threads.Inv env total calls s1 ∧
      s1.callerPc = .outside ∧ s1.thread = false ∧ s1.loopPc = .returned ∧
      s1.world.stop = true ∧ s1.stopCalls = s.stopCalls := by
  have hstop : s.world.stop = true := h.flag (by rw [hpc]; exact fun hh => nomatch hh)
  obtain ⟨sched, s1, -, -, hrun, hinv, hret, hst, hc1, -, hs1⟩ :=
    Threads.loop_returns env step total calls 10 s h hstop
      (by have := LoopPc.toReturn_le s.loopPc; have := FactoryPc.toRelease_le s.factoryPc; omega)
  have hj1 : s1.callerPc = .joining := hc1.trans hpc
  have e1 : s1.callerStep = { s1 with callerPc := .joined } := by
    simp [Threads.callerStep, hj1, hret]
  obtain ⟨hinv2, hl2, -, hst2⟩ := Threads.callerStep_inv env total calls s1 hinv
  rw [e1] at hinv2 hl2 hst2
  obtain ⟨hinv3, hl3, -, hst3⟩ := Threads.callerStep_inv env total calls _ hinv2
  have e2 : ({ s1 with callerPc := .joined } : Threads T).callerStep =
      { s1 with thread := false, callerPc := .outside } := rfl
  rw [e2] at hinv3 hl3 hst3
  refine ⟨sched ++ [.caller, .caller], _, ?_, hinv3, rfl, rfl, hret, hst, hs1⟩
  rw [Threads.run_append env step sched _ s s1 hrun]
  simp only [Threads.run, Threads.step, e1, e2]

theorem Threads.stop_returns {T E : Type} [LinearOrderedAddCommGroup T] (env : SdfEnv E)
    (step : T) (total calls : Nat) (s : Threads T) (h : Threads.Inv env total calls s)
    (hpc : s.callerPc ≠ .outside) :
    ∃ sched s1, Threads.run env step sched s = .ok s1 ∧ Threads.Inv env total calls s1 ∧
      s1.callerPc = .outside ∧ s1.thread = false ∧ s1.loopPc = .returned ∧
      s1.world.stop = true ∧ s1.stopCalls = s.stopCalls := by
  cases hc : s.callerPc with
  | outside => exact absurd hc hpc
  | flagged =>
    obtain ⟨hinv1, -, -, -⟩ := Threads.callerStep_inv env total calls s h
    by_cases ht : s.thread = true
    · have e1 : s.callerStep = { s with callerPc := .joining } := by
        simp [Threads.callerStep, hc, ht]
      rw [e1] at hinv1
      obtain ⟨sched, s1, hrun, hinv, g1, g2, g3, g4, g5⟩ :=
        Threads.join_returns env step total calls _ hinv1 rfl
      refine ⟨.caller :: sched, s1, ?_, hinv, g1, g2, g3, g4, g5⟩
      simp only [Threads.run, Threads.step, e1]
      exact hrun
    · have htf : s.thread = false := by simpa using ht
      have e1 : s.callerStep = { s with callerPc := .outside } := by
        simp [Threads.callerStep, hc, htf]
      rw [e1] at hinv1
      refine ⟨[.caller], _, ?_, hinv1, rfl, htf, (h.handle htf).2, (h.handle htf).1, rfl⟩
      simp only [Threads.run, Threads.step, e1]
  | joining => exact Threads.join_returns env step total calls s h hc
  | joined =>
    obtain ⟨hinv1, -, -, -⟩ := Threads.callerStep_inv env total calls s h
    have e1 : s.callerStep = { s with thread := false, callerPc := .outside } := by
      simp [Threads.callerStep, hc]
    rw [e1] at hinv1
    have hr := h.joined hc
    refine ⟨[.caller], _, ?_, hinv1, rfl, rfl, hr, h.observed hr, rfl⟩
    simp only [Threads.run, Threads.step, e1]

theorem World.Stop_of_stop {T : Type} (w : World T) (h : w.stop = true) : w.Stop = w := by
  cases w
  simp at h
  subst h
  rfl

theorem Threads.second_Stop {T E : Type} [LinearOrderedAddCommGroup T] (env : SdfEnv E)
    (step : T) (total calls : Nat) (s : Threads T) (h : Threads.Inv env total calls s)
    (ht : s.thread = false) (hpc : s.callerPc = .outside) (n : Nat)
    (hn : s.stopCalls = n + 1) :
    Threads.run env step [.caller, .caller] s = .ok { s with stopCalls := n } := by
  have hw : s.world.Stop = s.world := World.Stop_of_stop _ (h.handle ht).1
  have e1 : s.callerStep = { s with stopCalls := n, callerPc := .flagged } := by
    simp [Threads.callerStep, hpc, hn, hw]
  have e2 : ({ s with stopCalls := n, callerPc := .flagged } : Threads T).callerStep =
      { s with stopCalls := n, callerPc := .outside } := by
    simp [Threads.callerStep, ht]
  simp only [Threads.run, Threads.step, e1, e2]
  rw [← hpc]

theorem World.advance_frame {T : Type} [LinearOrderedAddCommGroup T] (step : T) (w : World T)
    (h : w.Loaded) :
    ∃ w1, w.advance step = .ok w1 ∧ w1.rootElement = w.rootElement ∧
      w1.physicsEngine = w.physicsEngine ∧ w1.modelUpdateFunc = w.modelUpdateFunc ∧
      w1.pause = w.pause ∧ w1.stepInc = w.stepInc := by
  by_cases hb : (w.IsPaused && !w.stepInc) = true
  · refine ⟨{ w with pauseTime := w.pauseTime + step }, ?_, rfl, rfl, rfl, rfl, rfl⟩
    simp only [World.advance, if_pos hb]
  · have hps : w.pause = false ∨ w.stepInc = true := by
      cases hp : w.pause <;> cases hs : w.stepInc <;> simp_all [World.IsPaused]
    obtain ⟨root, -, hadv⟩ := World.advance_stepping step w h hps
    exact ⟨_, hadv, rfl, rfl, rfl, rfl, rfl⟩

theorem World.RunLoopBody_frame {T : Type} [LinearOrderedAddCommGroup T] (step : T)
    (c : IterClock T) (w : World T) (h : w.Loaded) :
    ∃ w1, w.RunLoopBody step c = .ok w1 ∧ w1.rootElement = w.rootElement ∧ w1.Loaded := by
  obtain ⟨-, -, -, -, -, g2, g3, g4, -⟩ := World.publishStats_fields c w
  obtain ⟨w1, h1, k2, k3, k4, -, -⟩ :=
    World.advance_frame step (w.publishStats c) (World.publishStats_loaded c w h)
  obtain ⟨-, m2, m3, m4⟩ := World.clearStep_fields w1
  refine ⟨w1.clearStep, ?_, by rw [m2, k2, g2], ?_⟩
  · simp only [World.RunLoopBody, h1]
  · unfold World.Loaded at h ⊢
    rw [m2, m3, m4, k2, k3, k4, g2, g3, g4]
    exact h

theorem World.OnFactoryMsg_frame {T E : Type} (env : SdfEnv E) (msg : Factory) (w : World T)
    (root : Base) (name : String) (hroot : w.rootElement = some root) (h : w.Loaded)
    (hload : env.modelLoad (World.readFactorySDF env msg).2.2.root = .ok name) :
    ∃ w1 root1, w.OnFactoryMsg env msg = .ok w1 ∧ w1.rootElement = some root1 ∧
      root1.GetChildCount = root.GetChildCount + 1 ∧ w1.Loaded := by
  refine ⟨_, _, World.OnFactoryMsg_ok env msg w root name hroot hload, rfl, ?_, ?_⟩
  · simp [Base.GetChildCount]
  · unfold World.Loaded at h ⊢
    exact ⟨rfl, h.2.1, h.2.2⟩

theorem World.serial_count {T E : Type} [LinearOrderedAddCommGroup T] (env : SdfEnv E)
    (step : T) (ops : List (WorldOp T)) (w : World T) (root : Base)
    (hroot : w.rootElement = some root) (h : w.Loaded)
    (hloads : ∀ msg ∈ WorldOp.messages ops,
      ∃ name, env.modelLoad (World.readFactorySDF env msg).2.2.root = .ok name) :
    ∃ w1, World.serial env step ops w = .ok w1 ∧
      w1.entityCount = root.GetChildCount + (WorldOp.messages ops).length := by
  induction ops generalizing w root with
  | nil =>
    refine ⟨w, rfl, ?_⟩
    simp [World.entityCount, hroot, WorldOp.messages]
  | cons op ops ih =>
    cases op with
    | iteration c =>
      obtain ⟨w1, h1, h2, h3⟩ := World.RunLoopBody_frame step c w h
      obtain ⟨w2, h4, h5⟩ := ih w1 root (h2.trans hroot) h3 hloads
      refine ⟨w2, ?_, h5⟩
      simp only [World.serial, h1]
      exact h4
    | factoryMsg msg =>
      obtain ⟨name, hname⟩ := hloads msg (by simp [WorldOp.messages])
      obtain ⟨w1, root1, h1, h2, h3, hl1⟩ := World.OnFactoryMsg_frame env msg w root name hroot h
        hname
      obtain ⟨w2, h4, h5⟩ := ih w1 root1 h2 hl1
        (fun m hm => hloads m (by simp [WorldOp.messages, hm]))
      refine ⟨w2, ?_, ?_⟩
      · simp only [World.serial, h1]
        exact h4
      · rw [h5, h3]
        simp [WorldOp.messages]
        omega

theorem Threads.loop_pass_alone {T E : Type} [LinearOrderedAddCommGroup T] (env : SdfEnv E)
    (step : T) (s : Threads T) (c : IterClock T) (cs : List (IterClock T)) (w1 : World T)
    (hpc : s.loopPc = .test) (hstop : s.world.stop = false) (hcl : s.clocks = c :: cs)
    (hm : s.updateMutex = none) (hbody : s.world.RunLoopBody step c = .ok w1) :
    ∃ n, n ≤ 7 ∧ Threads.run env step (List.replicate n .loop) s =
      .ok { s with world := w1, clocks := cs } := by
  obtain ⟨world, mutex, thread, loopPc, clocks, factoryPc, inbox, callerPc, stopCalls⟩ := s
  simp only at hpc hstop hcl hm hbody
  subst hpc hcl hm
  by_cases hb : ((world.publishStats c).IsPaused && !(world.publishStats c).stepInc) = true
  · refine ⟨3, by decide, ?_⟩
    simp only [World.RunLoopBody, World.advance, if_pos hb] at hbody
    cases hbody
    simp [List.replicate, Threads.run, Threads.step, Threads.loopStep, hstop, hb]
  · refine ⟨7, by decide, ?_⟩
    simp only [World.RunLoopBody, World.advance, if_neg hb] at hbody
    cases hU : ({ (world.publishStats c).emit Effect.lockUpdateMutex with
        simTime := ((world.publishStats c).emit Effect.lockUpdateMutex).simTime + step } :
        World T).Update with
    | error f =>
      rw [hU] at hbody
      cases hbody
    | ok w3 =>
      rw [hU] at hbody
      cases hbody
      simp [List.replicate, Threads.run, Threads.step, Threads.loopStep, hstop, hb, hU]

theorem Threads.factory_message_alone {T E : Type} [LinearOrderedAddCommGroup T]
    (env : SdfEnv E) (step : T) (s : Threads T) (msg : Factory) (rest : List Factory)
    (w1 : World T) (hpc : s.factoryPc = .idle) (hin : s.inbox = msg :: rest)
    (hm : s.updateMutex = none) (hmsg : s.world.OnFactoryMsg env msg = .ok w1) :
    Threads.run env step (List.replicate 5 .factory) s =
      .ok { s with world := w1, inbox := rest } := by
  obtain ⟨world, mutex, thread, loopPc, clocks, factoryPc, inbox, callerPc, stopCalls⟩ := s
  simp only at hpc hin hm hmsg
  subst hpc hin hm
  simp only [World.OnFactoryMsg] at hmsg
  cases hL : World.LoadModel env (World.readFactorySDF env msg).2.2.root
      (((world.emit (Effect.sdfInitString (World.readFactorySDF env msg).1)).emit
        (Effect.sdfRead (World.readFactorySDF env msg).2.1)).emit Effect.lockUpdateMutex) with
  | error f =>
    rw [hL] at hmsg
    cases hmsg
  | ok r =>
    obtain ⟨model, w2⟩ := r
    rw [hL] at hmsg
    cases hmsg
    simp [List.replicate, Threads.run, Threads.step, Threads.factoryStep, hL]

/-- C23: start the loop thread and the factory thread on a loaded world with
`N` factory messages whose models load.  Whatever the schedule, no step fails,
and in the state reached the two threads are never both inside their locked
blocks: the loop thread is between its lock and unlock exactly when it holds
`updateMutex`, and so is the factory thread.  The entities plus the messages not
yet loaded always add up to the initial entities plus `N`, so once every message
is loaded the entity count is the one of every serial execution of the `N`
messages and any loop passes.  A schedule that runs a whole message, or a whole
loop pass, without another thread in between does what `OnFactoryMsg`, or the
loop body, does. -/
theorem C23_updates_and_factory_messages_serialize {T E : Type} [LinearOrderedAddCommGroup T]
    (env : SdfEnv E) (step : T) (w : World T) (root : Base)
    (hroot : w.rootElement = some root) (hloaded : w.Loaded)
    (clocks : List (IterClock T)) (inbox : List Factory) (calls : Nat)
    (hloads : ∀ msg ∈ inbox,
      ∃ name, env.modelLoad (World.readFactorySDF env msg).2.2.root = .ok name)
    (sched : List ThreadId) :
    (∃ s, Threads.run env step sched (Threads.started w clocks inbox calls) = .ok s ∧
      ¬ (s.loopPc.holdsMutex = true ∧ s.factoryPc.holdsMutex = true) ∧
      (s.loopPc.holdsMutex = true ↔ s.updateMutex = some .loop) ∧
      (s.factoryPc.holdsMutex = true ↔ s.updateMutex = some .factory) ∧
      s.world.entityCount + s.factoryPc.messages.length + s.inbox.length =
        root.GetChildCount + inbox.length ∧
      ∀ ops : List (WorldOp T), WorldOp.messages ops = inbox →
        ∃ w1, World.serial env step ops w = .ok w1 ∧
          (s.factoryPc.messages = [] → s.inbox = [] →
            s.world.entityCount = w1.entityCount)) ∧
    (∀ (s : Threads T) (msg : Factory) (rest : List Factory) (w1 : World T),
      s.factoryPc = .idle → s.inbox = msg :: rest → s.updateMutex = none →
      s.world.OnFactoryMsg env msg = .ok w1 →
      Threads.run env step (List.replicate 5 .factory) s =
        .ok { s with world := w1, inbox := rest }) ∧
    (∀ (s : Threads T) (c : IterClock T) (cs : List (IterClock T)) (w1 : World T),
      s.loopPc = .test → s.world.stop = false → s.clocks = c :: cs → s.updateMutex = none →
      s.world.RunLoopBody step c = .ok w1 →
      ∃ n, n ≤ 7 ∧ Threads.run env step (List.replicate n .loop) s =
        .ok { s with world := w1, clocks := cs }) := by
  refine ⟨?_, ?_, ?_⟩
  · obtain ⟨s, hrun, hinv, -⟩ := Threads.run_inv env step _ calls sched _
      (Threads.started_inv env w root hroot hloaded clocks inbox calls hloads)
    obtain ⟨r, hr, hcount⟩ := hinv.count
    refine ⟨s, hrun, ?_, hinv.loopMutex.symm, hinv.factoryMutex.symm, ?_, ?_⟩
    · rintro ⟨h1, h2⟩
      have e1 := hinv.loopMutex.mpr h1
      have e2 := hinv.factoryMutex.mpr h2
      rw [e1] at e2
      cases e2
    · simp only [World.entityCount, hr]
      exact hcount
    · intro ops hops
      obtain ⟨w1, h1, h2⟩ := World.serial_count env step ops w root hroot hloaded
        (by rw [hops]; exact hloads)
      refine ⟨w1, h1, ?_⟩
      intro hm hi
      rw [hm, hi] at hcount
      rw [h2, hops]
      simp only [World.entityCount, hr]
      simpa using hcount
  · intro s msg rest w1 h1 h2 h3 h4
    exact Threads.factory_message_alone env step s msg rest w1 h1 h2 h3 h4
  · intro s c cs w1 h1 h2 h3 h4 h5
    exact Threads.loop_pass_alone env step s c cs w1 h1 h2 h3 h4 h5

/-- Witness of C23: the sample world with two factory messages and three clock
readings, on a schedule that makes the loop thread wait for the mutex while a
model is being loaded; at its end both models are loaded, there are four
entities and the loop thread is in its second pass. -/
theorem C23_witness :
    ((Threads.run toyEnv (1000000 : ℤ)
        [.factory, .loop, .factory, .loop, .loop, .factory, .factory, .factory, .loop, .loop,
          .loop, .factory, .loop, .loop, .factory, .factory, .factory, .factory, .loop]
        (Threads.started sampleWorld [⟨0, 0, 0⟩, ⟨1, 1, 1⟩, ⟨2, 2, 2⟩]
          [⟨some "can", ""⟩, ⟨none, "table.sdf"⟩] 0)).toOption.map
      (fun s => (s.world.entityCount, s.loopPc, s.factoryPc, s.updateMutex, s.inbox,
        updateCalls s.world.trace))) = some (4, .body, .idle, none, [], 1) ∧
    ∃ s, Threads.run toyEnv (1000000 : ℤ)
        [.factory, .loop, .factory, .loop, .loop, .factory, .factory, .factory, .loop, .loop,
          .loop, .factory, .loop, .loop, .factory, .factory, .factory, .factory, .loop]
        (Threads.started sampleWorld [⟨0, 0, 0⟩, ⟨1, 1, 1⟩, ⟨2, 2, 2⟩]
          [⟨some "can", ""⟩, ⟨none, "table.sdf"⟩] 0) = .ok s ∧
      ¬ (s.loopPc.holdsMutex = true ∧ s.factoryPc.holdsMutex = true) ∧
      (s.loopPc.holdsMutex = true ↔ s.updateMutex = some .loop) ∧
      (s.factoryPc.holdsMutex = true ↔ s.updateMutex = some .factory) ∧
      s.world.entityCount + s.factoryPc.messages.length + s.inbox.length = 2 + 2 ∧
      ∀ ops : List (WorldOp ℤ), WorldOp.messages ops = [⟨some "can", ""⟩, ⟨none, "table.sdf"⟩] →
        ∃ w1, World.serial toyEnv 1000000 ops sampleWorld = .ok w1 ∧
          (s.factoryPc.messages = [] → s.inbox = [] →
            s.world.entityCount = w1.entityCount) :=
  ⟨rfl,
    (C23_updates_and_factory_messages_serialize toyEnv 1000000 sampleWorld _ rfl
      ⟨rfl, rfl, rfl⟩ [⟨0, 0, 0⟩, ⟨1, 1, 1⟩, ⟨2, 2, 2⟩]
      [⟨some "can", ""⟩, ⟨none, "table.sdf"⟩] 0 (fun _ _ => ⟨_, rfl⟩) _).1⟩


/-! ## The threads around the simulator (C24) -/

theorem Simulator.SetPaused_quit {T : Type} (p : Bool) (s : Simulator T) :
    (s.SetPaused p).physicsQuit = s.physicsQuit := by
  unfold Simulator.SetPaused
  simp only
  split <;> rfl

theorem Simulator.SetStepInc_quit {T : Type} (b : Bool) (s : Simulator T) :
    (s.SetStepInc b).physicsQuit = s.physicsQuit := by
  unfold Simulator.SetStepInc
  simp only [Simulator.emit, Simulator.SetPaused_quit]

theorem Simulator.PhysicsLoopBody_quit {T : Type} [LinearOrderedAddCommGroup T] (step wall : T)
    (s : Simulator T) : (s.PhysicsLoopBody step wall).1.physicsQuit = s.physicsQuit := by
  simp only [Simulator.PhysicsLoopBody]
  split_ifs <;>
    simp [Simulator.SetPaused_quit, Simulator.SetStepInc_quit, Simulator.emit]

theorem PhysicsThreads.physics_loopStep_inv {T : Type} [LinearOrderedAddCommGroup T] (step : T)
    (calls : Nat) (s : PhysicsThreads T) (h : PhysicsThreads.Inv calls s) :
    PhysicsThreads.Inv calls (s.loopStep step) ∧
      (s.loopStep step).sim.physicsQuit = s.sim.physicsQuit ∧
      (s.loopStep step).callerPc = s.callerPc ∧
      (s.loopStep step).physicsThread = s.physicsThread ∧
      (s.loopStep step).stopCalls = s.stopCalls := by
  have hrun : s.loopPc ≠ .returned → s.physicsThread = true ∧ s.callerPc ≠ .joined := by
    intro hpc
    constructor
    · by_contra hne
      exact hpc (h.handle (by simpa using hne)).2
    · intro hj
      exact hpc (h.joined hj)
  obtain ⟨hflag, hhandle, hjoined, hjoining, hpass, hle, hret⟩ := h
  unfold PhysicsThreads.loopStep
  cases hpc : s.loopPc with
  | test =>
    rw [hpc] at hrun
    obtain ⟨hthread, hnj⟩ := hrun (fun hh => nomatch hh)
    simp only
    by_cases hq : s.sim.physicsQuit = true
    · rw [if_pos hq]
      exact ⟨⟨hflag, fun _ => ⟨hq, rfl⟩, fun _ => rfl, hjoining, (fun hh => nomatch hh), hle, hret⟩,
        rfl, rfl, rfl, rfl⟩
    · rw [if_neg hq]
      cases hw : s.walls with
      | nil => exact ⟨⟨hflag, hhandle, hjoined, hjoining, hpass, hle, hret⟩, rfl, rfl, rfl, rfl⟩
      | cons wall rest =>
        refine ⟨⟨hflag, ?_, ?_, hjoining, ?_, hle, hret⟩, rfl, rfl, rfl, rfl⟩
        · intro ht
          rw [hthread] at ht
          cases ht
        · intro hj
          exact absurd hj hnj
        · intro _
          exact List.cons_ne_nil _ _
  | body =>
    rw [hpc] at hrun
    obtain ⟨hthread, hnj⟩ := hrun (fun hh => nomatch hh)
    simp only
    cases hw : s.walls with
    | nil => exact ⟨⟨hflag, hhandle, hjoined, hjoining, hpass, hle, hret⟩, rfl, rfl, rfl, rfl⟩
    | cons wall rest =>
      have hq := Simulator.PhysicsLoopBody_quit step wall s.sim
      have hqn : s.sim.physicsQuit = false ∨ s.sim.physicsQuit = true := by
        cases s.sim.physicsQuit <;> simp
      refine ⟨⟨?_, ?_, ?_, hjoining, ?_, hle, hret⟩, hq, rfl, rfl, rfl⟩
      · intro hne
        exact hq.trans (hflag hne)
      · intro ht
        rw [hthread] at ht
        cases ht
      · intro hj
        exact absurd hj hnj
      · intro hb
        simp only at hb
        split at hb <;> cases hb
  | returned => exact ⟨⟨hflag, hhandle, hjoined, hjoining, hpass, hle, hret⟩, rfl, rfl, rfl, rfl⟩

theorem PhysicsThreads.physics_callerStep_inv {T : Type} (calls : Nat) (s : PhysicsThreads T)
    (h : PhysicsThreads.Inv calls s) :
    PhysicsThreads.Inv calls s.callerStep ∧ s.callerStep.loopPc = s.loopPc ∧
      (s.sim.physicsQuit = true → s.callerStep.sim.physicsQuit = true) := by
  obtain ⟨hflag, hhandle, hjoined, hjoining, hpass, hle, hret⟩ := h
  unfold PhysicsThreads.callerStep
  cases hpc : s.callerPc with
  | outside =>
    cases hn : s.stopCalls with
    | zero => exact ⟨⟨hflag, hhandle, hjoined, hjoining, hpass, hle, hret⟩, rfl, fun hh => hh⟩
    | succ n =>
      rw [hpc, hn] at hle hret
      refine ⟨⟨fun _ => rfl, fun ht => ⟨rfl, (hhandle ht).2⟩, (fun hh => nomatch hh), ?_, hpass,
        ?_, ?_⟩, rfl, fun _ => rfl⟩
      · intro hh
        rcases hh with hh | hh <;> cases hh
      · simpa using hle
      · intro hlt
        apply hret
        simpa using hlt
  | flagged =>
    have hq : s.sim.physicsQuit = true := hflag (by rw [hpc]; exact fun hh => nomatch hh)
    rw [hpc] at hle hret
    simp only
    by_cases ht : s.physicsThread = true
    · rw [if_pos ht]
      refine ⟨⟨fun _ => hq, hhandle, (fun hh => nomatch hh), fun _ => ht, hpass, ?_, ?_⟩, rfl,
        fun hh => hh⟩
      · simpa using hle
      · intro hlt
        apply hret
        simpa using hlt
    · rw [if_neg ht]
      have htf : s.physicsThread = false := by simpa using ht
      refine ⟨⟨fun hh => absurd rfl hh, hhandle, (fun hh => nomatch hh), ?_, hpass, ?_,
        fun _ => htf⟩, rfl, fun hh => hh⟩
      · intro hh
        rcases hh with hh | hh <;> cases hh
      · have hle1 : s.stopCalls + 1 ≤ calls := hle
        show s.stopCalls + 0 ≤ calls
        omega
  | joining =>
    have hq : s.sim.physicsQuit = true := hflag (by rw [hpc]; exact fun hh => nomatch hh)
    have hthread : s.physicsThread = true := hjoining (Or.inl hpc)
    rw [hpc] at hle hret
    simp only
    by_cases hr : s.loopPc = .returned
    · rw [if_pos hr]
      refine ⟨⟨fun _ => hq, hhandle, fun _ => hr, fun _ => hthread, hpass, ?_, ?_⟩, rfl,
        fun hh => hh⟩
      · simpa using hle
      · intro hlt
        apply hret
        simpa using hlt
    · rw [if_neg hr]
      refine ⟨⟨hflag, hhandle, hjoined, hjoining, hpass, ?_, ?_⟩, rfl, fun hh => hh⟩
      · rw [hpc]
        exact hle
      · rw [hpc]
        exact hret
  | joined =>
    have hr : s.loopPc = .returned := hjoined hpc
    have hq : s.sim.physicsQuit = true := hflag (by rw [hpc]; exact fun hh => nomatch hh)
    rw [hpc] at hle
    refine ⟨⟨fun hh => absurd rfl hh, fun _ => ⟨hq, hr⟩, (fun hh => nomatch hh), ?_, hpass, ?_,
      fun _ => rfl⟩, rfl, fun hh => hh⟩
    · intro hh
      rcases hh with hh | hh <;> cases hh
    · have hle1 : s.stopCalls + 1 ≤ calls := hle
      show s.stopCalls + 0 ≤ calls
      omega

theorem PhysicsThreads.physics_run_inv {T : Type} [LinearOrderedAddCommGroup T] (step : T)
    (calls : Nat) (sched : List PhysicsThreadId) (s : PhysicsThreads T)
    (h : PhysicsThreads.Inv calls s) : PhysicsThreads.Inv calls (PhysicsThreads.run step sched s) := by
  induction sched generalizing s with
  | nil => exact h
  | cons t ts ih =>
    rw [PhysicsThreads.run]
    apply ih
    cases t with
    | loop => exact (PhysicsThreads.physics_loopStep_inv step calls s h).1
    | caller => exact (PhysicsThreads.physics_callerStep_inv calls s h).1

theorem PhysicsThreads.physics_started_inv {T : Type} (sim : Simulator T) (walls : List T)
    (calls : Nat) : PhysicsThreads.Inv calls (PhysicsThreads.started sim walls calls) :=
  { flag := fun hh => absurd rfl hh
    handle := fun hh => nomatch hh
    joined := fun hh => nomatch hh
    joining := fun hh => (by rcases hh with hh | hh <;> cases hh)
    pass := fun hh => nomatch hh
    open_le := Nat.le_refl _
    returned := fun hh => absurd hh (Nat.lt_irrefl _) }

theorem PhysicsThreads.physics_loop_returns {T : Type} [LinearOrderedAddCommGroup T] (step : T)
    (calls : Nat) (s : PhysicsThreads T) (h : PhysicsThreads.Inv calls s)
    (hq : s.sim.physicsQuit = true) :
    (PhysicsThreads.run step [.loop, .loop] s).loopPc = .returned ∧
      (PhysicsThreads.run step [.loop, .loop] s).callerPc = s.callerPc ∧
      (PhysicsThreads.run step [.loop, .loop] s).physicsThread = s.physicsThread ∧
      (PhysicsThreads.run step [.loop, .loop] s).stopCalls = s.stopCalls := by
  simp only [PhysicsThreads.run, PhysicsThreads.step]
  have hq1 : ∀ wall, (s.sim.PhysicsLoopBody step wall).1.physicsQuit = true := fun wall =>
    (Simulator.PhysicsLoopBody_quit step wall s.sim).trans hq
  cases hpc : s.loopPc with
  | test => simp [PhysicsThreads.loopStep, hpc, hq]
  | body =>
    cases hw : s.walls with
    | nil => exact absurd hw (h.pass hpc)
    | cons wall rest =>
      by_cases hb : (s.sim.PhysicsLoopBody step wall).2 = true
      · simp [PhysicsThreads.loopStep, hpc, hw, hb]
      · simp [PhysicsThreads.loopStep, hpc, hw, hb, hq1 wall]
  | returned => simp [PhysicsThreads.loopStep, hpc]

theorem PhysicsThreads.physics_run_append {T : Type} [LinearOrderedAddCommGroup T] (step : T)
    (a b : List PhysicsThreadId) (s : PhysicsThreads T) :
    PhysicsThreads.run step (a ++ b) s = PhysicsThreads.run step b (PhysicsThreads.run step a s) := by
  induction a generalizing s with
  | nil => rfl
  | cons t ts ih =>
    rw [List.cons_append, PhysicsThreads.run, PhysicsThreads.run]
    exact ih _

theorem PhysicsThreads.physics_join_returns {T : Type} [LinearOrderedAddCommGroup T] (step : T)
    (calls : Nat) (s : PhysicsThreads T) (h : PhysicsThreads.Inv calls s)
    (hpc : s.callerPc = .joining) :
    (PhysicsThreads.run step [.loop, .loop, .caller, .caller] s).callerPc = .outside ∧
      (PhysicsThreads.run step [.loop, .loop, .caller, .caller] s).physicsThread = false ∧
      (PhysicsThreads.run step [.loop, .loop, .caller, .caller] s).loopPc = .returned ∧
      (PhysicsThreads.run step [.loop, .loop, .caller, .caller] s).sim.physicsQuit = true ∧
      (PhysicsThreads.run step [.loop, .loop, .caller, .caller] s).stopCalls = s.stopCalls := by
  have hq : s.sim.physicsQuit = true := h.flag (by rw [hpc]; exact fun hh => nomatch hh)
  obtain ⟨g1, g2, -, g4⟩ := PhysicsThreads.physics_loop_returns step calls s h hq
  have hinv := PhysicsThreads.physics_run_inv step calls [.loop, .loop] s h
  rw [show ([.loop, .loop, .caller, .caller] : List PhysicsThreadId) =
    [.loop, .loop] ++ [.caller, .caller] from rfl, PhysicsThreads.physics_run_append]
  generalize PhysicsThreads.run step [.loop, .loop] s = s1 at g1 g2 g4 hinv
  have hq1 : s1.sim.physicsQuit = true :=
    hinv.flag (by rw [g2, hpc]; exact fun hh => nomatch hh)
  have e1 : s1.callerStep = { s1 with callerPc := .joined } := by
    simp [PhysicsThreads.callerStep, g2, hpc, g1]
  simp only [PhysicsThreads.run, PhysicsThreads.step, e1]
  exact ⟨rfl, rfl, g1, hq1, g4⟩

theorem PhysicsThreads.physics_stop_returns {T : Type} [LinearOrderedAddCommGroup T] (step : T)
    (calls : Nat) (s : PhysicsThreads T) (h : PhysicsThreads.Inv calls s)
    (hpc : s.callerPc ≠ .outside) :
    ∃ sched, (PhysicsThreads.run step sched s).callerPc = .outside ∧
      (PhysicsThreads.run step sched s).physicsThread = false ∧
      (PhysicsThreads.run step sched s).loopPc = .returned ∧
      (PhysicsThreads.run step sched s).sim.physicsQuit = true ∧
      (PhysicsThreads.run step sched s).stopCalls = s.stopCalls := by
  cases hc : s.callerPc with
  | outside => exact absurd hc hpc
  | flagged =>
    by_cases ht : s.physicsThread = true
    · have e1 : s.callerStep = { s with callerPc := .joining } := by
        simp [PhysicsThreads.callerStep, hc, ht]
      have hinv1 := (PhysicsThreads.physics_callerStep_inv calls s h).1
      rw [e1] at hinv1
      refine ⟨[.caller, .loop, .loop, .caller, .caller], ?_⟩
      rw [PhysicsThreads.run]
      simp only [PhysicsThreads.step, e1]
      exact PhysicsThreads.physics_join_returns step calls _ hinv1 rfl
    · have htf : s.physicsThread = false := by simpa using ht
      have e1 : s.callerStep = { s with callerPc := .outside } := by
        simp [PhysicsThreads.callerStep, hc, htf]
      refine ⟨[.caller], ?_⟩
      simp only [PhysicsThreads.run, PhysicsThreads.step, e1]
      exact ⟨trivial, htf, (h.handle htf).2, (h.handle htf).1, trivial⟩
  | joining => exact ⟨_, PhysicsThreads.physics_join_returns step calls s h hc⟩
  | joined =>
    have e1 : s.callerStep = { s with physicsThread := false, callerPc := .outside } := by
      simp [PhysicsThreads.callerStep, hc]
    refine ⟨[.caller], ?_⟩
    simp only [PhysicsThreads.run, PhysicsThreads.step, e1]
    exact ⟨trivial, trivial, h.joined hc, h.flag (by rw [hc]; exact fun hh => nomatch hh),
      trivial⟩

theorem PhysicsThreads.second_StopPhysics {T : Type} [LinearOrderedAddCommGroup T] (step : T)
    (calls : Nat) (s : PhysicsThreads T) (h : PhysicsThreads.Inv calls s)
    (ht : s.physicsThread = false) (hpc : s.callerPc = .outside) (n : Nat)
    (hn : s.stopCalls = n + 1) :
    PhysicsThreads.run step [.caller, .caller] s = { s with stopCalls := n } := by
  have hq := (h.handle ht).1
  obtain ⟨sim, thread, loopPc, walls, callerPc, stopCalls⟩ := s
  simp only at ht hpc hn hq
  subst ht hpc hn
  have hsim : ({ sim with physicsQuit := true } : Simulator T) = sim := by
    cases sim
    simp only at hq
    subst hq
    rfl
  simp [PhysicsThreads.run, PhysicsThreads.step, PhysicsThreads.callerStep, hsim]


/-- C24: start the loop thread of the world (with the factory thread beside it)
and let another thread call `Stop`.  Whatever the schedule, no step fails, and
in the state reached: inside `Stop` the flag `stop` is set; `join` has been
passed only if `RunLoop` has returned; once a call of `Stop` has returned the
flag is set, `RunLoop` has returned (no `Update` is in flight) and the thread
handle is null; a call of `Stop` that is under way can always be brought to
its return by steps of the threads; once the flag is set every step of the loop
thread that is not a wait for the mutex brings it nearer to its return; and
with a null handle a further `Stop` changes nothing but the number of calls
left, the flag being set already.  The same holds for
`Simulator::StopPhysics`, `physicsQuit`, `physicsThread` and `PhysicsLoop`. -/
theorem C24_Stop_waits_for_the_loop_thread {T E : Type} [LinearOrderedAddCommGroup T]
    (env : SdfEnv E) (step : T) (w : World T) (root : Base)
    (hroot : w.rootElement = some root) (hloaded : w.Loaded)
    (clocks : List (IterClock T)) (inbox : List Factory) (calls : Nat)
    (hloads : ∀ msg ∈ inbox,
      ∃ name, env.modelLoad (World.readFactorySDF env msg).2.2.root = .ok name)
    (sched : List ThreadId) (sim : Simulator T) (walls : List T)
    (physicsSched : List PhysicsThreadId) :
    (∃ s, Threads.run env step sched (Threads.started w clocks inbox calls) = .ok s ∧
      (s.callerPc ≠ .outside → s.world.stop = true) ∧
      (s.callerPc = .joined → s.loopPc = .returned) ∧
      (s.stopCalls + (if s.callerPc = .outside then 0 else 1) < calls →
        s.world.stop = true ∧ s.loopPc = .returned ∧ s.loopPc ≠ .updating ∧
          s.thread = false) ∧
      (s.callerPc ≠ .outside → ∃ sched1 s1, Threads.run env step sched1 s = .ok s1 ∧
        s1.callerPc = .outside ∧ s1.thread = false ∧ s1.loopPc = .returned ∧
        s1.world.stop = true ∧ s1.stopCalls = s.stopCalls) ∧
      (s.world.stop = true → s.loopPc ≠ .returned →
        (s.loopPc = .wantLock → s.updateMutex = none) →
        ∃ s1, s.loopStep step = .ok s1 ∧ s1.loopPc.toReturn < s.loopPc.toReturn) ∧
      (s.thread = false → s.callerPc = .outside → ∀ n, s.stopCalls = n + 1 →
        Threads.run env step [.caller, .caller] s = .ok { s with stopCalls := n })) ∧
    (∃ p, PhysicsThreads.run step physicsSched (PhysicsThreads.started sim walls calls) = p ∧
      (p.callerPc ≠ .outside → p.sim.physicsQuit = true) ∧
      (p.callerPc = .joined → p.loopPc = .returned) ∧
      (p.stopCalls + (if p.callerPc = .outside then 0 else 1) < calls →
        p.sim.physicsQuit = true ∧ p.loopPc = .returned ∧ p.physicsThread = false) ∧
      (p.callerPc ≠ .outside → ∃ sched1,
        (PhysicsThreads.run step sched1 p).callerPc = .outside ∧
        (PhysicsThreads.run step sched1 p).physicsThread = false ∧
        (PhysicsThreads.run step sched1 p).loopPc = .returned ∧
        (PhysicsThreads.run step sched1 p).sim.physicsQuit = true ∧
        (PhysicsThreads.run step sched1 p).stopCalls = p.stopCalls) ∧
      (p.physicsThread = false → p.callerPc = .outside → ∀ n, p.stopCalls = n + 1 →
        PhysicsThreads.run step [.caller, .caller] p = { p with stopCalls := n })) := by
  constructor
  · obtain ⟨s, hrun, hinv, -⟩ := Threads.run_inv env step _ calls sched _
      (Threads.started_inv env w root hroot hloaded clocks inbox calls hloads)
    refine ⟨s, hrun, hinv.flag, hinv.joined, ?_, ?_, ?_, ?_⟩
    · intro hlt
      have ht := hinv.returned hlt
      obtain ⟨h1, h2⟩ := hinv.handle ht
      refine ⟨h1, h2, ?_, ht⟩
      rw [h2]
      exact fun hh => nomatch hh
    · intro hpc
      obtain ⟨sched1, s1, g1, -, g2, g3, g4, g5, g6⟩ :=
        Threads.stop_returns env step _ calls s hinv hpc
      exact ⟨sched1, s1, g1, g2, g3, g4, g5, g6⟩
    · intro hstop hpc hfree
      exact Threads.loopStep_progress env step _ calls s hinv hstop hpc hfree
    · intro ht hpc n hn
      exact Threads.second_Stop env step _ calls s hinv ht hpc n hn
  · have hinv := PhysicsThreads.physics_run_inv step calls physicsSched _
      (PhysicsThreads.physics_started_inv sim walls calls)
    refine ⟨_, rfl, hinv.flag, hinv.joined, ?_, ?_, ?_⟩
    · intro hlt
      have ht := hinv.returned hlt
      exact ⟨(hinv.handle ht).1, (hinv.handle ht).2, ht⟩
    · intro hpc
      exact PhysicsThreads.physics_stop_returns step calls _ hinv hpc
    · intro ht hpc n hn
      exact PhysicsThreads.second_StopPhysics step calls _ hinv ht hpc n hn


/-- Witness of C24: on the sample world, `Stop` is called twice while the loop
thread is in its first pass; the first call waits in `join` until the pass is
over and the loop test has seen the flag, the second call only sets the flag.
At the end `RunLoop` has returned after one `Update`, the handle is null and
the flag is set.  Likewise for the sample simulator and `StopPhysics`. -/
theorem C24_witness :
    ((Threads.run toyEnv (1000000 : ℤ)
        stopSchedule
        (Threads.started sampleWorld [⟨0, 0, 0⟩, ⟨1, 1, 1⟩] [] 2)).toOption.map
      (fun s => (s.loopPc, s.callerPc, s.thread, s.world.stop, s.stopCalls,
        updateCalls s.world.trace))) = some (.returned, .outside, false, true, 0, 1) ∧
    ((fun (p : PhysicsThreads ℤ) => (p.loopPc, p.callerPc, p.physicsThread, p.sim.physicsQuit,
        p.stopCalls, simWorldUpdates p.sim.trace))
      (PhysicsThreads.run (1000000 : ℤ)
        stopPhysicsSchedule
        (PhysicsThreads.started sampleSimulator [5000000, 6000000] 2))) =
      (.returned, .outside, false, true, 0, 1) ∧
    (∃ s, Threads.run toyEnv (1000000 : ℤ)
        stopSchedule
        (Threads.started sampleWorld [⟨0, 0, 0⟩, ⟨1, 1, 1⟩] [] 2) = .ok s ∧
      (s.stopCalls + (if s.callerPc = .outside then 0 else 1) < 2 →
        s.world.stop = true ∧ s.loopPc = .returned ∧ s.loopPc ≠ .updating ∧
          s.thread = false)) ∧
    (∃ p, PhysicsThreads.run (1000000 : ℤ)
        stopPhysicsSchedule
        (PhysicsThreads.started sampleSimulator [5000000, 6000000] 2) = p ∧
      (p.stopCalls + (if p.callerPc = .outside then 0 else 1) < 2 →
        p.sim.physicsQuit = true ∧ p.loopPc = .returned ∧ p.physicsThread = false)) :=
  ⟨rfl, rfl,
    (C24_Stop_waits_for_the_loop_thread toyEnv 1000000 sampleWorld _ rfl ⟨rfl, rfl, rfl⟩
      [⟨0, 0, 0⟩, ⟨1, 1, 1⟩] [] 2 (fun _ hmsg => nomatch hmsg) stopSchedule sampleSimulator
      [5000000, 6000000] stopPhysicsSchedule).1.imp (fun _ hs => ⟨hs.1, hs.2.2.2.1⟩),
    (C24_Stop_waits_for_the_loop_thread toyEnv 1000000 sampleWorld _ rfl ⟨rfl, rfl, rfl⟩
      [⟨0, 0, 0⟩, ⟨1, 1, 1⟩] [] 2 (fun _ hmsg => nomatch hmsg) stopSchedule sampleSimulator
      [5000000, 6000000] stopPhysicsSchedule).2.imp (fun _ hp => ⟨hp.1, hp.2.2.2.1⟩)⟩

end Gazebo
